import Mathlib

/-! EventChains: a shallow embedding of `eventchains.c`.

The definitions below follow `src/eventchains.c` and `src/eventchains.h`
function by function, and, for the Dijkstra benchmark,
`src/dijkstra_benchmark.c`.

Modelling conventions.

* Pointers are natural numbers, `0` is `NULL`.  A pointer to a
  `RefCountedValue` with value `p > 0` designates cell `p - 1` of the heap.
* `size_t` is 64 bits wide (LP64): `sizeof (void *) = 8`,
  `sizeof (RefCountedValue) = 24`, `sizeof (EventContext) = 40`.  Arithmetic the
  source performs on `size_t` is written with an explicit reduction modulo
  `2 ^ 64`.
* A C string is the list of its bytes before the terminating NUL.  `strcmp`
  returning `0` is equality of these lists.  The owned copy a `char *` slot
  points to is stored in the slot itself, `none` being the `NULL` pointer.
* The allocator (`malloc`, `calloc`, `realloc`) is taken to succeed; the
  `EC_ERROR_OUT_OF_MEMORY` branches, and what happens after one of them was
  taken, are therefore not part of the model.  The one exception is
  `event_context_set_with_cleanup_alloc`, which takes the outcome of each
  allocation as an argument and has every out-of-memory exit of
  `event_context_set_with_cleanup`.  A block released with `free` is never
  handed out again, and its cell keeps the zeroes `secure_zero` wrote into it.
* The `context` argument of the context functions and the `chain` argument of
  the chain functions are non-null; a `NULL` key or event is `none`.
* Out-parameters become components of the returned tuple.
* In the benchmark an `int` is 32 bits wide; vertices, indices and sizes, which
  the program keeps non-negative, are natural numbers, and distances and weights
  are integers whose sums wrap (`int_add`).
-/

namespace EventChains

/-! ## Configuration constants (`eventchains.h`) -/

/-- Largest value of `size_t`. -/
def SIZE_MAX : Nat := 18446744073709551615

/-- `INITIAL_CAPACITY` of `eventchains.c`. -/
def INITIAL_CAPACITY : Nat := 8

def EVENTCHAINS_MAX_EVENTS : Nat := 1024

def EVENTCHAINS_MAX_MIDDLEWARE : Nat := 16

def EVENTCHAINS_MAX_CONTEXT_ENTRIES : Nat := 512

def EVENTCHAINS_MAX_CONTEXT_MEMORY : Nat := 10 * 1024 * 1024

def EVENTCHAINS_MAX_KEY_LENGTH : Nat := 256

def EVENTCHAINS_MAX_NAME_LENGTH : Nat := 256

def EVENTCHAINS_MAX_ERROR_LENGTH : Nat := 1024

/-- Value of `sizeof (char *)` and of `sizeof (RefCountedValue *)`. -/
def sizeof_ptr : Nat := 8

/-- Value of `sizeof (RefCountedValue)`: a pointer, a `size_t`, a function pointer. -/
def sizeof_RefCountedValue : Nat := 24

/-- Value of `sizeof (EventContext)`: two pointers and three `size_t`. -/
def sizeof_EventContext : Nat := 40

/-- Error codes of `EventChainErrorCode`, in declaration order. -/
inductive EventChainErrorCode where
  | EC_SUCCESS
  | EC_ERROR_NULL_POINTER
  | EC_ERROR_INVALID_PARAMETER
  | EC_ERROR_OUT_OF_MEMORY
  | EC_ERROR_CAPACITY_EXCEEDED
  | EC_ERROR_KEY_TOO_LONG
  | EC_ERROR_NAME_TOO_LONG
  | EC_ERROR_NOT_FOUND
  | EC_ERROR_OVERFLOW
  | EC_ERROR_EVENT_EXECUTION_FAILED
  | EC_ERROR_MIDDLEWARE_FAILED
  | EC_ERROR_REENTRANCY
  | EC_ERROR_MEMORY_LIMIT_EXCEEDED
  | EC_ERROR_INVALID_FUNCTION_POINTER
  | EC_ERROR_TIME_CONVERSION
  | EC_ERROR_SIGNAL_INTERRUPTED
  deriving DecidableEq, Repr

open EventChainErrorCode

/-- Modes of `FaultToleranceMode`. -/
inductive FaultToleranceMode where
  | FAULT_TOLERANCE_STRICT
  | FAULT_TOLERANCE_LENIENT
  | FAULT_TOLERANCE_BEST_EFFORT
  | FAULT_TOLERANCE_CUSTOM
  deriving DecidableEq, Repr

/-- Levels of `ErrorDetailLevel`. -/
inductive ErrorDetailLevel where
  | ERROR_DETAIL_FULL
  | ERROR_DETAIL_MINIMAL
  deriving DecidableEq, Repr

/-- A C string: its bytes up to, and without, the terminating NUL. -/
abbrev CStr := List Nat

/-! ## Utility functions -/

/-- Addition on `size_t` as C computes it (wrapping). -/
def size_add (a b : Nat) : Nat := (a + b) % 2 ^ 64

/-- Subtraction on `size_t` as C computes it (wrapping). -/
def size_sub (a b : Nat) : Nat := (a + (2 ^ 64 - b % 2 ^ 64)) % 2 ^ 64

/-- The library `strlen`. -/
def strlen (s : CStr) : Nat := s.length

/-- `safe_strnlen` on a non-null string: the length, capped at `maxlen`. -/
def safe_strnlen (str : CStr) (maxlen : Nat) : Nat :=
  if str.length < maxlen then str.length else maxlen

/-- `strndup`: a copy of at most `n` bytes of `s` (the library `strnlen` it calls
is `safe_strnlen` on a non-null string). -/
def strndup (s : CStr) (n : Nat) : CStr := s.take (safe_strnlen s n)

/-- `safe_multiply`: `none` when the product would overflow `size_t`. -/
def safe_multiply (a b : Nat) : Option Nat :=
  if a = 0 ∨ b = 0 then some 0
  else if a > SIZE_MAX / b then none
  else some (a * b)

/-- `safe_add`: `none` when the sum would overflow `size_t`. -/
def safe_add (a b : Nat) : Option Nat :=
  if a > SIZE_MAX - b then none else some (a + b)

/-- The accumulation loop of `constant_time_strcmp` over the first `min_len` bytes. -/
def constant_time_loop (a b : CStr) (result : Nat) : Nat :=
  (List.zip a b).foldl (fun r xy => r ||| ((xy.1 ^^^ xy.2) % 256)) result

/-- `constant_time_strcmp` on two non-null strings. -/
def constant_time_strcmp (a b : CStr) (max_len : Nat) : Bool :=
  let a_len := safe_strnlen a max_len
  let b_len := safe_strnlen b max_len
  let result := (a_len ^^^ b_len) % 256
  let min_len := if a_len < b_len then a_len else b_len
  constant_time_loop (a.take min_len) (b.take min_len) result == 0

/-- `is_valid_function_pointer`: non-null and not in the first page. -/
def is_valid_function_pointer (ptr : Nat) : Bool :=
  if ptr = 0 then false
  else if ptr < 4096 then false
  else true

/-! ## RefCountedValue -/

/-- The C structure `RefCountedValue`. -/
structure RefCountedValue where
  data : Nat
  ref_count : Nat
  cleanup : Nat
  deriving DecidableEq, Repr

/-- The part of the process state the library shares with its callers: the
wrappers allocated so far (cell `p - 1` is the wrapper at address `p`) and the
calls made to cleanup callbacks, oldest first, each as (callback, argument). -/
structure Heap where
  cells : List RefCountedValue
  cleanup_calls : List (Nat × Nat)
  deriving DecidableEq, Repr

/-- Read the wrapper at address `p`; memory that holds no wrapper reads as zeroes. -/
def Heap.load (h : Heap) (p : Nat) : RefCountedValue :=
  h.cells.getD (p - 1) ⟨0, 0, 0⟩

/-- Overwrite the wrapper at address `p`. -/
def Heap.store (h : Heap) (p : Nat) (v : RefCountedValue) : Heap :=
  { h with cells := h.cells.set (p - 1) v }

/-- `ref_counted_value_create`: a new wrapper with count 1, at a fresh address. -/
def ref_counted_value_create (h : Heap) (data cleanup : Nat) : Nat × Heap :=
  (h.cells.length + 1, { h with cells := h.cells ++ [⟨data, 1, cleanup⟩] })

/-- `ref_counted_value_retain`. -/
def ref_counted_value_retain (h : Heap) (value : Nat) : EventChainErrorCode × Heap :=
  if value = 0 then (EC_ERROR_NULL_POINTER, h)
  else if (h.load value).ref_count ≥ SIZE_MAX then (EC_ERROR_OVERFLOW, h)
  else
    (EC_SUCCESS, h.store value { h.load value with ref_count := (h.load value).ref_count + 1 })

/-- `ref_counted_value_release`.  When the count reaches zero the callback is
invoked (if both it and the data are non-null), the wrapper is zeroed and freed. -/
def ref_counted_value_release (h : Heap) (value : Nat) : EventChainErrorCode × Heap :=
  if value = 0 then (EC_ERROR_NULL_POINTER, h)
  else if (h.load value).ref_count = 0 then (EC_ERROR_INVALID_PARAMETER, h)
  else
    let v := { h.load value with ref_count := (h.load value).ref_count - 1 }
    if v.ref_count = 0 then
      let calls :=
        if v.cleanup ≠ 0 ∧ v.data ≠ 0 then h.cleanup_calls ++ [(v.cleanup, v.data)]
        else h.cleanup_calls
      (EC_SUCCESS, { cells := h.cells.set (value - 1) ⟨0, 0, 0⟩, cleanup_calls := calls })
    else (EC_SUCCESS, h.store value v)

/-- `ref_counted_value_get_data`. -/
def ref_counted_value_get_data (h : Heap) (value : Nat) : Nat :=
  if value = 0 then 0 else (h.load value).data

/-- `ref_counted_value_get_count`. -/
def ref_counted_value_get_count (h : Heap) (value : Nat) : Nat :=
  if value = 0 then 0 else (h.load value).ref_count

/-! ## EventContext -/

/-- The C structure `EventContext`.  `keys` and `values` are the two backing
arrays, both of `capacity` slots; a key slot holds the owned string or `none`
for `NULL`, a value slot holds the address of a wrapper or `0`. -/
structure EventContext where
  keys : List (Option CStr)
  values : List Nat
  count : Nat
  capacity : Nat
  total_memory_bytes : Nat
  deriving DecidableEq, Repr

/-- `realloc` of an array to `n` slots followed by the loop that sets the new
slots to `fill`. -/
def realloc_zeroed {α : Type} (xs : List α) (n : Nat) (fill : α) : List α :=
  xs.take n ++ List.replicate (n - xs.length) fill

/-- `event_context_create`: capacity `INITIAL_CAPACITY`, no entry, the structure
and the two arrays accounted for.  `none` is the `NULL` result. -/
def event_context_create : Option EventContext :=
  let capacity := INITIAL_CAPACITY
  match safe_multiply capacity sizeof_ptr with
  | none => none
  | some array_memory =>
    let total := size_add sizeof_EventContext array_memory
    match safe_multiply capacity sizeof_ptr with
    | none => none
    | some array_memory2 =>
      some
        { keys := List.replicate capacity none
          values := List.replicate capacity 0
          count := 0
          capacity := capacity
          total_memory_bytes := size_add total array_memory2 }

/-- The lookup loop shared by `set`, `get`, `get_ref`, `has` and `remove`:
`for (i = start; i < start + n; i++) if (keys[i] && strcmp(keys[i], key) == 0)`,
giving the first index that matches. -/
def find_key (keys : List (Option CStr)) (key : CStr) : Nat → Nat → Option Nat
  | _, 0 => none
  | i, n + 1 =>
    if keys.getD i none = some key then some i else find_key keys key (i + 1) n

/-- The block "expand if needed" of `event_context_set_with_cleanup`: when the
arrays are full, both are reallocated to twice the capacity (capped at
`EVENTCHAINS_MAX_CONTEXT_ENTRIES`), the new slots are nulled and the difference
in array bytes is added to the accounted memory.  `none` is the overflow exit. -/
def expand_if_needed (context : EventContext) : Option EventContext :=
  if context.count ≥ context.capacity then
    match safe_multiply context.capacity 2 with
    | none => none
    | some doubled =>
      let new_capacity :=
        if doubled > EVENTCHAINS_MAX_CONTEXT_ENTRIES then EVENTCHAINS_MAX_CONTEXT_ENTRIES
        else doubled
      let old_array_memory :=
        (safe_multiply context.capacity (sizeof_ptr + sizeof_ptr)).getD 0
      let new_array_memory :=
        (safe_multiply new_capacity (sizeof_ptr + sizeof_ptr)).getD 0
      some
        { context with
          keys := realloc_zeroed context.keys new_capacity none
          values := realloc_zeroed context.values new_capacity 0
          total_memory_bytes :=
            size_add context.total_memory_bytes (size_sub new_array_memory old_array_memory)
          capacity := new_capacity }
  else some context

/-- `event_context_set_with_cleanup`, every allocation succeeding; with the
outcome of each allocation as an argument it is
`event_context_set_with_cleanup_alloc` below. -/
def event_context_set_with_cleanup (h : Heap) (context : EventContext)
    (key : Option CStr) (value cleanup : Nat) :
    EventChainErrorCode × Heap × EventContext :=
  match key with
  | none => (EC_ERROR_NULL_POINTER, h, context)
  | some key =>
    let key_len := safe_strnlen key (EVENTCHAINS_MAX_KEY_LENGTH + 1)
    if key_len > EVENTCHAINS_MAX_KEY_LENGTH then (EC_ERROR_KEY_TOO_LONG, h, context)
    else if key_len = 0 then (EC_ERROR_INVALID_PARAMETER, h, context)
    else
      match find_key context.keys key 0 context.count with
      | some i =>
        -- key exists: release the old value and create a new one
        let old := context.values.getD i 0
        let h1 := if old ≠ 0 then (ref_counted_value_release h old).2 else h
        let mem1 :=
          if old ≠ 0 then size_sub context.total_memory_bytes sizeof_RefCountedValue
          else context.total_memory_bytes
        let created := ref_counted_value_create h1 value cleanup
        (EC_SUCCESS, created.2,
          { context with
            values := context.values.set i created.1
            total_memory_bytes := size_add mem1 sizeof_RefCountedValue })
      | none =>
        if context.count ≥ EVENTCHAINS_MAX_CONTEXT_ENTRIES then
          (EC_ERROR_CAPACITY_EXCEEDED, h, context)
        else
          let new_memory := size_add (size_add key_len 1) sizeof_RefCountedValue
          match safe_add context.total_memory_bytes new_memory with
          | none => (EC_ERROR_OVERFLOW, h, context)
          | some total_after =>
            if total_after > EVENTCHAINS_MAX_CONTEXT_MEMORY then
              (EC_ERROR_MEMORY_LIMIT_EXCEEDED, h, context)
            else
              -- expand if needed
              let grown := expand_if_needed context
              match grown with
              | none => (EC_ERROR_OVERFLOW, h, context)
              | some ctx =>
                -- add the new entry
                let created := ref_counted_value_create h value cleanup
                (EC_SUCCESS, created.2,
                  { ctx with
                    keys := ctx.keys.set ctx.count (some (strndup key EVENTCHAINS_MAX_KEY_LENGTH))
                    values := ctx.values.set ctx.count created.1
                    total_memory_bytes := size_add ctx.total_memory_bytes new_memory
                    count := ctx.count + 1 })

/-- `event_context_set`: `set_with_cleanup` with a `NULL` callback. -/
def event_context_set (h : Heap) (context : EventContext) (key : Option CStr)
    (value : Nat) : EventChainErrorCode × Heap × EventContext :=
  event_context_set_with_cleanup h context key value 0

/-! ### `event_context_set_with_cleanup` with an allocator that may fail

The definitions above take every allocation to succeed.  The ones below follow
the same source lines with the outcome of each allocation as an argument, and
so have every `EC_ERROR_OUT_OF_MEMORY` exit of the function, together with the
state the function leaves behind at that exit. -/

/-- The outcome of each allocation a call of `event_context_set_with_cleanup`
can make, `true` when the allocator returns a block and `false` when it returns
`NULL`: the two `realloc` calls of the array growth (`new_keys`, `new_values`),
the `strndup` of the key (`key_copy`) and the `calloc` of
`ref_counted_value_create` (`new_value`). -/
structure SetAllocations where
  new_keys : Bool
  new_values : Bool
  key_copy : Bool
  new_value : Bool
  deriving DecidableEq, Repr

/-- `ref_counted_value_create` with the outcome of its `calloc`: when the
allocation fails the result is `NULL` and the heap is as it was. -/
def ref_counted_value_create_alloc (ok : Bool) (h : Heap) (data cleanup : Nat) : Nat × Heap :=
  if ok then ref_counted_value_create h data cleanup else (0, h)

/-- The block "expand if needed" (`eventchains.c:372-412`) with the outcomes of
its two `realloc` calls.  The code is `EC_SUCCESS` when control reaches the
insertion.  A failure of the first `realloc` returns before anything is
written.  A failure of the second returns after `context->keys` was replaced by
the larger block: the slots that block adds, which C leaves indeterminate until
the loop that nulls them, are written `none`; capacity and accounted memory are
not yet updated. -/
def expand_if_needed_alloc (a : SetAllocations) (context : EventContext) :
    EventChainErrorCode × EventContext :=
  if context.count ≥ context.capacity then
    match safe_multiply context.capacity 2 with
    | none => (EC_ERROR_OVERFLOW, context)
    | some doubled =>
      let new_capacity :=
        if doubled > EVENTCHAINS_MAX_CONTEXT_ENTRIES then EVENTCHAINS_MAX_CONTEXT_ENTRIES
        else doubled
      if a.new_keys = false then (EC_ERROR_OUT_OF_MEMORY, context)
      else
        let new_keys := realloc_zeroed context.keys new_capacity none
        if a.new_values = false then
          (EC_ERROR_OUT_OF_MEMORY, { context with keys := new_keys })
        else
          let old_array_memory :=
            (safe_multiply context.capacity (sizeof_ptr + sizeof_ptr)).getD 0
          let new_array_memory :=
            (safe_multiply new_capacity (sizeof_ptr + sizeof_ptr)).getD 0
          (EC_SUCCESS,
            { context with
              keys := new_keys
              values := realloc_zeroed context.values new_capacity 0
              total_memory_bytes :=
                size_add context.total_memory_bytes
                  (size_sub new_array_memory old_array_memory)
              capacity := new_capacity })
  else (EC_SUCCESS, context)

/-- `event_context_set_with_cleanup` (`eventchains.c:315-433`) with the outcome of
each allocation.  The exits with `EC_ERROR_OUT_OF_MEMORY`:

* replacing the value of a key that is present (`:344-347`): the old wrapper has
  been released and its 24 bytes subtracted, the slot still holds its address;
* the growth of the arrays (`:384-396`), see `expand_if_needed_alloc`;
* the copy of the key (`:415-417`): the arrays have grown, the slot of the new
  key holds `NULL`;
* the wrapper of a new key (`:421-426`): the arrays have grown, the copy of the
  key has been freed and its slot set to `NULL`. -/
def event_context_set_with_cleanup_alloc (a : SetAllocations) (h : Heap)
    (context : EventContext) (key : Option CStr) (value cleanup : Nat) :
    EventChainErrorCode × Heap × EventContext :=
  match key with
  | none => (EC_ERROR_NULL_POINTER, h, context)
  | some key =>
    let key_len := safe_strnlen key (EVENTCHAINS_MAX_KEY_LENGTH + 1)
    if key_len > EVENTCHAINS_MAX_KEY_LENGTH then (EC_ERROR_KEY_TOO_LONG, h, context)
    else if key_len = 0 then (EC_ERROR_INVALID_PARAMETER, h, context)
    else
      match find_key context.keys key 0 context.count with
      | some i =>
        -- key exists: release the old value and create a new one
        let old := context.values.getD i 0
        let h1 := if old ≠ 0 then (ref_counted_value_release h old).2 else h
        let mem1 :=
          if old ≠ 0 then size_sub context.total_memory_bytes sizeof_RefCountedValue
          else context.total_memory_bytes
        let created := ref_counted_value_create_alloc a.new_value h1 value cleanup
        if created.1 = 0 then
          (EC_ERROR_OUT_OF_MEMORY, created.2, { context with total_memory_bytes := mem1 })
        else
          (EC_SUCCESS, created.2,
            { context with
              values := context.values.set i created.1
              total_memory_bytes := size_add mem1 sizeof_RefCountedValue })
      | none =>
        if context.count ≥ EVENTCHAINS_MAX_CONTEXT_ENTRIES then
          (EC_ERROR_CAPACITY_EXCEEDED, h, context)
        else
          let new_memory := size_add (size_add key_len 1) sizeof_RefCountedValue
          match safe_add context.total_memory_bytes new_memory with
          | none => (EC_ERROR_OVERFLOW, h, context)
          | some total_after =>
            if total_after > EVENTCHAINS_MAX_CONTEXT_MEMORY then
              (EC_ERROR_MEMORY_LIMIT_EXCEEDED, h, context)
            else
              -- expand if needed
              let grown := expand_if_needed_alloc a context
              if grown.1 ≠ EC_SUCCESS then (grown.1, h, grown.2)
              else
                let ctx := grown.2
                -- add the new entry
                if a.key_copy = false then
                  (EC_ERROR_OUT_OF_MEMORY, h,
                    { ctx with keys := ctx.keys.set ctx.count none })
                else
                  let created := ref_counted_value_create_alloc a.new_value h value cleanup
                  if created.1 = 0 then
                    (EC_ERROR_OUT_OF_MEMORY, created.2,
                      { ctx with
                        keys :=
                          (ctx.keys.set ctx.count
                            (some (strndup key EVENTCHAINS_MAX_KEY_LENGTH))).set ctx.count none })
                  else
                    (EC_SUCCESS, created.2,
                      { ctx with
                        keys :=
                          ctx.keys.set ctx.count (some (strndup key EVENTCHAINS_MAX_KEY_LENGTH))
                        values := ctx.values.set ctx.count created.1
                        total_memory_bytes := size_add ctx.total_memory_bytes new_memory
                        count := ctx.count + 1 })

/-- `event_context_get_ref`: the stored wrapper, retained; out-parameter second. -/
def event_context_get_ref (h : Heap) (context : EventContext) (key : Option CStr) :
    EventChainErrorCode × Nat × Heap :=
  match key with
  | none => (EC_ERROR_NULL_POINTER, 0, h)
  | some key =>
    match find_key context.keys key 0 context.count with
    | some i =>
      let value_out := context.values.getD i 0
      (EC_SUCCESS, value_out,
        if value_out ≠ 0 then (ref_counted_value_retain h value_out).2 else h)
    | none => (EC_ERROR_NOT_FOUND, 0, h)

/-- `event_context_get`: the stored data, borrowed; out-parameter second. -/
def event_context_get (h : Heap) (context : EventContext) (key : Option CStr) :
    EventChainErrorCode × Nat :=
  match key with
  | none => (EC_ERROR_NULL_POINTER, 0)
  | some key =>
    match find_key context.keys key 0 context.count with
    | some i => (EC_SUCCESS, ref_counted_value_get_data h (context.values.getD i 0))
    | none => (EC_ERROR_NOT_FOUND, 0)

/-- The loop of the constant-time branch of `event_context_has`: every one of
the `n` slots from `i` on is compared, `found` is never left early. -/
def has_constant_time_loop (keys : List (Option CStr)) (key : CStr) (found : Bool) :
    Nat → Nat → Bool
  | _, 0 => found
  | i, n + 1 =>
    let found1 :=
      match keys.getD i none with
      | some k => if constant_time_strcmp k key EVENTCHAINS_MAX_KEY_LENGTH then true else found
      | none => found
    has_constant_time_loop keys key found1 (i + 1) n

/-- `event_context_has`. -/
def event_context_has (context : EventContext) (key : Option CStr)
    (constant_time : Bool) : Bool :=
  match key with
  | none => false
  | some key =>
    if constant_time then has_constant_time_loop context.keys key false 0 context.count
    else
      match find_key context.keys key 0 context.count with
      | some _ => true
      | none => false

/-- The compaction loop of `event_context_remove`, on one array:
`for (j = start; j < start + n; j++) xs[j] = xs[j + 1]`. -/
def shift_down {α : Type} (d : α) (xs : List α) : Nat → Nat → List α
  | _, 0 => xs
  | j, n + 1 => shift_down d (xs.set j (xs.getD (j + 1) d)) (j + 1) n

/-- `event_context_remove`. -/
def event_context_remove (h : Heap) (context : EventContext) (key : Option CStr) :
    EventChainErrorCode × Heap × EventContext :=
  match key with
  | none => (EC_ERROR_NULL_POINTER, h, context)
  | some key =>
    match find_key context.keys key 0 context.count with
    | some i =>
      let removed_memory :=
        size_add (size_add (strlen ((context.keys.getD i none).getD [])) 1)
          sizeof_RefCountedValue
      let old := context.values.getD i 0
      let h1 := if old ≠ 0 then (ref_counted_value_release h old).2 else h
      let keys1 := shift_down none context.keys i (context.count - 1 - i)
      let values1 := shift_down 0 context.values i (context.count - 1 - i)
      (EC_SUCCESS, h1,
        { context with
          keys := keys1.set (context.count - 1) none
          values := values1.set (context.count - 1) 0
          total_memory_bytes := size_sub context.total_memory_bytes removed_memory
          count := context.count - 1 })
    | none => (EC_ERROR_NOT_FOUND, h, context)

/-- `event_context_count`. -/
def event_context_count (context : EventContext) : Nat := context.count

/-- `event_context_memory_usage`. -/
def event_context_memory_usage (context : EventContext) : Nat :=
  context.total_memory_bytes

/-- The release loop of `event_context_clear` over the `n` slots from `i` on:
each key is freed and its slot nulled, each value released and its slot nulled. -/
def clear_loop (h : Heap) (keys : List (Option CStr)) (values : List Nat) :
    Nat → Nat → Heap × List (Option CStr) × List Nat
  | _, 0 => (h, keys, values)
  | i, n + 1 =>
    let keys1 := if keys.getD i none ≠ none then keys.set i none else keys
    let old := values.getD i 0
    let h1 := if old ≠ 0 then (ref_counted_value_release h old).2 else h
    let values1 := if old ≠ 0 then values.set i 0 else values
    clear_loop h1 keys1 values1 (i + 1) n

/-- `event_context_clear`: every entry released, counters reset, arrays kept. -/
def event_context_clear (h : Heap) (context : EventContext) : Heap × EventContext :=
  let r := clear_loop h context.keys context.values 0 context.count
  (r.1,
    { context with
      keys := r.2.1
      values := r.2.2
      count := 0
      total_memory_bytes :=
        size_add sizeof_EventContext
          ((context.capacity * ((sizeof_ptr + sizeof_ptr) % 2 ^ 64)) % 2 ^ 64) })

/-! ## Sequences of context operations -/

/-- The mutating operations of the public interface of a context. -/
inductive ContextOp where
  | set (key : Option CStr) (value : Nat)
  | set_with_cleanup (key : Option CStr) (value cleanup : Nat)
  | remove (key : Option CStr)
  | clear
  deriving DecidableEq, Repr

/-- One call: the state after it (the returned code is dropped). -/
def ContextOp.apply (s : Heap × EventContext) : ContextOp → Heap × EventContext
  | ContextOp.set key value => (event_context_set s.1 s.2 key value).2
  | ContextOp.set_with_cleanup key value cleanup =>
    (event_context_set_with_cleanup s.1 s.2 key value cleanup).2
  | ContextOp.remove key => (event_context_remove s.1 s.2 key).2
  | ContextOp.clear => event_context_clear s.1 s.2

/-- A sequence of calls, first call first. -/
def run_ops (ops : List ContextOp) (s : Heap × EventContext) : Heap × EventContext :=
  ops.foldl ContextOp.apply s

/-- A sequence of `event_context_set_with_cleanup` calls, one per (key, value,
cleanup) triple, first call first: the codes returned, then the final state. -/
def run_sets : List (CStr × Nat × Nat) → Heap × EventContext →
    List EventChainErrorCode × Heap × EventContext
  | [], s => ([], s)
  | e :: es, s =>
    let r := event_context_set_with_cleanup s.1 s.2 (some e.1) e.2.1 e.2.2
    let rest := run_sets es r.2
    (r.1 :: rest.1, rest.2)

/-- Bytes charged for one entry: the key with its terminator and one wrapper. -/
def entry_charge (x : Option CStr) : Nat :=
  strlen (x.getD []) + 1 + sizeof_RefCountedValue

/-- The representation invariant of a context: both arrays have `capacity`
slots, the first `count` of them hold the entries (valid, pairwise different
keys and non-null wrappers), and the accounted memory is the structure, the
two arrays and the charge of every entry. -/
structure CtxInv (c : EventContext) : Prop where
  keys_len : c.keys.length = c.capacity
  values_len : c.values.length = c.capacity
  count_le : c.count ≤ c.capacity
  cap_pos : 0 < c.capacity
  cap_le : c.capacity ≤ EVENTCHAINS_MAX_CONTEXT_ENTRIES
  keys_valid : ∀ x ∈ c.keys.take c.count,
    ∃ k : CStr, x = some k ∧ 0 < k.length ∧ k.length ≤ EVENTCHAINS_MAX_KEY_LENGTH
  keys_nodup : (c.keys.take c.count).Nodup
  values_nonnull : ∀ p ∈ c.values.take c.count, p ≠ 0
  memory : c.total_memory_bytes =
    sizeof_EventContext + c.capacity * (sizeof_ptr + sizeof_ptr) +
      ((c.keys.take c.count).map entry_charge).sum

/-! ## Sequences of calls on one wrapper -/

/-- The two operations a holder of a wrapper can apply to it. -/
inductive RefOp where
  | retain
  | release
  deriving DecidableEq, Repr

/-- One call on the wrapper at address `p`: the heap after it. -/
def RefOp.apply (p : Nat) (h : Heap) : RefOp → Heap
  | RefOp.retain => (ref_counted_value_retain h p).2
  | RefOp.release => (ref_counted_value_release h p).2

/-- A sequence of calls on the wrapper at address `p`, first call first. -/
def run_ref_ops (p : Nat) (ops : List RefOp) (h : Heap) : Heap :=
  ops.foldl (RefOp.apply p) h

/-- The states of a wrapper created with data `d` and callback `c`, on a heap
whose callback log was `calls` at creation: still owned (log untouched, data
and callback in place, count at least 1), or freed (one call logged, the cell
zeroed by `secure_zero`). -/
def RefLive (calls : List (Nat × Nat)) (d c p : Nat) (h : Heap) : Prop :=
  p - 1 < h.cells.length ∧ p ≠ 0 ∧
  ((h.cleanup_calls = calls ∧ (h.load p).data = d ∧ (h.load p).cleanup = c ∧
      1 ≤ (h.load p).ref_count) ∨
   (h.cleanup_calls = calls ++ [(c, d)] ∧ (h.load p).data = 0 ∧ (h.load p).cleanup = 0))

/-! ## ChainableEvent, EventMiddleware, EventChain -/

/-- The C structure `ChainableEvent`; `execute` is the address of the function. -/
structure ChainableEvent where
  execute : Nat
  user_data : Nat
  name : CStr
  deriving DecidableEq, Repr

/-- The C structure `EventMiddleware`; `execute` is the address of the function. -/
structure EventMiddleware where
  execute : Nat
  user_data : Nat
  name : CStr
  deriving DecidableEq, Repr

/-- The C structure `EventChain`.  `events` and `middlewares` are the backing
arrays of pointers (`none` for `NULL`), the structures they point to being
immutable once created. -/
structure EventChain where
  events : List (Option ChainableEvent)
  event_count : Nat
  event_capacity : Nat
  middlewares : List (Option EventMiddleware)
  middleware_count : Nat
  middleware_capacity : Nat
  context : EventContext
  fault_tolerance : FaultToleranceMode
  error_detail_level : ErrorDetailLevel
  should_continue : Nat
  failure_handler_data : Nat
  is_executing : Nat
  signal_interrupted : Nat
  deriving DecidableEq, Repr

/-- `event_chain_create_with_detail`; `none` is the `NULL` result. -/
def event_chain_create_with_detail (mode : FaultToleranceMode)
    (detail_level : ErrorDetailLevel) : Option EventChain :=
  match event_context_create with
  | none => none
  | some context =>
    some
      { events := List.replicate INITIAL_CAPACITY none
        event_count := 0
        event_capacity := INITIAL_CAPACITY
        middlewares := List.replicate INITIAL_CAPACITY none
        middleware_count := 0
        middleware_capacity := INITIAL_CAPACITY
        context := context
        fault_tolerance := mode
        error_detail_level := detail_level
        should_continue := 0
        failure_handler_data := 0
        is_executing := 0
        signal_interrupted := 0 }

/-- `event_chain_create`. -/
def event_chain_create (mode : FaultToleranceMode) : Option EventChain :=
  event_chain_create_with_detail mode ErrorDetailLevel.ERROR_DETAIL_FULL

/-- `event_chain_add_event`. -/
def event_chain_add_event (chain : EventChain) (event : Option ChainableEvent) :
    EventChainErrorCode × EventChain :=
  match event with
  | none => (EC_ERROR_NULL_POINTER, chain)
  | some ev =>
    if ev.execute = 0 then (EC_ERROR_INVALID_PARAMETER, chain)
    else if ¬ is_valid_function_pointer ev.execute then (EC_ERROR_INVALID_PARAMETER, chain)
    else if chain.is_executing ≠ 0 then (EC_ERROR_REENTRANCY, chain)
    else if chain.event_count ≥ EVENTCHAINS_MAX_EVENTS then (EC_ERROR_CAPACITY_EXCEEDED, chain)
    else
      -- expand if needed
      let grown : Option EventChain :=
        if chain.event_count ≥ chain.event_capacity then
          match safe_multiply chain.event_capacity 2 with
          | none => none
          | some doubled =>
            let new_capacity :=
              if doubled > EVENTCHAINS_MAX_EVENTS then EVENTCHAINS_MAX_EVENTS else doubled
            some
              { chain with
                events := realloc_zeroed chain.events new_capacity none
                event_capacity := new_capacity }
        else some chain
      match grown with
      | none => (EC_ERROR_OVERFLOW, chain)
      | some ch =>
        (EC_SUCCESS,
          { ch with
            events := ch.events.set ch.event_count (some ev)
            event_count := ch.event_count + 1 })

/-- A sequence of `event_chain_add_event` calls, first call first: the codes
returned, then the final chain. -/
def add_events : List ChainableEvent → EventChain → List EventChainErrorCode × EventChain
  | [], chain => ([], chain)
  | ev :: evs, chain =>
    let r := event_chain_add_event chain (some ev)
    let rest := add_events evs r.2
    (r.1 :: rest.1, rest.2)

/-- The shape of the event list of a chain: `event_capacity` slots, of which
the first `event_count` are in use, within the configured maximum. -/
structure ChainInv (c : EventChain) : Prop where
  events_len : c.events.length = c.event_capacity
  count_le : c.event_count ≤ c.event_capacity
  cap_pos : 0 < c.event_capacity
  cap_le : c.event_capacity ≤ EVENTCHAINS_MAX_EVENTS

open FaultToleranceMode ErrorDetailLevel

/-! ## Registration of middleware and of the failure handler -/

/-- A C string literal: the bytes of its (ASCII) characters. -/
def c_str (s : String) : CStr := s.toList.map Char.toNat

/-- `safe_strncpy` into a buffer of `dest_size > 0` bytes: what the buffer holds
afterwards, as a string.  A `NULL` source leaves the empty string. -/
def safe_strncpy (src : Option CStr) (dest_size : Nat) : CStr :=
  match src with
  | none => []
  | some s => s.take (safe_strnlen s (dest_size - 1))

/-- `sanitize_error_message`: what the destination buffer holds afterwards. -/
def sanitize_error_message (src : Option CStr) (dest_size : Nat)
    (level : ErrorDetailLevel) : CStr :=
  match level with
  | ERROR_DETAIL_MINIMAL => safe_strncpy (some (c_str "Operation failed")) dest_size
  | ERROR_DETAIL_FULL =>
    match src with
    | some s => safe_strncpy (some s) dest_size
    | none => safe_strncpy (some (c_str "Unknown error")) dest_size

/-- `chainable_event_create`; `none` is the `NULL` result. -/
def chainable_event_create (execute user_data : Nat) (name : Option CStr) :
    Option ChainableEvent :=
  if execute = 0 then none
  else if ¬ is_valid_function_pointer execute then none
  else
    some
      { execute := execute
        user_data := user_data
        name :=
          match name with
          | some n => safe_strncpy (some n) EVENTCHAINS_MAX_NAME_LENGTH
          | none => safe_strncpy (some (c_str "UnnamedEvent")) EVENTCHAINS_MAX_NAME_LENGTH }

/-- `event_middleware_create`; `none` is the `NULL` result. -/
def event_middleware_create (execute user_data : Nat) (name : Option CStr) :
    Option EventMiddleware :=
  if execute = 0 then none
  else if ¬ is_valid_function_pointer execute then none
  else
    some
      { execute := execute
        user_data := user_data
        name :=
          match name with
          | some n => safe_strncpy (some n) EVENTCHAINS_MAX_NAME_LENGTH
          | none =>
            safe_strncpy (some (c_str "UnnamedMiddleware")) EVENTCHAINS_MAX_NAME_LENGTH }

/-- `event_chain_use_middleware`. -/
def event_chain_use_middleware (chain : EventChain) (middleware : Option EventMiddleware) :
    EventChainErrorCode × EventChain :=
  match middleware with
  | none => (EC_ERROR_NULL_POINTER, chain)
  | some mw =>
    if mw.execute = 0 then (EC_ERROR_INVALID_PARAMETER, chain)
    else if ¬ is_valid_function_pointer mw.execute then (EC_ERROR_INVALID_PARAMETER, chain)
    else if chain.is_executing ≠ 0 then (EC_ERROR_REENTRANCY, chain)
    else if chain.middleware_count ≥ EVENTCHAINS_MAX_MIDDLEWARE then
      (EC_ERROR_CAPACITY_EXCEEDED, chain)
    else
      -- expand if needed
      let grown : Option EventChain :=
        if chain.middleware_count ≥ chain.middleware_capacity then
          match safe_multiply chain.middleware_capacity 2 with
          | none => none
          | some doubled =>
            let new_capacity :=
              if doubled > EVENTCHAINS_MAX_MIDDLEWARE then EVENTCHAINS_MAX_MIDDLEWARE
              else doubled
            some
              { chain with
                middlewares := realloc_zeroed chain.middlewares new_capacity none
                middleware_capacity := new_capacity }
        else some chain
      match grown with
      | none => (EC_ERROR_OVERFLOW, chain)
      | some ch =>
        (EC_SUCCESS,
          { ch with
            middlewares := ch.middlewares.set ch.middleware_count (some mw)
            middleware_count := ch.middleware_count + 1 })

/-- A sequence of `event_chain_use_middleware` calls, first call first: the
codes returned, then the final chain. -/
def use_middlewares : List EventMiddleware → EventChain →
    List EventChainErrorCode × EventChain
  | [], chain => ([], chain)
  | mw :: mws, chain =>
    let r := event_chain_use_middleware chain (some mw)
    let rest := use_middlewares mws r.2
    (r.1 :: rest.1, rest.2)

/-- The shape of the middleware list of a chain: `middleware_capacity` slots,
of which the first `middleware_count` are in use, within the configured
maximum. -/
structure MwInv (c : EventChain) : Prop where
  middlewares_len : c.middlewares.length = c.middleware_capacity
  count_le : c.middleware_count ≤ c.middleware_capacity
  cap_pos : 0 < c.middleware_capacity
  cap_le : c.middleware_capacity ≤ EVENTCHAINS_MAX_MIDDLEWARE

/-- `event_chain_set_failure_handler`; `handler` is the address of the
predicate, `0` for `NULL`. -/
def event_chain_set_failure_handler (chain : EventChain) (handler user_data : Nat) :
    EventChainErrorCode × EventChain :=
  if handler ≠ 0 ∧ ¬ is_valid_function_pointer handler then
    (EC_ERROR_INVALID_FUNCTION_POINTER, chain)
  else
    (EC_SUCCESS, { chain with should_continue := handler, failure_handler_data := user_data })

/-- `event_chain_get_context`. -/
def event_chain_get_context (chain : EventChain) : EventContext := chain.context

/-- `event_chain_was_interrupted`. -/
def event_chain_was_interrupted (chain : EventChain) : Bool :=
  chain.signal_interrupted ≠ 0

/-! ## EventResult, EventFailure, ChainResult -/

/-- The C structure `EventResult`; `error_message` is the string its buffer holds. -/
structure EventResult where
  success : Bool
  error_message : CStr
  error_code : EventChainErrorCode
  deriving DecidableEq, Repr

/-- The C structure `EventFailure`. -/
structure EventFailure where
  event_name : CStr
  error_message : CStr
  error_code : EventChainErrorCode
  timestamp : Int
  deriving DecidableEq, Repr

/-- The C structure `ChainResult`; `failures` is the allocated array, of which
the first `failure_count` entries are in use. -/
structure ChainResult where
  success : Bool
  failures : List EventFailure
  failure_count : Nat
  deriving DecidableEq, Repr

/-- An `EventFailure` of zero bytes, as `calloc` and `memset` leave it. -/
def zero_failure : EventFailure := ⟨[], [], EC_SUCCESS, 0⟩

/-- `event_result_success`. -/
def event_result_success : EventResult := ⟨true, [], EC_SUCCESS⟩

/-- `event_result_failure`. -/
def event_result_failure (error_message : Option CStr) (error_code : EventChainErrorCode)
    (detail_level : ErrorDetailLevel) : EventResult :=
  ⟨false, sanitize_error_message error_message EVENTCHAINS_MAX_ERROR_LENGTH detail_level,
    error_code⟩

/-- `safe_time_to_int64` for a 64-bit `time_t`: the code, then `*result`. -/
def safe_time_to_int64 (time_val : Int) : EventChainErrorCode × Int :=
  if time_val = -1 then (EC_ERROR_TIME_CONVERSION, 0)
  else (EC_SUCCESS, time_val)

/-- The timestamp every failure record gets: `safe_time_to_int64 (time (NULL))`
when that succeeds, `0` otherwise; `now` is what `time (NULL)` returns. -/
def failure_timestamp (now : Int) : Int :=
  if (safe_time_to_int64 now).1 = EC_SUCCESS then (safe_time_to_int64 now).2 else 0

/-! ## Execution -/

/-- Everything a function called by the chain can read and write: the heap of
wrappers, the chain with its context, the clock `time (NULL)` reads, and the
memory of the embedding program (`user`, reached through `user_data`). -/
structure World (σ : Type) where
  heap : Heap
  chain : EventChain
  now : Int
  user : σ
  deriving DecidableEq, Repr

/-- The code behind the function pointers: `event_fn a d` is the event function
at address `a` called with the context of the chain and `user_data = d`;
`handler_fn a ev msg d` is the failure predicate at address `a` called with the
event, the error message and the handler data `d`. -/
structure Program (σ : Type) where
  event_fn : Nat → Nat → World σ → EventResult × World σ
  handler_fn : Nat → ChainableEvent → CStr → Nat → World σ → Bool × World σ

/-- The phases of an `ExecutionFrame`. -/
inductive Phase where
  | PHASE_PRE
  | PHASE_POST
  deriving DecidableEq, Repr

/-- The C structure `ExecutionFrame`. -/
structure ExecutionFrame where
  middleware : EventMiddleware
  phase : Phase
  deriving DecidableEq, Repr

/-- The loop of `execute_event_with_middleware_iterative` that pushes the
middleware in reverse order, `for (i = n; i > 0; i--)`; `none` when a slot is
`NULL` or has no function. -/
def build_stack (middlewares : List (Option EventMiddleware)) :
    Nat → Option (List ExecutionFrame)
  | 0 => some []
  | i + 1 =>
    match middlewares.getD i none with
    | none => none
    | some mw =>
      if mw.execute = 0 then none
      else
        match build_stack middlewares i with
        | none => none
        | some rest => some (⟨mw, Phase.PHASE_PRE⟩ :: rest)

/-- The loop of `execute_event_with_middleware_iterative` over the frames:
`some r` when it returns `r` early (interruption), `none` when it runs to its
end.  No frame ever calls its middleware. -/
def pipeline_loop (signal_interrupted : Nat) (level : ErrorDetailLevel) :
    List ExecutionFrame → Option EventResult
  | [] => none
  | _ :: rest =>
    if signal_interrupted ≠ 0 then
      some (event_result_failure (some (c_str "Chain execution interrupted by signal"))
        EC_ERROR_SIGNAL_INTERRUPTED level)
    else pipeline_loop signal_interrupted level rest

/-- `execute_event_with_middleware_iterative`: the result, the world afterwards,
and whether the function of the event was called. -/
def execute_event_with_middleware_iterative {σ : Type} (prog : Program σ) (w : World σ)
    (event : Option ChainableEvent) : EventResult × World σ × Bool :=
  match event with
  | none =>
    (event_result_failure (some (c_str "NULL chain or event")) EC_ERROR_NULL_POINTER
      w.chain.error_detail_level, w, false)
  | some ev =>
    if w.chain.middleware_count = 0 then
      ((prog.event_fn ev.execute ev.user_data w).1, (prog.event_fn ev.execute ev.user_data w).2,
        true)
    else
      match build_stack w.chain.middlewares w.chain.middleware_count with
      | none =>
        (event_result_failure (some (c_str "Invalid middleware in chain"))
          EC_ERROR_INVALID_PARAMETER w.chain.error_detail_level, w, false)
      | some stack =>
        match pipeline_loop w.chain.signal_interrupted w.chain.error_detail_level stack with
        | some r => (r, w, false)
        | none =>
          ((prog.event_fn ev.execute ev.user_data w).1,
            (prog.event_fn ev.execute ev.user_data w).2, true)

/-- The statement `result.failures[result.failure_count++] = failure`. -/
def record_failure (result : ChainResult) (failure : EventFailure) : ChainResult :=
  { result with
    failures := result.failures.set result.failure_count failure
    failure_count := result.failure_count + 1 }

/-- The `EventFailure` the chain fills in for an event of its own making
("Chain", "InvalidEvent"): the name, the sanitized message, the code, the time. -/
def chain_failure (name message : CStr) (code : EventChainErrorCode)
    (level : ErrorDetailLevel) (now : Int) : EventFailure :=
  ⟨safe_strncpy (some name) EVENTCHAINS_MAX_NAME_LENGTH,
    sanitize_error_message (some message) EVENTCHAINS_MAX_ERROR_LENGTH level,
    code, failure_timestamp now⟩

/-- The `EventFailure` the chain fills in for a failed event: copies of the name
of the event and of the message of its result, the code of the result, the
time. -/
def event_failure (event : ChainableEvent) (event_result : EventResult) (now : Int) :
    EventFailure :=
  ⟨safe_strncpy (some event.name) EVENTCHAINS_MAX_NAME_LENGTH,
    safe_strncpy (some event_result.error_message) EVENTCHAINS_MAX_ERROR_LENGTH,
    event_result.error_code, failure_timestamp now⟩

/-- The guarded statement `if (result.failure_count < failure_capacity)
result.failures[result.failure_count++] = failure`. -/
def record_if_room (result : ChainResult) (failure_capacity : Nat)
    (failure : EventFailure) : ChainResult :=
  if result.failure_count < failure_capacity then record_failure result failure else result

/-- The block "expand failure array if needed" of `event_chain_execute`: the
result and the capacity afterwards. -/
def expand_failures (result : ChainResult) (failure_capacity : Nat) : ChainResult × Nat :=
  if result.failure_count ≥ failure_capacity then
    match safe_multiply failure_capacity 2 with
    | none => (result, failure_capacity)
    | some new_capacity =>
      ({ result with failures := realloc_zeroed result.failures new_capacity zero_failure },
        new_capacity)
  else (result, failure_capacity)

/-- The `switch` of `event_chain_execute` that determines `should_continue`
after a failure. -/
def decide_continue {σ : Type} (prog : Program σ) (w : World σ) (event : ChainableEvent)
    (event_result : EventResult) : Bool × World σ :=
  match w.chain.fault_tolerance with
  | FAULT_TOLERANCE_STRICT => (false, w)
  | FAULT_TOLERANCE_LENIENT => (true, w)
  | FAULT_TOLERANCE_BEST_EFFORT => (true, w)
  | FAULT_TOLERANCE_CUSTOM =>
    if w.chain.should_continue ≠ 0 then
      prog.handler_fn w.chain.should_continue event event_result.error_message
        w.chain.failure_handler_data w
    else (false, w)

/-- The statement `chain->is_executing = 0`. -/
def clear_executing {σ : Type} (w : World σ) : World σ :=
  { w with chain := { w.chain with is_executing := 0 } }

/-- The code of `event_chain_execute` after its loop. -/
def execute_finish {σ : Type} (result : ChainResult) (w : World σ) : ChainResult × World σ :=
  (if result.failure_count > 0 then
      { result with
        success := decide (w.chain.fault_tolerance ≠ FAULT_TOLERANCE_STRICT) }
    else result,
    clear_executing w)

/-- The exit of `event_chain_execute` on an event that fails validation. -/
def execute_invalid {σ : Type} (result : ChainResult) (failure_capacity : Nat) (w : World σ) :
    ChainResult × World σ :=
  ({ record_if_room result failure_capacity
        (chain_failure (c_str "InvalidEvent") (c_str "Event validation failed")
          EC_ERROR_INVALID_PARAMETER w.chain.error_detail_level w.now) with
      success := false },
    clear_executing w)

/-- The loop `for (i = ...; i < chain->event_count; i++)` of
`event_chain_execute`, followed by the code after it.  `fuel` bounds the number
of times the loop condition is evaluated, `none` meaning that the bound was
reached.  `calls` is the log of the calls made through `event->execute`, in
call order: the index of the event and the world it was called on. -/
def execute_loop {σ : Type} (prog : Program σ) :
    Nat → Nat → ChainResult → Nat → List (Nat × World σ) → World σ →
      Option (ChainResult × World σ × List (Nat × World σ))
  | 0, _, _, _, _, _ => none
  | fuel + 1, i, result, failure_capacity, calls, w =>
    if i < w.chain.event_count then
      if w.chain.signal_interrupted ≠ 0 then
        -- interrupted: record if there is room, leave the loop
        some
          ((execute_finish
              (record_if_room { result with success := false } failure_capacity
                (chain_failure (c_str "Chain") (c_str "Execution interrupted by signal")
                  EC_ERROR_SIGNAL_INTERRUPTED w.chain.error_detail_level w.now)) w).1,
            clear_executing w, calls)
      else
        match w.chain.events.getD i none with
        | none =>
          some ((execute_invalid result failure_capacity w).1, clear_executing w, calls)
        | some event =>
          if event.execute = 0 ∨ ¬ is_valid_function_pointer event.execute then
            some ((execute_invalid result failure_capacity w).1, clear_executing w, calls)
          else
            let r := execute_event_with_middleware_iterative prog w (some event)
            let calls1 := if r.2.2 then calls ++ [(i, w)] else calls
            if ¬ r.1.success then
              let grown := expand_failures result failure_capacity
              let result1 :=
                record_if_room grown.1 grown.2 (event_failure event r.1 r.2.1.now)
              let d := decide_continue prog r.2.1 event r.1
              if ¬ d.1 then
                some ({ result1 with success := false }, clear_executing d.2, calls1)
              else execute_loop prog fuel (i + 1) result1 grown.2 calls1 d.2
            else execute_loop prog fuel (i + 1) result failure_capacity calls1 r.2.1
    else some ((execute_finish result w).1, clear_executing w, calls)

/-- `event_chain_execute` (on a non-null chain): the result, the world
afterwards and the log of the calls made through `event->execute`; `none` when
`fuel` evaluations of the loop condition were not enough. -/
def event_chain_execute {σ : Type} (prog : Program σ) (fuel : Nat) (w : World σ) :
    Option (ChainResult × World σ × List (Nat × World σ)) :=
  if w.chain.is_executing ≠ 0 then
    some
      ({ success := false
         failures :=
           [chain_failure (c_str "Chain") (c_str "Reentrancy detected: chain already executing")
             EC_ERROR_REENTRANCY w.chain.error_detail_level w.now]
         failure_count := 1 },
        w, [])
  else
    execute_loop prog fuel 0
      { success := true, failures := List.replicate 8 zero_failure, failure_count := 0 } 8 []
      { w with chain := { w.chain with is_executing := 1, signal_interrupted := 0 } }

/-! ## Programs that reach the world through the context only -/

/-- What an event function reaches through its two arguments and the library:
the context of the chain, the heap, the clock and the memory of the embedding
program. -/
structure Env (σ : Type) where
  context : EventContext
  heap : Heap
  now : Int
  user : σ
  deriving DecidableEq, Repr

/-- The part of a world an event function reaches. -/
def World.env {σ : Type} (w : World σ) : Env σ :=
  ⟨w.chain.context, w.heap, w.now, w.user⟩

/-- The world with that part replaced. -/
def World.put {σ : Type} (w : World σ) (e : Env σ) : World σ :=
  { heap := e.heap, chain := { w.chain with context := e.context }, now := e.now,
    user := e.user }

/-- The program whose event functions read and write the context, the heap,
the clock and user memory and nothing else of the chain, and whose failure
predicates only read them. -/
def Program.lift {σ : Type} (events : Nat → Nat → Env σ → EventResult × Env σ)
    (handlers : Nat → ChainableEvent → CStr → Nat → Env σ → Bool) : Program σ :=
  { event_fn := fun a d w => ((events a d w.env).1, w.put (events a d w.env).2)
    handler_fn := fun a ev msg d w => (handlers a ev msg d w.env, w) }

/-- One event applied to what it reaches. -/
def event_step {σ : Type} (events : Nat → Nat → Env σ → EventResult × Env σ)
    (ev : ChainableEvent) (e : Env σ) : EventResult × Env σ :=
  events ev.execute ev.user_data e

/-- The effects of a list of events, applied one after the other, first event
first: `en (... e2 (e1 s))`. -/
def env_after {σ : Type} (events : Nat → Nat → Env σ → EventResult × Env σ)
    (evs : List ChainableEvent) (e : Env σ) : Env σ :=
  evs.foldl (fun s ev => (event_step events ev s).2) e

/-- The failure records of a list of events that all run, first event first:
one `event_failure` for each event whose result is a failure, none for the
others. -/
def expected_log {σ : Type} (events : Nat → Nat → Env σ → EventResult × Env σ) :
    List ChainableEvent → Env σ → List EventFailure
  | [], _ => []
  | ev :: evs, e =>
    (if (event_step events ev e).1.success then []
      else [event_failure ev (event_step events ev e).1 (event_step events ev e).2.now]) ++
    expected_log events evs (event_step events ev e).2

/-- The name and the error code of each failing event of a list of events that
all run, first event first. -/
def failing_events {σ : Type} (events : Nat → Nat → Env σ → EventResult × Env σ) :
    List ChainableEvent → Env σ → List (CStr × EventChainErrorCode)
  | [], _ => []
  | ev :: evs, e =>
    (if (event_step events ev e).1.success then []
      else [(ev.name, (event_step events ev e).1.error_code)]) ++
    failing_events events evs (event_step events ev e).2

/-- The decision taken after a failure by a chain whose program is lifted. -/
def continue_policy {σ : Type} (c : EventChain)
    (handlers : Nat → ChainableEvent → CStr → Nat → Env σ → Bool)
    (ev : ChainableEvent) (msg : CStr) (e : Env σ) : Bool :=
  match c.fault_tolerance with
  | FAULT_TOLERANCE_STRICT => false
  | FAULT_TOLERANCE_LENIENT => true
  | FAULT_TOLERANCE_BEST_EFFORT => true
  | FAULT_TOLERANCE_CUSTOM =>
    if c.should_continue ≠ 0 then handlers c.should_continue ev msg c.failure_handler_data e
    else false

/-- Whether every event of the list succeeds when the events run one after the
other, first event first. -/
def all_succeed {σ : Type} (events : Nat → Nat → Env σ → EventResult × Env σ) :
    List ChainableEvent → Env σ → Bool
  | [], _ => true
  | ev :: evs, e =>
    (event_step events ev e).1.success && all_succeed events evs (event_step events ev e).2

/-- Whether `pol` answers true for every failing event of the list when the
events run one after the other, `pol` being asked with the event, the message
of its result and what the event left. -/
def continues {σ : Type} (events : Nat → Nat → Env σ → EventResult × Env σ)
    (pol : ChainableEvent → CStr → Env σ → Bool) : List ChainableEvent → Env σ → Bool
  | [], _ => true
  | ev :: evs, e =>
    ((event_step events ev e).1.success ||
        pol ev (event_step events ev e).1.error_message (event_step events ev e).2) &&
      continues events pol evs (event_step events ev e).2

/-- The loop of `event_chain_execute` on a list of valid events from index `i`
on, for a lifted program and a decision `pol`: whether it stopped on a failure,
the result, the capacity of the log, the index it reached, and what the events
reach. -/
def model_loop {σ : Type} (events : Nat → Nat → Env σ → EventResult × Env σ)
    (pol : ChainableEvent → CStr → Env σ → Bool) :
    List ChainableEvent → Nat → ChainResult → Nat → Env σ →
      Bool × ChainResult × Nat × Nat × Env σ
  | [], i, result, cap, e => (false, result, cap, i, e)
  | ev :: evs, i, result, cap, e =>
    if (event_step events ev e).1.success then
      model_loop events pol evs (i + 1) result cap (event_step events ev e).2
    else
      if pol ev (event_step events ev e).1.error_message (event_step events ev e).2 then
        model_loop events pol evs (i + 1)
          (record_if_room (expand_failures result cap).1 (expand_failures result cap).2
            (event_failure ev (event_step events ev e).1 (event_step events ev e).2.now))
          (expand_failures result cap).2 (event_step events ev e).2
      else
        (true,
          record_if_room (expand_failures result cap).1 (expand_failures result cap).2
            (event_failure ev (event_step events ev e).1 (event_step events ev e).2.now),
          (expand_failures result cap).2, i + 1, (event_step events ev e).2)

/-- A failure log in its array: `log` is the used part of the array of
`cap` slots, which has grown by doubling from 8. -/
structure LogInv (result : ChainResult) (cap : Nat) (log : List EventFailure) : Prop where
  count : result.failure_count = log.length
  used : result.failures.take result.failure_count = log
  len : result.failures.length = cap
  cap_pos : 0 < cap
  cap_le : cap ≤ 8 + 2 * log.length
  count_le : log.length ≤ cap

/-- A chain as registration leaves it, with `evs` its events in order: idle,
the used part of the event array is `evs`, at most `EVENTCHAINS_MAX_EVENTS` of
them, every event has a valid function pointer and a name that fits its
buffer, and every used middleware slot holds a middleware with a function. -/
structure Registered (c : EventChain) (evs : List ChainableEvent) : Prop where
  idle : c.is_executing = 0
  count : c.event_count = evs.length
  bound : evs.length ≤ EVENTCHAINS_MAX_EVENTS
  events : ∀ i ev, evs[i]? = some ev → c.events.getD i none = some ev
  valid : ∀ ev ∈ evs, is_valid_function_pointer ev.execute = true
  names : ∀ ev ∈ evs, ev.name.length < EVENTCHAINS_MAX_NAME_LENGTH
  middleware : ∀ j, j < c.middleware_count →
    ∃ mw, c.middlewares.getD j none = some mw ∧ mw.execute ≠ 0

/-! ## Lookups with the comparisons they make -/

/-- The loop of the constant-time branch of `event_context_has`, with the
indices `i` for which it calls `constant_time_strcmp (keys[i], key)`, in call
order. -/
def has_constant_time_trace (keys : List (Option CStr)) (key : CStr) (found : Bool) :
    Nat → Nat → Bool × List Nat
  | _, 0 => (found, [])
  | i, n + 1 =>
    match keys.getD i none with
    | some k =>
      let rest :=
        has_constant_time_trace keys key
          (if constant_time_strcmp k key EVENTCHAINS_MAX_KEY_LENGTH then true else found)
          (i + 1) n
      (rest.1, i :: rest.2)
    | none => has_constant_time_trace keys key found (i + 1) n

/-- The loop of the fast branch of `event_context_has`, with the indices `i` for
which it calls `strcmp (keys[i], key)`, in call order. -/
def has_fast_trace (keys : List (Option CStr)) (key : CStr) : Nat → Nat → Bool × List Nat
  | _, 0 => (false, [])
  | i, n + 1 =>
    match keys.getD i none with
    | some k =>
      if k = key then (true, [i])
      else ((has_fast_trace keys key (i + 1) n).1, i :: (has_fast_trace keys key (i + 1) n).2)
    | none => has_fast_trace keys key (i + 1) n

/-- `event_context_has` with the entry comparisons it makes. -/
def event_context_has_trace (context : EventContext) (key : Option CStr)
    (constant_time : Bool) : Bool × List Nat :=
  match key with
  | none => (false, [])
  | some key =>
    if constant_time then has_constant_time_trace context.keys key false 0 context.count
    else has_fast_trace context.keys key 0 context.count

/-! ## Wrappers owned by a context -/

/-- A context that alone owns the wrappers of its entries: each is allocated on
the heap, has a count of 1, and sits in one slot only. -/
structure Owned (h : Heap) (c : EventContext) : Prop where
  allocated : ∀ p ∈ c.values.take c.count, p - 1 < h.cells.length
  sole : ∀ p ∈ c.values.take c.count, (h.load p).ref_count = 1
  distinct : (c.values.take c.count).Nodup

/-- The callback call `ref_counted_value_release` makes on the wrapper at `p`:
one call if the release takes the count from 1 to 0 and both the callback and
the data are non-null, none otherwise. -/
def release_call (h : Heap) (p : Nat) : List (Nat × Nat) :=
  if (h.load p).ref_count = 1 ∧ (h.load p).cleanup ≠ 0 ∧ (h.load p).data ≠ 0 then
    [((h.load p).cleanup, (h.load p).data)]
  else []

/-- `ref_counted_value_release` on each address of a list, first address
first. -/
def release_all (h : Heap) (ps : List Nat) : Heap :=
  ps.foldl (fun g p => (ref_counted_value_release g p).2) h

/-- The wrapper at `p`, with data `d` and callback `cl`, of which one reference
is left, held by a caller: its count is 1, and the release of that reference
succeeds, calls the callback on the data once if both are non-null (and makes
no call otherwise), and leaves the cell zeroed. -/
def HeldByCaller (g : Heap) (p d cl : Nat) : Prop :=
  g.load p = ⟨d, 1, cl⟩ ∧
  (ref_counted_value_release g p).1 = EC_SUCCESS ∧
  (ref_counted_value_release g p).2.cleanup_calls =
    g.cleanup_calls ++ (if cl ≠ 0 ∧ d ≠ 0 then [(cl, d)] else []) ∧
  (ref_counted_value_release g p).2.load p = ⟨0, 0, 0⟩

/-! ## Middleware as the specification describes it -/

/-- Middleware functions by address, as `MiddlewareExecuteFunc` declares them
in the header: a middleware function is given the event, its own user data and
the next layer (`next` and `next_data`, as one function), and acts on the
world. -/
abbrev MiddlewareTable (σ : Type) :=
  Nat → ChainableEvent → Nat → (World σ → EventResult × World σ) → World σ →
    EventResult × World σ

/-- The wrapping the specification and the header describe ("the
last-registered middleware is the outermost layer"), for comparison with
`execute_event_with_middleware_iterative`: the event wrapped in the middleware
`m1 .. mk`, given in registration order; the next layer of `m1` is the event
itself. -/
def onion {σ : Type} (prog : Program σ) (table : MiddlewareTable σ) (ev : ChainableEvent)
    (mws : List EventMiddleware) : World σ → EventResult × World σ :=
  mws.foldl (fun next mw => table mw.execute ev mw.user_data next)
    (prog.event_fn ev.execute ev.user_data)

/-- The events of a list, each through the wrapping of `onion`, first event
first: the results returned and the world afterwards. -/
def onion_run {σ : Type} (prog : Program σ) (table : MiddlewareTable σ)
    (mws : List EventMiddleware) : List ChainableEvent → World σ → List EventResult × World σ
  | [], w => ([], w)
  | ev :: evs, w =>
    (((onion prog table ev mws w).1 :: (onion_run prog table mws evs (onion prog table ev mws w).2).1),
      (onion_run prog table mws evs (onion prog table ev mws w).2).2)

/-! ## Sequences of registration calls, and the interrupt flag after a call -/

/-- The registration calls of the public interface of a chain. -/
inductive ChainOp where
  | add_event (event : Option ChainableEvent)
  | use_middleware (middleware : Option EventMiddleware)
  deriving DecidableEq, Repr

/-- One registration call: the chain after it (the returned code is dropped). -/
def ChainOp.apply (chain : EventChain) : ChainOp → EventChain
  | ChainOp.add_event event => (event_chain_add_event chain event).2
  | ChainOp.use_middleware middleware => (event_chain_use_middleware chain middleware).2

/-- A sequence of registration calls, first call first. -/
def run_chain_ops (ops : List ChainOp) (chain : EventChain) : EventChain :=
  ops.foldl ChainOp.apply chain

/-- The interrupt flag as one call of the log of `event_chain_execute` leaves
it: the value of `signal_interrupted` when the function of the event at that
index, called on that world, has returned. -/
def flag_after_call {σ : Type} (prog : Program σ) (call : Nat × World σ) : Nat :=
  match call.2.chain.events.getD call.1 none with
  | some ev => (prog.event_fn ev.execute ev.user_data call.2).2.chain.signal_interrupted
  | none => 0

/-! ## The Dijkstra benchmark (`dijkstra_benchmark.c`)

Printing (`printf` under `verbose`) and the profiling counters of
`global_profile` are left out: neither is read by the code that computes the
result. -/

/-- `INT_MAX` for a 32-bit `int`. -/
def INT_MAX : Int := 2147483647

/-- The sum of two `int`, brought back into the range of a 32-bit `int` by
two's complement wrapping (what the hardware does where C leaves signed
overflow undefined). -/
def int_add (a b : Int) : Int := (a + b + 2 ^ 31) % 2 ^ 32 - 2 ^ 31

/-- The C structure `Edge`, without its `next` pointer: the edges of a vertex
are a list.  `target` is the field `to` (a keyword here). -/
structure Edge where
  target : Nat
  weight : Int
  deriving DecidableEq, Repr

/-- The C structure `Graph`; `adj_list[u]` is the list of the edges leaving
`u`, first edge first. -/
structure Graph where
  num_vertices : Nat
  num_edges : Nat
  adj_list : List (List Edge)
  deriving DecidableEq, Repr

/-- The C structure `HeapNode`. -/
structure HeapNode where
  vertex : Nat
  distance : Int
  deriving DecidableEq, Repr

/-- The C structure `MinHeap`; `positions[v]` is the index of vertex `v` in
`nodes`, or `-1`. -/
structure MinHeap where
  nodes : List HeapNode
  positions : List Int
  size : Nat
  capacity : Nat
  deriving DecidableEq, Repr

/-- `heap_create`; the nodes `malloc` leaves uninitialised read as zeroes. -/
def heap_create (capacity : Nat) : MinHeap :=
  { nodes := List.replicate capacity ⟨0, 0⟩
    positions := List.replicate capacity (-1)
    size := 0
    capacity := capacity }

/-- `heap_swap`. -/
def heap_swap (heap : MinHeap) (i j : Nat) : MinHeap :=
  let temp := heap.nodes.getD i ⟨0, 0⟩
  let nodes1 := heap.nodes.set i (heap.nodes.getD j ⟨0, 0⟩)
  let nodes2 := nodes1.set j temp
  let positions1 := heap.positions.set (nodes2.getD i ⟨0, 0⟩).vertex i
  let positions2 := positions1.set (nodes2.getD j ⟨0, 0⟩).vertex j
  { heap with nodes := nodes2, positions := positions2 }

/-- The loop `while (idx > 0)` of `heap_heapify_up`; `fuel` bounds the number
of evaluations of its condition. -/
def heap_heapify_up_loop : Nat → MinHeap → Nat → MinHeap
  | 0, heap, _ => heap
  | fuel + 1, heap, idx =>
    if idx > 0 then
      let parent := (idx - 1) / 2
      if (heap.nodes.getD idx ⟨0, 0⟩).distance ≥ (heap.nodes.getD parent ⟨0, 0⟩).distance then
        heap
      else heap_heapify_up_loop fuel (heap_swap heap idx parent) parent
    else heap

/-- `heap_heapify_up`: `idx` at least halves at each turn of the loop, so
`idx + 1` evaluations of the condition are enough. -/
def heap_heapify_up (heap : MinHeap) (idx : Nat) : MinHeap :=
  heap_heapify_up_loop (idx + 1) heap idx

/-- The statements of a turn of the loop of `heap_heapify_down` that choose
`smallest` among `idx`, `left` and `right`. -/
def heap_smallest (heap : MinHeap) (idx : Nat) : Nat :=
  let left := 2 * idx + 1
  let right := 2 * idx + 2
  let smallest :=
    if left < heap.size ∧
        (heap.nodes.getD left ⟨0, 0⟩).distance < (heap.nodes.getD idx ⟨0, 0⟩).distance then
      left
    else idx
  if right < heap.size ∧
      (heap.nodes.getD right ⟨0, 0⟩).distance < (heap.nodes.getD smallest ⟨0, 0⟩).distance then
    right
  else smallest

/-- The loop `while (1)` of `heap_heapify_down`; `fuel` bounds the number of
turns. -/
def heap_heapify_down_loop : Nat → MinHeap → Nat → MinHeap
  | 0, heap, _ => heap
  | fuel + 1, heap, idx =>
    if heap_smallest heap idx = idx then heap
    else
      heap_heapify_down_loop fuel (heap_swap heap idx (heap_smallest heap idx))
        (heap_smallest heap idx)

/-- `heap_heapify_down`: `idx` grows at each turn and a turn with `idx` at or
beyond `size` is the last, so `size + 1` turns are enough. -/
def heap_heapify_down (heap : MinHeap) (idx : Nat) : MinHeap :=
  heap_heapify_down_loop (heap.size + 1) heap idx

/-- `heap_insert`. -/
def heap_insert (heap : MinHeap) (vertex : Nat) (distance : Int) : MinHeap :=
  if heap.size ≥ heap.capacity then heap
  else
    let idx := heap.size
    heap_heapify_up
      { heap with
        size := heap.size + 1
        nodes := heap.nodes.set idx ⟨vertex, distance⟩
        positions := heap.positions.set vertex idx }
      idx

/-- `heap_extract_min`, on a heap that is not empty (the only use the program
makes of it): the node returned, then the heap. -/
def heap_extract_min (heap : MinHeap) : HeapNode × MinHeap :=
  let min := heap.nodes.getD 0 ⟨0, 0⟩
  let positions1 := heap.positions.set min.vertex (-1)
  let size1 := heap.size - 1
  if size1 > 0 then
    let nodes1 := heap.nodes.set 0 (heap.nodes.getD size1 ⟨0, 0⟩)
    let positions2 := positions1.set (nodes1.getD 0 ⟨0, 0⟩).vertex 0
    (min, heap_heapify_down { heap with nodes := nodes1, positions := positions2, size := size1 } 0)
  else (min, { heap with positions := positions1, size := size1 })

/-- `heap_decrease_key`. -/
def heap_decrease_key (heap : MinHeap) (vertex : Nat) (new_distance : Int) : MinHeap :=
  let idx := heap.positions.getD vertex (-1)
  if idx = -1 then heap
  else
    heap_heapify_up
      { heap with
        nodes :=
          heap.nodes.set idx.toNat
            { heap.nodes.getD idx.toNat ⟨0, 0⟩ with distance := new_distance } }
      idx.toNat

/-- `heap_is_empty`. -/
def heap_is_empty (heap : MinHeap) : Bool := heap.size == 0

/-- The C structure `DijkstraResult`, the two arrays by value. -/
structure DijkstraResult where
  distances : List Int
  predecessors : List Int
  success : Bool
  deriving DecidableEq, Repr

/-- The loop "relax edges" of `dijkstra_traditional` over the edges of `u`: the
heap, `result.distances` and `result.predecessors` afterwards. -/
def traditional_relax (u : Nat) :
    List Edge → MinHeap × List Int × List Int → MinHeap × List Int × List Int
  | [], s => s
  | edge :: rest, (heap, distances, predecessors) =>
    let v := edge.target
    let alt := int_add (distances.getD u 0) edge.weight
    if alt < distances.getD v 0 then
      traditional_relax u rest
        (if heap.positions.getD v (-1) = -1 then heap_insert heap v alt
          else heap_decrease_key heap v alt,
          distances.set v alt, predecessors.set v u)
    else traditional_relax u rest (heap, distances, predecessors)

/-- The main loop `while (!heap_is_empty (heap))` of `dijkstra_traditional`, on
the heap, the two arrays and `vertices_processed`; `fuel` bounds the number of
evaluations of its condition, `none` meaning that the bound was reached. -/
def traditional_loop (g : Graph) :
    Nat → MinHeap × List Int × List Int × Int → Option (MinHeap × List Int × List Int × Int)
  | 0, _ => none
  | fuel + 1, (heap, distances, predecessors, vertices_processed) =>
    if heap_is_empty heap then some (heap, distances, predecessors, vertices_processed)
    else
      let current := (heap_extract_min heap).1
      let heap1 := (heap_extract_min heap).2
      let u := current.vertex
      let vertices_processed1 := int_add vertices_processed 1
      if current.distance > distances.getD u 0 then
        traditional_loop g fuel (heap1, distances, predecessors, vertices_processed1)
      else
        let r := traditional_relax u (g.adj_list.getD u []) (heap1, distances, predecessors)
        traditional_loop g fuel (r.1, r.2.1, r.2.2, vertices_processed1)

/-- `dijkstra_traditional`; `none` when `fuel` evaluations of the condition of
the main loop were not enough. -/
def dijkstra_traditional (fuel : Nat) (g : Graph) (source : Nat) : Option DijkstraResult :=
  let distances := (List.replicate g.num_vertices INT_MAX).set source 0
  let predecessors := List.replicate g.num_vertices (-1 : Int)
  let heap := heap_insert (heap_create g.num_vertices) source 0
  match traditional_loop g fuel (heap, distances, predecessors, 0) with
  | none => none
  | some s => some ⟨s.2.1, s.2.2.1, true⟩

/-- What the pointers stored in the context of the benchmark point to. -/
inductive Cell where
  | graph (g : Graph)
  | int (v : Int)
  | bool (b : Bool)
  | timing (total_time : Nat) (verbose : Bool)
  | ints (a : List Int)
  | heap (h : MinHeap)
  | freed
  deriving DecidableEq, Repr

/-- The memory of the benchmark program: the objects allocated so far (cell
`p - 1` is the object at address `p`), and a mark set when a loop of an event
function was cut short by its bound (the mark is not part of the program). -/
structure Memory where
  cells : List Cell
  out_of_fuel : Bool
  deriving DecidableEq, Repr

/-- `malloc` followed by the initialisation of the object: its address, then
the memory. -/
def Memory.alloc (m : Memory) (c : Cell) : Nat × Memory :=
  (m.cells.length + 1, { m with cells := m.cells ++ [c] })

/-- Overwrite the object at address `p`. -/
def Memory.store (m : Memory) (p : Nat) (c : Cell) : Memory :=
  { m with cells := m.cells.set (p - 1) c }

/-- Read the object at address `p` as a `Graph`. -/
def Memory.graph_at (m : Memory) (p : Nat) : Graph :=
  match m.cells.getD (p - 1) Cell.freed with
  | Cell.graph g => g
  | _ => ⟨0, 0, []⟩

/-- Read the object at address `p` as an `int`. -/
def Memory.int_at (m : Memory) (p : Nat) : Int :=
  match m.cells.getD (p - 1) Cell.freed with
  | Cell.int v => v
  | _ => 0

/-- Read the object at address `p` as an array of `int`. -/
def Memory.ints_at (m : Memory) (p : Nat) : List Int :=
  match m.cells.getD (p - 1) Cell.freed with
  | Cell.ints a => a
  | _ => []

/-- Read the object at address `p` as a `MinHeap`. -/
def Memory.heap_at (m : Memory) (p : Nat) : MinHeap :=
  match m.cells.getD (p - 1) Cell.freed with
  | Cell.heap h => h
  | _ => ⟨[], [], 0, 0⟩

/-- The context key `CTX_GRAPH`. -/
def CTX_GRAPH : CStr := c_str "graph"

/-- The context key `CTX_SOURCE`. -/
def CTX_SOURCE : CStr := c_str "source"

/-- The context key `CTX_DISTANCES`. -/
def CTX_DISTANCES : CStr := c_str "distances"

/-- The context key `CTX_PREDECESSORS`. -/
def CTX_PREDECESSORS : CStr := c_str "predecessors"

/-- The context key `CTX_HEAP`. -/
def CTX_HEAP : CStr := c_str "heap"

/-- The context key `CTX_VERTICES_PROCESSED`. -/
def CTX_VERTICES_PROCESSED : CStr := c_str "vertices_processed"

/-- The context key `CTX_VERBOSE`. -/
def CTX_VERBOSE : CStr := c_str "verbose"

/-- `event_initialize` ("Event 1: Initialize distances"). -/
def event_initialize (e : Env Memory) : EventResult × Env Memory :=
  let graph_ptr := (event_context_get e.heap e.context (some CTX_GRAPH)).2
  let source_ptr := (event_context_get e.heap e.context (some CTX_SOURCE)).2
  if graph_ptr = 0 ∨ source_ptr = 0 then
    (event_result_failure (some (c_str "Missing graph or source")) EC_ERROR_NULL_POINTER
      ERROR_DETAIL_FULL, e)
  else
    let g := e.user.graph_at graph_ptr
    let source := e.user.int_at source_ptr
    let distances :=
      e.user.alloc (Cell.ints ((List.replicate g.num_vertices INT_MAX).set source.toNat 0))
    let predecessors := distances.2.alloc (Cell.ints (List.replicate g.num_vertices (-1)))
    let s1 := event_context_set e.heap e.context (some CTX_DISTANCES) distances.1
    let s2 := event_context_set s1.2.1 s1.2.2 (some CTX_PREDECESSORS) predecessors.1
    (event_result_success, { e with context := s2.2.2, heap := s2.2.1, user := predecessors.2 })

/-- `event_create_heap` ("Event 2: Create priority queue"). -/
def event_create_heap (e : Env Memory) : EventResult × Env Memory :=
  let graph_ptr := (event_context_get e.heap e.context (some CTX_GRAPH)).2
  let source_ptr := (event_context_get e.heap e.context (some CTX_SOURCE)).2
  if graph_ptr = 0 ∨ source_ptr = 0 then
    (event_result_failure (some (c_str "Missing graph or source")) EC_ERROR_NULL_POINTER
      ERROR_DETAIL_FULL, e)
  else
    let g := e.user.graph_at graph_ptr
    let source := e.user.int_at source_ptr
    let heap := e.user.alloc (Cell.heap (heap_insert (heap_create g.num_vertices) source.toNat 0))
    let s1 := event_context_set e.heap e.context (some CTX_HEAP) heap.1
    let vertices_processed := heap.2.alloc (Cell.int 0)
    let s2 := event_context_set s1.2.1 s1.2.2 (some CTX_VERTICES_PROCESSED) vertices_processed.1
    (event_result_success,
      { e with context := s2.2.2, heap := s2.2.1, user := vertices_processed.2 })

/-- The loop "relax edges" of `event_process_vertices` over the edges of `u`:
the heap and the arrays `distances` and `predecessors` afterwards. -/
def process_relax (u : Nat) :
    List Edge → MinHeap × List Int × List Int → MinHeap × List Int × List Int
  | [], s => s
  | edge :: rest, (heap, distances, predecessors) =>
    let v := edge.target
    let alt := int_add (distances.getD u 0) edge.weight
    if alt < distances.getD v 0 then
      process_relax u rest
        (if heap.positions.getD v (-1) = -1 then heap_insert heap v alt
          else heap_decrease_key heap v alt,
          distances.set v alt, predecessors.set v u)
    else process_relax u rest (heap, distances, predecessors)

/-- The loop `while (!heap_is_empty (heap))` of `event_process_vertices`, on
the objects its four pointers point to; `fuel` bounds the number of evaluations
of its condition, `none` meaning that the bound was reached. -/
def process_loop (g : Graph) :
    Nat → MinHeap × List Int × List Int × Int → Option (MinHeap × List Int × List Int × Int)
  | 0, _ => none
  | fuel + 1, (heap, distances, predecessors, vertices_processed) =>
    if heap_is_empty heap then some (heap, distances, predecessors, vertices_processed)
    else
      let current := (heap_extract_min heap).1
      let heap1 := (heap_extract_min heap).2
      let u := current.vertex
      let vertices_processed1 := int_add vertices_processed 1
      if current.distance > distances.getD u 0 then
        process_loop g fuel (heap1, distances, predecessors, vertices_processed1)
      else
        let r := process_relax u (g.adj_list.getD u []) (heap1, distances, predecessors)
        process_loop g fuel (r.1, r.2.1, r.2.2, vertices_processed1)

/-- `event_process_vertices` ("Event 3: Process vertices"); when `fuel`
evaluations of the condition of its loop are not enough, the memory is marked
`out_of_fuel`. -/
def event_process_vertices (fuel : Nat) (e : Env Memory) : EventResult × Env Memory :=
  let graph_ptr := (event_context_get e.heap e.context (some CTX_GRAPH)).2
  let heap_ptr := (event_context_get e.heap e.context (some CTX_HEAP)).2
  let distances_ptr := (event_context_get e.heap e.context (some CTX_DISTANCES)).2
  let predecessors_ptr := (event_context_get e.heap e.context (some CTX_PREDECESSORS)).2
  let vertices_processed_ptr :=
    (event_context_get e.heap e.context (some CTX_VERTICES_PROCESSED)).2
  if graph_ptr = 0 ∨ heap_ptr = 0 ∨ distances_ptr = 0 ∨ predecessors_ptr = 0 then
    (event_result_failure (some (c_str "Missing required data")) EC_ERROR_NULL_POINTER
      ERROR_DETAIL_FULL, e)
  else
    match process_loop (e.user.graph_at graph_ptr) fuel
        (e.user.heap_at heap_ptr, e.user.ints_at distances_ptr,
          e.user.ints_at predecessors_ptr, e.user.int_at vertices_processed_ptr) with
    | none => (event_result_success, { e with user := { e.user with out_of_fuel := true } })
    | some s =>
      (event_result_success,
        { e with
          user :=
            (((e.user.store heap_ptr (Cell.heap s.1)).store distances_ptr
                  (Cell.ints s.2.1)).store predecessors_ptr (Cell.ints s.2.2.1)).store
              vertices_processed_ptr (Cell.int s.2.2.2) })

/-- `event_cleanup` ("Event 4: Cleanup"): `heap_destroy` frees the heap. -/
def event_cleanup (e : Env Memory) : EventResult × Env Memory :=
  let heap_ptr := (event_context_get e.heap e.context (some CTX_HEAP)).2
  if heap_ptr ≠ 0 then
    (event_result_success, { e with user := e.user.store heap_ptr Cell.freed })
  else (event_result_success, e)

/-- The address of the function `event_initialize`.  The addresses the linker
gives to the functions of the benchmark do not matter, as long as they are valid
and pairwise different. -/
def event_initialize_addr : Nat := 70001

/-- The address of the function `event_create_heap`. -/
def event_create_heap_addr : Nat := 70002

/-- The address of the function `event_process_vertices`. -/
def event_process_vertices_addr : Nat := 70003

/-- The address of the function `event_cleanup`. -/
def event_cleanup_addr : Nat := 70004

/-- The address of the function `profiling_middleware`. -/
def profiling_middleware_addr : Nat := 70101

/-- The address of the function `timing_middleware`. -/
def timing_middleware_addr : Nat := 70102

/-- The address of the function `logging_middleware`. -/
def logging_middleware_addr : Nat := 70103

/-- The event functions of the benchmark, by address; nothing is called at any
other address. -/
def dijkstra_event_fns (fuel : Nat) (a : Nat) (_ : Nat) (e : Env Memory) :
    EventResult × Env Memory :=
  if a = event_initialize_addr then event_initialize e
  else if a = event_create_heap_addr then event_create_heap e
  else if a = event_process_vertices_addr then event_process_vertices fuel e
  else if a = event_cleanup_addr then event_cleanup e
  else (event_result_success, e)

/-- The benchmark registers no failure predicate. -/
def dijkstra_handlers (_ : Nat) (_ : ChainableEvent) (_ : CStr) (_ : Nat) (_ : Env Memory) :
    Bool :=
  false

/-- The objects of the caller of `dijkstra_eventchains` that the context points
to: the graph `*g` at address 1, the parameters `source` at 2 and `verbose` at
3, the local `timing_data` at 4. -/
def dijkstra_memory (g : Graph) (source : Nat) (verbose : Bool) : Memory :=
  ⟨[Cell.graph g, Cell.int source, Cell.bool verbose, Cell.timing 0 verbose], false⟩

/-- The chain `dijkstra_eventchains` builds: `event_chain_create_strict`, the
three middleware when requested, the four events. -/
def dijkstra_chain (use_middleware : Bool) : Option EventChain :=
  match event_chain_create_with_detail FAULT_TOLERANCE_STRICT ERROR_DETAIL_MINIMAL with
  | none => none
  | some chain =>
    let chain1 :=
      if use_middleware then
        let profiling :=
          event_middleware_create profiling_middleware_addr 0
            (some (c_str "ProfilingMiddleware"))
        let timing :=
          event_middleware_create timing_middleware_addr 4 (some (c_str "TimingMiddleware"))
        let logging :=
          event_middleware_create logging_middleware_addr 0 (some (c_str "LoggingMiddleware"))
        (event_chain_use_middleware
          (event_chain_use_middleware (event_chain_use_middleware chain profiling).2 timing).2
          logging).2
      else chain
    let init :=
      chainable_event_create event_initialize_addr 0 (some (c_str "InitializeDistances"))
    let create_heap_evt :=
      chainable_event_create event_create_heap_addr 0 (some (c_str "CreatePriorityQueue"))
    let process :=
      chainable_event_create event_process_vertices_addr 0 (some (c_str "ProcessVertices"))
    let cleanup := chainable_event_create event_cleanup_addr 0 (some (c_str "Cleanup"))
    some
      (event_chain_add_event
        (event_chain_add_event
          (event_chain_add_event (event_chain_add_event chain1 init).2 create_heap_evt).2
          process).2
        cleanup).2

/-- The three `event_context_set` calls of the part "set up context" of
`dijkstra_eventchains`, on a heap without wrappers, with the addresses of the
graph, of `source` and of `verbose`: the heap and the context afterwards. -/
def dijkstra_context_setup (ctx : EventContext) : Heap × EventContext :=
  let s1 := event_context_set ⟨[], []⟩ ctx (some CTX_GRAPH) 1
  let s2 := event_context_set s1.2.1 s1.2.2 (some CTX_SOURCE) 2
  let s3 := event_context_set s2.2.1 s2.2.2 (some CTX_VERBOSE) 3
  (s3.2.1, s3.2.2)

/-- The part "set up context" of `dijkstra_eventchains`: the heap, and the
chain with its context filled. -/
def dijkstra_setup (chain : EventChain) : Heap × EventChain :=
  ((dijkstra_context_setup (event_chain_get_context chain)).1,
    { chain with context := (dijkstra_context_setup (event_chain_get_context chain)).2 })

/-- `dijkstra_eventchains`; `now` is what `time (NULL)` returns during the run,
and `none` means that `fuel` evaluations of the condition of the loop of
`event_process_vertices` were not enough.  The chain has four events, so five
evaluations of the condition of the loop of `event_chain_execute` are
enough. -/
def dijkstra_eventchains (fuel : Nat) (now : Int) (g : Graph) (source : Nat)
    (verbose use_middleware : Bool) : Option DijkstraResult :=
  match dijkstra_chain use_middleware with
  | none => none
  | some chain =>
    let s := dijkstra_setup chain
    match
      event_chain_execute (Program.lift (dijkstra_event_fns fuel) dijkstra_handlers) 5
        ⟨s.1, s.2, now, dijkstra_memory g source verbose⟩ with
    | none => none
    | some (chain_result, w, _) =>
      if w.user.out_of_fuel then none
      else if chain_result.success then
        some
          ⟨w.user.ints_at
              (event_context_get w.heap (event_chain_get_context w.chain)
                (some CTX_DISTANCES)).2,
            w.user.ints_at
              (event_context_get w.heap (event_chain_get_context w.chain)
                (some CTX_PREDECESSORS)).2,
            true⟩
      else some ⟨[], [], false⟩

/-- A graph as `graph_add_edge` builds it: a list of edges for each vertex,
every edge to a vertex of the graph. -/
def Graph.well_formed (g : Graph) : Prop :=
  g.adj_list.length = g.num_vertices ∧
  ∀ edges ∈ g.adj_list, ∀ edge ∈ edges, edge.target < g.num_vertices

/-- A quantity that every turn of the main loop lowers: the size of the heap
plus twice the sum of the distances, each counted from the least `int`. -/
def dijkstra_measure (heap : MinHeap) (distances : List Int) : Nat :=
  heap.size + 2 * (distances.map (fun d => (d + 2 ^ 31).toNat)).sum

/-! ## Concrete data used to instantiate the theorems -/

/-- The context `event_context_create` returns. -/
def fresh_context : EventContext :=
  ⟨List.replicate 8 none, List.replicate 8 0, 0, 8, 168⟩

/-- The chain `event_chain_create_with_detail` returns. -/
def fresh_chain (mode : FaultToleranceMode) (detail : ErrorDetailLevel) : EventChain :=
  { events := List.replicate 8 none
    event_count := 0
    event_capacity := 8
    middlewares := List.replicate 8 none
    middleware_count := 0
    middleware_capacity := 8
    context := fresh_context
    fault_tolerance := mode
    error_detail_level := detail
    should_continue := 0
    failure_handler_data := 0
    is_executing := 0
    signal_interrupted := 0 }

/-- Entries with 512 pairwise different two-byte keys. -/
def sample_entries : List (CStr × Nat × Nat) :=
  (List.range 512).map (fun i => ([i / 255 + 1, i % 255 + 1], i + 1, 0))

/-- Events at 1024 different valid function addresses. -/
def sample_events : List ChainableEvent :=
  (List.range 1024).map (fun i => ⟨4096 + i, 0, [78]⟩)

/-- Sixteen middleware at different valid function addresses. -/
def sample_middlewares : List EventMiddleware :=
  (List.range 16).map (fun i => ⟨8192 + i, 0, [77]⟩)

/-- Event functions of an arithmetic scenario, by address: 5001 adds 10 to the
integer in user memory, 5002 doubles it, 5003 subtracts 5, 5004 fails with
"Test failure"; a function at any other address succeeds without effect. -/
def sample_event_fns (a : Nat) (_ : Nat) (e : Env Int) : EventResult × Env Int :=
  if a = 5001 then (event_result_success, { e with user := e.user + 10 })
  else if a = 5002 then (event_result_success, { e with user := e.user * 2 })
  else if a = 5003 then (event_result_success, { e with user := e.user - 5 })
  else if a = 5004 then
    (event_result_failure (some (c_str "Test failure")) EC_ERROR_EVENT_EXECUTION_FAILED
      ERROR_DETAIL_FULL, e)
  else (event_result_success, e)

/-- Failure predicates by address: the one at 6001 always answers true, any
other always false. -/
def sample_handlers (a : Nat) (_ : ChainableEvent) (_ : CStr) (_ : Nat) (_ : Env Int) :
    Bool :=
  decide (a = 6001)

/-- The events of the arithmetic scenario at the given function addresses, all
named "E". -/
def sample_steps (addresses : List Nat) : List ChainableEvent :=
  addresses.map (fun a => ⟨a, 0, c_str "E"⟩)

/-- A chain in the given mode with the events of `sample_steps` added. -/
def sample_chain (mode : FaultToleranceMode) (addresses : List Nat) : EventChain :=
  (add_events (sample_steps addresses) (fresh_chain mode ERROR_DETAIL_FULL)).2

/-- A world with an empty heap, the clock at 100 and the integer `v` in user
memory. -/
def sample_world (c : EventChain) (v : Int) : World Int :=
  ⟨⟨[], []⟩, c, 100, v⟩

/-- A program whose event function at address 5001 calls
`event_chain_add_event` and then `event_chain_use_middleware` on its own chain,
each with a valid argument, and appends the two codes returned to user memory;
a function at any other address succeeds without effect. -/
def probe_program : Program (List EventChainErrorCode) :=
  { event_fn := fun a _ w =>
      if a = 5001 then
        let r1 := event_chain_add_event w.chain (some ⟨5002, 0, c_str "Late"⟩)
        let r2 := event_chain_use_middleware r1.2 (some ⟨8192, 0, c_str "Late"⟩)
        (event_result_success, { w with chain := r2.2, user := w.user ++ [r1.1, r2.1] })
      else (event_result_success, w)
    handler_fn := fun _ _ _ _ w => (false, w) }

/-- The arithmetic scenario with one more event function, at address 5005,
during which the interrupt flag of the chain is set from outside (the flag has
no setter in the library; a signal handler writes the field). -/
def interrupting_program : Program Int :=
  { event_fn := fun a d w =>
      if a = 5005 then
        (event_result_success, { w with chain := { w.chain with signal_interrupted := 1 } })
      else (Program.lift sample_event_fns sample_handlers).event_fn a d w
    handler_fn := (Program.lift sample_event_fns sample_handlers).handler_fn }

/-- Middleware functions by address: the one at 9001 calls the next layer and
then adds 1 to the integer in user memory (as `timing_middleware` of the
benchmark does with its `event_count`); the one at 9002 returns a failure
without calling the next layer; any other calls the next layer and returns its
result (as `passthrough_middleware` of the tests does). -/
def sample_middleware_fns : MiddlewareTable Int :=
  fun a _ _ next w =>
    if a = 9001 then ((next w).1, { (next w).2 with user := (next w).2.user + 1 })
    else if a = 9002 then
      (event_result_failure (some (c_str "Blocked")) EC_ERROR_MIDDLEWARE_FAILED
        ERROR_DETAIL_FULL, w)
    else next w

/-- A 256-byte key, every byte the letter A. -/
def long_key : CStr := List.replicate 256 65

/-- The four events of the benchmark as `chainable_event_create` returns them,
in registration order. -/
def dijkstra_steps : List ChainableEvent :=
  [⟨event_initialize_addr, 0, c_str "InitializeDistances"⟩,
    ⟨event_create_heap_addr, 0, c_str "CreatePriorityQueue"⟩,
    ⟨event_process_vertices_addr, 0, c_str "ProcessVertices"⟩,
    ⟨event_cleanup_addr, 0, c_str "Cleanup"⟩]

/-- The heap of wrappers and the context of the benchmark when the chain is
executed: the keys "graph", "source", "verbose". -/
def dijkstra_stage0 : Heap × EventContext := dijkstra_context_setup fresh_context

/-- The heap of wrappers and the context of the benchmark after
`event_initialize`, which stores the arrays it allocates at addresses 5 and 6
under "distances" and "predecessors". -/
def dijkstra_stage1 : Heap × EventContext :=
  ((event_context_set
      (event_context_set dijkstra_stage0.1 dijkstra_stage0.2 (some CTX_DISTANCES) 5).2.1
      (event_context_set dijkstra_stage0.1 dijkstra_stage0.2 (some CTX_DISTANCES) 5).2.2
      (some CTX_PREDECESSORS) 6).2.1,
    (event_context_set
      (event_context_set dijkstra_stage0.1 dijkstra_stage0.2 (some CTX_DISTANCES) 5).2.1
      (event_context_set dijkstra_stage0.1 dijkstra_stage0.2 (some CTX_DISTANCES) 5).2.2
      (some CTX_PREDECESSORS) 6).2.2)

/-- The heap of wrappers and the context of the benchmark after
`event_create_heap`, which stores the heap and the counter it allocates at
addresses 7 and 8 under "heap" and "vertices_processed". -/
def dijkstra_stage2 : Heap × EventContext :=
  ((event_context_set
      (event_context_set dijkstra_stage1.1 dijkstra_stage1.2 (some CTX_HEAP) 7).2.1
      (event_context_set dijkstra_stage1.1 dijkstra_stage1.2 (some CTX_HEAP) 7).2.2
      (some CTX_VERTICES_PROCESSED) 8).2.1,
    (event_context_set
      (event_context_set dijkstra_stage1.1 dijkstra_stage1.2 (some CTX_HEAP) 7).2.1
      (event_context_set dijkstra_stage1.1 dijkstra_stage1.2 (some CTX_HEAP) 7).2.2
      (some CTX_VERTICES_PROCESSED) 8).2.2)

/-- A graph of three vertices: 0 → 1 (7), 0 → 2 (3), 2 → 1 (2), 1 → 0 (1). -/
def sample_graph : Graph :=
  ⟨3, 4, [[⟨2, 3⟩, ⟨1, 7⟩], [⟨0, 1⟩], [⟨1, 2⟩]]⟩

/-! ## Lemmas: arrays and the lookup loop -/

theorem take_succ_set {α : Type} (xs : List α) (n : Nat) (a : α) (h : n < xs.length) :
    (xs.set n a).take (n + 1) = xs.take n ++ [a] := by
  apply List.ext_getElem?
  intro k
  rw [List.getElem?_take, List.getElem?_set]
  by_cases hk : k < n
  · rw [List.getElem?_append_left (by simp; omega), List.getElem?_take]
    have : n ≠ k := by omega
    simp [hk, this]; omega
  · by_cases hk2 : k = n
    · subst hk2
      rw [List.getElem?_append_right (by simp)]
      simp [h, Nat.min_eq_left (Nat.le_of_lt h)]
    · rw [List.getElem?_append_right (by simp; omega)]
      have h1 : ¬ k < n + 1 := by omega
      have h2 : n ≠ k := by omega
      have h3 : (List.take n xs).length = n := by
        rw [List.length_take]; exact Nat.min_eq_left (Nat.le_of_lt h)
      rw [if_neg h1, h3]
      have h4 : k - n = (k - n - 1) + 1 := by omega
      rw [h4]; rfl

theorem shift_down_length {α : Type} (d : α) (n : Nat) :
    ∀ (xs : List α) (j : Nat), (shift_down d xs j n).length = xs.length := by
  induction n with
  | zero => intro xs j; rfl
  | succ n ih => intro xs j; simp [shift_down, ih]

theorem shift_down_getElem? {α : Type} (d : α) (n : Nat) :
    ∀ (xs : List α) (j k : Nat), j + n < xs.length →
      (shift_down d xs j n)[k]? = if j ≤ k ∧ k < j + n then xs[k + 1]? else xs[k]? := by
  induction n with
  | zero => intro xs j k _; rw [shift_down, if_neg (by omega)]
  | succ n ih =>
    intro xs j k h
    have hlen : j + 1 + n < (xs.set j (xs.getD (j + 1) d)).length := by simp; omega
    rw [shift_down, ih _ (j + 1) k hlen]
    have hj1 : xs.getD (j + 1) d = xs[j + 1] := by
      rw [List.getD_eq_getElem?_getD, List.getElem?_eq_getElem (by omega)]; rfl
    simp only [List.getElem?_set, hj1]
    by_cases hk : k = j
    · subst hk
      have h1 : ¬ (k + 1 ≤ k ∧ k < k + 1 + n) := by omega
      have h2 : k ≤ k ∧ k < k + (n + 1) := by omega
      have h3 : k < xs.length := by omega
      rw [if_neg h1, if_pos h2]
      simp [h3, List.getElem?_eq_getElem (show k + 1 < xs.length by omega)]
    · by_cases hr : j + 1 ≤ k ∧ k < j + 1 + n
      · have h2 : j ≤ k ∧ k < j + (n + 1) := by omega
        have h3 : j ≠ k + 1 := by omega
        rw [if_pos hr, if_pos h2, if_neg h3]
      · have h2 : ¬ (j ≤ k ∧ k < j + (n + 1)) := by omega
        have h3 : j ≠ k := by omega
        rw [if_neg hr, if_neg h2, if_neg h3]

theorem shift_down_take {α : Type} (d : α) (xs : List α) (i n : Nat)
    (h : i + n < xs.length) :
    ((shift_down d xs i n).set (i + n) d).take (i + n) = (xs.take (i + n + 1)).eraseIdx i := by
  apply List.ext_getElem?
  intro k
  rw [List.getElem?_take, List.getElem?_eraseIdx, List.getElem?_set,
    shift_down_getElem? d n xs i k h, List.getElem?_take, List.getElem?_take]
  by_cases hk : k < i + n
  · have h1 : i + n ≠ k := by omega
    rw [if_pos hk, if_neg h1]
    by_cases hi : k < i
    · have h2 : ¬ (i ≤ k ∧ k < i + n) := by omega
      rw [if_neg h2, if_pos hi, if_pos (by omega)]
    · have h2 : i ≤ k ∧ k < i + n := by omega
      rw [if_pos h2, if_neg hi, if_pos (by omega)]
  · rw [if_neg hk, if_neg (by omega), if_neg (by omega)]

theorem sum_map_eraseIdx {α : Type} (f : α → Nat) :
    ∀ (l : List α) (i : Nat) (x : α), l[i]? = some x →
      ((l.eraseIdx i).map f).sum + f x = (l.map f).sum := by
  intro l
  induction l with
  | nil => intro i x h; simp at h
  | cons a l ih =>
    intro i x h
    cases i with
    | zero => simp at h; subst h; simp; omega
    | succ i =>
      simp at h
      have := ih i x h
      simp [List.eraseIdx]; omega

/-! ### The lookup loop -/

theorem find_key_eq_none (keys : List (Option CStr)) (key : CStr) (n : Nat) :
    ∀ i, find_key keys key i n = none ↔
      ∀ j, i ≤ j → j < i + n → keys.getD j none ≠ some key := by
  induction n with
  | zero => intro i; simp [find_key]; intro j h1 h2; omega
  | succ n ih =>
    intro i
    rw [find_key]
    by_cases h : keys.getD i none = some key
    · simp only [h, if_true]
      constructor
      · intro hx; cases hx
      · intro hx; exact absurd h (hx i (Nat.le_refl _) (by omega))
    · rw [if_neg h, ih]
      constructor
      · intro hx j h1 h2
        by_cases hj : j = i
        · subst hj; exact h
        · exact hx j (by omega) (by omega)
      · intro hx j h1 h2
        exact hx j (by omega) (by omega)

theorem find_key_eq_some (keys : List (Option CStr)) (key : CStr) (n : Nat) :
    ∀ i r, find_key keys key i n = some r ↔
      (i ≤ r ∧ r < i + n ∧ keys.getD r none = some key ∧
        ∀ j, i ≤ j → j < r → keys.getD j none ≠ some key) := by
  induction n with
  | zero => intro i r; simp [find_key]; intro h1 h2; omega
  | succ n ih =>
    intro i r
    rw [find_key]
    by_cases h : keys.getD i none = some key
    · simp only [h, if_true, Option.some.injEq]
      constructor
      · intro hx; subst hx
        exact ⟨Nat.le_refl _, by omega, h, fun j h1 h2 => by omega⟩
      · rintro ⟨h1, _, _, h4⟩
        by_contra hne
        exact h4 i (Nat.le_refl _) (by omega) h
    · rw [if_neg h, ih]
      constructor
      · rintro ⟨h1, h2, h3, h4⟩
        refine ⟨by omega, by omega, h3, ?_⟩
        intro j hj1 hj2
        by_cases hj : j = i
        · subst hj; exact h
        · exact h4 j (by omega) hj2
      · rintro ⟨h1, h2, h3, h4⟩
        have : r ≠ i := by rintro rfl; exact h h3
        exact ⟨by omega, by omega, h3, fun j hj1 hj2 => h4 j (by omega) hj2⟩

theorem mem_take_iff_getElem? {α : Type} (xs : List α) (x : α) (n : Nat) :
    x ∈ xs.take n ↔ ∃ j, j < n ∧ j < xs.length ∧ xs[j]? = some x := by
  rw [List.mem_iff_getElem?]
  constructor
  · rintro ⟨j, hj⟩
    rw [List.getElem?_take] at hj
    by_cases h : j < n
    · rw [if_pos h] at hj
      refine ⟨j, h, ?_, hj⟩
      by_contra hx
      rw [List.getElem?_eq_none (by omega)] at hj; cases hj
    · rw [if_neg h] at hj; cases hj
  · rintro ⟨j, h1, _, h3⟩
    exact ⟨j, by rw [List.getElem?_take, if_pos h1]; exact h3⟩

/-! ## Lemmas: reference counting -/

theorem load_store_same (h : Heap) (p : Nat) (v : RefCountedValue)
    (hp : p - 1 < h.cells.length) : (h.store p v).load p = v := by
  simp [Heap.load, Heap.store, List.getD_eq_getElem?_getD, hp]

theorem load_create (h : Heap) (d c : Nat) :
    (ref_counted_value_create h d c).2.load (ref_counted_value_create h d c).1 = ⟨d, 1, c⟩ := by
  simp [Heap.load, ref_counted_value_create, List.getD_eq_getElem?_getD]

theorem refLive_create (h : Heap) (d c : Nat) :
    RefLive h.cleanup_calls d c (ref_counted_value_create h d c).1
      (ref_counted_value_create h d c).2 := by
  refine ⟨?_, ?_, Or.inl ?_⟩
  · simp [ref_counted_value_create]
  · simp [ref_counted_value_create]
  · rw [load_create]; simp [ref_counted_value_create]

theorem release_calls (h : Heap) (p : Nat) :
    (ref_counted_value_release h p).2.cleanup_calls =
      if p ≠ 0 ∧ (h.load p).ref_count = 1 ∧ (h.load p).cleanup ≠ 0 ∧ (h.load p).data ≠ 0 then
        h.cleanup_calls ++ [((h.load p).cleanup, (h.load p).data)]
      else h.cleanup_calls := by
  unfold ref_counted_value_release
  by_cases hp : p = 0
  · simp [hp]
  · by_cases h0 : (h.load p).ref_count = 0
    · simp [hp, h0]
    · by_cases h1 : (h.load p).ref_count = 1
      · simp only [hp, h1, if_false]
        split_ifs <;> simp_all
      · have : (h.load p).ref_count - 1 ≠ 0 := by omega
        simp [hp, h0, h1, this, Heap.store]

theorem retain_calls (h : Heap) (p : Nat) :
    (ref_counted_value_retain h p).2.cleanup_calls = h.cleanup_calls := by
  unfold ref_counted_value_retain
  split
  · rfl
  · split
    · rfl
    · simp [Heap.store]

theorem release_length (h : Heap) (p : Nat) :
    (ref_counted_value_release h p).2.cells.length = h.cells.length := by
  unfold ref_counted_value_release
  simp only
  split_ifs <;> simp [Heap.store]

theorem retain_length (h : Heap) (p : Nat) :
    (ref_counted_value_retain h p).2.cells.length = h.cells.length := by
  unfold ref_counted_value_retain
  split_ifs <;> simp [Heap.store]

theorem release_load (h : Heap) (p : Nat) (hp : p ≠ 0) (hl : p - 1 < h.cells.length) :
    (ref_counted_value_release h p).2.load p =
      if (h.load p).ref_count = 0 then h.load p
      else if (h.load p).ref_count = 1 then ⟨0, 0, 0⟩
      else { h.load p with ref_count := (h.load p).ref_count - 1 } := by
  unfold ref_counted_value_release
  by_cases h0 : (h.load p).ref_count = 0
  · simp [hp, h0]
  · by_cases h1 : (h.load p).ref_count = 1
    · have e : (h.load p).ref_count - 1 = 0 := by omega
      simp only
      rw [if_neg hp, if_neg h0, if_pos e, if_neg h0, if_pos h1]
      simp [Heap.load, List.getD_eq_getElem?_getD, hl]
    · have : (h.load p).ref_count - 1 ≠ 0 := by omega
      simp only [hp, h0, h1, this, if_false]
      exact load_store_same h p _ hl

theorem retain_load (h : Heap) (p : Nat) (hp : p ≠ 0) (hl : p - 1 < h.cells.length) :
    (ref_counted_value_retain h p).2.load p =
      if (h.load p).ref_count ≥ SIZE_MAX then h.load p
      else { h.load p with ref_count := (h.load p).ref_count + 1 } := by
  unfold ref_counted_value_retain
  by_cases h0 : (h.load p).ref_count ≥ SIZE_MAX
  · simp [hp, h0]
  · simp only [hp, h0, if_false]
    exact load_store_same h p _ hl

theorem refLive_apply (calls : List (Nat × Nat)) (d c p : Nat) (hd : d ≠ 0) (hc : c ≠ 0)
    (h : Heap) (op : RefOp) (hl : RefLive calls d c p h) :
    RefLive calls d c p (RefOp.apply p h op) := by
  obtain ⟨hlen, hp, hst⟩ := hl
  cases op with
  | retain =>
    refine ⟨by simpa [RefOp.apply, retain_length] using hlen, hp, ?_⟩
    simp only [RefOp.apply, retain_calls, retain_load h p hp hlen]
    rcases hst with ⟨h1, h2, h3, h4⟩ | ⟨h1, h2, h3⟩
    · left; split_ifs <;> simp_all
    · right; split_ifs <;> simp_all
  | release =>
    refine ⟨by simpa [RefOp.apply, release_length] using hlen, hp, ?_⟩
    simp only [RefOp.apply, release_calls, release_load h p hp hlen]
    rcases hst with ⟨h1, h2, h3, h4⟩ | ⟨h1, h2, h3⟩
    · by_cases h5 : (h.load p).ref_count = 1
      · right; simp [h5, hp, h1, h2, h3, hd, hc]
      · left
        have h6 : (h.load p).ref_count ≠ 0 := by omega
        simp [h5, h6, h1, h2, h3]; omega
    · right
      have : ¬ (p ≠ 0 ∧ (h.load p).ref_count = 1 ∧ (h.load p).cleanup ≠ 0 ∧ (h.load p).data ≠ 0) := by
        simp [h3]
      rw [if_neg this]
      split_ifs <;> simp_all

theorem refLive_run (calls : List (Nat × Nat)) (d c p : Nat) (hd : d ≠ 0) (hc : c ≠ 0)
    (ops : List RefOp) : ∀ (h : Heap), RefLive calls d c p h →
    RefLive calls d c p (run_ref_ops p ops h) := by
  induction ops with
  | nil => intro h hl; exact hl
  | cons op ops ih =>
    intro h hl
    exact ih _ (refLive_apply calls d c p hd hc h op hl)

theorem run_ref_ops_snoc (p : Nat) (ops : List RefOp) (op : RefOp) (h : Heap) :
    run_ref_ops p (ops ++ [op]) h = RefOp.apply p (run_ref_ops p ops h) op := by
  simp [run_ref_ops, List.foldl_append]

theorem run_ref_ops_append (p : Nat) (ops1 ops2 : List RefOp) (h : Heap) :
    run_ref_ops p (ops1 ++ ops2) h = run_ref_ops p ops2 (run_ref_ops p ops1 h) := by
  simp [run_ref_ops, List.foldl_append]

theorem run_retains (d c p : Nat) (hp : p ≠ 0) :
    ∀ (n : Nat) (h : Heap) (m : Nat), p - 1 < h.cells.length → h.load p = ⟨d, m, c⟩ →
      m + n ≤ SIZE_MAX →
      p - 1 < (run_ref_ops p (List.replicate n RefOp.retain) h).cells.length ∧
      (run_ref_ops p (List.replicate n RefOp.retain) h).load p = ⟨d, m + n, c⟩ ∧
      (run_ref_ops p (List.replicate n RefOp.retain) h).cleanup_calls = h.cleanup_calls := by
  intro n
  induction n with
  | zero => intro h m hl hv _; exact ⟨hl, by simpa [run_ref_ops] using hv, rfl⟩
  | succ n ih =>
    intro h m hl hv hm
    have hlt : ¬ (h.load p).ref_count ≥ SIZE_MAX := by rw [hv]; simp only; omega
    have hl1 : p - 1 < (ref_counted_value_retain h p).2.cells.length := by
      rw [retain_length]; exact hl
    have hv1 : (ref_counted_value_retain h p).2.load p = ⟨d, m + 1, c⟩ := by
      rw [retain_load h p hp hl, if_neg hlt, hv]
    obtain ⟨a, b, e⟩ := ih _ (m + 1) hl1 hv1 (by omega)
    simp only [List.replicate_succ, run_ref_ops, List.foldl_cons, RefOp.apply] at a b e ⊢
    refine ⟨a, ?_, ?_⟩
    · rw [b]; congr 1; omega
    · rw [e, retain_calls]

theorem run_releases (d c p : Nat) (hp : p ≠ 0) :
    ∀ (k : Nat) (h : Heap) (m : Nat), p - 1 < h.cells.length → h.load p = ⟨d, m, c⟩ →
      k < m →
      p - 1 < (run_ref_ops p (List.replicate k RefOp.release) h).cells.length ∧
      (run_ref_ops p (List.replicate k RefOp.release) h).load p = ⟨d, m - k, c⟩ ∧
      (run_ref_ops p (List.replicate k RefOp.release) h).cleanup_calls = h.cleanup_calls := by
  intro k
  induction k with
  | zero => intro h m hl hv _; exact ⟨hl, by simpa [run_ref_ops] using hv, rfl⟩
  | succ k ih =>
    intro h m hl hv hm
    have h0 : ¬ (h.load p).ref_count = 0 := by rw [hv]; simp only; omega
    have h1 : ¬ (h.load p).ref_count = 1 := by rw [hv]; simp only; omega
    have hl1 : p - 1 < (ref_counted_value_release h p).2.cells.length := by
      rw [release_length]; exact hl
    have hv1 : (ref_counted_value_release h p).2.load p = ⟨d, m - 1, c⟩ := by
      rw [release_load h p hp hl, if_neg h0, if_neg h1, hv]
    have hc1 : (ref_counted_value_release h p).2.cleanup_calls = h.cleanup_calls := by
      rw [release_calls, if_neg]
      intro hx; exact h1 hx.2.1
    obtain ⟨a, b, e⟩ := ih _ (m - 1) hl1 hv1 (by omega)
    simp only [List.replicate_succ, run_ref_ops, List.foldl_cons, RefOp.apply] at a b e ⊢
    refine ⟨a, ?_, ?_⟩
    · rw [b]; congr 1; omega
    · rw [e, hc1]

/-! ## Lemmas: the context invariant -/

theorem size_add_small (a b : Nat) (h : a + b < 2 ^ 64) : size_add a b = a + b := by
  unfold size_add; exact Nat.mod_eq_of_lt h

theorem size_sub_small (a b : Nat) (h1 : b ≤ a) (h2 : a < 2 ^ 64) : size_sub a b = a - b := by
  unfold size_sub
  have hb : b % 2 ^ 64 = b := Nat.mod_eq_of_lt (by omega)
  rw [hb]
  have : a + (2 ^ 64 - b) = (a - b) + 2 ^ 64 := by omega
  rw [this, Nat.add_mod_right]
  exact Nat.mod_eq_of_lt (by omega)

theorem safe_strnlen_valid (key : CStr) (hk : key.length ≤ EVENTCHAINS_MAX_KEY_LENGTH) :
    safe_strnlen key (EVENTCHAINS_MAX_KEY_LENGTH + 1) = key.length := by
  unfold safe_strnlen; rw [if_pos (by omega)]

theorem strndup_valid (key : CStr) (hk : key.length ≤ EVENTCHAINS_MAX_KEY_LENGTH) :
    strndup key EVENTCHAINS_MAX_KEY_LENGTH = key := by
  unfold strndup safe_strnlen
  split_ifs
  · exact List.take_length key
  · exact List.take_of_length_le hk

theorem sum_map_le {α : Type} (f : α → Nat) (B : Nat) :
    ∀ l : List α, (∀ x ∈ l, f x ≤ B) → (l.map f).sum ≤ l.length * B := by
  intro l
  induction l with
  | nil => intro _; simp
  | cons a l ih =>
    intro h
    have h1 := h a (List.mem_cons_self a l)
    have h2 := ih (fun x hx => h x (List.mem_cons_of_mem a hx))
    simp only [List.map_cons, List.sum_cons, List.length_cons, Nat.add_mul, Nat.one_mul]
    omega

theorem CtxInv.memory_le {c : EventContext} (hI : CtxInv c) :
    c.total_memory_bytes ≤ 40 + 16 * c.capacity + 281 * c.count := by
  have h1 : ((c.keys.take c.count).map entry_charge).sum ≤ (c.keys.take c.count).length * 281 := by
    apply sum_map_le
    intro x hx
    obtain ⟨k, rfl, _, hk⟩ := hI.keys_valid x hx
    simp only [entry_charge, strlen, Option.getD_some, sizeof_RefCountedValue]
    simp only [EVENTCHAINS_MAX_KEY_LENGTH] at hk
    omega
  have h2 : (c.keys.take c.count).length = c.count := by
    rw [List.length_take, hI.keys_len]; exact Nat.min_eq_left hI.count_le
  rw [h2] at h1
  rw [hI.memory]
  simp only [sizeof_EventContext, sizeof_ptr]
  omega

theorem CtxInv.live_length {c : EventContext} (hI : CtxInv c) :
    (c.keys.take c.count).length = c.count := by
  rw [List.length_take, hI.keys_len]; exact Nat.min_eq_left hI.count_le

theorem CtxInv.live_values_length {c : EventContext} (hI : CtxInv c) :
    (c.values.take c.count).length = c.count := by
  rw [List.length_take, hI.values_len]; exact Nat.min_eq_left hI.count_le

theorem set_eq_replace (h : Heap) (c : EventContext) (key : CStr) (v cl i : Nat)
    (hk1 : 0 < key.length) (hk2 : key.length ≤ EVENTCHAINS_MAX_KEY_LENGTH)
    (hf : find_key c.keys key 0 c.count = some i) :
    event_context_set_with_cleanup h c (some key) v cl =
      (EC_SUCCESS,
        (ref_counted_value_create
          (if c.values.getD i 0 ≠ 0 then (ref_counted_value_release h (c.values.getD i 0)).2
            else h) v cl).2,
        { c with
          values := c.values.set i
            (ref_counted_value_create
              (if c.values.getD i 0 ≠ 0 then (ref_counted_value_release h (c.values.getD i 0)).2
                else h) v cl).1
          total_memory_bytes :=
            size_add
              (if c.values.getD i 0 ≠ 0 then
                size_sub c.total_memory_bytes sizeof_RefCountedValue
              else c.total_memory_bytes) sizeof_RefCountedValue }) := by
  unfold event_context_set_with_cleanup
  simp only [safe_strnlen_valid key hk2, hf]
  rw [if_neg (by omega), if_neg (by omega)]

theorem set_eq_insert (h : Heap) (c g : EventContext) (key : CStr) (v cl : Nat)
    (hk1 : 0 < key.length) (hk2 : key.length ≤ EVENTCHAINS_MAX_KEY_LENGTH)
    (hf : find_key c.keys key 0 c.count = none)
    (hc : c.count < EVENTCHAINS_MAX_CONTEXT_ENTRIES)
    (hm : c.total_memory_bytes + (key.length + 25) ≤ EVENTCHAINS_MAX_CONTEXT_MEMORY)
    (hg : expand_if_needed c = some g) :
    event_context_set_with_cleanup h c (some key) v cl =
      (EC_SUCCESS, (ref_counted_value_create h v cl).2,
        { g with
          keys := g.keys.set g.count (some key)
          values := g.values.set g.count (ref_counted_value_create h v cl).1
          total_memory_bytes := size_add g.total_memory_bytes (key.length + 25)
          count := g.count + 1 }) := by
  have hk3 : key.length ≤ 256 := hk2
  have hm' : c.total_memory_bytes + (key.length + 25) ≤ 10485760 := hm
  have e1 : size_add (size_add key.length 1) sizeof_RefCountedValue = key.length + 25 := by
    rw [size_add_small key.length 1 (by omega), sizeof_RefCountedValue,
      size_add_small _ _ (by omega)]
  have e2 : safe_add c.total_memory_bytes (key.length + 25) =
      some (c.total_memory_bytes + (key.length + 25)) := by
    unfold safe_add SIZE_MAX; rw [if_neg (by omega)]
  unfold event_context_set_with_cleanup
  simp only [safe_strnlen_valid key hk2, hf, e1, e2, hg, strndup_valid key hk2]
  rw [if_neg (by omega), if_neg (by omega), if_neg (by omega), if_neg (by omega)]

theorem expand_spec (c : EventContext) (hI : CtxInv c)
    (hc : c.count < EVENTCHAINS_MAX_CONTEXT_ENTRIES) :
    ∃ g, expand_if_needed c = some g ∧ g.count = c.count ∧ g.count < g.capacity ∧
      g.keys.length = g.capacity ∧ g.values.length = g.capacity ∧
      g.capacity ≤ EVENTCHAINS_MAX_CONTEXT_ENTRIES ∧ c.capacity ≤ g.capacity ∧
      g.keys.take c.count = c.keys.take c.count ∧
      g.values.take c.count = c.values.take c.count ∧
      g.total_memory_bytes =
        c.total_memory_bytes + (g.capacity - c.capacity) * (sizeof_ptr + sizeof_ptr) := by
  have h1 := hI.keys_len
  have h2 := hI.values_len
  have h3 := hI.count_le
  have h4 := hI.cap_pos
  have h5 := hI.cap_le
  have h6 := hI.memory_le
  simp only [EVENTCHAINS_MAX_CONTEXT_ENTRIES] at hc h5 ⊢
  unfold expand_if_needed
  by_cases hfull : c.count ≥ c.capacity
  · have hcap : c.capacity = c.count := by omega
    have m1 : safe_multiply c.capacity 2 = some (c.capacity * 2) := by
      unfold safe_multiply SIZE_MAX
      rw [if_neg (by omega), if_neg (by omega)]
    have m2 : safe_multiply c.capacity (sizeof_ptr + sizeof_ptr) = some (c.capacity * 16) := by
      unfold safe_multiply SIZE_MAX sizeof_ptr
      rw [if_neg (by omega), if_neg (by omega)]
    rw [if_pos hfull]
    simp only [m1, EVENTCHAINS_MAX_CONTEXT_ENTRIES]
    generalize hn : (if c.capacity * 2 > 512 then 512 else c.capacity * 2) = nc
    have hnc : c.capacity < nc ∧ nc ≤ 512 := by
      rw [← hn]; split_ifs <;> omega
    have m3 : safe_multiply nc (sizeof_ptr + sizeof_ptr) = some (nc * 16) := by
      unfold safe_multiply SIZE_MAX sizeof_ptr
      rw [if_neg (by omega), if_neg (by omega)]
    refine ⟨_, rfl, rfl, ?_, ?_, ?_, ?_, ?_, ?_, ?_, ?_⟩
    · simp only; omega
    · simp only [realloc_zeroed, List.length_append, List.length_take, List.length_replicate]
      omega
    · simp only [realloc_zeroed, List.length_append, List.length_take, List.length_replicate]
      omega
    · exact hnc.2
    · simp only; omega
    · simp only [realloc_zeroed]
      rw [List.take_of_length_le (show c.keys.length ≤ nc by omega),
        List.take_append_of_le_length (by omega)]
    · simp only [realloc_zeroed]
      rw [List.take_of_length_le (show c.values.length ≤ nc by omega),
        List.take_append_of_le_length (by omega)]
    · simp only [m2, m3, Option.getD_some]
      rw [size_sub_small _ _ (by omega) (by omega), size_add_small _ _ (by omega)]
      simp only [sizeof_ptr]
      omega
  · rw [if_neg hfull]
    refine ⟨c, rfl, rfl, by omega, h1, h2, h5, Nat.le_refl _, rfl, rfl, by simp⟩

theorem set_eq_too_long (h : Heap) (c : EventContext) (key : CStr) (v cl : Nat)
    (hk : EVENTCHAINS_MAX_KEY_LENGTH < key.length) :
    event_context_set_with_cleanup h c (some key) v cl = (EC_ERROR_KEY_TOO_LONG, h, c) := by
  have e : safe_strnlen key (EVENTCHAINS_MAX_KEY_LENGTH + 1) = EVENTCHAINS_MAX_KEY_LENGTH + 1 := by
    unfold safe_strnlen; rw [if_neg (by omega)]
  unfold event_context_set_with_cleanup
  simp only [e]
  rw [if_pos (by omega)]

theorem set_eq_empty (h : Heap) (c : EventContext) (key : CStr) (v cl : Nat)
    (hk : key.length = 0) :
    event_context_set_with_cleanup h c (some key) v cl = (EC_ERROR_INVALID_PARAMETER, h, c) := by
  have e : safe_strnlen key (EVENTCHAINS_MAX_KEY_LENGTH + 1) = 0 := by
    unfold safe_strnlen; rw [if_pos (by omega)]; exact hk
  unfold event_context_set_with_cleanup
  simp only [e]
  rfl

theorem set_eq_capacity (h : Heap) (c : EventContext) (key : CStr) (v cl : Nat)
    (hk1 : 0 < key.length) (hk2 : key.length ≤ EVENTCHAINS_MAX_KEY_LENGTH)
    (hf : find_key c.keys key 0 c.count = none)
    (hc : EVENTCHAINS_MAX_CONTEXT_ENTRIES ≤ c.count) :
    event_context_set_with_cleanup h c (some key) v cl = (EC_ERROR_CAPACITY_EXCEEDED, h, c) := by
  unfold event_context_set_with_cleanup
  simp only [safe_strnlen_valid key hk2, hf]
  rw [if_neg (by omega), if_neg (by omega), if_pos hc]

theorem mem_live_getD {α : Type} (xs : List α) (d : α) (n i : Nat)
    (h1 : i < n) (h2 : n ≤ xs.length) : xs.getD i d ∈ xs.take n := by
  rw [mem_take_iff_getElem?]
  refine ⟨i, h1, by omega, ?_⟩
  rw [List.getD_eq_getElem?_getD, List.getElem?_eq_getElem (by omega)]
  rfl

theorem not_mem_live_of_find_none (keys : List (Option CStr)) (key : CStr) (n : Nat)
    (hf : find_key keys key 0 n = none) : some key ∉ keys.take n := by
  rw [find_key_eq_none] at hf
  intro hmem
  rw [mem_take_iff_getElem?] at hmem
  obtain ⟨j, h1, _, h3⟩ := hmem
  apply hf j (Nat.zero_le _) (by omega)
  rw [List.getD_eq_getElem?_getD, h3]
  rfl

theorem set_inv (h : Heap) (c : EventContext) (key : Option CStr) (v cl : Nat)
    (hI : CtxInv c) : CtxInv (event_context_set_with_cleanup h c key v cl).2.2 := by
  cases key with
  | none => exact hI
  | some key =>
    by_cases hk2 : key.length ≤ EVENTCHAINS_MAX_KEY_LENGTH
    swap
    · rw [set_eq_too_long h c key v cl (by omega)]; exact hI
    by_cases hk1 : 0 < key.length
    swap
    · rw [set_eq_empty h c key v cl (by omega)]; exact hI
    cases hf : find_key c.keys key 0 c.count with
    | some i =>
      rw [set_eq_replace h c key v cl i hk1 hk2 hf]
      obtain ⟨_, hi, _, _⟩ := (find_key_eq_some c.keys key c.count 0 i).1 hf
      have hi' : i < c.count := by omega
      have hold : c.values.getD i 0 ≠ 0 :=
        hI.values_nonnull _ (mem_live_getD c.values 0 c.count i hi'
          (by rw [hI.values_len]; exact hI.count_le))
      have hmem := hI.memory
      have hle := hI.memory_le
      have hcap := hI.cap_le
      have hcnt := hI.count_le
      simp only [EVENTCHAINS_MAX_CONTEXT_ENTRIES] at hcap
      refine ⟨hI.keys_len, ?_, hI.count_le, hI.cap_pos, hI.cap_le, hI.keys_valid,
        hI.keys_nodup, ?_, ?_⟩
      · simp only [List.length_set]; exact hI.values_len
      · intro p hp
        simp only [List.set_take] at hp
        rcases List.mem_or_eq_of_mem_set hp with hp | hp
        · exact hI.values_nonnull p hp
        · rw [hp]; simp [ref_counted_value_create]
      · simp only [if_pos hold]
        rw [size_sub_small _ _ (by rw [hmem]; simp only [sizeof_RefCountedValue, sizeof_EventContext]; omega)
          (by omega), sizeof_RefCountedValue, size_add_small _ _ (by omega)]
        rw [← hmem]
        have : 24 ≤ c.total_memory_bytes := by
          rw [hmem]; simp only [sizeof_EventContext]; omega
        omega
    | none =>
      by_cases hc : EVENTCHAINS_MAX_CONTEXT_ENTRIES ≤ c.count
      · rw [set_eq_capacity h c key v cl hk1 hk2 hf hc]; exact hI
      · have hc' : c.count < EVENTCHAINS_MAX_CONTEXT_ENTRIES := by omega
        obtain ⟨g, hg, g1, g2, g3, g4, g5, g6, g7, g8, g9⟩ := expand_spec c hI hc'
        have hle := hI.memory_le
        have hcap := hI.cap_le
        have hcnt := hI.count_le
        have hk2' := hk2
        have hc'' := hc'
        simp only [EVENTCHAINS_MAX_CONTEXT_ENTRIES, EVENTCHAINS_MAX_KEY_LENGTH] at hcap hk2' hc'' g5
        have hm : c.total_memory_bytes + (key.length + 25) ≤ EVENTCHAINS_MAX_CONTEXT_MEMORY := by
          simp only [EVENTCHAINS_MAX_CONTEXT_MEMORY]; omega
        rw [set_eq_insert h c g key v cl hk1 hk2 hf hc' hm hg]
        have lk : (g.keys.set g.count (some key)).take (g.count + 1) =
            c.keys.take c.count ++ [some key] := by
          rw [take_succ_set _ _ _ (by omega), g1, g7]
        have lv : (g.values.set g.count (ref_counted_value_create h v cl).1).take (g.count + 1) =
            c.values.take c.count ++ [(ref_counted_value_create h v cl).1] := by
          rw [take_succ_set _ _ _ (by omega), g1, g8]
        refine ⟨?_, ?_, ?_, ?_, g5, ?_, ?_, ?_, ?_⟩
        · simp only [List.length_set]; exact g3
        · simp only [List.length_set]; exact g4
        · simp only; omega
        · simp only; have := hI.cap_pos; omega
        · simp only [lk]
          intro x hx
          rcases List.mem_append.1 hx with hx | hx
          · exact hI.keys_valid x hx
          · simp only [List.mem_singleton] at hx
            exact ⟨key, hx, hk1, hk2⟩
        · simp only [lk]
          rw [List.nodup_append]
          refine ⟨hI.keys_nodup, List.nodup_singleton _, ?_⟩
          intro x hx hy
          simp only [List.mem_singleton] at hy
          subst hy
          exact not_mem_live_of_find_none c.keys key c.count hf hx
        · simp only [lv]
          intro p hp
          rcases List.mem_append.1 hp with hp | hp
          · exact hI.values_nonnull p hp
          · simp only [List.mem_singleton] at hp
            rw [hp]; simp [ref_counted_value_create]
        · simp only [lk, List.map_append, List.sum_append, List.map_cons, List.map_nil,
            List.sum_cons, List.sum_nil]
          have hmem := hI.memory
          simp only [sizeof_ptr] at g9 hmem ⊢
          rw [size_add_small _ _ (by omega), g9, hmem]
          simp only [entry_charge, strlen, Option.getD_some, sizeof_RefCountedValue,
            sizeof_EventContext]
          have : (g.capacity - c.capacity) * 16 + c.capacity * 16 = g.capacity * 16 := by
            rw [← Nat.add_mul]; congr 1; omega
          omega

theorem remove_eq_found (h : Heap) (c : EventContext) (key : CStr) (i : Nat)
    (hf : find_key c.keys key 0 c.count = some i) :
    event_context_remove h c (some key) =
      (EC_SUCCESS,
        if c.values.getD i 0 ≠ 0 then (ref_counted_value_release h (c.values.getD i 0)).2 else h,
        { c with
          keys := (shift_down none c.keys i (c.count - 1 - i)).set (c.count - 1) none
          values := (shift_down 0 c.values i (c.count - 1 - i)).set (c.count - 1) 0
          total_memory_bytes :=
            size_sub c.total_memory_bytes
              (size_add (size_add (strlen ((c.keys.getD i none).getD [])) 1)
                sizeof_RefCountedValue)
          count := c.count - 1 }) := by
  unfold event_context_remove
  simp only [hf]

theorem remove_eq_not_found (h : Heap) (c : EventContext) (key : CStr)
    (hf : find_key c.keys key 0 c.count = none) :
    event_context_remove h c (some key) = (EC_ERROR_NOT_FOUND, h, c) := by
  unfold event_context_remove
  simp only [hf]

theorem remove_live {α : Type} (d : α) (xs : List α) (i count : Nat) (hi : i < count)
    (hc : count ≤ xs.length) :
    ((shift_down d xs i (count - 1 - i)).set (count - 1) d).take (count - 1) =
      (xs.take count).eraseIdx i := by
  have e : count - 1 = i + (count - 1 - i) := by omega
  have e2 : count = i + (count - 1 - i) + 1 := by omega
  rw [e2]
  simp only [Nat.add_sub_cancel]
  have e3 : i + (count - 1 - i) - i = count - 1 - i := by omega
  rw [e3]
  exact shift_down_take d xs i (count - 1 - i) (by omega)

theorem remove_inv (h : Heap) (c : EventContext) (key : Option CStr)
    (hI : CtxInv c) : CtxInv (event_context_remove h c key).2.2 := by
  cases key with
  | none => exact hI
  | some key =>
    cases hf : find_key c.keys key 0 c.count with
    | none => rw [remove_eq_not_found h c key hf]; exact hI
    | some i =>
      rw [remove_eq_found h c key i hf]
      obtain ⟨_, hi, hki, _⟩ := (find_key_eq_some c.keys key c.count 0 i).1 hf
      have hi' : i < c.count := by omega
      have hkl := hI.keys_len
      have hvl := hI.values_len
      have hcnt := hI.count_le
      have lk := remove_live none c.keys i c.count hi' (by omega)
      have lv := remove_live 0 c.values i c.count hi' (by omega)
      refine ⟨?_, ?_, ?_, hI.cap_pos, hI.cap_le, ?_, ?_, ?_, ?_⟩
      · simp only [List.length_set, shift_down_length]; exact hkl
      · simp only [List.length_set, shift_down_length]; exact hvl
      · simp only; omega
      · simp only [lk]
        intro x hx
        exact hI.keys_valid x (List.mem_of_mem_eraseIdx hx)
      · simp only [lk]
        exact List.Nodup.sublist (List.eraseIdx_sublist _ _) hI.keys_nodup
      · simp only [lv]
        intro p hp
        exact hI.values_nonnull p (List.mem_of_mem_eraseIdx hp)
      · simp only [lk]
        have hget : (c.keys.take c.count)[i]? = some (some key) := by
          rw [List.getElem?_take, if_pos hi', ← hki, List.getD_eq_getElem?_getD,
            List.getElem?_eq_getElem (by omega)]
          rfl
        have hsum := sum_map_eraseIdx entry_charge (c.keys.take c.count) i (some key) hget
        have hk := hI.keys_valid (some key) ((List.mem_iff_getElem?).2 ⟨i, hget⟩)
        obtain ⟨k, hk0, _, hk2⟩ := hk
        cases hk0
        have hle := hI.memory_le
        have hcap := hI.cap_le
        have hmem := hI.memory
        simp only [EVENTCHAINS_MAX_CONTEXT_ENTRIES, EVENTCHAINS_MAX_KEY_LENGTH] at hcap hk2
        simp only [entry_charge, strlen, Option.getD_some, sizeof_RefCountedValue] at hsum
        simp only [hki, strlen, Option.getD_some, sizeof_RefCountedValue]
        rw [size_add_small _ 1 (by omega), size_add_small _ 24 (by omega),
          size_sub_small _ _ (by rw [hmem]; omega) (by omega), hmem]
        omega

theorem clear_loop_length (n : Nat) :
    ∀ (h : Heap) (keys : List (Option CStr)) (values : List Nat) (i : Nat),
      (clear_loop h keys values i n).2.1.length = keys.length ∧
      (clear_loop h keys values i n).2.2.length = values.length := by
  induction n with
  | zero => intro h keys values i; exact ⟨rfl, rfl⟩
  | succ n ih =>
    intro h keys values i
    rw [clear_loop]
    obtain ⟨a, b⟩ := ih
      (if values.getD i 0 ≠ 0 then (ref_counted_value_release h (values.getD i 0)).2 else h)
      (if keys.getD i none ≠ none then keys.set i none else keys)
      (if values.getD i 0 ≠ 0 then values.set i 0 else values) (i + 1)
    rw [a, b]
    constructor
    · split_ifs <;> simp
    · split_ifs <;> simp

theorem clear_inv (h : Heap) (c : EventContext) (hI : CtxInv c) :
    CtxInv (event_context_clear h c).2 := by
  have hcap := hI.cap_le
  simp only [EVENTCHAINS_MAX_CONTEXT_ENTRIES] at hcap
  obtain ⟨a, b⟩ := clear_loop_length c.count h c.keys c.values 0
  refine ⟨?_, ?_, ?_, hI.cap_pos, hI.cap_le, ?_, ?_, ?_, ?_⟩
  · simp only [event_context_clear]; rw [a]; exact hI.keys_len
  · simp only [event_context_clear]; rw [b]; exact hI.values_len
  · simp only [event_context_clear]; exact Nat.zero_le _
  · simp [event_context_clear]
  · simp [event_context_clear]
  · simp [event_context_clear]
  · simp only [event_context_clear, List.take_zero, List.map_nil, List.sum_nil, sizeof_ptr,
      sizeof_EventContext]
    have e1 : (8 + 8) % 2 ^ 64 = 16 := by norm_num
    rw [e1, Nat.mod_eq_of_lt (by omega), size_add_small _ _ (by omega)]
    omega

theorem create_eq : event_context_create = some fresh_context := by
  decide

theorem fresh_context_inv : CtxInv fresh_context := by
  refine ⟨rfl, rfl, by decide, by decide, by decide, ?_, ?_, ?_, by decide⟩
  · simp [fresh_context]
  · simp [fresh_context]
  · simp [fresh_context]

theorem create_inv (c : EventContext) (hc : event_context_create = some c) : CtxInv c := by
  rw [create_eq] at hc
  cases hc
  exact fresh_context_inv

theorem apply_inv (s : Heap × EventContext) (op : ContextOp) (hI : CtxInv s.2) :
    CtxInv (op.apply s).2 := by
  cases op with
  | set key value => exact set_inv s.1 s.2 key value 0 hI
  | set_with_cleanup key value cleanup => exact set_inv s.1 s.2 key value cleanup hI
  | remove key => exact remove_inv s.1 s.2 key hI
  | clear => exact clear_inv s.1 s.2 hI

theorem run_ops_inv (ops : List ContextOp) :
    ∀ s : Heap × EventContext, CtxInv s.2 → CtxInv (run_ops ops s).2 := by
  induction ops with
  | nil => intro s hs; exact hs
  | cons op ops ih => intro s hs; exact ih _ (apply_inv s op hs)

/-! ## Lemmas: lookups, insertion and registration -/

theorem find_none_of_not_mem (keys : List (Option CStr)) (key : CStr) (n : Nat)
    (hn : n ≤ keys.length) (hm : some key ∉ keys.take n) :
    find_key keys key 0 n = none := by
  rw [find_key_eq_none]
  intro j _ hj hget
  apply hm
  rw [← hget]
  exact mem_live_getD keys none n j (by omega) hn

theorem nodup_take_getD {α : Type} (xs : List α) (d : α) (n i j : Nat)
    (hnd : (xs.take n).Nodup) (hn : n ≤ xs.length) (hij : i < j) (hj : j < n) :
    xs.getD i d ≠ xs.getD j d := by
  intro heq
  have hl : (xs.take n).length = n := by
    rw [List.length_take]; exact Nat.min_eq_left hn
  have hi' : i < (xs.take n).length := by omega
  have hj' : j < (xs.take n).length := by omega
  have e : (xs.take n)[i] = (xs.take n)[j] := by
    simp only [List.getElem_take]
    rw [List.getD_eq_getElem?_getD, List.getD_eq_getElem?_getD,
      List.getElem?_eq_getElem (by omega), List.getElem?_eq_getElem (by omega)] at heq
    exact heq
  have := (List.Nodup.getElem_inj_iff hnd).1 e
  omega

theorem getD_of_live {α : Type} (xs : List α) (d : α) (n i : Nat) (x : α)
    (h : (xs.take n)[i]? = some x) : xs.getD i d = x := by
  rw [List.getElem?_take] at h
  by_cases hi : i < n
  · rw [if_pos hi] at h
    rw [List.getD_eq_getElem?_getD, h]; rfl
  · rw [if_neg hi] at h; cases h

theorem not_mem_eraseIdx_of_nodup {α : Type} :
    ∀ (l : List α) (i : Nat) (x : α), l.Nodup → l[i]? = some x → x ∉ l.eraseIdx i := by
  intro l
  induction l with
  | nil => intro i x _ h; simp at h
  | cons a l ih =>
    intro i x hnd h
    rw [List.nodup_cons] at hnd
    cases i with
    | zero =>
      simp at h; subst h
      simpa using hnd.1
    | succ i =>
      simp at h
      simp only [List.eraseIdx_cons_succ, List.mem_cons, not_or]
      refine ⟨?_, ih i x hnd.2 h⟩
      rintro rfl
      exact hnd.1 ((List.mem_iff_getElem?).2 ⟨i, h⟩)

/-- What a successful `set_with_cleanup` leaves behind, under the invariant. -/
theorem set_success_spec (h : Heap) (c : EventContext) (key : Option CStr) (v cl : Nat)
    (hI : CtxInv c)
    (hs : (event_context_set_with_cleanup h c key v cl).1 = EC_SUCCESS) :
    ∃ k i, key = some k ∧
      find_key (event_context_set_with_cleanup h c key v cl).2.2.keys k 0
        (event_context_set_with_cleanup h c key v cl).2.2.count = some i ∧
      (event_context_set_with_cleanup h c key v cl).2.2.values.getD i 0 ≠ 0 ∧
      (event_context_set_with_cleanup h c key v cl).2.1.load
        ((event_context_set_with_cleanup h c key v cl).2.2.values.getD i 0) = ⟨v, 1, cl⟩ := by
  cases key with
  | none => cases hs
  | some key =>
    by_cases hk2 : key.length ≤ EVENTCHAINS_MAX_KEY_LENGTH
    swap
    · rw [set_eq_too_long h c key v cl (by omega)] at hs; cases hs
    by_cases hk1 : 0 < key.length
    swap
    · rw [set_eq_empty h c key v cl (by omega)] at hs; cases hs
    cases hf : find_key c.keys key 0 c.count with
    | some i =>
      rw [set_eq_replace h c key v cl i hk1 hk2 hf]
      obtain ⟨_, hi, _, _⟩ := (find_key_eq_some c.keys key c.count 0 i).1 hf
      have hil : i < c.values.length := by
        have := hI.values_len; have := hI.count_le; omega
      refine ⟨key, i, rfl, hf, ?_, ?_⟩
      · simp [List.getD_eq_getElem?_getD, List.getElem?_set, hil, ref_counted_value_create]
      · have e : (c.values.set i (ref_counted_value_create
            (if c.values.getD i 0 ≠ 0 then (ref_counted_value_release h (c.values.getD i 0)).2
              else h) v cl).1).getD i 0 = (ref_counted_value_create
            (if c.values.getD i 0 ≠ 0 then (ref_counted_value_release h (c.values.getD i 0)).2
              else h) v cl).1 := by
          simp [List.getD_eq_getElem?_getD, List.getElem?_set, hil]
        simp only [e]
        exact load_create _ v cl
    | none =>
      by_cases hc : EVENTCHAINS_MAX_CONTEXT_ENTRIES ≤ c.count
      · rw [set_eq_capacity h c key v cl hk1 hk2 hf hc] at hs; cases hs
      · have hc' : c.count < EVENTCHAINS_MAX_CONTEXT_ENTRIES := by omega
        obtain ⟨g, hg, g1, g2, g3, g4, g5, g6, g7, g8, g9⟩ := expand_spec c hI hc'
        have hle := hI.memory_le
        have hcap := hI.cap_le
        have hk2' := hk2
        have hc'' := hc'
        simp only [EVENTCHAINS_MAX_CONTEXT_ENTRIES, EVENTCHAINS_MAX_KEY_LENGTH] at hcap hk2' hc''
        have hm : c.total_memory_bytes + (key.length + 25) ≤ EVENTCHAINS_MAX_CONTEXT_MEMORY := by
          simp only [EVENTCHAINS_MAX_CONTEXT_MEMORY]; omega
        rw [set_eq_insert h c g key v cl hk1 hk2 hf hc' hm hg]
        refine ⟨key, g.count, rfl, ?_, ?_, ?_⟩
        · rw [find_key_eq_some]
          refine ⟨Nat.zero_le _, by simp, ?_, ?_⟩
          · simp [List.getD_eq_getElem?_getD, List.getElem?_set, g3, g2]
          · intro j _ hj
            have hj' : g.count ≠ j := by omega
            simp only [List.getD_eq_getElem?_getD, List.getElem?_set, if_neg hj']
            have hfn := (find_key_eq_none c.keys key c.count 0).1 hf j (Nat.zero_le _) (by omega)
            have e : g.keys[j]? = c.keys[j]? := by
              have := congrArg (fun l => l[j]?) g7
              have hjc : j < c.count := by omega
              simp only [List.getElem?_take, if_pos hjc] at this
              exact this
            rw [e, ← List.getD_eq_getElem?_getD]
            exact hfn
        · simp [List.getD_eq_getElem?_getD, List.getElem?_set, g4, g2, ref_counted_value_create]
        · have e : (g.values.set g.count (ref_counted_value_create h v cl).1).getD g.count 0 =
              (ref_counted_value_create h v cl).1 := by
            simp [List.getD_eq_getElem?_getD, List.getElem?_set, g4, g2]
          simp only [e]
          exact load_create _ v cl

theorem reachable_inv (h0 : Heap) (c0 : EventContext) (hc : event_context_create = some c0)
    (ops : List ContextOp) : CtxInv (run_ops ops (h0, c0)).2 :=
  run_ops_inv ops (h0, c0) (create_inv c0 hc)

theorem find_of_getD (c : EventContext) (hI : CtxInv c) (k : CStr) (i : Nat)
    (hi : i < c.count) (hk : c.keys.getD i none = some k) :
    find_key c.keys k 0 c.count = some i := by
  have hlen : c.count ≤ c.keys.length := by rw [hI.keys_len]; exact hI.count_le
  rw [find_key_eq_some]
  refine ⟨Nat.zero_le _, by omega, hk, ?_⟩
  intro j _ hj
  rw [← hk]
  exact nodup_take_getD c.keys none c.count j i hI.keys_nodup hlen hj hi

theorem load_create_other (h : Heap) (d c p : Nat) (hp : p - 1 < h.cells.length) :
    (ref_counted_value_create h d c).2.load p = h.load p := by
  simp only [Heap.load, ref_counted_value_create, List.getD_eq_getElem?_getD]
  rw [List.getElem?_append_left hp]

/-- Inserting a key that is valid and absent, below the entry ceiling. -/
theorem set_insert_spec (h : Heap) (c : EventContext) (key : CStr) (v cl : Nat)
    (hI : CtxInv c) (hk1 : 0 < key.length) (hk2 : key.length ≤ EVENTCHAINS_MAX_KEY_LENGTH)
    (hm : some key ∉ c.keys.take c.count)
    (hc : c.count < EVENTCHAINS_MAX_CONTEXT_ENTRIES) :
    (event_context_set_with_cleanup h c (some key) v cl).1 = EC_SUCCESS ∧
    (event_context_set_with_cleanup h c (some key) v cl).2.2.count = c.count + 1 ∧
    (event_context_set_with_cleanup h c (some key) v cl).2.2.keys.take (c.count + 1) =
      c.keys.take c.count ++ [some key] := by
  have hlen : c.count ≤ c.keys.length := by rw [hI.keys_len]; exact hI.count_le
  have hf := find_none_of_not_mem c.keys key c.count hlen hm
  obtain ⟨g, hg, g1, g2, g3, g4, g5, g6, g7, g8, g9⟩ := expand_spec c hI hc
  have hle := hI.memory_le
  have hcap := hI.cap_le
  have hk2' := hk2
  have hc'' := hc
  simp only [EVENTCHAINS_MAX_CONTEXT_ENTRIES, EVENTCHAINS_MAX_KEY_LENGTH] at hcap hk2' hc''
  have hmem : c.total_memory_bytes + (key.length + 25) ≤ EVENTCHAINS_MAX_CONTEXT_MEMORY := by
    simp only [EVENTCHAINS_MAX_CONTEXT_MEMORY]; omega
  rw [set_eq_insert h c g key v cl hk1 hk2 hf hc hmem hg]
  refine ⟨rfl, by simp only; omega, ?_⟩
  simp only
  rw [← g1, take_succ_set _ _ _ (by omega), g1, g7]

theorem run_sets_spec (kvs : List (CStr × Nat × Nat)) :
    ∀ s : Heap × EventContext, CtxInv s.2 →
      (∀ e ∈ kvs, 0 < e.1.length ∧ e.1.length ≤ EVENTCHAINS_MAX_KEY_LENGTH) →
      (kvs.map Prod.fst).Nodup →
      (∀ e ∈ kvs, some e.1 ∉ s.2.keys.take s.2.count) →
      s.2.count + kvs.length ≤ EVENTCHAINS_MAX_CONTEXT_ENTRIES →
      (run_sets kvs s).1 = List.replicate kvs.length EC_SUCCESS ∧
      CtxInv (run_sets kvs s).2.2 ∧
      (run_sets kvs s).2.2.count = s.2.count + kvs.length ∧
      (run_sets kvs s).2.2.keys.take (run_sets kvs s).2.2.count =
        s.2.keys.take s.2.count ++ kvs.map (fun e => some e.1) := by
  induction kvs with
  | nil => intro s hI _ _ _ _; simp [run_sets, hI]
  | cons e es ih =>
    intro s hI hv hnd hfresh hcnt
    simp only [List.length_cons] at hcnt
    have hv1 := hv e (List.mem_cons_self e es)
    obtain ⟨a1, a2, a3⟩ := set_insert_spec s.1 s.2 e.1 e.2.1 e.2.2 hI hv1.1 hv1.2
      (hfresh e (List.mem_cons_self e es)) (by omega)
    have hI1 := set_inv s.1 s.2 (some e.1) e.2.1 e.2.2 hI
    rw [List.map_cons, List.nodup_cons] at hnd
    have a3' : (event_context_set_with_cleanup s.1 s.2 (some e.1) e.2.1 e.2.2).2.2.keys.take
        (event_context_set_with_cleanup s.1 s.2 (some e.1) e.2.1 e.2.2).2.2.count =
        s.2.keys.take s.2.count ++ [some e.1] := by rw [a2]; exact a3
    obtain ⟨b1, b2, b3, b4⟩ := ih (event_context_set_with_cleanup s.1 s.2 (some e.1) e.2.1 e.2.2).2
      hI1 (fun x hx => hv x (List.mem_cons_of_mem e hx)) hnd.2
      (by
        intro x hx
        rw [a3']
        intro hmem
        rcases List.mem_append.1 hmem with hmem | hmem
        · exact hfresh x (List.mem_cons_of_mem e hx) hmem
        · simp only [List.mem_singleton, Option.some.injEq] at hmem
          apply hnd.1
          rw [← hmem]
          exact List.mem_map_of_mem Prod.fst hx)
      (by rw [a2]; omega)
    simp only [run_sets, List.length_cons, List.replicate_succ, List.map_cons]
    refine ⟨by rw [a1, b1], b2, by rw [b3, a2]; omega, ?_⟩
    rw [b4, a3', List.append_assoc]
    rfl

theorem valid_pointer_ne_zero (p : Nat) (h : is_valid_function_pointer p = true) : p ≠ 0 := by
  intro e
  subst e
  simp [is_valid_function_pointer] at h

theorem add_event_eq_full (c : EventChain) (ev : ChainableEvent)
    (hv : is_valid_function_pointer ev.execute = true) (hidle : c.is_executing = 0)
    (hfull : EVENTCHAINS_MAX_EVENTS ≤ c.event_count) :
    event_chain_add_event c (some ev) = (EC_ERROR_CAPACITY_EXCEEDED, c) := by
  unfold event_chain_add_event
  simp only
  rw [if_neg (valid_pointer_ne_zero _ hv), if_neg (by simp [hv]), if_neg (by simp [hidle]),
    if_pos hfull]

theorem add_event_spec (c : EventChain) (ev : ChainableEvent) (hI : ChainInv c)
    (hv : is_valid_function_pointer ev.execute = true) (hidle : c.is_executing = 0)
    (hroom : c.event_count < EVENTCHAINS_MAX_EVENTS) :
    (event_chain_add_event c (some ev)).1 = EC_SUCCESS ∧
    ChainInv (event_chain_add_event c (some ev)).2 ∧
    (event_chain_add_event c (some ev)).2.is_executing = 0 ∧
    (event_chain_add_event c (some ev)).2.event_count = c.event_count + 1 ∧
    (event_chain_add_event c (some ev)).2.events.take (c.event_count + 1) =
      c.events.take c.event_count ++ [some ev] := by
  have h1 := hI.events_len
  have h2 := hI.count_le
  have h3 := hI.cap_pos
  have h4 := hI.cap_le
  simp only [EVENTCHAINS_MAX_EVENTS] at hroom h4
  unfold event_chain_add_event
  simp only
  rw [if_neg (valid_pointer_ne_zero _ hv), if_neg (by simp [hv]), if_neg (by simp [hidle]),
    if_neg (by simp only [EVENTCHAINS_MAX_EVENTS]; omega)]
  by_cases hfull : c.event_count ≥ c.event_capacity
  · have m1 : safe_multiply c.event_capacity 2 = some (c.event_capacity * 2) := by
      unfold safe_multiply SIZE_MAX
      rw [if_neg (by omega), if_neg (by omega)]
    rw [if_pos hfull]
    simp only [m1, EVENTCHAINS_MAX_EVENTS]
    generalize hn : (if c.event_capacity * 2 > 1024 then 1024 else c.event_capacity * 2) = nc
    have hnc : c.event_capacity < nc ∧ nc ≤ 1024 := by
      rw [← hn]; split_ifs <;> omega
    have hl : (realloc_zeroed c.events nc none).length = nc := by
      simp only [realloc_zeroed, List.length_append, List.length_take, List.length_replicate]
      omega
    refine ⟨trivial, ⟨?_, ?_, ?_, ?_⟩, hidle, trivial, ?_⟩
    · simp only [List.length_set]; exact hl
    · simp only; omega
    · simp only; omega
    · simp only [EVENTCHAINS_MAX_EVENTS]; omega
    · rw [take_succ_set _ _ _ (by rw [hl]; omega)]
      simp only [realloc_zeroed]
      rw [List.take_of_length_le (show c.events.length ≤ nc by omega),
        List.take_append_of_le_length (by omega)]
  · rw [if_neg hfull]
    refine ⟨rfl, ⟨?_, ?_, ?_, ?_⟩, hidle, rfl, ?_⟩
    · simp only [List.length_set]; exact h1
    · simp only; omega
    · simp only; omega
    · simp only [EVENTCHAINS_MAX_EVENTS]; omega
    · exact take_succ_set _ _ _ (by omega)

theorem add_events_spec (evs : List ChainableEvent) :
    ∀ c : EventChain, ChainInv c → c.is_executing = 0 →
      (∀ e ∈ evs, is_valid_function_pointer e.execute = true) →
      c.event_count + evs.length ≤ EVENTCHAINS_MAX_EVENTS →
      (add_events evs c).1 = List.replicate evs.length EC_SUCCESS ∧
      ChainInv (add_events evs c).2 ∧
      (add_events evs c).2.is_executing = 0 ∧
      (add_events evs c).2.event_count = c.event_count + evs.length ∧
      (add_events evs c).2.events.take (add_events evs c).2.event_count =
        c.events.take c.event_count ++ evs.map some := by
  induction evs with
  | nil => intro c hI hidle _ _; simp [add_events, hI, hidle]
  | cons e es ih =>
    intro c hI hidle hv hcnt
    simp only [List.length_cons] at hcnt
    obtain ⟨a1, a2, a3, a4, a5⟩ := add_event_spec c e hI (hv e (List.mem_cons_self e es)) hidle
      (by omega)
    obtain ⟨b1, b2, b3, b4, b5⟩ := ih (event_chain_add_event c (some e)).2 a2 a3
      (fun x hx => hv x (List.mem_cons_of_mem e hx)) (by rw [a4]; omega)
    simp only [add_events, List.length_cons, List.replicate_succ, List.map_cons]
    refine ⟨by rw [a1, b1], b2, b3, by rw [b4, a4]; omega, ?_⟩
    rw [b5, a4, a5, List.append_assoc]
    rfl

theorem chain_create_eq (mode : FaultToleranceMode) (detail : ErrorDetailLevel) :
    event_chain_create_with_detail mode detail = some (fresh_chain mode detail) := by
  unfold event_chain_create_with_detail
  rw [create_eq]
  rfl

theorem fresh_chain_inv (mode : FaultToleranceMode) (detail : ErrorDetailLevel) :
    ChainInv (fresh_chain mode detail) :=
  ⟨rfl, by simp [fresh_chain], by simp [fresh_chain],
    by simp [fresh_chain, EVENTCHAINS_MAX_EVENTS]⟩

theorem sample_entries_valid :
    ∀ e ∈ sample_entries, 0 < e.1.length ∧ e.1.length ≤ EVENTCHAINS_MAX_KEY_LENGTH := by
  intro e he
  obtain ⟨i, _, rfl⟩ := List.mem_map.1 he
  exact ⟨by simp, by simp [EVENTCHAINS_MAX_KEY_LENGTH]⟩

theorem sample_entries_nodup : (sample_entries.map Prod.fst).Nodup := by
  unfold sample_entries
  rw [List.map_map]
  refine List.Nodup.map ?_ (List.nodup_range 512)
  intro a b hab
  simp only [Function.comp_apply, List.cons.injEq, and_true] at hab
  omega

theorem sample_events_valid :
    ∀ e ∈ sample_events, is_valid_function_pointer e.execute = true := by
  intro e he
  obtain ⟨i, _, rfl⟩ := List.mem_map.1 he
  simp [is_valid_function_pointer]

/-! ## Properties of the specification -/

/-- C1: key uniqueness is an invariant of the context.  `event_context_create`
succeeds, and after any sequence of `set` / `set_with_cleanup` / `remove` /
`clear` calls on the context it returns (from any heap), the keys of the
`count` entries form a list without duplicates: any two different entry slots
hold non-null keys that are different strings. -/
theorem C1_key_uniqueness (h0 : Heap) (ops : List ContextOp) :
    ∃ c0, event_context_create = some c0 ∧
      ((run_ops ops (h0, c0)).2.keys.take (event_context_count (run_ops ops (h0, c0)).2)).Nodup ∧
      ∀ i j, i < j → j < event_context_count (run_ops ops (h0, c0)).2 →
        ∃ ki kj, (run_ops ops (h0, c0)).2.keys.getD i none = some ki ∧
          (run_ops ops (h0, c0)).2.keys.getD j none = some kj ∧ ki ≠ kj := by
  refine ⟨_, create_eq, ?_⟩
  have hI := reachable_inv h0 _ create_eq ops
  generalize (run_ops ops (h0, _)).2 = c at hI ⊢
  refine ⟨hI.keys_nodup, ?_⟩
  intro i j hij hj
  have hlen : c.count ≤ c.keys.length := by rw [hI.keys_len]; exact hI.count_le
  simp only [event_context_count] at hj
  obtain ⟨ki, hki, _⟩ := hI.keys_valid _ (mem_live_getD c.keys none c.count i (by omega) hlen)
  obtain ⟨kj, hkj, _⟩ := hI.keys_valid _ (mem_live_getD c.keys none c.count j hj hlen)
  refine ⟨ki, kj, hki, hkj, ?_⟩
  intro e
  apply nodup_take_getD c.keys none c.count i j hI.keys_nodup hlen hij hj
  rw [hki, hkj, e]

/-- C2: set/get round trip.  On a context reached from `event_context_create`
by any sequence of mutating calls, and whatever the heap, if
`event_context_set (key, v)` returns `EC_SUCCESS` then `event_context_get (key)`
on the resulting state returns `EC_SUCCESS` and yields exactly `v`.  The key
may have been absent or present before; keys that are `NULL`, empty or longer
than 256 bytes make `set` fail, so the premise only holds for keys of 1 to 256
bytes. -/
theorem C2_set_get_round_trip (h0 : Heap) (ops : List ContextOp) (c0 : EventContext)
    (hc0 : event_context_create = some c0) (h : Heap) (key : Option CStr) (v : Nat)
    (hs : (event_context_set h (run_ops ops (h0, c0)).2 key v).1 = EC_SUCCESS) :
    event_context_get (event_context_set h (run_ops ops (h0, c0)).2 key v).2.1
      (event_context_set h (run_ops ops (h0, c0)).2 key v).2.2 key = (EC_SUCCESS, v) := by
  have hI := reachable_inv h0 c0 hc0 ops
  generalize (run_ops ops (h0, c0)).2 = c at hI hs ⊢
  unfold event_context_set at hs ⊢
  obtain ⟨k, i, hk, hf, hnz, hload⟩ := set_success_spec h c key v 0 hI hs
  subst hk
  unfold event_context_get
  simp only [hf, ref_counted_value_get_data, if_neg hnz, hload]

/-- C2 instantiated twice on the context `event_context_create` returns: key
"k" absent (empty context), and key "k" already present. -/
theorem C2_witness :
    event_context_create = some fresh_context ∧
    event_context_get
        (event_context_set ⟨[], []⟩ (run_ops [] (⟨[], []⟩, fresh_context)).2 (some [107]) 42).2.1
        (event_context_set ⟨[], []⟩ (run_ops [] (⟨[], []⟩, fresh_context)).2 (some [107]) 42).2.2
        (some [107]) = (EC_SUCCESS, 42) ∧
    event_context_get
        (event_context_set ⟨[⟨1, 1, 0⟩], []⟩
          (run_ops [ContextOp.set (some [107]) 1] (⟨[], []⟩, fresh_context)).2 (some [107]) 42).2.1
        (event_context_set ⟨[⟨1, 1, 0⟩], []⟩
          (run_ops [ContextOp.set (some [107]) 1] (⟨[], []⟩, fresh_context)).2 (some [107]) 42).2.2
        (some [107]) = (EC_SUCCESS, 42) :=
  ⟨by decide,
    C2_set_get_round_trip ⟨[], []⟩ [] fresh_context (by decide) ⟨[], []⟩ (some [107]) 42
      (by decide),
    C2_set_get_round_trip ⟨[], []⟩ [ContextOp.set (some [107]) 1] fresh_context (by decide)
      ⟨[⟨1, 1, 0⟩], []⟩ (some [107]) 42 (by decide)⟩

/-- C3, as amended: replacing an existing key.  On a reachable context whose
entry `i` has key `k`, and on a heap where the wrapper of that entry is
allocated with a count of at least 1, `set_with_cleanup (k, v, cl)` succeeds;
the entry count and every key slot are unchanged (the entry keeps position
`i`); every other value slot is unchanged; slot `i` holds a wrapper at an
address that was not allocated before, with data `v`, count 1 and callback `cl`;
the count of the previous wrapper has dropped by exactly 1; and its callback has
been called (once, on its data) exactly when the count was 1 and both the
callback and the data are non-null, no other callback being called. -/
theorem C3_replace_existing_key (h0 : Heap) (ops : List ContextOp) (c0 : EventContext)
    (hc0 : event_context_create = some c0) (h : Heap) (k : CStr) (v cl i : Nat)
    (hi : i < event_context_count (run_ops ops (h0, c0)).2)
    (hk : (run_ops ops (h0, c0)).2.keys.getD i none = some k)
    (hlive : (run_ops ops (h0, c0)).2.values.getD i 0 - 1 < h.cells.length ∧
      1 ≤ (h.load ((run_ops ops (h0, c0)).2.values.getD i 0)).ref_count) :
    (event_context_set_with_cleanup h (run_ops ops (h0, c0)).2 (some k) v cl).1 = EC_SUCCESS ∧
    event_context_count
        (event_context_set_with_cleanup h (run_ops ops (h0, c0)).2 (some k) v cl).2.2 =
      event_context_count (run_ops ops (h0, c0)).2 ∧
    (event_context_set_with_cleanup h (run_ops ops (h0, c0)).2 (some k) v cl).2.2.keys =
      (run_ops ops (h0, c0)).2.keys ∧
    (∀ j, j ≠ i →
      (event_context_set_with_cleanup h (run_ops ops (h0, c0)).2 (some k) v cl).2.2.values.getD j 0 =
        (run_ops ops (h0, c0)).2.values.getD j 0) ∧
    h.cells.length <
      (event_context_set_with_cleanup h (run_ops ops (h0, c0)).2 (some k) v cl).2.2.values.getD i 0 ∧
    (event_context_set_with_cleanup h (run_ops ops (h0, c0)).2 (some k) v cl).2.1.load
        ((event_context_set_with_cleanup h (run_ops ops (h0, c0)).2 (some k) v cl).2.2.values.getD i 0) =
      ⟨v, 1, cl⟩ ∧
    ((event_context_set_with_cleanup h (run_ops ops (h0, c0)).2 (some k) v cl).2.1.load
        ((run_ops ops (h0, c0)).2.values.getD i 0)).ref_count =
      (h.load ((run_ops ops (h0, c0)).2.values.getD i 0)).ref_count - 1 ∧
    (event_context_set_with_cleanup h (run_ops ops (h0, c0)).2 (some k) v cl).2.1.cleanup_calls =
      (if (h.load ((run_ops ops (h0, c0)).2.values.getD i 0)).ref_count = 1 ∧
          (h.load ((run_ops ops (h0, c0)).2.values.getD i 0)).cleanup ≠ 0 ∧
          (h.load ((run_ops ops (h0, c0)).2.values.getD i 0)).data ≠ 0 then
        h.cleanup_calls ++
          [((h.load ((run_ops ops (h0, c0)).2.values.getD i 0)).cleanup,
            (h.load ((run_ops ops (h0, c0)).2.values.getD i 0)).data)]
      else h.cleanup_calls) := by
  have hI := reachable_inv h0 c0 hc0 ops
  generalize (run_ops ops (h0, c0)).2 = c at hI hi hk hlive ⊢
  simp only [event_context_count] at hi ⊢
  have hf := find_of_getD c hI k i hi hk
  have hkin : some k ∈ c.keys.take c.count := by
    rw [← hk]
    exact mem_live_getD c.keys none c.count i hi (by rw [hI.keys_len]; exact hI.count_le)
  obtain ⟨k', hk', hk1, hk2⟩ := hI.keys_valid _ hkin
  cases hk'
  have hold : c.values.getD i 0 ≠ 0 :=
    hI.values_nonnull _ (mem_live_getD c.values 0 c.count i hi
      (by rw [hI.values_len]; exact hI.count_le))
  have hil : i < c.values.length := by
    have := hI.values_len; have := hI.count_le; omega
  rw [set_eq_replace h c k v cl i hk1 hk2 hf]
  simp only [if_pos hold]
  generalize c.values.getD i 0 = old at hold hlive ⊢
  obtain ⟨hl1, hl2⟩ := hlive
  have hnew : (c.values.set i (ref_counted_value_create (ref_counted_value_release h old).2 v cl).1).getD i 0 =
      (ref_counted_value_create (ref_counted_value_release h old).2 v cl).1 := by
    simp [List.getD_eq_getElem?_getD, List.getElem?_set, hil]
  refine ⟨trivial, trivial, trivial, ?_, ?_, ?_, ?_, ?_⟩
  · intro j hj
    have : i ≠ j := fun e => hj e.symm
    simp [List.getD_eq_getElem?_getD, List.getElem?_set, this]
  · rw [hnew]
    simp only [ref_counted_value_create, release_length]
    omega
  · rw [hnew]
    exact load_create _ v cl
  · rw [load_create_other _ _ _ _ (by rw [release_length]; exact hl1),
      release_load h old hold hl1]
    split_ifs with a b
    · omega
    · simp only; omega
    · rfl
  · simp only [ref_counted_value_create, release_calls]
    by_cases a : (h.load old).ref_count = 1
    · by_cases b : (h.load old).cleanup ≠ 0 ∧ (h.load old).data ≠ 0
      · rw [if_pos ⟨hold, a, b⟩, if_pos ⟨a, b⟩]
      · rw [if_neg (fun x => b x.2.2), if_neg (fun x => b x.2)]
    · rw [if_neg (fun x => a x.2.1), if_neg (fun x => a x.1)]

/-- C3 as stated fails: the entry "a" is created with a `NULL` value and the
cleanup callback `7`, so its wrapper has count 1, callback `7`, data `0`.
Replacing it with `event_context_set ("a", 5)` succeeds and brings the count of
that wrapper from 1 to 0, yet no callback is called. -/
theorem C3_counterexample :
    event_context_create = some fresh_context ∧
    (run_ops [ContextOp.set_with_cleanup (some [97]) 0 7] (⟨[], []⟩, fresh_context)).2.keys.getD 0 none =
      some [97] ∧
    (run_ops [ContextOp.set_with_cleanup (some [97]) 0 7] (⟨[], []⟩, fresh_context)).2.values.getD 0 0 =
      1 ∧
    (run_ops [ContextOp.set_with_cleanup (some [97]) 0 7] (⟨[], []⟩, fresh_context)).1.load 1 =
      ⟨0, 1, 7⟩ ∧
    (event_context_set
        (run_ops [ContextOp.set_with_cleanup (some [97]) 0 7] (⟨[], []⟩, fresh_context)).1
        (run_ops [ContextOp.set_with_cleanup (some [97]) 0 7] (⟨[], []⟩, fresh_context)).2
        (some [97]) 5).1 = EC_SUCCESS ∧
    ((event_context_set
        (run_ops [ContextOp.set_with_cleanup (some [97]) 0 7] (⟨[], []⟩, fresh_context)).1
        (run_ops [ContextOp.set_with_cleanup (some [97]) 0 7] (⟨[], []⟩, fresh_context)).2
        (some [97]) 5).2.1.load 1).ref_count = 0 ∧
    (event_context_set
        (run_ops [ContextOp.set_with_cleanup (some [97]) 0 7] (⟨[], []⟩, fresh_context)).1
        (run_ops [ContextOp.set_with_cleanup (some [97]) 0 7] (⟨[], []⟩, fresh_context)).2
        (some [97]) 5).2.1.cleanup_calls = [] := by
  decide

/-- C3 (amended) instantiated: two entries "a" and "b"; the wrapper of "a" is
also held by a caller (count 2), that of "b" is not (count 1).  Replacing "b"
calls its callback on its data, replacing "a" calls nothing and leaves the old
wrapper of "a" with count 1. -/
theorem C3_witness :
    (event_context_set_with_cleanup ⟨[⟨5, 2, 7⟩, ⟨6, 1, 8⟩], []⟩
        (run_ops [ContextOp.set_with_cleanup (some [97]) 5 7,
          ContextOp.set_with_cleanup (some [98]) 6 8] (⟨[], []⟩, fresh_context)).2
        (some [98]) 9 3).2.1.cleanup_calls = [(8, 6)] ∧
    (event_context_set_with_cleanup ⟨[⟨5, 2, 7⟩, ⟨6, 1, 8⟩], []⟩
        (run_ops [ContextOp.set_with_cleanup (some [97]) 5 7,
          ContextOp.set_with_cleanup (some [98]) 6 8] (⟨[], []⟩, fresh_context)).2
        (some [97]) 9 3).2.1.cleanup_calls = [] ∧
    ((event_context_set_with_cleanup ⟨[⟨5, 2, 7⟩, ⟨6, 1, 8⟩], []⟩
        (run_ops [ContextOp.set_with_cleanup (some [97]) 5 7,
          ContextOp.set_with_cleanup (some [98]) 6 8] (⟨[], []⟩, fresh_context)).2
        (some [97]) 9 3).2.1.load 1).ref_count = 1 := by
  have a := C3_replace_existing_key ⟨[], []⟩
    [ContextOp.set_with_cleanup (some [97]) 5 7, ContextOp.set_with_cleanup (some [98]) 6 8]
    fresh_context (by decide) ⟨[⟨5, 2, 7⟩, ⟨6, 1, 8⟩], []⟩ [98] 9 3 1 (by decide) (by decide)
    (by decide)
  have b := C3_replace_existing_key ⟨[], []⟩
    [ContextOp.set_with_cleanup (some [97]) 5 7, ContextOp.set_with_cleanup (some [98]) 6 8]
    fresh_context (by decide) ⟨[⟨5, 2, 7⟩, ⟨6, 1, 8⟩], []⟩ [97] 9 3 0 (by decide) (by decide)
    (by decide)
  exact ⟨a.2.2.2.2.2.2.2, b.2.2.2.2.2.2.2, b.2.2.2.2.2.2.1⟩

/-- C4: set/remove round trip.  On a context reached from
`event_context_create` by any sequence of mutating calls, and whatever the heap,
if `event_context_set (key, v)` returns `EC_SUCCESS` then `event_context_remove
(key)` on the resulting state returns `EC_SUCCESS`, after which
`event_context_has (key, false)` is false and `event_context_count` is exactly
one less than it was just before the remove. -/
theorem C4_set_remove_round_trip (h0 : Heap) (ops : List ContextOp) (c0 : EventContext)
    (hc0 : event_context_create = some c0) (h : Heap) (key : Option CStr) (v : Nat)
    (hs : (event_context_set h (run_ops ops (h0, c0)).2 key v).1 = EC_SUCCESS) :
    (event_context_remove (event_context_set h (run_ops ops (h0, c0)).2 key v).2.1
      (event_context_set h (run_ops ops (h0, c0)).2 key v).2.2 key).1 = EC_SUCCESS ∧
    event_context_has
      (event_context_remove (event_context_set h (run_ops ops (h0, c0)).2 key v).2.1
        (event_context_set h (run_ops ops (h0, c0)).2 key v).2.2 key).2.2 key false = false ∧
    event_context_count
      (event_context_remove (event_context_set h (run_ops ops (h0, c0)).2 key v).2.1
        (event_context_set h (run_ops ops (h0, c0)).2 key v).2.2 key).2.2 + 1 =
      event_context_count (event_context_set h (run_ops ops (h0, c0)).2 key v).2.2 := by
  have hI := reachable_inv h0 c0 hc0 ops
  generalize (run_ops ops (h0, c0)).2 = c at hI hs ⊢
  unfold event_context_set at hs ⊢
  obtain ⟨k, i, hk, hf, _, _⟩ := set_success_spec h c key v 0 hI hs
  subst hk
  have hI1 := set_inv h c (some k) v 0 hI
  generalize (event_context_set_with_cleanup h c (some k) v 0).2.2 = c1 at hI1 hf ⊢
  generalize (event_context_set_with_cleanup h c (some k) v 0).2.1 = h1
  obtain ⟨_, hi, hki, _⟩ := (find_key_eq_some c1.keys k c1.count 0 i).1 hf
  have hi' : i < c1.count := by omega
  have hlen : c1.count ≤ c1.keys.length := by rw [hI1.keys_len]; exact hI1.count_le
  rw [remove_eq_found h1 c1 k i hf]
  refine ⟨rfl, ?_, ?_⟩
  · unfold event_context_has
    have hget : (c1.keys.take c1.count)[i]? = some (some k) := by
      rw [List.getElem?_take, if_pos hi', ← hki, List.getD_eq_getElem?_getD,
        List.getElem?_eq_getElem (by omega)]
      rfl
    have hnm := not_mem_eraseIdx_of_nodup _ i (some k) hI1.keys_nodup hget
    rw [← remove_live none c1.keys i c1.count hi' hlen] at hnm
    have hfn := find_none_of_not_mem _ k (c1.count - 1)
      (by simp only [List.length_set, shift_down_length]; omega) hnm
    simp only [hfn]
    rfl
  · simp only [event_context_count]; omega

/-- C4 instantiated: a context holding "a", then `set ("b", 2)` and
`remove ("b")`. -/
theorem C4_witness :
    (event_context_set ⟨[⟨1, 1, 0⟩], []⟩
        (run_ops [ContextOp.set (some [97]) 1] (⟨[], []⟩, fresh_context)).2
        (some [98]) 2).1 = EC_SUCCESS ∧
    event_context_count
      (event_context_remove
        (event_context_set ⟨[⟨1, 1, 0⟩], []⟩
          (run_ops [ContextOp.set (some [97]) 1] (⟨[], []⟩, fresh_context)).2 (some [98]) 2).2.1
        (event_context_set ⟨[⟨1, 1, 0⟩], []⟩
          (run_ops [ContextOp.set (some [97]) 1] (⟨[], []⟩, fresh_context)).2 (some [98]) 2).2.2
        (some [98])).2.2 + 1 =
      event_context_count
        (event_context_set ⟨[⟨1, 1, 0⟩], []⟩
          (run_ops [ContextOp.set (some [97]) 1] (⟨[], []⟩, fresh_context)).2 (some [98]) 2).2.2 :=
  ⟨by decide,
    (C4_set_remove_round_trip ⟨[], []⟩ [ContextOp.set (some [97]) 1] fresh_context (by decide)
      ⟨[⟨1, 1, 0⟩], []⟩ (some [98]) 2 (by decide)).2.2⟩

/-- C5: cleanup runs exactly once.  For a wrapper created by
`ref_counted_value_create` with non-null data and a non-null callback, and any
sequence `ops` of retain and release calls on it:
the callback log is the log at creation, or that log with one call (the
callback on the data) appended, so the callback runs at most once;
a call `op` made after `ops` extends the log if and only if it is a release, the
count is 1 before it and the callback has not run yet, which is the release
that takes the count of the wrapper from 1 to 0 (calls made after that release
find the zeroed cell of the freed wrapper and invoke nothing);
after `n` retains (all of which succeed, `n < SIZE_MAX`) the callback has not
run after `k ≤ n` releases and has run after `n + 1` releases. -/
theorem C5_cleanup_exactly_once (h0 : Heap) (data cleanup : Nat)
    (hd : data ≠ 0) (hc : cleanup ≠ 0) :
    (∀ ops : List RefOp,
      (run_ref_ops (ref_counted_value_create h0 data cleanup).1 ops
          (ref_counted_value_create h0 data cleanup).2).cleanup_calls = h0.cleanup_calls ∨
      (run_ref_ops (ref_counted_value_create h0 data cleanup).1 ops
          (ref_counted_value_create h0 data cleanup).2).cleanup_calls =
        h0.cleanup_calls ++ [(cleanup, data)]) ∧
    (∀ (ops : List RefOp) (op : RefOp),
      ((run_ref_ops (ref_counted_value_create h0 data cleanup).1 (ops ++ [op])
            (ref_counted_value_create h0 data cleanup).2).cleanup_calls ≠
          (run_ref_ops (ref_counted_value_create h0 data cleanup).1 ops
            (ref_counted_value_create h0 data cleanup).2).cleanup_calls ↔
        op = RefOp.release ∧
        ((run_ref_ops (ref_counted_value_create h0 data cleanup).1 ops
            (ref_counted_value_create h0 data cleanup).2).load
              (ref_counted_value_create h0 data cleanup).1).ref_count = 1 ∧
        (run_ref_ops (ref_counted_value_create h0 data cleanup).1 ops
            (ref_counted_value_create h0 data cleanup).2).cleanup_calls = h0.cleanup_calls)) ∧
    (∀ n : Nat, n < SIZE_MAX →
      (∀ k : Nat, k ≤ n →
        (run_ref_ops (ref_counted_value_create h0 data cleanup).1
            (List.replicate n RefOp.retain ++ List.replicate k RefOp.release)
            (ref_counted_value_create h0 data cleanup).2).cleanup_calls = h0.cleanup_calls) ∧
      (run_ref_ops (ref_counted_value_create h0 data cleanup).1
          (List.replicate n RefOp.retain ++ List.replicate (n + 1) RefOp.release)
          (ref_counted_value_create h0 data cleanup).2).cleanup_calls =
        h0.cleanup_calls ++ [(cleanup, data)]) := by
  have hinit := refLive_create h0 data cleanup
  have hp : (ref_counted_value_create h0 data cleanup).1 ≠ 0 := by
    simp [ref_counted_value_create]
  have hload := load_create h0 data cleanup
  have hlen : (ref_counted_value_create h0 data cleanup).1 - 1 <
      (ref_counted_value_create h0 data cleanup).2.cells.length := hinit.1
  have hcalls : (ref_counted_value_create h0 data cleanup).2.cleanup_calls =
      h0.cleanup_calls := rfl
  generalize (ref_counted_value_create h0 data cleanup).1 = p at *
  generalize (ref_counted_value_create h0 data cleanup).2 = h1 at *
  refine ⟨?_, ?_, ?_⟩
  · intro ops
    obtain ⟨_, _, hst⟩ := refLive_run _ data cleanup p hd hc ops _ hinit
    rcases hst with ⟨h1, _⟩ | ⟨h1, _⟩
    · exact Or.inl h1
    · exact Or.inr h1
  · intro ops op
    rw [run_ref_ops_snoc]
    obtain ⟨hlen, _, hst⟩ := refLive_run _ data cleanup p hd hc ops _ hinit
    generalize run_ref_ops p ops h1 = h at *
    cases op with
    | retain => simp [RefOp.apply, retain_calls]
    | release =>
      simp only [RefOp.apply, release_calls, true_and]
      rcases hst with ⟨h1, h2, h3, h4⟩ | ⟨h1, h2, h3⟩
      · by_cases h5 : (h.load p).ref_count = 1
        · simp [h5, hp, h1, h2, h3, hd, hc]
        · simp [h5]
      · simp [h3, h1]
  · intro n hn
    have hn1 : 1 + n ≤ SIZE_MAX := by omega
    obtain ⟨a, b, e⟩ := run_retains data cleanup p hp n h1 1 hlen hload hn1
    constructor
    · intro k hk
      rw [run_ref_ops_append]
      obtain ⟨_, _, e2⟩ := run_releases data cleanup p hp k _ (1 + n) a b (by omega)
      rw [e2, e, hcalls]
    · rw [run_ref_ops_append, List.replicate_succ', run_ref_ops_snoc]
      obtain ⟨a2, b2, e2⟩ := run_releases data cleanup p hp n _ (1 + n) a b (by omega)
      have b3 : (run_ref_ops p (List.replicate n RefOp.release)
          (run_ref_ops p (List.replicate n RefOp.retain) h1)).load p = ⟨data, 1, cleanup⟩ := by
        rw [b2]; congr 1; omega
      simp only [RefOp.apply, release_calls, b3, e2, e, hcalls]
      simp [hp, hd, hc]

/-- C5 instantiated with data `5`, callback `7` and `n = 2`: no call after two
retains and two releases, one call after the third release. -/
theorem C5_witness :
    (run_ref_ops (ref_counted_value_create ⟨[], []⟩ 5 7).1
        (List.replicate 2 RefOp.retain ++ List.replicate 2 RefOp.release)
        (ref_counted_value_create ⟨[], []⟩ 5 7).2).cleanup_calls = [] ∧
    (run_ref_ops (ref_counted_value_create ⟨[], []⟩ 5 7).1
        (List.replicate 2 RefOp.retain ++ List.replicate (2 + 1) RefOp.release)
        (ref_counted_value_create ⟨[], []⟩ 5 7).2).cleanup_calls = [] ++ [(7, 5)] :=
  ⟨((C5_cleanup_exactly_once ⟨[], []⟩ 5 7 (by decide) (by decide)).2.2 2 (by decide)).1 2
      (Nat.le_refl 2),
    ((C5_cleanup_exactly_once ⟨[], []⟩ 5 7 (by decide) (by decide)).2.2 2 (by decide)).2⟩

/-- C6: double-release guard.  `ref_counted_value_release` on a (non-null)
wrapper whose count is already 0 returns `EC_ERROR_INVALID_PARAMETER` and leaves
the heap as it was: no callback is called and the count stays 0. -/
theorem C6_double_release_guard (h : Heap) (p : Nat) (hp : p ≠ 0)
    (h0 : (h.load p).ref_count = 0) :
    (ref_counted_value_release h p).1 = EC_ERROR_INVALID_PARAMETER ∧
    (ref_counted_value_release h p).2 = h ∧
    (ref_counted_value_release h p).2.cleanup_calls = h.cleanup_calls ∧
    ((ref_counted_value_release h p).2.load p).ref_count = 0 := by
  simp [ref_counted_value_release, hp, h0]

/-- C6 instantiated: releasing a fresh wrapper frees it (callback `7` called on
`5`); releasing it a second time is refused and changes nothing. -/
theorem C6_witness :
    (ref_counted_value_release (ref_counted_value_create ⟨[], []⟩ 5 7).2 1).2 =
      ⟨[⟨0, 0, 0⟩], [(7, 5)]⟩ ∧
    (ref_counted_value_release ⟨[⟨0, 0, 0⟩], [(7, 5)]⟩ 1).1 = EC_ERROR_INVALID_PARAMETER ∧
    (ref_counted_value_release ⟨[⟨0, 0, 0⟩], [(7, 5)]⟩ 1).2 = ⟨[⟨0, 0, 0⟩], [(7, 5)]⟩ :=
  ⟨by decide,
    (C6_double_release_guard ⟨[⟨0, 0, 0⟩], [(7, 5)]⟩ 1 (by decide) (by decide)).1,
    (C6_double_release_guard ⟨[⟨0, 0, 0⟩], [(7, 5)]⟩ 1 (by decide) (by decide)).2.1⟩

/-- C7: context entry ceiling.  Starting from an empty context (the one
`event_context_create` returns, or any context reached from it that holds no
entry), `set_with_cleanup` with 512 pairwise different keys of 1 to 256 bytes
(any values and callbacks) returns `EC_SUCCESS` every time and leaves 512
entries.  On that context a set with a further valid key that is not among them
returns `EC_ERROR_CAPACITY_EXCEEDED` and changes neither the heap nor the
context, whereas a set on any of the 512 keys still succeeds and keeps the
count at 512. -/
theorem C7_entry_ceiling (h0 : Heap) (ops : List ContextOp) (c0 : EventContext)
    (hc0 : event_context_create = some c0)
    (hempty : event_context_count (run_ops ops (h0, c0)).2 = 0)
    (kvs : List (CStr × Nat × Nat))
    (hvalid : ∀ e ∈ kvs, 0 < e.1.length ∧ e.1.length ≤ EVENTCHAINS_MAX_KEY_LENGTH)
    (hnd : (kvs.map Prod.fst).Nodup)
    (hlen : kvs.length = EVENTCHAINS_MAX_CONTEXT_ENTRIES) :
    (run_sets kvs (run_ops ops (h0, c0))).1 = List.replicate 512 EC_SUCCESS ∧
    event_context_count (run_sets kvs (run_ops ops (h0, c0))).2.2 = 512 ∧
    (∀ (h : Heap) (k : CStr) (v cl : Nat),
      0 < k.length → k.length ≤ EVENTCHAINS_MAX_KEY_LENGTH → k ∉ kvs.map Prod.fst →
      event_context_set_with_cleanup h (run_sets kvs (run_ops ops (h0, c0))).2.2 (some k) v cl =
        (EC_ERROR_CAPACITY_EXCEEDED, h, (run_sets kvs (run_ops ops (h0, c0))).2.2)) ∧
    (∀ (h : Heap) (k : CStr) (v cl : Nat), k ∈ kvs.map Prod.fst →
      (event_context_set_with_cleanup h (run_sets kvs (run_ops ops (h0, c0))).2.2
        (some k) v cl).1 = EC_SUCCESS ∧
      event_context_count
        (event_context_set_with_cleanup h (run_sets kvs (run_ops ops (h0, c0))).2.2
          (some k) v cl).2.2 = 512) := by
  have hI := reachable_inv h0 c0 hc0 ops
  generalize run_ops ops (h0, c0) = s at hI hempty ⊢
  have hz : s.2.count = 0 := hempty
  obtain ⟨b1, b2, b3, b4⟩ := run_sets_spec kvs s hI hvalid hnd
    (by intro e _; simp [hz]) (by simp [hlen, hz])
  simp only [hz, hlen, EVENTCHAINS_MAX_CONTEXT_ENTRIES, Nat.zero_add, List.take_zero,
    List.nil_append] at b1 b3 b4
  generalize (run_sets kvs s).2.2 = c at b2 b3 b4 ⊢
  generalize (run_sets kvs s).1 = codes at b1 ⊢
  simp only [event_context_count]
  have hlenk : c.count ≤ c.keys.length := by rw [b2.keys_len]; exact b2.count_le
  refine ⟨b1, b3, ?_, ?_⟩
  · intro h k v cl hk1 hk2 hk
    have hnm : some k ∉ c.keys.take c.count := by
      rw [b4]
      intro hm
      obtain ⟨e, he, hek⟩ := List.mem_map.1 hm
      simp only [Option.some.injEq] at hek
      exact hk (hek ▸ List.mem_map_of_mem Prod.fst he)
    exact set_eq_capacity h c k v cl hk1 hk2 (find_none_of_not_mem c.keys k c.count hlenk hnm)
      (by rw [b3]; decide)
  · intro h k v cl hk
    obtain ⟨e, he, hek⟩ := List.mem_map.1 hk
    have hm : some k ∈ c.keys.take c.count := by
      rw [b4]
      exact List.mem_map.2 ⟨e, he, by rw [hek]⟩
    obtain ⟨k', hk', hk1, hk2⟩ := b2.keys_valid _ hm
    cases hk'
    cases hf : find_key c.keys k 0 c.count with
    | none => exact absurd hm (not_mem_live_of_find_none c.keys k c.count hf)
    | some i =>
      rw [set_eq_replace h c k v cl i hk1 hk2 hf]
      exact ⟨rfl, b3⟩

/-- C7 instantiated with the 512 keys of `sample_entries` on a context that was
filled with one entry and cleared: all insertions succeed, a further key of
three bytes is refused, the first of the 512 keys is replaced. -/
theorem C7_witness :
    event_context_create = some fresh_context ∧
    event_context_count
      (run_ops [ContextOp.set (some [120]) 1, ContextOp.clear] (⟨[], []⟩, fresh_context)).2 = 0 ∧
    (run_sets sample_entries
      (run_ops [ContextOp.set (some [120]) 1, ContextOp.clear] (⟨[], []⟩, fresh_context))).1 =
      List.replicate 512 EC_SUCCESS ∧
    event_context_set_with_cleanup ⟨[], []⟩
        (run_sets sample_entries
          (run_ops [ContextOp.set (some [120]) 1, ContextOp.clear]
            (⟨[], []⟩, fresh_context))).2.2 (some [9, 9, 9]) 1 0 =
      (EC_ERROR_CAPACITY_EXCEEDED, ⟨[], []⟩,
        (run_sets sample_entries
          (run_ops [ContextOp.set (some [120]) 1, ContextOp.clear]
            (⟨[], []⟩, fresh_context))).2.2) ∧
    (event_context_set_with_cleanup ⟨[], []⟩
        (run_sets sample_entries
          (run_ops [ContextOp.set (some [120]) 1, ContextOp.clear]
            (⟨[], []⟩, fresh_context))).2.2 (some [1, 1]) 1 0).1 =
      EC_SUCCESS := by
  obtain ⟨h1, _, h3, h4⟩ := C7_entry_ceiling ⟨[], []⟩
    [ContextOp.set (some [120]) 1, ContextOp.clear] fresh_context create_eq (by decide)
    sample_entries sample_entries_valid sample_entries_nodup
    (by simp [sample_entries, EVENTCHAINS_MAX_CONTEXT_ENTRIES])
  refine ⟨create_eq, by decide, h1, h3 _ [9, 9, 9] 1 0 (by decide) (by decide) ?_,
    (h4 _ [1, 1] 1 0 ?_).1⟩
  · intro hm
    obtain ⟨e, he, hk⟩ := List.mem_map.1 hm
    obtain ⟨i, _, rfl⟩ := List.mem_map.1 he
    simp at hk
  · exact List.mem_map.2 ⟨([1, 1], 1, 0),
      List.mem_map.2 ⟨0, List.mem_range.2 (by decide), rfl⟩, rfl⟩

/-- C10: event ceiling.  `event_chain_create_with_detail` returns an idle
chain; adding to it any list of at most 1024 events with valid function
pointers returns `EC_SUCCESS` for each, and the used part of the event array is
exactly that list in the order added (each event is appended at the end).  Once
1024 events are in, adding one more valid event returns
`EC_ERROR_CAPACITY_EXCEEDED` and leaves the chain, in particular its event list
and count, unchanged. -/
theorem C10_event_ceiling (mode : FaultToleranceMode) (detail : ErrorDetailLevel)
    (evs : List ChainableEvent)
    (hvalid : ∀ e ∈ evs, is_valid_function_pointer e.execute = true)
    (hlen : evs.length ≤ EVENTCHAINS_MAX_EVENTS) :
    ∃ ch0, event_chain_create_with_detail mode detail = some ch0 ∧ ch0.is_executing = 0 ∧
      (add_events evs ch0).1 = List.replicate evs.length EC_SUCCESS ∧
      (add_events evs ch0).2.event_count = evs.length ∧
      (add_events evs ch0).2.events.take (add_events evs ch0).2.event_count = evs.map some ∧
      (evs.length = EVENTCHAINS_MAX_EVENTS →
        ∀ ev : ChainableEvent, is_valid_function_pointer ev.execute = true →
          event_chain_add_event (add_events evs ch0).2 (some ev) =
            (EC_ERROR_CAPACITY_EXCEEDED, (add_events evs ch0).2)) := by
  refine ⟨_, chain_create_eq mode detail, rfl, ?_⟩
  have hI0 := fresh_chain_inv mode detail
  have hz : (fresh_chain mode detail).event_count = 0 := rfl
  obtain ⟨b1, b2, b3, b4, b5⟩ := add_events_spec evs _ hI0 rfl hvalid
    (by rw [hz, Nat.zero_add]; exact hlen)
  simp only [hz, Nat.zero_add, List.take_zero, List.nil_append] at b4 b5
  refine ⟨b1, b4, b5, ?_⟩
  intro hfull ev hev
  exact add_event_eq_full _ ev hev b3 (by rw [b4, hfull])

/-- C10 instantiated with the 1024 events of `sample_events` on a strict
chain. -/
theorem C10_witness :
    event_chain_create_with_detail FaultToleranceMode.FAULT_TOLERANCE_STRICT
      ErrorDetailLevel.ERROR_DETAIL_FULL =
      some (fresh_chain FaultToleranceMode.FAULT_TOLERANCE_STRICT
        ErrorDetailLevel.ERROR_DETAIL_FULL) ∧
    (add_events sample_events
      (fresh_chain FaultToleranceMode.FAULT_TOLERANCE_STRICT
        ErrorDetailLevel.ERROR_DETAIL_FULL)).1 = List.replicate 1024 EC_SUCCESS ∧
    (add_events sample_events
      (fresh_chain FaultToleranceMode.FAULT_TOLERANCE_STRICT
        ErrorDetailLevel.ERROR_DETAIL_FULL)).2.event_count = 1024 ∧
    event_chain_add_event
        (add_events sample_events
          (fresh_chain FaultToleranceMode.FAULT_TOLERANCE_STRICT
            ErrorDetailLevel.ERROR_DETAIL_FULL)).2 (some ⟨5000, 0, [78]⟩) =
      (EC_ERROR_CAPACITY_EXCEEDED,
        (add_events sample_events
          (fresh_chain FaultToleranceMode.FAULT_TOLERANCE_STRICT
            ErrorDetailLevel.ERROR_DETAIL_FULL)).2) := by
  obtain ⟨ch0, hc, _, h1, h2, _, h4⟩ := C10_event_ceiling
    FaultToleranceMode.FAULT_TOLERANCE_STRICT ErrorDetailLevel.ERROR_DETAIL_FULL sample_events
    sample_events_valid (by simp [sample_events, EVENTCHAINS_MAX_EVENTS])
  have e : ch0 = fresh_chain FaultToleranceMode.FAULT_TOLERANCE_STRICT
      ErrorDetailLevel.ERROR_DETAIL_FULL := by
    rw [chain_create_eq] at hc
    exact (Option.some.inj hc).symm
  subst e
  have hl : sample_events.length = 1024 := by simp [sample_events]
  rw [hl] at h1 h2
  exact ⟨chain_create_eq _ _, h1, h2, h4 hl ⟨5000, 0, [78]⟩ (by decide)⟩

/-! ## Lemmas: registration of middleware -/

theorem use_middleware_eq_full (c : EventChain) (mw : EventMiddleware)
    (hv : is_valid_function_pointer mw.execute = true) (hidle : c.is_executing = 0)
    (hfull : EVENTCHAINS_MAX_MIDDLEWARE ≤ c.middleware_count) :
    event_chain_use_middleware c (some mw) = (EC_ERROR_CAPACITY_EXCEEDED, c) := by
  unfold event_chain_use_middleware
  simp only
  rw [if_neg (valid_pointer_ne_zero _ hv), if_neg (by simp [hv]), if_neg (by simp [hidle]),
    if_pos hfull]

theorem use_middleware_spec (c : EventChain) (mw : EventMiddleware) (hI : MwInv c)
    (hv : is_valid_function_pointer mw.execute = true) (hidle : c.is_executing = 0)
    (hroom : c.middleware_count < EVENTCHAINS_MAX_MIDDLEWARE) :
    (event_chain_use_middleware c (some mw)).1 = EC_SUCCESS ∧
    MwInv (event_chain_use_middleware c (some mw)).2 ∧
    (event_chain_use_middleware c (some mw)).2.is_executing = 0 ∧
    (event_chain_use_middleware c (some mw)).2.middleware_count = c.middleware_count + 1 ∧
    (event_chain_use_middleware c (some mw)).2.middlewares.take (c.middleware_count + 1) =
      c.middlewares.take c.middleware_count ++ [some mw] := by
  have h1 := hI.middlewares_len
  have h2 := hI.count_le
  have h3 := hI.cap_pos
  have h4 := hI.cap_le
  simp only [EVENTCHAINS_MAX_MIDDLEWARE] at hroom h4
  unfold event_chain_use_middleware
  simp only
  rw [if_neg (valid_pointer_ne_zero _ hv), if_neg (by simp [hv]), if_neg (by simp [hidle]),
    if_neg (by simp only [EVENTCHAINS_MAX_MIDDLEWARE]; omega)]
  by_cases hfull : c.middleware_count ≥ c.middleware_capacity
  · have m1 : safe_multiply c.middleware_capacity 2 = some (c.middleware_capacity * 2) := by
      unfold safe_multiply SIZE_MAX
      rw [if_neg (by omega), if_neg (by omega)]
    rw [if_pos hfull]
    simp only [m1, EVENTCHAINS_MAX_MIDDLEWARE]
    generalize hn :
      (if c.middleware_capacity * 2 > 16 then 16 else c.middleware_capacity * 2) = nc
    have hnc : c.middleware_capacity < nc ∧ nc ≤ 16 := by
      rw [← hn]; split_ifs <;> omega
    have hl : (realloc_zeroed c.middlewares nc none).length = nc := by
      simp only [realloc_zeroed, List.length_append, List.length_take, List.length_replicate]
      omega
    refine ⟨trivial, ⟨?_, ?_, ?_, ?_⟩, hidle, trivial, ?_⟩
    · simp only [List.length_set]; exact hl
    · simp only; omega
    · simp only; omega
    · simp only [EVENTCHAINS_MAX_MIDDLEWARE]; omega
    · rw [take_succ_set _ _ _ (by rw [hl]; omega)]
      simp only [realloc_zeroed]
      rw [List.take_of_length_le (show c.middlewares.length ≤ nc by omega),
        List.take_append_of_le_length (by omega)]
  · rw [if_neg hfull]
    refine ⟨rfl, ⟨?_, ?_, ?_, ?_⟩, hidle, rfl, ?_⟩
    · simp only [List.length_set]; exact h1
    · simp only; omega
    · simp only; omega
    · simp only [EVENTCHAINS_MAX_MIDDLEWARE]; omega
    · exact take_succ_set _ _ _ (by omega)

theorem use_middlewares_spec (mws : List EventMiddleware) :
    ∀ c : EventChain, MwInv c → c.is_executing = 0 →
      (∀ m ∈ mws, is_valid_function_pointer m.execute = true) →
      c.middleware_count + mws.length ≤ EVENTCHAINS_MAX_MIDDLEWARE →
      (use_middlewares mws c).1 = List.replicate mws.length EC_SUCCESS ∧
      MwInv (use_middlewares mws c).2 ∧
      (use_middlewares mws c).2.is_executing = 0 ∧
      (use_middlewares mws c).2.middleware_count = c.middleware_count + mws.length ∧
      (use_middlewares mws c).2.middlewares.take (use_middlewares mws c).2.middleware_count =
        c.middlewares.take c.middleware_count ++ mws.map some := by
  induction mws with
  | nil => intro c hI hidle _ _; simp [use_middlewares, hI, hidle]
  | cons e es ih =>
    intro c hI hidle hv hcnt
    simp only [List.length_cons] at hcnt
    obtain ⟨a1, a2, a3, a4, a5⟩ := use_middleware_spec c e hI
      (hv e (List.mem_cons_self e es)) hidle (by omega)
    obtain ⟨b1, b2, b3, b4, b5⟩ := ih (event_chain_use_middleware c (some e)).2 a2 a3
      (fun x hx => hv x (List.mem_cons_of_mem e hx)) (by rw [a4]; omega)
    simp only [use_middlewares, List.length_cons, List.replicate_succ, List.map_cons]
    refine ⟨by rw [a1, b1], b2, b3, by rw [b4, a4]; omega, ?_⟩
    rw [b5, a4, a5, List.append_assoc]
    rfl

/-- `event_chain_add_event` writes the event array, its count and its capacity
only. -/
theorem add_event_frame (c : EventChain) (ev : Option ChainableEvent) :
    (event_chain_add_event c ev).2 =
      { c with
        events := (event_chain_add_event c ev).2.events
        event_count := (event_chain_add_event c ev).2.event_count
        event_capacity := (event_chain_add_event c ev).2.event_capacity } := by
  unfold event_chain_add_event
  cases ev with
  | none => rfl
  | some e =>
    simp only
    split_ifs <;> try rfl
    all_goals (cases safe_multiply c.event_capacity 2 <;> rfl)

theorem add_events_frame (evs : List ChainableEvent) :
    ∀ c : EventChain,
      (add_events evs c).2 =
        { c with
          events := (add_events evs c).2.events
          event_count := (add_events evs c).2.event_count
          event_capacity := (add_events evs c).2.event_capacity } := by
  induction evs with
  | nil => intro c; rfl
  | cons e es ih =>
    intro c
    simp only [add_events]
    rw [ih, add_event_frame c (some e)]

theorem fresh_chain_mw_inv (mode : FaultToleranceMode) (detail : ErrorDetailLevel) :
    MwInv (fresh_chain mode detail) :=
  ⟨rfl, by simp [fresh_chain], by simp [fresh_chain],
    by simp [fresh_chain, EVENTCHAINS_MAX_MIDDLEWARE]⟩

theorem sample_middlewares_valid :
    ∀ m ∈ sample_middlewares, is_valid_function_pointer m.execute = true := by
  intro m hm
  obtain ⟨i, _, rfl⟩ := List.mem_map.1 hm
  simp only [is_valid_function_pointer]
  rw [if_neg (by omega), if_neg (by omega)]

/-! ## Lemmas: the execution loop -/

theorem add_event_eq_executing (c : EventChain) (ev : ChainableEvent)
    (hv : is_valid_function_pointer ev.execute = true) (hx : c.is_executing ≠ 0) :
    event_chain_add_event c (some ev) = (EC_ERROR_REENTRANCY, c) := by
  unfold event_chain_add_event
  simp only
  rw [if_neg (valid_pointer_ne_zero _ hv), if_neg (by simp [hv]), if_pos hx]

theorem use_middleware_eq_executing (c : EventChain) (mw : EventMiddleware)
    (hv : is_valid_function_pointer mw.execute = true) (hx : c.is_executing ≠ 0) :
    event_chain_use_middleware c (some mw) = (EC_ERROR_REENTRANCY, c) := by
  unfold event_chain_use_middleware
  simp only
  rw [if_neg (valid_pointer_ne_zero _ hv), if_neg (by simp [hv]), if_pos hx]

/-- The pipeline either returns without calling the event, leaving the world as
it is, or calls the event once and returns what it returns. -/
theorem pipeline_cases {σ : Type} (prog : Program σ) (w : World σ) (ev : ChainableEvent) :
    (∃ r, execute_event_with_middleware_iterative prog w (some ev) = (r, w, false)) ∨
    execute_event_with_middleware_iterative prog w (some ev) =
      ((prog.event_fn ev.execute ev.user_data w).1,
        (prog.event_fn ev.execute ev.user_data w).2, true) := by
  unfold execute_event_with_middleware_iterative
  simp only
  split_ifs
  · exact Or.inr rfl
  · cases build_stack w.chain.middlewares w.chain.middleware_count with
    | none => exact Or.inl ⟨_, rfl⟩
    | some st =>
      simp only
      cases pipeline_loop w.chain.signal_interrupted w.chain.error_detail_level st with
      | none => exact Or.inr rfl
      | some r => exact Or.inl ⟨_, rfl⟩

/-- The decision after a failure either leaves the world as it is or is the
call of the failure predicate of the chain. -/
theorem decide_continue_cases {σ : Type} (prog : Program σ) (w : World σ)
    (ev : ChainableEvent) (r : EventResult) :
    (decide_continue prog w ev r).2 = w ∨
    decide_continue prog w ev r =
      prog.handler_fn w.chain.should_continue ev r.error_message
        w.chain.failure_handler_data w := by
  unfold decide_continue
  split
  · exact Or.inl rfl
  · exact Or.inl rfl
  · exact Or.inl rfl
  · split_ifs
    · exact Or.inr rfl
    · exact Or.inl rfl

/-- With functions that leave `is_executing` and `event_count` alone while the
chain executes, the loop returns within `event_count - i + 1` evaluations of its
condition, and every event it calls is called with `is_executing` set. -/
theorem execute_loop_executing {σ : Type} (prog : Program σ)
    (hevents : ∀ a d (v : World σ), v.chain.is_executing ≠ 0 →
      (prog.event_fn a d v).2.chain.is_executing = v.chain.is_executing ∧
      (prog.event_fn a d v).2.chain.event_count = v.chain.event_count)
    (hhandlers : ∀ a ev msg d (v : World σ), v.chain.is_executing ≠ 0 →
      (prog.handler_fn a ev msg d v).2.chain.is_executing = v.chain.is_executing ∧
      (prog.handler_fn a ev msg d v).2.chain.event_count = v.chain.event_count) :
    ∀ (fuel i : Nat) (result : ChainResult) (cap : Nat) (calls : List (Nat × World σ))
      (w : World σ), w.chain.is_executing ≠ 0 → w.chain.event_count - i < fuel →
      (∀ call ∈ calls, call.2.chain.is_executing ≠ 0) →
      ∃ r w1 calls1, execute_loop prog fuel i result cap calls w = some (r, w1, calls1) ∧
        ∀ call ∈ calls1, call.2.chain.is_executing ≠ 0 := by
  intro fuel
  induction fuel with
  | zero => intro i result cap calls w _ hf; omega
  | succ fuel ih =>
    intro i result cap calls w hx hf hc
    unfold execute_loop
    by_cases hi : i < w.chain.event_count
    · rw [if_pos hi]
      by_cases hs : w.chain.signal_interrupted ≠ 0
      · rw [if_pos hs]; exact ⟨_, _, _, rfl, hc⟩
      · rw [if_neg hs]
        cases hev : w.chain.events.getD i none with
        | none => exact ⟨_, _, _, rfl, hc⟩
        | some event =>
          simp only
          by_cases hinv : event.execute = 0 ∨ ¬ is_valid_function_pointer event.execute
          · rw [if_pos hinv]; exact ⟨_, _, _, rfl, hc⟩
          · rw [if_neg hinv]
            -- the world after the pipeline
            have hw : (execute_event_with_middleware_iterative prog w (some event)).2.1.chain.is_executing ≠ 0 ∧
                (execute_event_with_middleware_iterative prog w (some event)).2.1.chain.event_count =
                  w.chain.event_count := by
              rcases pipeline_cases prog w event with ⟨r, h⟩ | h
              · rw [h]; exact ⟨hx, rfl⟩
              · rw [h]
                obtain ⟨h1, h2⟩ := hevents event.execute event.user_data w hx
                exact ⟨by simp only; rw [h1]; exact hx, h2⟩
            have hc1 : ∀ call ∈ (if (execute_event_with_middleware_iterative prog w (some event)).2.2
                  = true then calls ++ [(i, w)] else calls),
                call.2.chain.is_executing ≠ 0 := by
              intro call hcall
              split_ifs at hcall
              · rcases List.mem_append.1 hcall with h | h
                · exact hc call h
                · rw [List.mem_singleton.1 h]; exact hx
              · exact hc call hcall
            generalize execute_event_with_middleware_iterative prog w (some event) = r at hw hc1
            obtain ⟨hw1, hw2⟩ := hw
            by_cases hok : r.1.success = true
            · rw [if_neg (by simp [hok])]
              exact ih _ _ _ _ _ hw1 (by omega) hc1
            · rw [if_pos (by simpa using hok)]
              have hd : (decide_continue prog r.2.1 event r.1).2.chain.is_executing ≠ 0 ∧
                  (decide_continue prog r.2.1 event r.1).2.chain.event_count =
                    w.chain.event_count := by
                rcases decide_continue_cases prog r.2.1 event r.1 with h | h
                · rw [h]; exact ⟨hw1, hw2⟩
                · rw [h]
                  obtain ⟨h1, h2⟩ := hhandlers r.2.1.chain.should_continue event
                    r.1.error_message r.2.1.chain.failure_handler_data r.2.1 hw1
                  exact ⟨by rw [h1]; exact hw1, by rw [h2]; exact hw2⟩
              by_cases hcont : (decide_continue prog r.2.1 event r.1).1 = true
              · rw [if_neg (by simp [hcont])]
                exact ih _ _ _ _ _ hd.1 (by omega) hc1
              · rw [if_pos (by simpa using hcont)]
                exact ⟨_, _, _, rfl, hc1⟩
    · rw [if_neg hi]; exact ⟨_, _, _, rfl, hc⟩

theorem probe_program_events (a d : Nat) (v : World (List EventChainErrorCode))
    (hx : v.chain.is_executing ≠ 0) :
    (probe_program.event_fn a d v).2.chain.is_executing = v.chain.is_executing ∧
    (probe_program.event_fn a d v).2.chain.event_count = v.chain.event_count := by
  unfold probe_program
  simp only
  split_ifs
  · rw [add_event_eq_executing _ _ (by decide) hx,
      use_middleware_eq_executing _ _ (by decide) hx]
    exact ⟨rfl, rfl⟩
  · exact ⟨rfl, rfl⟩

/-! ## Properties of the specification: registration and reentrancy -/

/-- C11: middleware ceiling.  On the idle chain obtained from
`event_chain_create_with_detail` and any calls of `event_chain_add_event`,
`event_chain_use_middleware` of any list of at most 16 middleware with valid
function pointers returns `EC_SUCCESS` for each, and the used part of the
middleware array is exactly that list in the order given (each middleware is
appended at the end).  Once 16 middleware are in, one more valid middleware is
answered `EC_ERROR_CAPACITY_EXCEEDED` and the chain, in particular its
middleware list and count, is unchanged. -/
theorem C11_middleware_ceiling (mode : FaultToleranceMode) (detail : ErrorDetailLevel)
    (evs : List ChainableEvent) (mws : List EventMiddleware)
    (hvalid : ∀ m ∈ mws, is_valid_function_pointer m.execute = true)
    (hlen : mws.length ≤ EVENTCHAINS_MAX_MIDDLEWARE) :
    ∃ ch0, event_chain_create_with_detail mode detail = some ch0 ∧
      (add_events evs ch0).2.is_executing = 0 ∧
      (add_events evs ch0).2.middleware_count = 0 ∧
      (use_middlewares mws (add_events evs ch0).2).1 = List.replicate mws.length EC_SUCCESS ∧
      (use_middlewares mws (add_events evs ch0).2).2.middleware_count = mws.length ∧
      (use_middlewares mws (add_events evs ch0).2).2.middlewares.take
          (use_middlewares mws (add_events evs ch0).2).2.middleware_count = mws.map some ∧
      (mws.length = EVENTCHAINS_MAX_MIDDLEWARE →
        ∀ mw : EventMiddleware, is_valid_function_pointer mw.execute = true →
          event_chain_use_middleware (use_middlewares mws (add_events evs ch0).2).2 (some mw) =
            (EC_ERROR_CAPACITY_EXCEEDED, (use_middlewares mws (add_events evs ch0).2).2)) := by
  refine ⟨_, chain_create_eq mode detail, ?_⟩
  have hfr := add_events_frame evs (fresh_chain mode detail)
  generalize add_events evs (fresh_chain mode detail) = r at hfr
  have hidle : r.2.is_executing = 0 := by rw [hfr]; rfl
  have hz : r.2.middleware_count = 0 := by rw [hfr]; rfl
  have hI : MwInv r.2 := by
    have h0 := fresh_chain_mw_inv mode detail
    exact ⟨by rw [hfr]; exact h0.middlewares_len, by rw [hfr]; exact h0.count_le,
      by rw [hfr]; exact h0.cap_pos, by rw [hfr]; exact h0.cap_le⟩
  obtain ⟨b1, _, b3, b4, b5⟩ := use_middlewares_spec mws r.2 hI hidle hvalid
    (by rw [hz, Nat.zero_add]; exact hlen)
  simp only [hz, Nat.zero_add, List.take_zero, List.nil_append] at b4 b5
  refine ⟨hidle, hz, b1, b4, b5, ?_⟩
  intro hfull mw hmw
  exact use_middleware_eq_full _ mw hmw b3 (by rw [b4, hfull])

/-- C11 instantiated with the 16 middleware of `sample_middlewares` on a strict
chain with three events. -/
theorem C11_witness :
    (use_middlewares sample_middlewares
      (add_events (sample_steps [5001, 5002, 5003])
        (fresh_chain FAULT_TOLERANCE_STRICT ERROR_DETAIL_FULL)).2).1 =
      List.replicate 16 EC_SUCCESS ∧
    (use_middlewares sample_middlewares
      (add_events (sample_steps [5001, 5002, 5003])
        (fresh_chain FAULT_TOLERANCE_STRICT ERROR_DETAIL_FULL)).2).2.middleware_count = 16 ∧
    event_chain_use_middleware
        (use_middlewares sample_middlewares
          (add_events (sample_steps [5001, 5002, 5003])
            (fresh_chain FAULT_TOLERANCE_STRICT ERROR_DETAIL_FULL)).2).2
        (some ⟨9000, 0, [77]⟩) =
      (EC_ERROR_CAPACITY_EXCEEDED,
        (use_middlewares sample_middlewares
          (add_events (sample_steps [5001, 5002, 5003])
            (fresh_chain FAULT_TOLERANCE_STRICT ERROR_DETAIL_FULL)).2).2) := by
  obtain ⟨ch0, hc, _, _, h1, h2, _, h4⟩ := C11_middleware_ceiling FAULT_TOLERANCE_STRICT
    ERROR_DETAIL_FULL (sample_steps [5001, 5002, 5003]) sample_middlewares
    sample_middlewares_valid (by simp [sample_middlewares, EVENTCHAINS_MAX_MIDDLEWARE])
  have e : ch0 = fresh_chain FAULT_TOLERANCE_STRICT ERROR_DETAIL_FULL := by
    rw [chain_create_eq] at hc
    exact (Option.some.inj hc).symm
  subst e
  have hl : sample_middlewares.length = 16 := by simp [sample_middlewares]
  rw [hl] at h1 h2
  exact ⟨h1, h2, h4 hl ⟨9000, 0, [77]⟩ (by decide)⟩

/-- C12: registration is rejected mid-run.  On a chain whose `is_executing` is
set, `event_chain_add_event` with a valid event and
`event_chain_use_middleware` with a valid middleware return
`EC_ERROR_REENTRANCY` and leave the chain, in particular its event and
middleware lists, unchanged.  And `event_chain_execute` on an idle chain, with
event functions and failure predicates that do not write `is_executing` or
`event_count` of an executing chain themselves, returns within
`event_count + 1` evaluations of its loop condition and has called every event
function with `is_executing` set. -/
theorem C12_registration_rejected_mid_run {σ : Type} (prog : Program σ) (fuel : Nat)
    (w : World σ)
    (hevents : ∀ a d (v : World σ), v.chain.is_executing ≠ 0 →
      (prog.event_fn a d v).2.chain.is_executing = v.chain.is_executing ∧
      (prog.event_fn a d v).2.chain.event_count = v.chain.event_count)
    (hhandlers : ∀ a ev msg d (v : World σ), v.chain.is_executing ≠ 0 →
      (prog.handler_fn a ev msg d v).2.chain.is_executing = v.chain.is_executing ∧
      (prog.handler_fn a ev msg d v).2.chain.event_count = v.chain.event_count)
    (hidle : w.chain.is_executing = 0) (hfuel : w.chain.event_count < fuel) :
    (∀ c : EventChain, c.is_executing ≠ 0 →
      (∀ ev : ChainableEvent, is_valid_function_pointer ev.execute = true →
        event_chain_add_event c (some ev) = (EC_ERROR_REENTRANCY, c)) ∧
      (∀ mw : EventMiddleware, is_valid_function_pointer mw.execute = true →
        event_chain_use_middleware c (some mw) = (EC_ERROR_REENTRANCY, c))) ∧
    ∃ r w1 calls, event_chain_execute prog fuel w = some (r, w1, calls) ∧
      ∀ call ∈ calls, call.2.chain.is_executing ≠ 0 := by
  refine ⟨fun c hx => ⟨fun ev hv => add_event_eq_executing c ev hv hx,
    fun mw hv => use_middleware_eq_executing c mw hv hx⟩, ?_⟩
  unfold event_chain_execute
  rw [if_neg (by simp [hidle])]
  exact execute_loop_executing prog hevents hhandlers fuel 0 _ 8 [] _ (by simp)
    (by simpa using hfuel) (by simp)

/-- C12 instantiated with `probe_program`, whose event calls both registration
functions on its own chain: the run returns, both calls were answered
`EC_ERROR_REENTRANCY`, and the chain still has its one event and no
middleware. -/
theorem C12_witness :
    (sample_chain FAULT_TOLERANCE_STRICT [5001]).is_executing = 0 ∧
    ((∀ c : EventChain, c.is_executing ≠ 0 →
      (∀ ev : ChainableEvent, is_valid_function_pointer ev.execute = true →
        event_chain_add_event c (some ev) = (EC_ERROR_REENTRANCY, c)) ∧
      (∀ mw : EventMiddleware, is_valid_function_pointer mw.execute = true →
        event_chain_use_middleware c (some mw) = (EC_ERROR_REENTRANCY, c))) ∧
    ∃ r w1 calls,
      event_chain_execute probe_program 2
        ⟨⟨[], []⟩, sample_chain FAULT_TOLERANCE_STRICT [5001], 100, []⟩ = some (r, w1, calls) ∧
      ∀ call ∈ calls, call.2.chain.is_executing ≠ 0) ∧
    (event_chain_execute probe_program 2
        ⟨⟨[], []⟩, sample_chain FAULT_TOLERANCE_STRICT [5001], 100, []⟩).map
      (fun x => (x.1.success, x.2.1.user, x.2.1.chain.event_count,
        x.2.1.chain.middleware_count, x.2.2.map Prod.fst)) =
      some (true, [EC_ERROR_REENTRANCY, EC_ERROR_REENTRANCY], 1, 0, [0]) :=
  ⟨by decide,
    C12_registration_rejected_mid_run probe_program 2
      ⟨⟨[], []⟩, sample_chain FAULT_TOLERANCE_STRICT [5001], 100, []⟩
      probe_program_events (fun _ _ _ _ _ _ => ⟨rfl, rfl⟩) (by decide) (by decide),
    by decide⟩

/-- C13, the code at the failing input: on a chain whose `is_executing` is set,
`event_chain_set_failure_handler` with a valid handler returns `EC_SUCCESS`
and has replaced the registered handler and the handler data. -/
theorem C13_set_failure_handler_while_executing (chain : EventChain) (user_data : Nat) :
    event_chain_set_failure_handler { chain with is_executing := 1 } 6001 user_data =
      (EC_SUCCESS,
        { chain with
          is_executing := 1, should_continue := 6001, failure_handler_data := user_data }) := by
  unfold event_chain_set_failure_handler
  rw [if_neg (by decide)]

/-- C14: reentrant execute is rejected.  `event_chain_execute` on a chain whose
`is_executing` is set returns, whatever the bound on the loop, without calling
an event; the result has `success = false` and exactly one failure, whose code
is `EC_ERROR_REENTRANCY`; and the world, the chain with its `is_executing`,
interrupt flag, event and middleware lists and context included, is as
before. -/
theorem C14_reentrant_execute_rejected {σ : Type} (prog : Program σ) (fuel : Nat)
    (w : World σ) (hx : w.chain.is_executing ≠ 0) :
    ∃ f : EventFailure,
      event_chain_execute prog fuel w =
        some ({ success := false, failures := [f], failure_count := 1 }, w, []) ∧
      f.error_code = EC_ERROR_REENTRANCY := by
  unfold event_chain_execute
  rw [if_pos hx]
  exact ⟨_, rfl, rfl⟩

/-- C14 instantiated with a chain of three events that is executing. -/
theorem C14_witness :
    ({ sample_chain FAULT_TOLERANCE_STRICT [5001, 5002, 5003] with
        is_executing := 1 }).is_executing ≠ 0 ∧
    ∃ f : EventFailure,
      event_chain_execute (Program.lift sample_event_fns sample_handlers) 0
          (sample_world
            { sample_chain FAULT_TOLERANCE_STRICT [5001, 5002, 5003] with is_executing := 1 }
            42) =
        some ({ success := false, failures := [f], failure_count := 1 },
          sample_world
            { sample_chain FAULT_TOLERANCE_STRICT [5001, 5002, 5003] with is_executing := 1 }
            42, []) ∧
      f.error_code = EC_ERROR_REENTRANCY :=
  ⟨by decide,
    C14_reentrant_execute_rejected (Program.lift sample_event_fns sample_handlers) 0
      (sample_world
        { sample_chain FAULT_TOLERANCE_STRICT [5001, 5002, 5003] with is_executing := 1 } 42)
      (by decide)⟩

/-! ## Lemmas: execution of lifted programs -/

theorem build_stack_some (mws : List (Option EventMiddleware)) :
    ∀ k, (∀ j, j < k → ∃ mw, mws.getD j none = some mw ∧ mw.execute ≠ 0) →
      ∃ st, build_stack mws k = some st := by
  intro k
  induction k with
  | zero => intro _; exact ⟨[], rfl⟩
  | succ k ih =>
    intro h
    obtain ⟨mw, h1, h2⟩ := h k (Nat.lt_succ_self k)
    obtain ⟨st, hst⟩ := ih (fun j hj => h j (by omega))
    refine ⟨⟨mw, Phase.PHASE_PRE⟩ :: st, ?_⟩
    simp only [build_stack, h1, if_neg h2, hst]

theorem pipeline_loop_clear (level : ErrorDetailLevel) :
    ∀ st : List ExecutionFrame, pipeline_loop 0 level st = none := by
  intro st
  induction st with
  | nil => rfl
  | cons f st ih => simp only [pipeline_loop, ne_eq, not_true_eq_false, if_false, ih]

/-- With the interrupt flag clear and every used middleware slot holding a
middleware with a function, the pipeline calls the event and returns what it
returns. -/
theorem pipeline_runs {σ : Type} (prog : Program σ) (w : World σ) (ev : ChainableEvent)
    (hflag : w.chain.signal_interrupted = 0)
    (hmw : ∀ j, j < w.chain.middleware_count →
      ∃ mw, w.chain.middlewares.getD j none = some mw ∧ mw.execute ≠ 0) :
    execute_event_with_middleware_iterative prog w (some ev) =
      ((prog.event_fn ev.execute ev.user_data w).1,
        (prog.event_fn ev.execute ev.user_data w).2, true) := by
  unfold execute_event_with_middleware_iterative
  simp only
  split_ifs
  · rfl
  · obtain ⟨st, hst⟩ := build_stack_some w.chain.middlewares w.chain.middleware_count hmw
    simp only [hst, hflag, pipeline_loop_clear]

theorem decide_continue_lift {σ : Type} (gs : Nat → Nat → Env σ → EventResult × Env σ)
    (hs : Nat → ChainableEvent → CStr → Nat → Env σ → Bool) (wb : World σ) (e : Env σ)
    (ev : ChainableEvent) (r : EventResult) :
    decide_continue (Program.lift gs hs) (wb.put e) ev r =
      (continue_policy wb.chain hs ev r.error_message e, wb.put e) := by
  unfold decide_continue continue_policy
  simp only [World.put, Program.lift, World.env]
  cases wb.chain.fault_tolerance <;> simp only
  split_ifs <;> rfl

theorem model_next_ge {σ : Type} (gs : Nat → Nat → Env σ → EventResult × Env σ)
    (pol : ChainableEvent → CStr → Env σ → Bool) :
    ∀ (evs : List ChainableEvent) (i : Nat) (result : ChainResult) (cap : Nat) (e : Env σ),
      i ≤ (model_loop gs pol evs i result cap e).2.2.2.1 := by
  intro evs
  induction evs with
  | nil => intro i result cap e; exact Nat.le_refl i
  | cons ev evs ih =>
    intro i result cap e
    unfold model_loop
    split_ifs
    · exact Nat.le_trans (Nat.le_succ i) (ih _ _ _ _)
    · exact Nat.le_trans (Nat.le_succ i) (ih _ _ _ _)
    · exact Nat.le_succ i

/-- The loop of `event_chain_execute` on a lifted program and a chain whose
events are valid is `model_loop`: it returns within one evaluation of its
condition more than there are events left, and calls the events from `i` up to
where `model_loop` gets. -/
theorem execute_loop_lift {σ : Type} (gs : Nat → Nat → Env σ → EventResult × Env σ)
    (hs : Nat → ChainableEvent → CStr → Nat → Env σ → Bool) (wb : World σ)
    (evs : List ChainableEvent)
    (hcount : wb.chain.event_count = evs.length)
    (hevents : ∀ i ev, evs[i]? = some ev → wb.chain.events.getD i none = some ev)
    (hvalid : ∀ ev ∈ evs, is_valid_function_pointer ev.execute = true)
    (hmw : ∀ j, j < wb.chain.middleware_count →
      ∃ mw, wb.chain.middlewares.getD j none = some mw ∧ mw.execute ≠ 0)
    (hflag : wb.chain.signal_interrupted = 0) :
    ∀ (rest : List ChainableEvent) (i : Nat), evs.drop i = rest →
      ∀ (fuel : Nat) (result : ChainResult) (cap : Nat) (calls : List (Nat × World σ))
        (e : Env σ), rest.length < fuel →
        ∃ calls1,
          execute_loop (Program.lift gs hs) fuel i result cap calls (wb.put e) =
            some
              (if (model_loop gs (continue_policy wb.chain hs) rest i result cap e).1 then
                  { (model_loop gs (continue_policy wb.chain hs) rest i result cap e).2.1 with
                    success := false }
                else
                  (execute_finish
                    (model_loop gs (continue_policy wb.chain hs) rest i result cap e).2.1 wb).1,
                clear_executing
                  (wb.put (model_loop gs (continue_policy wb.chain hs) rest i result cap e).2.2.2.2),
                calls1) ∧
          calls1.map Prod.fst =
            calls.map Prod.fst ++
              List.range' i
                ((model_loop gs (continue_policy wb.chain hs) rest i result cap e).2.2.2.1 - i) := by
  intro rest
  induction rest with
  | nil =>
    intro i hdrop fuel result cap calls e hfuel
    have hi : evs.length ≤ i := List.drop_eq_nil_iff.1 hdrop
    obtain ⟨fuel, rfl⟩ : ∃ f, fuel = f + 1 := ⟨fuel - 1, by simp at hfuel; omega⟩
    refine ⟨calls, ?_, by simp [model_loop]⟩
    unfold execute_loop
    rw [if_neg (by show ¬ i < wb.chain.event_count; omega)]
    rfl
  | cons ev rest ih =>
    intro i hdrop fuel result cap calls e hfuel
    have hi : i < evs.length := by
      by_contra hcon
      rw [List.drop_eq_nil_of_le (by omega)] at hdrop
      cases hdrop
    rw [List.drop_eq_getElem_cons hi] at hdrop
    have hev : evs[i] = ev := (List.cons.inj hdrop).1
    have hdrop1 : evs.drop (i + 1) = rest := (List.cons.inj hdrop).2
    have hget : wb.chain.events.getD i none = some ev :=
      hevents i ev (by rw [List.getElem?_eq_getElem hi, hev])
    have hv : is_valid_function_pointer ev.execute = true :=
      hvalid ev (by rw [← hev]; exact List.getElem_mem hi)
    obtain ⟨fuel, rfl⟩ : ∃ f, fuel = f + 1 := ⟨fuel - 1, by omega⟩
    simp only [List.length_cons] at hfuel
    have hpipe := pipeline_runs (Program.lift gs hs) (wb.put e) ev hflag hmw
    have hstep : (Program.lift gs hs).event_fn ev.execute ev.user_data (wb.put e) =
        ((event_step gs ev e).1, wb.put (event_step gs ev e).2) := rfl
    rw [hstep] at hpipe
    unfold execute_loop
    rw [if_pos (by show i < wb.chain.event_count; omega),
      if_neg (by show ¬ wb.chain.signal_interrupted ≠ 0; simp [hflag])]
    have hget1 : (wb.put e).chain.events.getD i none = some ev := hget
    rw [hget1]
    simp only
    rw [if_neg (by simp [hv, valid_pointer_ne_zero _ hv]), hpipe]
    simp only [if_true]
    unfold model_loop
    by_cases hok : (event_step gs ev e).1.success = true
    · rw [if_neg (by simp [hok]), if_pos hok]
      obtain ⟨calls1, h1, h2⟩ := ih (i + 1) hdrop1 fuel result cap (calls ++ [(i, wb.put e)])
        (event_step gs ev e).2 (by omega)
      refine ⟨calls1, h1, ?_⟩
      rw [h2]
      have hge := model_next_ge gs (continue_policy wb.chain hs) rest (i + 1) result cap
        (event_step gs ev e).2
      generalize (model_loop gs (continue_policy wb.chain hs) rest (i + 1) result cap
        (event_step gs ev e).2).2.2.2.1 = nx at hge
      obtain ⟨k, rfl⟩ : ∃ k, nx = i + 1 + k := ⟨nx - (i + 1), by omega⟩
      rw [show i + 1 + k - (i + 1) = k by omega, show i + 1 + k - i = k + 1 by omega,
        List.range'_succ]
      simp
    · rw [if_pos (by simpa using hok), if_neg hok, decide_continue_lift]
      simp only
      by_cases hcont : continue_policy wb.chain hs ev (event_step gs ev e).1.error_message
          (event_step gs ev e).2 = true
      · rw [if_neg (by simp [hcont]), if_pos hcont]
        obtain ⟨calls1, h1, h2⟩ := ih (i + 1) hdrop1 fuel
          (record_if_room (expand_failures result cap).1 (expand_failures result cap).2
            (event_failure ev (event_step gs ev e).1 (event_step gs ev e).2.now))
          (expand_failures result cap).2 (calls ++ [(i, wb.put e)])
          (event_step gs ev e).2 (by omega)
        refine ⟨calls1, h1, ?_⟩
        rw [h2]
        have hge := model_next_ge gs (continue_policy wb.chain hs) rest (i + 1)
          (record_if_room (expand_failures result cap).1 (expand_failures result cap).2
            (event_failure ev (event_step gs ev e).1 (event_step gs ev e).2.now))
          (expand_failures result cap).2 (event_step gs ev e).2
        generalize (model_loop gs (continue_policy wb.chain hs) rest (i + 1)
          (record_if_room (expand_failures result cap).1 (expand_failures result cap).2
            (event_failure ev (event_step gs ev e).1 (event_step gs ev e).2.now))
          (expand_failures result cap).2 (event_step gs ev e).2).2.2.2.1 = nx at hge
        obtain ⟨k, rfl⟩ : ∃ k, nx = i + 1 + k := ⟨nx - (i + 1), by omega⟩
        rw [show i + 1 + k - (i + 1) = k by omega, show i + 1 + k - i = k + 1 by omega,
          List.range'_succ]
        simp
      · rw [if_pos (by simpa using hcont), if_neg hcont]
        refine ⟨calls ++ [(i, wb.put e)], rfl, ?_⟩
        simp

/-! ## Lemmas: the failure log -/

/-- Growing the log if needed and recording one failure appends that failure,
as long as the log is nowhere near `SIZE_MAX / 2` entries. -/
theorem record_step (result : ChainResult) (cap : Nat) (log : List EventFailure)
    (f : EventFailure) (hI : LogInv result cap log) (hlen : log.length ≤ 1024) :
    LogInv (record_if_room (expand_failures result cap).1 (expand_failures result cap).2 f)
      (expand_failures result cap).2 (log ++ [f]) ∧
    (record_if_room (expand_failures result cap).1 (expand_failures result cap).2 f).success =
      result.success := by
  obtain ⟨h1, h2, h3, h4, h5, h6⟩ := hI
  unfold expand_failures
  by_cases hfull : result.failure_count ≥ cap
  · have hc : result.failure_count = cap := by omega
    have m1 : safe_multiply cap 2 = some (cap * 2) := by
      unfold safe_multiply SIZE_MAX
      rw [if_neg (by omega), if_neg (by omega)]
    rw [if_pos hfull]
    simp only [m1]
    unfold record_if_room
    rw [if_pos (by simp only; omega)]
    unfold record_failure
    have hl : (realloc_zeroed result.failures (cap * 2) zero_failure).length = cap * 2 := by
      simp only [realloc_zeroed, List.length_append, List.length_take, List.length_replicate]
      omega
    refine ⟨⟨?_, ?_, ?_, ?_, ?_, ?_⟩, rfl⟩
    · simp only [List.length_append, List.length_singleton]; omega
    · simp only
      rw [take_succ_set _ _ _ (by rw [hl]; omega)]
      simp only [realloc_zeroed]
      rw [List.take_of_length_le (show result.failures.length ≤ cap * 2 by omega),
        List.take_append_of_le_length (by omega), h2]
    · simp only [List.length_set]; exact hl
    · omega
    · simp only [List.length_append, List.length_singleton]; omega
    · simp only [List.length_append, List.length_singleton]; omega
  · rw [if_neg hfull]
    unfold record_if_room
    rw [if_pos (by simp only; omega)]
    unfold record_failure
    refine ⟨⟨?_, ?_, ?_, ?_, ?_, ?_⟩, rfl⟩
    · simp only [List.length_append, List.length_singleton]; omega
    · simp only
      rw [take_succ_set _ _ _ (by omega), h2]
    · simp only [List.length_set]; exact h3
    · exact h4
    · simp only [List.length_append, List.length_singleton]; omega
    · simp only [List.length_append, List.length_singleton]; omega

theorem initial_log_inv :
    LogInv { success := true, failures := List.replicate 8 zero_failure, failure_count := 0 }
      8 [] :=
  ⟨rfl, rfl, rfl, by decide, by decide, by decide⟩

theorem expected_log_length_le {σ : Type} (gs : Nat → Nat → Env σ → EventResult × Env σ) :
    ∀ (evs : List ChainableEvent) (e : Env σ), (expected_log gs evs e).length ≤ evs.length := by
  intro evs
  induction evs with
  | nil => intro e; exact Nat.le_refl 0
  | cons ev evs ih =>
    intro e
    simp only [expected_log, List.length_append, List.length_cons]
    have := ih (event_step gs ev e).2
    split_ifs
    · simp only [List.length_nil]; omega
    · simp only [List.length_singleton]; omega

/-- While `pol` lets the loop go on, the loop runs the events one after the
other and appends the failure of each failing one to the log. -/
theorem model_loop_continues {σ : Type} (gs : Nat → Nat → Env σ → EventResult × Env σ)
    (pol : ChainableEvent → CStr → Env σ → Bool) :
    ∀ (pre rest : List ChainableEvent) (i : Nat) (result : ChainResult) (cap : Nat)
      (e : Env σ) (log : List EventFailure), LogInv result cap log →
      log.length + pre.length ≤ 1024 → continues gs pol pre e = true →
      ∃ r1 cap1,
        model_loop gs pol (pre ++ rest) i result cap e =
          model_loop gs pol rest (i + pre.length) r1 cap1 (env_after gs pre e) ∧
        LogInv r1 cap1 (log ++ expected_log gs pre e) ∧ r1.success = result.success := by
  intro pre
  induction pre with
  | nil =>
    intro rest i result cap e log hI _ _
    exact ⟨result, cap, rfl, by simpa [expected_log] using hI, rfl⟩
  | cons ev pre ih =>
    intro rest i result cap e log hI hlen hcont
    simp only [continues, Bool.and_eq_true, Bool.or_eq_true] at hcont
    simp only [List.length_cons] at hlen
    obtain ⟨hc1, hc2⟩ := hcont
    have henv : env_after gs (ev :: pre) e = env_after gs pre (event_step gs ev e).2 := rfl
    have hlog : expected_log gs (ev :: pre) e =
        (if (event_step gs ev e).1.success then []
          else [event_failure ev (event_step gs ev e).1 (event_step gs ev e).2.now]) ++
        expected_log gs pre (event_step gs ev e).2 := rfl
    rw [List.cons_append, henv, hlog, List.length_cons,
      show i + (pre.length + 1) = i + 1 + pre.length by omega]
    simp only [model_loop]
    by_cases hok : (event_step gs ev e).1.success = true
    · rw [if_pos hok, if_pos hok]
      obtain ⟨r1, cap1, a1, a2, a3⟩ := ih rest (i + 1) result cap (event_step gs ev e).2 log hI
        (by omega) hc2
      exact ⟨r1, cap1, a1, by simpa using a2, a3⟩
    · have hp : pol ev (event_step gs ev e).1.error_message (event_step gs ev e).2 = true := by
        rcases hc1 with h | h
        · exact absurd h hok
        · exact h
      rw [if_neg hok, if_pos hp, if_neg hok]
      obtain ⟨s1, s2⟩ := record_step result cap log
        (event_failure ev (event_step gs ev e).1 (event_step gs ev e).2.now) hI (by omega)
      obtain ⟨r1, cap1, a1, a2, a3⟩ := ih rest (i + 1) _ _ (event_step gs ev e).2 _ s1
        (by simp only [List.length_append, List.length_singleton]; omega) hc2
      exact ⟨r1, cap1, a1, by simpa using a2, by rw [a3, s2]⟩

theorem all_succeed_continues {σ : Type} (gs : Nat → Nat → Env σ → EventResult × Env σ)
    (pol : ChainableEvent → CStr → Env σ → Bool) :
    ∀ (evs : List ChainableEvent) (e : Env σ), all_succeed gs evs e = true →
      continues gs pol evs e = true ∧ expected_log gs evs e = [] := by
  intro evs
  induction evs with
  | nil => intro e _; exact ⟨rfl, rfl⟩
  | cons ev evs ih =>
    intro e h
    simp only [all_succeed, Bool.and_eq_true] at h
    obtain ⟨b1, b2⟩ := ih _ h.2
    simp only [continues, expected_log, h.1, b1, b2, Bool.true_or, Bool.and_self, if_true,
      List.append_nil, and_self]

/-- One failing event on which `pol` answers false: the loop records it and
stops. -/
theorem model_loop_stop {σ : Type} (gs : Nat → Nat → Env σ → EventResult × Env σ)
    (pol : ChainableEvent → CStr → Env σ → Bool) (ev : ChainableEvent)
    (post : List ChainableEvent) (i : Nat) (result : ChainResult) (cap : Nat) (e : Env σ)
    (hfail : (event_step gs ev e).1.success = false)
    (hpol : pol ev (event_step gs ev e).1.error_message (event_step gs ev e).2 = false) :
    model_loop gs pol (ev :: post) i result cap e =
      (true,
        record_if_room (expand_failures result cap).1 (expand_failures result cap).2
          (event_failure ev (event_step gs ev e).1 (event_step gs ev e).2.now),
        (expand_failures result cap).2, i + 1, (event_step gs ev e).2) := by
  unfold model_loop
  rw [if_neg (by simp [hfail]), if_neg (by simp [hpol])]

theorem env_after_append {σ : Type} (gs : Nat → Nat → Env σ → EventResult × Env σ)
    (pre post : List ChainableEvent) (e : Env σ) :
    env_after gs (pre ++ post) e = env_after gs post (env_after gs pre e) := by
  simp only [env_after, List.foldl_append]

/-- `event_chain_execute` of a lifted program on a registered chain: it returns
within `evs.length + 1` evaluations of the loop condition, with what
`model_loop` computes from the initial log. -/
theorem execute_lift {σ : Type} (gs : Nat → Nat → Env σ → EventResult × Env σ)
    (hs : Nat → ChainableEvent → CStr → Nat → Env σ → Bool) (w : World σ)
    (evs : List ChainableEvent) (hreg : Registered w.chain evs) (fuel : Nat)
    (hfuel : evs.length < fuel) :
    ∃ calls,
      event_chain_execute (Program.lift gs hs) fuel w =
        some
          (if (model_loop gs (continue_policy w.chain hs) evs 0
                { success := true, failures := List.replicate 8 zero_failure,
                  failure_count := 0 } 8 w.env).1 then
              { (model_loop gs (continue_policy w.chain hs) evs 0
                  { success := true, failures := List.replicate 8 zero_failure,
                    failure_count := 0 } 8 w.env).2.1 with success := false }
            else
              (execute_finish
                (model_loop gs (continue_policy w.chain hs) evs 0
                  { success := true, failures := List.replicate 8 zero_failure,
                    failure_count := 0 } 8 w.env).2.1 w).1,
            clear_executing
              (World.put { w with chain := { w.chain with signal_interrupted := 0 } }
                (model_loop gs (continue_policy w.chain hs) evs 0
                  { success := true, failures := List.replicate 8 zero_failure,
                    failure_count := 0 } 8 w.env).2.2.2.2),
            calls) ∧
      calls.map Prod.fst =
        List.range
          (model_loop gs (continue_policy w.chain hs) evs 0
            { success := true, failures := List.replicate 8 zero_failure,
              failure_count := 0 } 8 w.env).2.2.2.1 := by
  obtain ⟨calls, h1, h2⟩ := execute_loop_lift gs hs
    { w with chain := { w.chain with is_executing := 1, signal_interrupted := 0 } } evs
    hreg.count hreg.events hreg.valid hreg.middleware rfl evs 0 rfl fuel
    { success := true, failures := List.replicate 8 zero_failure, failure_count := 0 } 8 []
    w.env hfuel
  have hpol : continue_policy
      ({ w with chain := { w.chain with is_executing := 1, signal_interrupted := 0 } } :
        World σ).chain hs = continue_policy w.chain hs := rfl
  rw [hpol] at h1 h2
  refine ⟨calls, ?_, ?_⟩
  · unfold event_chain_execute
    rw [if_neg (by simp [hreg.idle])]
    exact h1
  · rw [h2, List.map_nil, List.nil_append, Nat.sub_zero, List.range_eq_range']

/-! ## Lemmas: registered chains -/

theorem registered_congr (c d : EventChain) (evs : List ChainableEvent)
    (h : Registered c evs) (h1 : d.is_executing = c.is_executing)
    (h2 : d.event_count = c.event_count) (h3 : d.events = c.events)
    (h4 : d.middlewares = c.middlewares) (h5 : d.middleware_count = c.middleware_count) :
    Registered d evs :=
  ⟨by rw [h1]; exact h.idle, by rw [h2]; exact h.count, h.bound,
    by rw [h3]; exact h.events, h.valid, h.names, by rw [h4, h5]; exact h.middleware⟩

theorem getD_of_take_eq_map {α : Type} (xs : List (Option α)) (ys : List α) (n : Nat)
    (h : xs.take n = ys.map some) (i : Nat) (y : α) (hy : ys[i]? = some y) :
    xs.getD i none = some y := by
  have hi : i < ys.length := by
    rcases Nat.lt_or_ge i ys.length with h1 | h1
    · exact h1
    · rw [List.getElem?_eq_none h1] at hy; cases hy
  have hlen : (xs.take n).length = ys.length := by rw [h, List.length_map]
  have hin : i < n := by
    rw [List.length_take] at hlen
    omega
  have h1 : (xs.take n)[i]? = some (some y) := by
    rw [h, List.getElem?_map, hy]; rfl
  rw [List.getElem?_take_of_lt hin] at h1
  rw [List.getD_eq_getElem?_getD, h1]
  rfl

theorem registered_add_events (mode : FaultToleranceMode) (detail : ErrorDetailLevel)
    (evs : List ChainableEvent)
    (hv : ∀ ev ∈ evs, is_valid_function_pointer ev.execute = true)
    (hn : ∀ ev ∈ evs, ev.name.length < EVENTCHAINS_MAX_NAME_LENGTH)
    (hlen : evs.length ≤ EVENTCHAINS_MAX_EVENTS) :
    Registered (add_events evs (fresh_chain mode detail)).2 evs := by
  have hz : (fresh_chain mode detail).event_count = 0 := rfl
  obtain ⟨_, _, b3, b4, b5⟩ := add_events_spec evs _ (fresh_chain_inv mode detail) rfl hv
    (by rw [hz, Nat.zero_add]; exact hlen)
  simp only [hz, Nat.zero_add, List.take_zero, List.nil_append] at b4 b5
  have hfr := add_events_frame evs (fresh_chain mode detail)
  refine ⟨b3, b4, hlen, fun i ev h => getD_of_take_eq_map _ _ _ b5 i ev h, hv, hn, ?_⟩
  intro j hj
  rw [hfr] at hj
  exact absurd hj (Nat.not_lt_zero j)

/-- `event_chain_use_middleware` writes the middleware array, its count and its
capacity only. -/
theorem use_middleware_frame (c : EventChain) (mw : Option EventMiddleware) :
    (event_chain_use_middleware c mw).2 =
      { c with
        middlewares := (event_chain_use_middleware c mw).2.middlewares
        middleware_count := (event_chain_use_middleware c mw).2.middleware_count
        middleware_capacity := (event_chain_use_middleware c mw).2.middleware_capacity } := by
  unfold event_chain_use_middleware
  cases mw with
  | none => rfl
  | some e =>
    simp only
    split_ifs <;> try rfl
    all_goals (cases safe_multiply c.middleware_capacity 2 <;> rfl)

theorem use_middlewares_frame (mws : List EventMiddleware) :
    ∀ c : EventChain,
      (use_middlewares mws c).2 =
        { c with
          middlewares := (use_middlewares mws c).2.middlewares
          middleware_count := (use_middlewares mws c).2.middleware_count
          middleware_capacity := (use_middlewares mws c).2.middleware_capacity } := by
  induction mws with
  | nil => intro c; rfl
  | cons e es ih =>
    intro c
    simp only [use_middlewares]
    rw [ih, use_middleware_frame c (some e)]

theorem registered_use_middlewares (c : EventChain) (evs : List ChainableEvent)
    (mws : List EventMiddleware) (h : Registered c evs) (hI : MwInv c)
    (hz : c.middleware_count = 0)
    (hv : ∀ m ∈ mws, is_valid_function_pointer m.execute = true)
    (hlen : mws.length ≤ EVENTCHAINS_MAX_MIDDLEWARE) :
    Registered (use_middlewares mws c).2 evs := by
  obtain ⟨_, _, b3, b4, b5⟩ := use_middlewares_spec mws c hI h.idle hv
    (by rw [hz, Nat.zero_add]; exact hlen)
  simp only [hz, Nat.zero_add, List.take_zero, List.nil_append] at b4 b5
  have hfr := use_middlewares_frame mws c
  refine ⟨b3, by rw [hfr]; exact h.count, h.bound, by rw [hfr]; exact h.events, h.valid,
    h.names, ?_⟩
  intro j hj
  rw [b4] at hj
  refine ⟨mws[j], getD_of_take_eq_map _ _ _ b5 j _ (List.getElem?_eq_getElem hj), ?_⟩
  exact valid_pointer_ne_zero _ (hv _ (List.getElem_mem hj))

theorem sample_steps_registered (mode : FaultToleranceMode) (addresses : List Nat)
    (hv : ∀ a ∈ addresses, 4096 ≤ a) (hlen : addresses.length ≤ 1024) :
    Registered (sample_chain mode addresses) (sample_steps addresses) := by
  refine registered_add_events mode ERROR_DETAIL_FULL _ ?_ ?_ ?_
  · intro ev hev
    obtain ⟨a, ha, rfl⟩ := List.mem_map.1 hev
    have := hv a ha
    simp only [is_valid_function_pointer]
    rw [if_neg (by omega), if_neg (by omega)]
  · intro ev hev
    obtain ⟨a, ha, rfl⟩ := List.mem_map.1 hev
    show (c_str "E").length < EVENTCHAINS_MAX_NAME_LENGTH
    decide
  · simpa [sample_steps, EVENTCHAINS_MAX_EVENTS] using hlen

theorem safe_strncpy_length (src : Option CStr) (n : Nat) (hn : 0 < n) :
    (safe_strncpy src n).length < n := by
  unfold safe_strncpy safe_strnlen
  cases src with
  | none => exact hn
  | some s =>
    simp only
    split_ifs <;> simp only [List.length_take] <;> omega

/-- The events `chainable_event_create` returns have a valid function pointer
and a name that fits its buffer, as `Registered` asks. -/
theorem chainable_event_create_spec (execute user_data : Nat) (name : Option CStr)
    (ev : ChainableEvent) (h : chainable_event_create execute user_data name = some ev) :
    is_valid_function_pointer ev.execute = true ∧
    ev.name.length < EVENTCHAINS_MAX_NAME_LENGTH := by
  unfold chainable_event_create at h
  split_ifs at h with h1 h2
  have hv : is_valid_function_pointer execute = true := by simpa using h2
  have hev := Option.some.inj h
  subst hev
  refine ⟨hv, ?_⟩
  cases name with
  | none =>
    exact safe_strncpy_length (some (c_str "UnnamedEvent")) EVENTCHAINS_MAX_NAME_LENGTH
      (by decide)
  | some n =>
    exact safe_strncpy_length (some n) EVENTCHAINS_MAX_NAME_LENGTH (by decide)

/-! ## Lemmas: complete and stopped runs -/

theorem continues_of_true {σ : Type} (gs : Nat → Nat → Env σ → EventResult × Env σ)
    (pol : ChainableEvent → CStr → Env σ → Bool) (hp : ∀ ev msg e, pol ev msg e = true) :
    ∀ (evs : List ChainableEvent) (e : Env σ), continues gs pol evs e = true := by
  intro evs
  induction evs with
  | nil => intro e; rfl
  | cons ev evs ih =>
    intro e
    simp only [continues, hp, ih, Bool.or_true, Bool.and_self]

theorem model_run_all {σ : Type} (gs : Nat → Nat → Env σ → EventResult × Env σ)
    (pol : ChainableEvent → CStr → Env σ → Bool) (evs : List ChainableEvent) (e : Env σ)
    (hlen : evs.length ≤ 1024) (hc : continues gs pol evs e = true) :
    ∃ r1 cap1,
      model_loop gs pol evs 0
          { success := true, failures := List.replicate 8 zero_failure, failure_count := 0 } 8 e =
        (false, r1, cap1, evs.length, env_after gs evs e) ∧
      LogInv r1 cap1 (expected_log gs evs e) ∧ r1.success = true := by
  obtain ⟨r1, cap1, a1, a2, a3⟩ := model_loop_continues gs pol evs [] 0 _ 8 e []
    initial_log_inv (by simpa using hlen) hc
  rw [List.append_nil, Nat.zero_add] at a1
  exact ⟨r1, cap1, by rw [a1]; rfl, by simpa using a2, a3⟩

theorem model_run_stop {σ : Type} (gs : Nat → Nat → Env σ → EventResult × Env σ)
    (pol : ChainableEvent → CStr → Env σ → Bool) (pre : List ChainableEvent)
    (ev : ChainableEvent) (post : List ChainableEvent) (e : Env σ)
    (hlen : (pre ++ ev :: post).length ≤ 1024) (hc : continues gs pol pre e = true)
    (hfail : (event_step gs ev (env_after gs pre e)).1.success = false)
    (hpol : pol ev (event_step gs ev (env_after gs pre e)).1.error_message
      (event_step gs ev (env_after gs pre e)).2 = false) :
    ∃ r1 cap1,
      model_loop gs pol (pre ++ ev :: post) 0
          { success := true, failures := List.replicate 8 zero_failure, failure_count := 0 } 8 e =
        (true, r1, cap1, pre.length + 1, (event_step gs ev (env_after gs pre e)).2) ∧
      LogInv r1 cap1
        (expected_log gs pre e ++
          [event_failure ev (event_step gs ev (env_after gs pre e)).1
            (event_step gs ev (env_after gs pre e)).2.now]) := by
  simp only [List.length_append, List.length_cons] at hlen
  obtain ⟨r1, cap1, a1, a2, _⟩ := model_loop_continues gs pol pre (ev :: post) 0 _ 8 e []
    initial_log_inv (by simp only [List.length_nil]; omega) hc
  rw [Nat.zero_add] at a1
  rw [List.nil_append] at a2
  have hl := expected_log_length_le gs pre e
  obtain ⟨s1, _⟩ := record_step r1 cap1 _
    (event_failure ev (event_step gs ev (env_after gs pre e)).1
      (event_step gs ev (env_after gs pre e)).2.now) a2 (by omega)
  exact ⟨_, _, by rw [a1, model_loop_stop gs pol ev post _ _ _ _ hfail hpol], s1⟩

theorem finish_log {σ : Type} (result : ChainResult) (w : World σ) :
    (execute_finish result w).1.failures = result.failures ∧
    (execute_finish result w).1.failure_count = result.failure_count := by
  unfold execute_finish
  split_ifs <;> exact ⟨rfl, rfl⟩

/-- A run of a lifted program in which every failure is answered by going on:
all events are called, in order, and the log is `expected_log`. -/
theorem execute_lift_all {σ : Type} (gs : Nat → Nat → Env σ → EventResult × Env σ)
    (hs : Nat → ChainableEvent → CStr → Nat → Env σ → Bool) (w : World σ)
    (evs : List ChainableEvent) (hreg : Registered w.chain evs) (fuel : Nat)
    (hfuel : evs.length < fuel)
    (hc : continues gs (continue_policy w.chain hs) evs w.env = true) :
    ∃ r calls,
      event_chain_execute (Program.lift gs hs) fuel w =
        some (r,
          clear_executing
            (World.put { w with chain := { w.chain with signal_interrupted := 0 } }
              (env_after gs evs w.env)), calls) ∧
      calls.map Prod.fst = List.range evs.length ∧
      r.failure_count = (expected_log gs evs w.env).length ∧
      r.failures.take r.failure_count = expected_log gs evs w.env ∧
      r.success =
        (if (expected_log gs evs w.env).length > 0 then
          decide (w.chain.fault_tolerance ≠ FAULT_TOLERANCE_STRICT) else true) := by
  obtain ⟨calls, h1, h2⟩ := execute_lift gs hs w evs hreg fuel hfuel
  obtain ⟨r1, cap1, a1, a2, a3⟩ := model_run_all gs (continue_policy w.chain hs) evs w.env
    (by simpa [EVENTCHAINS_MAX_EVENTS] using hreg.bound) hc
  rw [a1] at h1 h2
  simp only [Bool.false_eq_true, if_false] at h1
  obtain ⟨f1, f2⟩ := finish_log r1 w
  refine ⟨_, calls, h1, h2, by rw [f2]; exact a2.count, by rw [f1, f2]; exact a2.used, ?_⟩
  unfold execute_finish
  simp only [a2.count]
  split_ifs
  · rfl
  · exact a3

/-- A run of a lifted program that goes on after every failure among `pre` and
is stopped by the failure of `ev`: the events up to `ev` are called, in order,
and the log is that of `pre` and then the failure of `ev`. -/
theorem execute_lift_stop {σ : Type} (gs : Nat → Nat → Env σ → EventResult × Env σ)
    (hs : Nat → ChainableEvent → CStr → Nat → Env σ → Bool) (w : World σ)
    (pre : List ChainableEvent) (ev : ChainableEvent) (post : List ChainableEvent)
    (hreg : Registered w.chain (pre ++ ev :: post)) (fuel : Nat)
    (hfuel : (pre ++ ev :: post).length < fuel)
    (hc : continues gs (continue_policy w.chain hs) pre w.env = true)
    (hfail : (event_step gs ev (env_after gs pre w.env)).1.success = false)
    (hpol : continue_policy w.chain hs ev
      (event_step gs ev (env_after gs pre w.env)).1.error_message
      (event_step gs ev (env_after gs pre w.env)).2 = false) :
    ∃ r calls,
      event_chain_execute (Program.lift gs hs) fuel w =
        some (r,
          clear_executing
            (World.put { w with chain := { w.chain with signal_interrupted := 0 } }
              (event_step gs ev (env_after gs pre w.env)).2), calls) ∧
      calls.map Prod.fst = List.range (pre.length + 1) ∧
      r.failure_count = (expected_log gs pre w.env).length + 1 ∧
      r.failures.take r.failure_count =
        expected_log gs pre w.env ++
          [event_failure ev (event_step gs ev (env_after gs pre w.env)).1
            (event_step gs ev (env_after gs pre w.env)).2.now] ∧
      r.success = false := by
  obtain ⟨calls, h1, h2⟩ := execute_lift gs hs w _ hreg fuel hfuel
  obtain ⟨r1, cap1, a1, a2⟩ := model_run_stop gs (continue_policy w.chain hs) pre ev post w.env
    (by simpa [EVENTCHAINS_MAX_EVENTS] using hreg.bound) hc hfail hpol
  rw [a1] at h1 h2
  simp only [if_true] at h1
  refine ⟨_, calls, h1, h2, ?_, ?_, rfl⟩
  · simpa using a2.count
  · exact a2.used

/-! ## Lemmas: what the log says of an event -/

theorem safe_strncpy_fits (s : CStr) (n : Nat) (h : s.length < n) :
    safe_strncpy (some s) n = s := by
  unfold safe_strncpy safe_strnlen
  simp only
  split_ifs
  · exact List.take_length s
  · exact List.take_of_length_le (by omega)

theorem expected_log_failing {σ : Type} (gs : Nat → Nat → Env σ → EventResult × Env σ) :
    ∀ (evs : List ChainableEvent) (e : Env σ),
      (∀ ev ∈ evs, ev.name.length < EVENTCHAINS_MAX_NAME_LENGTH) →
      (expected_log gs evs e).map (fun f => (f.event_name, f.error_code)) =
        failing_events gs evs e := by
  intro evs
  induction evs with
  | nil => intro e _; rfl
  | cons ev evs ih =>
    intro e hn
    simp only [expected_log, failing_events, List.map_append]
    rw [ih _ (fun x hx => hn x (List.mem_cons_of_mem ev hx))]
    split_ifs
    · rfl
    · simp only [List.map_cons, List.map_nil, event_failure,
        safe_strncpy_fits _ _ (hn ev (List.mem_cons_self ev evs))]

theorem failing_events_all_succeed {σ : Type} (gs : Nat → Nat → Env σ → EventResult × Env σ) :
    ∀ (evs : List ChainableEvent) (e : Env σ), all_succeed gs evs e = true →
      failing_events gs evs e = [] := by
  intro evs
  induction evs with
  | nil => intro e _; rfl
  | cons ev evs ih =>
    intro e h
    simp only [all_succeed, Bool.and_eq_true] at h
    simp only [failing_events, h.1, ih _ h.2, if_true, List.append_nil]

/-! ## Lemmas: the decision after a failure -/

theorem execute_lift_returns {σ : Type} (gs : Nat → Nat → Env σ → EventResult × Env σ)
    (hs : Nat → ChainableEvent → CStr → Nat → Env σ → Bool) (w : World σ)
    (evs : List ChainableEvent) (hreg : Registered w.chain evs) (fuel : Nat)
    (hfuel : evs.length < fuel) :
    ∃ r w1 calls, event_chain_execute (Program.lift gs hs) fuel w = some (r, w1, calls) ∧
      w1.chain.is_executing = 0 := by
  obtain ⟨calls, h1, _⟩ := execute_lift gs hs w evs hreg fuel hfuel
  exact ⟨_, _, calls, h1, rfl⟩

theorem continue_policy_strict {σ : Type} (c : EventChain)
    (hs : Nat → ChainableEvent → CStr → Nat → Env σ → Bool)
    (hmode : c.fault_tolerance = FAULT_TOLERANCE_STRICT) :
    continue_policy c hs = fun _ _ _ => false := by
  funext ev msg e
  unfold continue_policy
  rw [hmode]

theorem continue_policy_tolerant {σ : Type} (c : EventChain)
    (hs : Nat → ChainableEvent → CStr → Nat → Env σ → Bool)
    (hmode : c.fault_tolerance = FAULT_TOLERANCE_LENIENT ∨
      c.fault_tolerance = FAULT_TOLERANCE_BEST_EFFORT) :
    continue_policy c hs = fun _ _ _ => true := by
  funext ev msg e
  unfold continue_policy
  rcases hmode with h | h <;> rw [h]

theorem continue_policy_custom {σ : Type} (c : EventChain)
    (hs : Nat → ChainableEvent → CStr → Nat → Env σ → Bool)
    (hmode : c.fault_tolerance = FAULT_TOLERANCE_CUSTOM) (hh : c.should_continue ≠ 0) :
    continue_policy c hs =
      fun ev msg e => hs c.should_continue ev msg c.failure_handler_data e := by
  funext ev msg e
  unfold continue_policy
  rw [hmode]
  simp only [hh, ne_eq, not_false_eq_true, if_true]

theorem continue_policy_no_handler {σ : Type} (c : EventChain)
    (hs : Nat → ChainableEvent → CStr → Nat → Env σ → Bool)
    (hmode : c.fault_tolerance = FAULT_TOLERANCE_CUSTOM) (hh : c.should_continue = 0) :
    continue_policy c hs = fun _ _ _ => false := by
  funext ev msg e
  unfold continue_policy
  rw [hmode]
  simp only [hh, ne_eq, not_true_eq_false, if_false]

/-! ## Properties of the specification: fault tolerance -/

/-- C15: STRICT mode.  On a registered idle chain in STRICT mode whose event
functions reach the world through the context only, `event_chain_execute`
returns within `event_count + 1` evaluations of its loop condition and leaves
the chain idle.  If no event fails, every event has been called once, in
registration order, and the result has `success = true` and no failure.  If
`ev` is the first event to fail, the events up to and including `ev` have been
called, in registration order, and none after it; the result has
`success = false` and exactly one failure, carrying the name of `ev` and the
error code of its result. -/
theorem C15_strict_mode {σ : Type} (gs : Nat → Nat → Env σ → EventResult × Env σ)
    (hs : Nat → ChainableEvent → CStr → Nat → Env σ → Bool) (w : World σ)
    (evs : List ChainableEvent) (fuel : Nat) (hreg : Registered w.chain evs)
    (hmode : w.chain.fault_tolerance = FAULT_TOLERANCE_STRICT) (hfuel : evs.length < fuel) :
    ∃ r w1 calls, event_chain_execute (Program.lift gs hs) fuel w = some (r, w1, calls) ∧
      w1.chain.is_executing = 0 ∧
      (all_succeed gs evs w.env = true →
        calls.map Prod.fst = List.range evs.length ∧ r.success = true ∧
        r.failure_count = 0 ∧ w1.env = env_after gs evs w.env) ∧
      (∀ pre ev post, evs = pre ++ ev :: post → all_succeed gs pre w.env = true →
        (event_step gs ev (env_after gs pre w.env)).1.success = false →
        calls.map Prod.fst = List.range (pre.length + 1) ∧ r.success = false ∧
        r.failure_count = 1 ∧
        (r.failures.take r.failure_count).map (fun f => (f.event_name, f.error_code)) =
          [(ev.name, (event_step gs ev (env_after gs pre w.env)).1.error_code)] ∧
        w1.env = (event_step gs ev (env_after gs pre w.env)).2) := by
  obtain ⟨r, w1, calls, hx, hidle⟩ := execute_lift_returns gs hs w evs hreg fuel hfuel
  refine ⟨r, w1, calls, hx, hidle, ?_, ?_⟩
  · intro hall
    obtain ⟨c1, c2⟩ := all_succeed_continues gs (continue_policy w.chain hs) evs w.env hall
    obtain ⟨r', calls', b1, b2, b3, _, b5⟩ := execute_lift_all gs hs w evs hreg fuel hfuel c1
    rw [hx] at b1
    simp only [Option.some.injEq, Prod.mk.injEq] at b1
    obtain ⟨rfl, rfl, rfl⟩ := b1
    rw [c2] at b3 b5
    exact ⟨b2, by simpa using b5, b3, rfl⟩
  · intro pre ev post hsplit hall hfail
    subst hsplit
    obtain ⟨c1, c2⟩ := all_succeed_continues gs (continue_policy w.chain hs) pre w.env hall
    obtain ⟨r', calls', b1, b2, b3, b4, b5⟩ := execute_lift_stop gs hs w pre ev post hreg fuel
      hfuel c1 hfail (by rw [continue_policy_strict _ _ hmode])
    rw [hx] at b1
    simp only [Option.some.injEq, Prod.mk.injEq] at b1
    obtain ⟨rfl, rfl, rfl⟩ := b1
    rw [c2] at b3 b4
    refine ⟨b2, b5, b3, ?_, rfl⟩
    rw [b4]
    simp only [List.nil_append, List.map_cons, List.map_nil, event_failure,
      safe_strncpy_fits _ _ (hreg.names ev (by simp))]

/-- C15 instantiated with three events of which the second fails, from 42: one
failure, the third event never runs. -/
theorem C15_witness :
    Registered (sample_world (sample_chain FAULT_TOLERANCE_STRICT [5001, 5004, 5003]) 42).chain
      (sample_steps [5001, 5004, 5003]) ∧
    (∃ r w1 calls,
      event_chain_execute (Program.lift sample_event_fns sample_handlers) 4
          (sample_world (sample_chain FAULT_TOLERANCE_STRICT [5001, 5004, 5003]) 42) =
        some (r, w1, calls) ∧
      calls.map Prod.fst = [0, 1] ∧ r.success = false ∧ r.failure_count = 1 ∧
      (r.failures.take r.failure_count).map (fun f => (f.event_name, f.error_code)) =
        [(c_str "E", EC_ERROR_EVENT_EXECUTION_FAILED)] ∧
      w1.env.user = 52) ∧
    (event_chain_execute (Program.lift sample_event_fns sample_handlers) 4
        (sample_world (sample_chain FAULT_TOLERANCE_STRICT [5001, 5002, 5003]) 42)).map
      (fun x => (x.1.success, x.1.failure_count, x.2.1.user, x.2.2.map Prod.fst)) =
      some (true, 0, 99, [0, 1, 2]) := by
  have hreg := sample_steps_registered FAULT_TOLERANCE_STRICT [5001, 5004, 5003]
    (by decide) (by decide)
  refine ⟨hreg, ?_, by decide⟩
  obtain ⟨r, w1, calls, h1, _, _, h4⟩ := C15_strict_mode sample_event_fns sample_handlers
    (sample_world (sample_chain FAULT_TOLERANCE_STRICT [5001, 5004, 5003]) 42)
    (sample_steps [5001, 5004, 5003]) 4 hreg rfl (by decide)
  obtain ⟨a1, a2, a3, a4, a5⟩ := h4 (sample_steps [5001]) ⟨5004, 0, c_str "E"⟩
    (sample_steps [5003]) rfl (by decide) (by decide)
  exact ⟨r, w1, calls, h1, a1, a2, a3, a4, by rw [a5]; decide⟩

/-- C16: LENIENT and BEST_EFFORT modes.  On a registered idle chain in either
mode whose event functions reach the world through the context only,
`event_chain_execute` returns within `event_count + 1` evaluations of its loop
condition and leaves the chain idle; every registered event has been called
once, in registration order, whatever failed; the result has `success = true`;
and the used part of the failure log holds one entry for each failing event,
in execution order, with the name of that event and the error code of its
result, however many events fail. -/
theorem C16_tolerant_modes {σ : Type} (gs : Nat → Nat → Env σ → EventResult × Env σ)
    (hs : Nat → ChainableEvent → CStr → Nat → Env σ → Bool) (w : World σ)
    (evs : List ChainableEvent) (fuel : Nat) (hreg : Registered w.chain evs)
    (hmode : w.chain.fault_tolerance = FAULT_TOLERANCE_LENIENT ∨
      w.chain.fault_tolerance = FAULT_TOLERANCE_BEST_EFFORT)
    (hfuel : evs.length < fuel) :
    ∃ r w1 calls, event_chain_execute (Program.lift gs hs) fuel w = some (r, w1, calls) ∧
      w1.chain.is_executing = 0 ∧
      calls.map Prod.fst = List.range evs.length ∧ r.success = true ∧
      r.failure_count = (failing_events gs evs w.env).length ∧
      (r.failures.take r.failure_count).map (fun f => (f.event_name, f.error_code)) =
        failing_events gs evs w.env ∧
      w1.env = env_after gs evs w.env := by
  have hc : continues gs (continue_policy w.chain hs) evs w.env = true := by
    rw [continue_policy_tolerant _ _ hmode]
    exact continues_of_true gs _ (fun _ _ _ => rfl) evs w.env
  obtain ⟨r, calls, b1, b2, b3, b4, b5⟩ := execute_lift_all gs hs w evs hreg fuel hfuel hc
  have hlog := expected_log_failing gs evs w.env hreg.names
  refine ⟨r, _, calls, b1, rfl, b2, ?_, ?_, ?_, rfl⟩
  · rw [b5]
    have hne : w.chain.fault_tolerance ≠ FAULT_TOLERANCE_STRICT := by
      rcases hmode with h | h <;> rw [h] <;> decide
    split_ifs
    · simpa using hne
    · rfl
  · rw [b3, ← hlog, List.length_map]
  · rw [b4, hlog]

/-- C16 instantiated with three events of which the second fails, from 42, in
LENIENT mode: all three run, one failure, success; and with nine failing events
followed by one that succeeds, in BEST_EFFORT mode: nine failures logged. -/
theorem C16_witness :
    Registered (sample_world (sample_chain FAULT_TOLERANCE_LENIENT [5001, 5004, 5003]) 42).chain
      (sample_steps [5001, 5004, 5003]) ∧
    (∃ r w1 calls,
      event_chain_execute (Program.lift sample_event_fns sample_handlers) 4
          (sample_world (sample_chain FAULT_TOLERANCE_LENIENT [5001, 5004, 5003]) 42) =
        some (r, w1, calls) ∧
      calls.map Prod.fst = [0, 1, 2] ∧ r.success = true ∧ r.failure_count = 1 ∧
      (r.failures.take r.failure_count).map (fun f => (f.event_name, f.error_code)) =
        [(c_str "E", EC_ERROR_EVENT_EXECUTION_FAILED)] ∧
      w1.env.user = 47) ∧
    (event_chain_execute (Program.lift sample_event_fns sample_handlers) 11
        (sample_world
          (sample_chain FAULT_TOLERANCE_BEST_EFFORT (List.replicate 9 5004 ++ [5001])) 42)).map
      (fun x => (x.1.success, x.1.failure_count, x.1.failures.length, x.2.1.user,
        x.2.2.map Prod.fst)) =
      some (true, 9, 16, 52, [0, 1, 2, 3, 4, 5, 6, 7, 8, 9]) := by
  have hreg := sample_steps_registered FAULT_TOLERANCE_LENIENT [5001, 5004, 5003]
    (by decide) (by decide)
  refine ⟨hreg, ?_, by decide⟩
  obtain ⟨r, w1, calls, h1, _, a1, a2, a3, a4, a5⟩ := C16_tolerant_modes sample_event_fns
    sample_handlers (sample_world (sample_chain FAULT_TOLERANCE_LENIENT [5001, 5004, 5003]) 42)
    (sample_steps [5001, 5004, 5003]) 4 hreg (Or.inl rfl) (by decide)
  exact ⟨r, w1, calls, h1, a1, a2, by rw [a3]; decide, by rw [a4]; decide, by rw [a5]; decide⟩

/-! ## Lemmas: comparing two runs -/

/-- If the decision after a failure is always to stop, a loop that was not
stopped has recorded nothing. -/
theorem model_loop_never_continue {σ : Type}
    (gs : Nat → Nat → Env σ → EventResult × Env σ) :
    ∀ (evs : List ChainableEvent) (i : Nat) (result : ChainResult) (cap : Nat) (e : Env σ),
      (model_loop gs (fun _ _ _ => false) evs i result cap e).1 = false →
      (model_loop gs (fun _ _ _ => false) evs i result cap e).2.1 = result := by
  intro evs
  induction evs with
  | nil => intro i result cap e _; rfl
  | cons ev evs ih =>
    intro i result cap e h
    unfold model_loop at h ⊢
    by_cases hok : (event_step gs ev e).1.success = true
    · rw [if_pos hok] at h ⊢
      exact ih _ _ _ _ h
    · rw [if_neg hok] at h
      simp at h

/-- Two worlds that give the events the same things to reach, the same events
and the same decisions after a failure, run alike. -/
theorem execute_lift_congr {σ : Type} (gs : Nat → Nat → Env σ → EventResult × Env σ)
    (hs : Nat → ChainableEvent → CStr → Nat → Env σ → Bool) (w v : World σ)
    (evs : List ChainableEvent) (hreg : Registered w.chain evs) (hregv : Registered v.chain evs)
    (fuel : Nat) (hfuel : evs.length < fuel) (henv : v.env = w.env)
    (hpol : continue_policy v.chain hs = continue_policy w.chain hs)
    (hfin : (model_loop gs (continue_policy w.chain hs) evs 0
          { success := true, failures := List.replicate 8 zero_failure, failure_count := 0 } 8
          w.env).1 = false →
      (execute_finish
          (model_loop gs (continue_policy w.chain hs) evs 0
            { success := true, failures := List.replicate 8 zero_failure, failure_count := 0 } 8
            w.env).2.1 v).1 =
        (execute_finish
          (model_loop gs (continue_policy w.chain hs) evs 0
            { success := true, failures := List.replicate 8 zero_failure, failure_count := 0 } 8
            w.env).2.1 w).1) :
    ∃ r envf calls calls2,
      event_chain_execute (Program.lift gs hs) fuel w =
        some (r,
          clear_executing
            (World.put { w with chain := { w.chain with signal_interrupted := 0 } } envf),
          calls) ∧
      event_chain_execute (Program.lift gs hs) fuel v =
        some (r,
          clear_executing
            (World.put { v with chain := { v.chain with signal_interrupted := 0 } } envf),
          calls2) ∧
      calls2.map Prod.fst = calls.map Prod.fst := by
  obtain ⟨calls, h1, h2⟩ := execute_lift gs hs w evs hreg fuel hfuel
  obtain ⟨calls2, k1, k2⟩ := execute_lift gs hs v evs hregv fuel hfuel
  rw [henv, hpol] at k1 k2
  generalize model_loop gs (continue_policy w.chain hs) evs 0
    { success := true, failures := List.replicate 8 zero_failure, failure_count := 0 } 8
    w.env = m at h1 h2 k1 k2 hfin
  refine ⟨_, _, calls, calls2, h1, ?_, by rw [h2, k2]⟩
  rw [k1]
  cases hm : m.1 with
  | true => simp only [if_true]
  | false => simp only [Bool.false_eq_true, if_false, hfin hm]

/-! ## Properties of the specification: the custom decision -/

/-- C17: CUSTOM mode.  On a registered idle chain in CUSTOM mode whose event
functions reach the world through the context only, `event_chain_execute`
returns within `event_count + 1` evaluations of its loop condition and leaves
the chain idle.  With a predicate registered, the decision after each failing
event is the answer of that predicate to the event, the message of its result
and the handler data: if it answers true for every failing event, all events
are called, in order, and the result is a success with one log entry for each
failing event; if `ev` is the first failing event for which it answers false,
the events up to `ev` are called and none after it, and the result is a failure
whose log ends with `ev`.  With no predicate, or one that always answers false,
the STRICT chain with the same events returns the same result, leaves the same
things for the events to reach, and calls the same events; with a predicate
that always answers true, so does the BEST_EFFORT chain. -/
theorem C17_custom_mode {σ : Type} (gs : Nat → Nat → Env σ → EventResult × Env σ)
    (hs : Nat → ChainableEvent → CStr → Nat → Env σ → Bool) (w : World σ)
    (evs : List ChainableEvent) (fuel : Nat) (hreg : Registered w.chain evs)
    (hmode : w.chain.fault_tolerance = FAULT_TOLERANCE_CUSTOM) (hfuel : evs.length < fuel) :
    ∃ r w1 calls, event_chain_execute (Program.lift gs hs) fuel w = some (r, w1, calls) ∧
      w1.chain.is_executing = 0 ∧
      (w.chain.should_continue ≠ 0 →
        (continues gs
            (fun ev msg e => hs w.chain.should_continue ev msg w.chain.failure_handler_data e)
            evs w.env = true →
          calls.map Prod.fst = List.range evs.length ∧ r.success = true ∧
          (r.failures.take r.failure_count).map (fun f => (f.event_name, f.error_code)) =
            failing_events gs evs w.env ∧
          w1.env = env_after gs evs w.env) ∧
        (∀ pre ev post, evs = pre ++ ev :: post →
          continues gs
            (fun ev msg e => hs w.chain.should_continue ev msg w.chain.failure_handler_data e)
            pre w.env = true →
          (event_step gs ev (env_after gs pre w.env)).1.success = false →
          hs w.chain.should_continue ev
            (event_step gs ev (env_after gs pre w.env)).1.error_message
            w.chain.failure_handler_data (event_step gs ev (env_after gs pre w.env)).2 = false →
          calls.map Prod.fst = List.range (pre.length + 1) ∧ r.success = false ∧
          (r.failures.take r.failure_count).map (fun f => (f.event_name, f.error_code)) =
            failing_events gs pre w.env ++
              [(ev.name, (event_step gs ev (env_after gs pre w.env)).1.error_code)] ∧
          w1.env = (event_step gs ev (env_after gs pre w.env)).2)) ∧
      ((w.chain.should_continue = 0 ∨
          ∀ ev msg e,
            hs w.chain.should_continue ev msg w.chain.failure_handler_data e = false) →
        ∃ w2 calls2,
          event_chain_execute (Program.lift gs hs) fuel
              { w with chain := { w.chain with fault_tolerance := FAULT_TOLERANCE_STRICT } } =
            some (r, w2, calls2) ∧
          w2.env = w1.env ∧ calls2.map Prod.fst = calls.map Prod.fst) ∧
      ((w.chain.should_continue ≠ 0 ∧
          ∀ ev msg e,
            hs w.chain.should_continue ev msg w.chain.failure_handler_data e = true) →
        ∃ w2 calls2,
          event_chain_execute (Program.lift gs hs) fuel
              { w with
                chain := { w.chain with fault_tolerance := FAULT_TOLERANCE_BEST_EFFORT } } =
            some (r, w2, calls2) ∧
          w2.env = w1.env ∧ calls2.map Prod.fst = calls.map Prod.fst) := by
  obtain ⟨r, w1, calls, hx, hidle⟩ := execute_lift_returns gs hs w evs hreg fuel hfuel
  refine ⟨r, w1, calls, hx, hidle, ?_, ?_, ?_⟩
  · intro hh
    have hp := continue_policy_custom w.chain hs hmode hh
    refine ⟨?_, ?_⟩
    · intro hc
      rw [← hp] at hc
      obtain ⟨r', calls', b1, b2, b3, b4, b5⟩ := execute_lift_all gs hs w evs hreg fuel hfuel hc
      rw [hx] at b1
      simp only [Option.some.injEq, Prod.mk.injEq] at b1
      obtain ⟨rfl, rfl, rfl⟩ := b1
      refine ⟨b2, ?_, by rw [b4, expected_log_failing gs evs w.env hreg.names], rfl⟩
      rw [b5, hmode]
      split_ifs <;> rfl
    · intro pre ev post hsplit hc hfail hstop
      subst hsplit
      rw [← hp] at hc
      obtain ⟨r', calls', b1, b2, _, b4, b5⟩ := execute_lift_stop gs hs w pre ev post hreg fuel
        hfuel hc hfail (by rw [hp]; exact hstop)
      rw [hx] at b1
      simp only [Option.some.injEq, Prod.mk.injEq] at b1
      obtain ⟨rfl, rfl, rfl⟩ := b1
      refine ⟨b2, b5, ?_, rfl⟩
      rw [b4, List.map_append,
        expected_log_failing gs pre w.env
          (fun x hx => hreg.names x (List.mem_append_left _ hx))]
      simp only [List.map_cons, List.map_nil, event_failure,
        safe_strncpy_fits _ _ (hreg.names ev (by simp))]
  · intro hstop
    have hp : continue_policy w.chain hs = fun _ _ _ => false := by
      rcases hstop with h | h
      · exact continue_policy_no_handler _ _ hmode h
      · by_cases hh : w.chain.should_continue = 0
        · exact continue_policy_no_handler _ _ hmode hh
        · rw [continue_policy_custom _ _ hmode hh]
          funext ev msg e
          exact h ev msg e
    obtain ⟨r', envf, calls', calls2, b1, b2, b3⟩ := execute_lift_congr gs hs w
      { w with chain := { w.chain with fault_tolerance := FAULT_TOLERANCE_STRICT } } evs hreg
      (registered_congr _ _ _ hreg rfl rfl rfl rfl rfl) fuel hfuel rfl
      (by rw [hp]; exact continue_policy_strict _ _ rfl)
      (by
        rw [hp]
        intro hm
        rw [model_loop_never_continue gs evs 0 _ 8 w.env hm]
        rfl)
    rw [hx] at b1
    simp only [Option.some.injEq, Prod.mk.injEq] at b1
    obtain ⟨rfl, rfl, rfl⟩ := b1
    exact ⟨_, calls2, b2, rfl, b3⟩
  · intro hgo
    have hp : continue_policy w.chain hs = fun _ _ _ => true := by
      rw [continue_policy_custom _ _ hmode hgo.1]
      funext ev msg e
      exact hgo.2 ev msg e
    obtain ⟨r', envf, calls', calls2, b1, b2, b3⟩ := execute_lift_congr gs hs w
      { w with chain := { w.chain with fault_tolerance := FAULT_TOLERANCE_BEST_EFFORT } } evs
      hreg (registered_congr _ _ _ hreg rfl rfl rfl rfl rfl) fuel hfuel rfl
      (by rw [hp]; exact continue_policy_tolerant _ _ (Or.inr rfl))
      (by
        intro _
        unfold execute_finish
        simp only [hmode]
        rfl)
    rw [hx] at b1
    simp only [Option.some.injEq, Prod.mk.injEq] at b1
    obtain ⟨rfl, rfl, rfl⟩ := b1
    exact ⟨_, calls2, b2, rfl, b3⟩

/-- C17 instantiated with three events of which the second fails, from 42, and
the predicate at 6001, which always answers true: all three events run and the
BEST_EFFORT chain returns the same result; and with no predicate the run stops
at the second event. -/
theorem C17_witness :
    Registered
      (sample_world
        (event_chain_set_failure_handler
          (sample_chain FAULT_TOLERANCE_CUSTOM [5001, 5004, 5003]) 6001 0).2 42).chain
      (sample_steps [5001, 5004, 5003]) ∧
    (∃ r w1 calls,
      event_chain_execute (Program.lift sample_event_fns sample_handlers) 4
          (sample_world
            (event_chain_set_failure_handler
              (sample_chain FAULT_TOLERANCE_CUSTOM [5001, 5004, 5003]) 6001 0).2 42) =
        some (r, w1, calls) ∧
      calls.map Prod.fst = [0, 1, 2] ∧ r.success = true ∧
      ∃ w2 calls2,
        event_chain_execute (Program.lift sample_event_fns sample_handlers) 4
            { sample_world
                (event_chain_set_failure_handler
                  (sample_chain FAULT_TOLERANCE_CUSTOM [5001, 5004, 5003]) 6001 0).2 42 with
              chain :=
                { (sample_world
                    (event_chain_set_failure_handler
                      (sample_chain FAULT_TOLERANCE_CUSTOM [5001, 5004, 5003]) 6001 0).2
                    42).chain with
                  fault_tolerance := FAULT_TOLERANCE_BEST_EFFORT } } =
          some (r, w2, calls2) ∧
        w2.env = w1.env ∧ calls2.map Prod.fst = calls.map Prod.fst) ∧
    (event_chain_execute (Program.lift sample_event_fns sample_handlers) 4
        (sample_world (sample_chain FAULT_TOLERANCE_CUSTOM [5001, 5004, 5003]) 42)).map
      (fun x => (x.1.success, x.1.failure_count, x.2.1.user, x.2.2.map Prod.fst)) =
      some (false, 1, 52, [0, 1]) := by
  have hreg : Registered
      (sample_world
        (event_chain_set_failure_handler
          (sample_chain FAULT_TOLERANCE_CUSTOM [5001, 5004, 5003]) 6001 0).2 42).chain
      (sample_steps [5001, 5004, 5003]) :=
    registered_congr _ _ _
      (sample_steps_registered FAULT_TOLERANCE_CUSTOM [5001, 5004, 5003] (by decide) (by decide))
      rfl rfl rfl rfl rfl
  refine ⟨hreg, ?_, by decide⟩
  obtain ⟨r, w1, calls, h1, _, h3, _, h5⟩ := C17_custom_mode sample_event_fns sample_handlers
    (sample_world
      (event_chain_set_failure_handler
        (sample_chain FAULT_TOLERANCE_CUSTOM [5001, 5004, 5003]) 6001 0).2 42)
    (sample_steps [5001, 5004, 5003]) 4 hreg rfl (by decide)
  obtain ⟨a1, a2, _, _⟩ := (h3 (by decide)).1 (by decide)
  exact ⟨r, w1, calls, h1, a1, a2, h5 ⟨by decide, fun _ _ _ => rfl⟩⟩

/-! ## Lemmas: the interrupt flag -/

/-- The loop of `event_chain_execute` at an event with the interrupt flag set:
it returns without calling an event, and the signal-interrupted failure is
recorded if the log has a free slot. -/
theorem execute_loop_interrupted {σ : Type} (prog : Program σ) (fuel i : Nat)
    (result : ChainResult) (cap : Nat) (calls : List (Nat × World σ)) (w : World σ)
    (hi : i < w.chain.event_count) (hflag : w.chain.signal_interrupted ≠ 0) :
    execute_loop prog (fuel + 1) i result cap calls w =
      some
        ((execute_finish
            (record_if_room { result with success := false } cap
              (chain_failure (c_str "Chain") (c_str "Execution interrupted by signal")
                EC_ERROR_SIGNAL_INTERRUPTED w.chain.error_detail_level w.now)) w).1,
          clear_executing w, calls) := by
  unfold execute_loop
  rw [if_pos hi, if_pos hflag]

/-! ## Properties of the specification: cancellation and composition -/

/-- C18, the code at the failing input: a LENIENT chain of ten events, of which
the first eight fail, the interrupt flag is set during the ninth, and the tenth
is never reached.  The loop finds the flag set at the tenth event and stops
without running it, but the log, full with the eight failures in its eight
slots, is not grown: the result has eight failures, none of them with the code
`EC_ERROR_SIGNAL_INTERRUPTED`. -/
theorem C18_interrupt_with_full_log :
    (event_chain_execute interrupting_program 11
        (sample_world
          (sample_chain FAULT_TOLERANCE_LENIENT (List.replicate 8 5004 ++ [5005, 5001]))
          42)).map
      (fun x => (x.1.failure_count, x.1.failures.length,
        (x.1.failures.take x.1.failure_count).map (fun f => f.error_code),
        x.2.1.chain.signal_interrupted, x.2.2.map Prod.fst)) =
      some (8, 8, List.replicate 8 EC_ERROR_EVENT_EXECUTION_FAILED, 1,
        [0, 1, 2, 3, 4, 5, 6, 7, 8]) := by
  decide

/-- C19: in-order composition.  On a registered idle chain, in particular one
with no middleware, whose event functions reach the world through the context
only and all succeed, `event_chain_execute` returns within `event_count + 1`
evaluations of its loop condition; every event has been called once, in
registration order; what the events reach is in the end what the events,
applied one after the other in registration order, make of it; and the result
is a success with no failure. -/
theorem C19_in_order_composition {σ : Type} (gs : Nat → Nat → Env σ → EventResult × Env σ)
    (hs : Nat → ChainableEvent → CStr → Nat → Env σ → Bool) (w : World σ)
    (evs : List ChainableEvent) (fuel : Nat) (hreg : Registered w.chain evs)
    (hall : all_succeed gs evs w.env = true) (hfuel : evs.length < fuel) :
    ∃ r w1 calls, event_chain_execute (Program.lift gs hs) fuel w = some (r, w1, calls) ∧
      calls.map Prod.fst = List.range evs.length ∧
      w1.env = env_after gs evs w.env ∧
      r.success = true ∧ r.failure_count = 0 ∧ w1.chain.is_executing = 0 := by
  obtain ⟨c1, c2⟩ := all_succeed_continues gs (continue_policy w.chain hs) evs w.env hall
  obtain ⟨r, calls, b1, b2, b3, _, b5⟩ := execute_lift_all gs hs w evs hreg fuel hfuel c1
  rw [c2] at b3 b5
  exact ⟨r, _, calls, b1, b2, rfl, by simpa using b5, b3, rfl⟩

/-- C19 instantiated with the events `+10`, `*2`, `-5` from 42 on a chain
without middleware: the value in the end is 99. -/
theorem C19_witness :
    Registered (sample_world (sample_chain FAULT_TOLERANCE_STRICT [5001, 5002, 5003]) 42).chain
      (sample_steps [5001, 5002, 5003]) ∧
    (sample_chain FAULT_TOLERANCE_STRICT [5001, 5002, 5003]).middleware_count = 0 ∧
    all_succeed sample_event_fns (sample_steps [5001, 5002, 5003])
      (sample_world (sample_chain FAULT_TOLERANCE_STRICT [5001, 5002, 5003]) 42).env = true ∧
    ∃ r w1 calls,
      event_chain_execute (Program.lift sample_event_fns sample_handlers) 4
          (sample_world (sample_chain FAULT_TOLERANCE_STRICT [5001, 5002, 5003]) 42) =
        some (r, w1, calls) ∧
      calls.map Prod.fst = [0, 1, 2] ∧ w1.env.user = 99 ∧ r.success = true ∧
      r.failure_count = 0 := by
  have hreg := sample_steps_registered FAULT_TOLERANCE_STRICT [5001, 5002, 5003]
    (by decide) (by decide)
  refine ⟨hreg, by decide, by decide, ?_⟩
  obtain ⟨r, w1, calls, h1, a1, a2, a3, a4, _⟩ := C19_in_order_composition sample_event_fns
    sample_handlers (sample_world (sample_chain FAULT_TOLERANCE_STRICT [5001, 5002, 5003]) 42)
    (sample_steps [5001, 5002, 5003]) 4 hreg (by decide) (by decide)
  exact ⟨r, w1, calls, h1, a1, by rw [a2]; decide, a3, a4⟩

/-- C20: middleware is transparent.  On a registered idle chain with any number
of middleware registered, whose event functions reach the world through the
context only, `event_chain_execute` returns within `event_count + 1`
evaluations of its loop condition, and so it does on the same chain with no
middleware; the two runs return the same `ChainResult`, call the same events,
and leave the same world, the chain included but for its middleware list.  (No
middleware function is ever called by the pipeline, so what the middleware
would do does not enter.) -/
theorem C20_middleware_transparent {σ : Type}
    (gs : Nat → Nat → Env σ → EventResult × Env σ)
    (hs : Nat → ChainableEvent → CStr → Nat → Env σ → Bool) (w : World σ)
    (evs : List ChainableEvent) (fuel : Nat) (ms : List (Option EventMiddleware)) (cap : Nat)
    (hreg : Registered w.chain evs) (hfuel : evs.length < fuel) :
    ∃ r w1 calls w2 calls2,
      event_chain_execute (Program.lift gs hs) fuel w = some (r, w1, calls) ∧
      event_chain_execute (Program.lift gs hs) fuel
          { w with
            chain :=
              { w.chain with
                middlewares := ms, middleware_count := 0, middleware_capacity := cap } } =
        some (r, w2, calls2) ∧
      w1.env = w2.env ∧
      w1 =
        { w2 with
          chain :=
            { w2.chain with
              middlewares := w.chain.middlewares
              middleware_count := w.chain.middleware_count
              middleware_capacity := w.chain.middleware_capacity } } ∧
      calls.map Prod.fst = calls2.map Prod.fst := by
  have hregv : Registered
      ({ w with
          chain :=
            { w.chain with
              middlewares := ms, middleware_count := 0, middleware_capacity := cap } } :
        World σ).chain evs :=
    ⟨hreg.idle, hreg.count, hreg.bound, hreg.events, hreg.valid, hreg.names,
      fun j hj => absurd hj (Nat.not_lt_zero j)⟩
  obtain ⟨r, envf, calls, calls2, b1, b2, b3⟩ := execute_lift_congr gs hs w _ evs hreg hregv
    fuel hfuel rfl rfl (fun _ => rfl)
  exact ⟨r, _, calls, _, calls2, b1, b2, rfl, rfl, b3.symm⟩

/-- C20 instantiated with the events `+10`, `*2`, `-5` from 42 and the sixteen
middleware of `sample_middlewares`: the value in the end is 99, with and
without them. -/
theorem C20_witness :
    Registered
      (sample_world
        (use_middlewares sample_middlewares
          (sample_chain FAULT_TOLERANCE_STRICT [5001, 5002, 5003])).2 42).chain
      (sample_steps [5001, 5002, 5003]) ∧
    (use_middlewares sample_middlewares
      (sample_chain FAULT_TOLERANCE_STRICT [5001, 5002, 5003])).2.middleware_count = 16 ∧
    (∃ r w1 calls w2 calls2,
      event_chain_execute (Program.lift sample_event_fns sample_handlers) 4
          (sample_world
            (use_middlewares sample_middlewares
              (sample_chain FAULT_TOLERANCE_STRICT [5001, 5002, 5003])).2 42) =
        some (r, w1, calls) ∧
      event_chain_execute (Program.lift sample_event_fns sample_handlers) 4
          (sample_world (sample_chain FAULT_TOLERANCE_STRICT [5001, 5002, 5003]) 42) =
        some (r, w2, calls2) ∧
      w1.env = w2.env ∧ calls.map Prod.fst = calls2.map Prod.fst) ∧
    (event_chain_execute (Program.lift sample_event_fns sample_handlers) 4
        (sample_world
          (use_middlewares sample_middlewares
            (sample_chain FAULT_TOLERANCE_STRICT [5001, 5002, 5003])).2 42)).map
      (fun x => (x.1.success, x.1.failure_count, x.2.1.user, x.2.2.map Prod.fst)) =
      some (true, 0, 99, [0, 1, 2]) := by
  have hreg0 := sample_steps_registered FAULT_TOLERANCE_STRICT [5001, 5002, 5003]
    (by decide) (by decide)
  have hmw : MwInv (sample_chain FAULT_TOLERANCE_STRICT [5001, 5002, 5003]) :=
    ⟨by decide, by decide, by decide, by decide⟩
  have hreg := registered_use_middlewares _ _ sample_middlewares hreg0 hmw (by decide)
    sample_middlewares_valid (by decide)
  refine ⟨hreg, by decide, ?_, by decide⟩
  obtain ⟨r, w1, calls, w2, calls2, h1, h2, h3, _, h5⟩ := C20_middleware_transparent
    sample_event_fns sample_handlers
    (sample_world
      (use_middlewares sample_middlewares
        (sample_chain FAULT_TOLERANCE_STRICT [5001, 5002, 5003])).2 42)
    (sample_steps [5001, 5002, 5003]) 4 (List.replicate 8 none) 8 hreg (by decide)
  exact ⟨r, w1, calls, w2, calls2, h1, by rw [← h2]; decide, h3, h5⟩

/-! ## Properties of the specification: middleware and sanitization -/

/-- C21, the code at the failing input: a STRICT chain of three events, each of
which succeeds without effect, with one middleware registered, whose function
(at 9001) calls the next layer and then adds 1 to a counter that starts at 0.
Wrapped as the specification describes, the three events leave the counter at
3.  `event_chain_execute` runs the three events and reports success, and the
counter is still 0: the pipeline checks the middleware and stacks a frame for
it, but never calls its function. -/
theorem C21_middleware_never_called :
    (onion_run (Program.lift sample_event_fns sample_handlers) sample_middleware_fns
        [⟨9001, 0, c_str "Count"⟩] (sample_steps [5006, 5007, 5008])
        (sample_world
          (use_middlewares [⟨9001, 0, c_str "Count"⟩]
            (sample_chain FAULT_TOLERANCE_STRICT [5006, 5007, 5008])).2 0)).2.user = 3 ∧
    (use_middlewares [⟨9001, 0, c_str "Count"⟩]
      (sample_chain FAULT_TOLERANCE_STRICT [5006, 5007, 5008])).1 = [EC_SUCCESS] ∧
    (event_chain_execute (Program.lift sample_event_fns sample_handlers) 4
        (sample_world
          (use_middlewares [⟨9001, 0, c_str "Count"⟩]
            (sample_chain FAULT_TOLERANCE_STRICT [5006, 5007, 5008])).2 0)).map
      (fun x => (x.1.success, x.1.failure_count, x.2.1.user, x.2.2.map Prod.fst)) =
      some (true, 0, 0, [0, 1, 2]) := by
  decide

/-- C22, the code at the failing input: a STRICT chain of one event, which adds
10 to the integer 42, with one middleware registered, whose function (at 9002)
returns a failure without calling the next layer.  Wrapped as the specification
describes, the event does not run (the integer stays 42) and the outcome is the
failure of the middleware.  `event_chain_execute` runs the event (the integer
is 52 afterwards) and reports success with no failure logged. -/
theorem C22_short_circuit_ignored :
    (onion_run (Program.lift sample_event_fns sample_handlers) sample_middleware_fns
        [⟨9002, 0, c_str "Block"⟩] (sample_steps [5001])
        (sample_world
          (use_middlewares [⟨9002, 0, c_str "Block"⟩]
            (sample_chain FAULT_TOLERANCE_STRICT [5001])).2 42)).1.map
      (fun r => (r.success, r.error_code)) = [(false, EC_ERROR_MIDDLEWARE_FAILED)] ∧
    (onion_run (Program.lift sample_event_fns sample_handlers) sample_middleware_fns
        [⟨9002, 0, c_str "Block"⟩] (sample_steps [5001])
        (sample_world
          (use_middlewares [⟨9002, 0, c_str "Block"⟩]
            (sample_chain FAULT_TOLERANCE_STRICT [5001])).2 42)).2.user = 42 ∧
    (use_middlewares [⟨9002, 0, c_str "Block"⟩]
      (sample_chain FAULT_TOLERANCE_STRICT [5001])).1 = [EC_SUCCESS] ∧
    (event_chain_execute (Program.lift sample_event_fns sample_handlers) 2
        (sample_world
          (use_middlewares [⟨9002, 0, c_str "Block"⟩]
            (sample_chain FAULT_TOLERANCE_STRICT [5001])).2 42)).map
      (fun x => (x.1.success, x.1.failure_count, x.2.1.user, x.2.2.map Prod.fst)) =
      some (true, 0, 52, [0]) := by
  decide

/-- C23, the code at the failing input: a STRICT chain created with
`ERROR_DETAIL_MINIMAL` whose one event fails with the message "Test failure".
The failure logged by `event_chain_execute` carries "Test failure", the message
of the event, and not "Operation failed", the generic message: the message of a
failed event is copied into the log with `safe_strncpy`, without
`sanitize_error_message`. -/
theorem C23_event_message_not_sanitized :
    (event_chain_execute (Program.lift sample_event_fns sample_handlers) 2
        (sample_world
          (add_events (sample_steps [5004])
            (fresh_chain FAULT_TOLERANCE_STRICT ERROR_DETAIL_MINIMAL)).2 42)).map
      (fun x => (x.1.success, x.1.failure_count,
        (x.1.failures.take x.1.failure_count).map (fun f => f.error_message),
        x.2.1.chain.error_detail_level)) =
      some (false, 1, [c_str "Test failure"], ERROR_DETAIL_MINIMAL) ∧
    c_str "Test failure" ≠ c_str "Operation failed" ∧
    sanitize_error_message (some (c_str "Test failure")) EVENTCHAINS_MAX_ERROR_LENGTH
      ERROR_DETAIL_MINIMAL = c_str "Operation failed" := by
  decide

set_option maxRecDepth 8000 in
/-- C24, the code at the failing input: the context holding one entry, whose key
is the 256-byte string `long_key`.  No entry has the empty string for key, nor
`long_key` followed by one more byte, and the fast path answers false for both;
the constant-time path answers true for both: `constant_time_strcmp` keeps one
byte of the XOR of the two lengths, which is 0 for 256 and 0, and caps the
length of the query at 256. -/
theorem C24_constant_time_has_false_positive :
    (event_context_set ⟨[], []⟩ fresh_context (some long_key) 7).1 = EC_SUCCESS ∧
    (event_context_set ⟨[], []⟩ fresh_context (some long_key) 7).2.2.keys.take
        (event_context_set ⟨[], []⟩ fresh_context (some long_key) 7).2.2.count =
      [some long_key] ∧
    event_context_has (event_context_set ⟨[], []⟩ fresh_context (some long_key) 7).2.2
      (some []) true = true ∧
    event_context_has (event_context_set ⟨[], []⟩ fresh_context (some long_key) 7).2.2
      (some []) false = false ∧
    event_context_has (event_context_set ⟨[], []⟩ fresh_context (some long_key) 7).2.2
      (some (long_key ++ [66])) true = true ∧
    event_context_has (event_context_set ⟨[], []⟩ fresh_context (some long_key) 7).2.2
      (some (long_key ++ [66])) false = false := by
  decide

/-! ## Lemmas: the comparisons of a lookup -/

theorem has_constant_time_trace_fst (keys : List (Option CStr)) (key : CStr) (n : Nat) :
    ∀ (i : Nat) (found : Bool),
      (has_constant_time_trace keys key found i n).1 =
        has_constant_time_loop keys key found i n := by
  induction n with
  | zero => intro i found; rfl
  | succ n ih =>
    intro i found
    unfold has_constant_time_trace has_constant_time_loop
    cases keys.getD i none with
    | none => exact ih _ _
    | some k => exact ih _ _

theorem has_fast_trace_fst (keys : List (Option CStr)) (key : CStr) (n : Nat) :
    ∀ i : Nat, (has_fast_trace keys key i n).1 = (find_key keys key i n).isSome := by
  induction n with
  | zero => intro i; rfl
  | succ n ih =>
    intro i
    unfold has_fast_trace find_key
    cases hk : keys.getD i none with
    | none =>
      simp only [reduceCtorEq, if_false]
      exact ih _
    | some k =>
      by_cases hkk : k = key
      · simp only [hkk, if_true, Option.isSome_some]
      · simp only [hkk, if_false, Option.some.injEq]
        exact ih _

theorem event_context_has_trace_fst (c : EventContext) (key : Option CStr) (ct : Bool) :
    (event_context_has_trace c key ct).1 = event_context_has c key ct := by
  unfold event_context_has_trace event_context_has
  cases key with
  | none => rfl
  | some k =>
    cases ct with
    | true => simp only [if_true]; exact has_constant_time_trace_fst _ _ _ _ _
    | false =>
      simp only [Bool.false_eq_true, if_false]
      rw [has_fast_trace_fst]
      cases find_key c.keys k 0 c.count <;> rfl

theorem has_constant_time_trace_snd (keys : List (Option CStr)) (key : CStr) (n : Nat) :
    ∀ (i : Nat) (found : Bool),
      (∀ j, i ≤ j → j < i + n → keys.getD j none ≠ none) →
      (has_constant_time_trace keys key found i n).2 = List.range' i n := by
  induction n with
  | zero => intro i found _; rfl
  | succ n ih =>
    intro i found hl
    unfold has_constant_time_trace
    cases hk : keys.getD i none with
    | none => exact absurd hk (hl i (Nat.le_refl i) (by omega))
    | some k =>
      simp only [List.range'_succ]
      rw [ih (i + 1) _ (fun j h1 h2 => hl j (by omega) (by omega))]

theorem has_fast_trace_snd (keys : List (Option CStr)) (key : CStr) (n : Nat) :
    ∀ i : Nat, (∀ j, i ≤ j → j < i + n → keys.getD j none ≠ none) →
      (has_fast_trace keys key i n).2 =
        match find_key keys key i n with
        | some r => List.range' i (r - i + 1)
        | none => List.range' i n := by
  induction n with
  | zero => intro i _; rfl
  | succ n ih =>
    intro i hl
    unfold has_fast_trace find_key
    cases hk : keys.getD i none with
    | none => exact absurd hk (hl i (Nat.le_refl i) (by omega))
    | some k =>
      by_cases hkk : k = key
      · simp only [hkk, if_true, Nat.sub_self, Nat.zero_add, List.range'_one]
      · simp only [hkk, if_false, Option.some.injEq]
        rw [ih (i + 1) (fun j h1 h2 => hl j (by omega) (by omega))]
        cases hf : find_key keys key (i + 1) n with
        | none => simp only [List.range'_succ]
        | some r =>
          obtain ⟨h1, _⟩ := (find_key_eq_some keys key n (i + 1) r).1 hf
          simp only
          rw [show r - i + 1 = (r - (i + 1) + 1) + 1 by omega]
          simp only [List.range'_succ]

theorem live_keys_some (c : EventContext) (hI : CtxInv c) :
    ∀ j, 0 ≤ j → j < 0 + c.count → c.keys.getD j none ≠ none := by
  intro j _ hj hn
  have hmem := mem_live_getD c.keys none c.count j (by omega)
    (by rw [hI.keys_len]; exact hI.count_le)
  obtain ⟨k, hk, _⟩ := hI.keys_valid _ hmem
  rw [hn] at hk
  cases hk

/-! ## Properties of the specification: lookups -/

/-- C25: the constant-time lookup never exits early.  `event_context_has_trace`
returns what `event_context_has` returns, with the entry comparisons made.  On
a context reached from `event_context_create` by the mutating calls, with
`constant_time = true` the comparisons are those of the entries `0 .. count-1`,
each once and in order, whatever the key: their number is `count` whether the
key is that of the first entry, of the last, or of none.  With
`constant_time = false` the comparisons stop at the first entry whose key is
the query, and cover all entries when there is none. -/
theorem C25_constant_time_scans_all (h0 : Heap) (ops : List ContextOp) (c0 : EventContext)
    (hc0 : event_context_create = some c0) (key : CStr) :
    (∀ ct, (event_context_has_trace (run_ops ops (h0, c0)).2 (some key) ct).1 =
      event_context_has (run_ops ops (h0, c0)).2 (some key) ct) ∧
    (event_context_has_trace (run_ops ops (h0, c0)).2 (some key) true).2 =
      List.range (event_context_count (run_ops ops (h0, c0)).2) ∧
    (event_context_has_trace (run_ops ops (h0, c0)).2 (some key) true).2.length =
      event_context_count (run_ops ops (h0, c0)).2 ∧
    (∀ i, find_key (run_ops ops (h0, c0)).2.keys key 0 (run_ops ops (h0, c0)).2.count = some i →
      (event_context_has_trace (run_ops ops (h0, c0)).2 (some key) false).2 =
        List.range (i + 1)) ∧
    (find_key (run_ops ops (h0, c0)).2.keys key 0 (run_ops ops (h0, c0)).2.count = none →
      (event_context_has_trace (run_ops ops (h0, c0)).2 (some key) false).2 =
        List.range (event_context_count (run_ops ops (h0, c0)).2)) := by
  have hI := reachable_inv h0 c0 hc0 ops
  generalize (run_ops ops (h0, c0)).2 = c at hI ⊢
  have hl := live_keys_some c hI
  have ht : (event_context_has_trace c (some key) true).2 = List.range c.count := by
    simp only [event_context_has_trace, if_true]
    rw [has_constant_time_trace_snd _ _ _ _ _ hl, List.range_eq_range']
  have hf := has_fast_trace_snd c.keys key c.count 0 hl
  refine ⟨fun ct => event_context_has_trace_fst c (some key) ct, ht, ?_, ?_, ?_⟩
  · rw [ht, List.length_range]; rfl
  · intro i hi
    simp only [event_context_has_trace, Bool.false_eq_true, if_false]
    rw [hf, hi]
    simp only [Nat.sub_zero, List.range_eq_range']
  · intro hn
    simp only [event_context_has_trace, Bool.false_eq_true, if_false]
    rw [hf, hn]
    simp only [List.range_eq_range', event_context_count]

/-- C25 instantiated with the context holding the keys "a", "b", "c" in that
order: the constant-time lookup compares all three entries for "a" (first),
"c" (last) and "z" (absent); the fast lookup compares one entry for "a". -/
theorem C25_witness :
    event_context_create = some fresh_context ∧
    (event_context_has_trace
        (run_ops [ContextOp.set (some [97]) 1, ContextOp.set (some [98]) 2,
          ContextOp.set (some [99]) 3] (⟨[], []⟩, fresh_context)).2 (some [97]) true).2 =
      List.range
        (event_context_count
          (run_ops [ContextOp.set (some [97]) 1, ContextOp.set (some [98]) 2,
            ContextOp.set (some [99]) 3] (⟨[], []⟩, fresh_context)).2) ∧
    (event_context_has_trace
        (run_ops [ContextOp.set (some [97]) 1, ContextOp.set (some [98]) 2,
          ContextOp.set (some [99]) 3] (⟨[], []⟩, fresh_context)).2 (some [97]) true) =
      (true, [0, 1, 2]) ∧
    (event_context_has_trace
        (run_ops [ContextOp.set (some [97]) 1, ContextOp.set (some [98]) 2,
          ContextOp.set (some [99]) 3] (⟨[], []⟩, fresh_context)).2 (some [99]) true) =
      (true, [0, 1, 2]) ∧
    (event_context_has_trace
        (run_ops [ContextOp.set (some [97]) 1, ContextOp.set (some [98]) 2,
          ContextOp.set (some [99]) 3] (⟨[], []⟩, fresh_context)).2 (some [122]) true) =
      (false, [0, 1, 2]) ∧
    (event_context_has_trace
        (run_ops [ContextOp.set (some [97]) 1, ContextOp.set (some [98]) 2,
          ContextOp.set (some [99]) 3] (⟨[], []⟩, fresh_context)).2 (some [97]) false) =
      (true, [0]) :=
  ⟨by decide,
    (C25_constant_time_scans_all ⟨[], []⟩
      [ContextOp.set (some [97]) 1, ContextOp.set (some [98]) 2, ContextOp.set (some [99]) 3]
      fresh_context (by decide) [97]).2.1,
    by decide, by decide, by decide, by decide⟩

/-! ## Lemmas: failed calls -/

/-- The outcomes of `set_with_cleanup` when every allocation succeeds: a code
other than `EC_SUCCESS` with the heap and the context as given, or `EC_SUCCESS`. -/
theorem set_outcomes (h : Heap) (c : EventContext) (key : Option CStr) (v cl : Nat) :
    (∃ code,
      code ∈ [EC_ERROR_NULL_POINTER, EC_ERROR_KEY_TOO_LONG, EC_ERROR_INVALID_PARAMETER,
        EC_ERROR_CAPACITY_EXCEEDED, EC_ERROR_OVERFLOW, EC_ERROR_MEMORY_LIMIT_EXCEEDED] ∧
      event_context_set_with_cleanup h c key v cl = (code, h, c)) ∨
    (event_context_set_with_cleanup h c key v cl).1 = EC_SUCCESS := by
  unfold event_context_set_with_cleanup
  cases key with
  | none => exact Or.inl ⟨_, by simp, rfl⟩
  | some k =>
    simp only
    by_cases h1 : safe_strnlen k (EVENTCHAINS_MAX_KEY_LENGTH + 1) > EVENTCHAINS_MAX_KEY_LENGTH
    · rw [if_pos h1]; exact Or.inl ⟨_, by simp, rfl⟩
    rw [if_neg h1]
    by_cases h2 : safe_strnlen k (EVENTCHAINS_MAX_KEY_LENGTH + 1) = 0
    · rw [if_pos h2]; exact Or.inl ⟨_, by simp, rfl⟩
    rw [if_neg h2]
    cases find_key c.keys k 0 c.count with
    | some i => exact Or.inr rfl
    | none =>
      simp only
      by_cases h3 : c.count ≥ EVENTCHAINS_MAX_CONTEXT_ENTRIES
      · rw [if_pos h3]; exact Or.inl ⟨_, by simp, rfl⟩
      rw [if_neg h3]
      cases safe_add c.total_memory_bytes
          (size_add (size_add (safe_strnlen k (EVENTCHAINS_MAX_KEY_LENGTH + 1)) 1)
            sizeof_RefCountedValue) with
      | none => exact Or.inl ⟨_, by simp, rfl⟩
      | some t =>
        simp only
        by_cases h4 : t > EVENTCHAINS_MAX_CONTEXT_MEMORY
        · rw [if_pos h4]; exact Or.inl ⟨_, by simp, rfl⟩
        rw [if_neg h4]
        cases expand_if_needed c with
        | none => exact Or.inl ⟨_, by simp, rfl⟩
        | some g => exact Or.inr rfl

/-- When every allocation succeeds, a `set_with_cleanup` that does not return
`EC_SUCCESS` returns the heap and the context it was given. -/
theorem set_failure_unchanged (h : Heap) (c : EventContext) (key : Option CStr) (v cl : Nat)
    (hs : (event_context_set_with_cleanup h c key v cl).1 ≠ EC_SUCCESS) :
    (event_context_set_with_cleanup h c key v cl).2 = (h, c) := by
  rcases set_outcomes h c key v cl with ⟨code, _, he⟩ | he
  · rw [he]
  · exact absurd he hs

/-- The codes `set_with_cleanup` returns when every allocation succeeds. -/
theorem set_codes (h : Heap) (c : EventContext) (key : Option CStr) (v cl : Nat) :
    (event_context_set_with_cleanup h c key v cl).1 ∈
      [EC_SUCCESS, EC_ERROR_NULL_POINTER, EC_ERROR_KEY_TOO_LONG, EC_ERROR_INVALID_PARAMETER,
        EC_ERROR_CAPACITY_EXCEEDED, EC_ERROR_OVERFLOW, EC_ERROR_MEMORY_LIMIT_EXCEEDED] := by
  rcases set_outcomes h c key v cl with ⟨code, hc, he⟩ | he
  · rw [he]; exact List.mem_cons_of_mem _ hc
  · rw [he]; exact List.mem_cons_self _ _

/-- A `remove` that does not return `EC_SUCCESS` returns the heap and the
context it was given, and its code is null-pointer or not-found. -/
theorem remove_failure_unchanged (h : Heap) (c : EventContext) (key : Option CStr)
    (hs : (event_context_remove h c key).1 ≠ EC_SUCCESS) :
    (event_context_remove h c key).2 = (h, c) ∧
    ((event_context_remove h c key).1 = EC_ERROR_NULL_POINTER ∨
      (event_context_remove h c key).1 = EC_ERROR_NOT_FOUND) := by
  unfold event_context_remove at hs ⊢
  cases key with
  | none => exact ⟨rfl, Or.inl rfl⟩
  | some k =>
    simp only at hs ⊢
    cases hf : find_key c.keys k 0 c.count with
    | some i => rw [hf] at hs; exact absurd rfl hs
    | none => exact ⟨rfl, Or.inr rfl⟩

/-- An `EC_ERROR_OUT_OF_MEMORY` exit that returns after a write
(`eventchains.c:339-347`): on the context holding "a", setting "a" again while
the `calloc` of the new wrapper fails releases the old wrapper (its cell is
zeroed), takes its 24 bytes off the accounted memory and leaves its address in
the slot. -/
theorem set_alloc_out_of_memory_after_release :
    event_context_set_with_cleanup_alloc ⟨true, true, true, false⟩ ⟨[⟨1, 1, 0⟩], []⟩
        (run_ops [ContextOp.set (some [97]) 1] (⟨[], []⟩, fresh_context)).2 (some [97]) 2 0 =
      (EC_ERROR_OUT_OF_MEMORY, ⟨[⟨0, 0, 0⟩], []⟩,
        { (run_ops [ContextOp.set (some [97]) 1] (⟨[], []⟩, fresh_context)).2 with
          total_memory_bytes := 170 }) ∧
    (run_ops [ContextOp.set (some [97]) 1] (⟨[], []⟩, fresh_context)).2.total_memory_bytes =
      194 ∧
    (run_ops [ContextOp.set (some [97]) 1] (⟨[], []⟩, fresh_context)).2.values.getD 0 0 = 1 := by
  decide

/-! ## Properties of the specification: failure and accounting -/

/-- What a successful `remove` does to a context that satisfies the invariant:
the entry of the key is erased from the list of entries and its wrapper is
released. -/
theorem remove_success_spec (h : Heap) (c : EventContext) (k : CStr) (hI : CtxInv c)
    (hs : (event_context_remove h c (some k)).1 = EC_SUCCESS) :
    ∃ i, find_key c.keys k 0 c.count = some i ∧ i < c.count ∧
      c.keys.getD i none = some k ∧ c.values.getD i 0 ≠ 0 ∧
      (event_context_remove h c (some k)).2.1 =
        (ref_counted_value_release h (c.values.getD i 0)).2 ∧
      (event_context_remove h c (some k)).2.2.count = c.count - 1 ∧
      (event_context_remove h c (some k)).2.2.capacity = c.capacity ∧
      (event_context_remove h c (some k)).2.2.keys.take (c.count - 1) =
        (c.keys.take c.count).eraseIdx i ∧
      (event_context_remove h c (some k)).2.2.values.take (c.count - 1) =
        (c.values.take c.count).eraseIdx i := by
  cases hf : find_key c.keys k 0 c.count with
  | none => rw [remove_eq_not_found h c k hf] at hs; cases hs
  | some i =>
    obtain ⟨_, hi, hki, _⟩ := (find_key_eq_some c.keys k c.count 0 i).1 hf
    have hi' : i < c.count := by omega
    have hkl := hI.keys_len
    have hvl := hI.values_len
    have hcnt := hI.count_le
    have hold : c.values.getD i 0 ≠ 0 :=
      hI.values_nonnull _ (mem_live_getD c.values 0 c.count i hi' (by omega))
    rw [remove_eq_found h c k i hf]
    exact ⟨i, rfl, hi', hki, hold, by simp only [if_pos hold], rfl, rfl,
      remove_live none c.keys i c.count hi' (by omega),
      remove_live 0 c.values i c.count hi' (by omega)⟩

theorem live_getElem? {α : Type} (xs : List α) (d : α) (n i : Nat) (hi : i < n)
    (hn : n ≤ xs.length) : (xs.take n)[i]? = some (xs.getD i d) := by
  rw [List.getElem?_take, if_pos hi, List.getD_eq_getElem?_getD,
    List.getElem?_eq_getElem (by omega)]
  rfl

/-- A `set_with_cleanup` that returns `EC_SUCCESS` was given a key of 1 to 256
bytes. -/
theorem set_success_key (h : Heap) (c : EventContext) (k : CStr) (v cl : Nat)
    (hs : (event_context_set_with_cleanup h c (some k) v cl).1 = EC_SUCCESS) :
    0 < k.length ∧ k.length ≤ EVENTCHAINS_MAX_KEY_LENGTH := by
  constructor
  · by_contra hk
    rw [set_eq_empty h c k v cl (by omega)] at hs
    cases hs
  · by_contra hk
    rw [set_eq_too_long h c k v cl (by omega)] at hs
    cases hs

/-! ## Properties of the specification: accounting -/

theorem load_set_other (h : Heap) (q p : Nat) (v : RefCountedValue) (hpq : p - 1 ≠ q - 1)
    (calls : List (Nat × Nat)) :
    ({ cells := h.cells.set (q - 1) v, cleanup_calls := calls } : Heap).load p = h.load p := by
  simp only [Heap.load, List.getD_eq_getElem?_getD]
  rw [List.getElem?_set_ne (Ne.symm hpq)]

/-- A release leaves the wrappers at other addresses as they are. -/
theorem release_load_other (h : Heap) (q p : Nat) (hpq : p - 1 ≠ q - 1) :
    (ref_counted_value_release h q).2.load p = h.load p := by
  unfold ref_counted_value_release
  by_cases h1 : q = 0
  · rw [if_pos h1]
  rw [if_neg h1]
  by_cases h2 : (h.load q).ref_count = 0
  · rw [if_pos h2]
  rw [if_neg h2]
  simp only
  split_ifs
  · exact load_set_other h q p _ hpq _
  · exact load_set_other h q p _ hpq _
  · exact load_set_other h q p _ hpq _

/-- A retain leaves the wrappers at other addresses as they are. -/
theorem retain_load_other (h : Heap) (q p : Nat) (hpq : p - 1 ≠ q - 1) :
    (ref_counted_value_retain h q).2.load p = h.load p := by
  unfold ref_counted_value_retain
  split_ifs
  · rfl
  · rfl
  · exact load_set_other h q p _ hpq _

theorem create_length (h : Heap) (d c : Nat) :
    (ref_counted_value_create h d c).2.cells.length = h.cells.length + 1 := by
  simp [ref_counted_value_create]

theorem create_address (h : Heap) (d c : Nat) :
    (ref_counted_value_create h d c).1 = h.cells.length + 1 := rfl

theorem create_calls (h : Heap) (d c : Nat) :
    (ref_counted_value_create h d c).2.cleanup_calls = h.cleanup_calls := rfl

theorem mem_set_of_nodup {α : Type} (l : List α) (i : Nat) (b x : α) (hn : l.Nodup)
    (hx : x ∈ l.set i b) : x = b ∨ (x ∈ l ∧ l[i]? ≠ some x) := by
  obtain ⟨j, hj⟩ := List.mem_iff_getElem?.1 hx
  rw [List.getElem?_set] at hj
  by_cases hij : i = j
  · rw [if_pos hij] at hj
    split_ifs at hj
    · exact Or.inl (Option.some.inj hj).symm
  · rw [if_neg hij] at hj
    refine Or.inr ⟨List.mem_iff_getElem?.2 ⟨j, hj⟩, ?_⟩
    intro hi
    have hjl : j < l.length := by
      rcases Nat.lt_or_ge j l.length with h1 | h1
      · exact h1
      · rw [List.getElem?_eq_none h1] at hj; cases hj
    have hil : i < l.length := by
      rcases Nat.lt_or_ge i l.length with h1 | h1
      · exact h1
      · rw [List.getElem?_eq_none h1] at hi; cases hi
    rw [List.getElem?_eq_getElem hjl] at hj
    rw [List.getElem?_eq_getElem hil] at hi
    have := (List.Nodup.getElem_inj_iff hn).1 ((Option.some.inj hi).trans (Option.some.inj hj).symm)
    exact hij this

/-! ## Lemmas: the context owns its wrappers -/

theorem set_owned (h : Heap) (c : EventContext) (key : Option CStr) (v cl : Nat)
    (hI : CtxInv c) (hO : Owned h c) :
    Owned (event_context_set_with_cleanup h c key v cl).2.1
      (event_context_set_with_cleanup h c key v cl).2.2 := by
  rcases set_outcomes h c key v cl with ⟨code, _, he⟩ | hs
  · rw [he]; exact hO
  cases key with
  | none => cases hs
  | some key =>
    obtain ⟨hk1, hk2⟩ := set_success_key h c key v cl hs
    have hvl := hI.values_len
    have hcnt := hI.count_le
    cases hf : find_key c.keys key 0 c.count with
    | some i =>
      obtain ⟨_, hi, _, _⟩ := (find_key_eq_some c.keys key c.count 0 i).1 hf
      have hi' : i < c.count := by omega
      have hold : c.values.getD i 0 ≠ 0 :=
        hI.values_nonnull _ (mem_live_getD c.values 0 c.count i hi' (by omega))
      have hqi : (c.values.take c.count)[i]? = some (c.values.getD i 0) :=
        live_getElem? c.values 0 c.count i hi' (by omega)
      rw [set_eq_replace h c key v cl i hk1 hk2 hf]
      simp only [if_pos hold]
      have hlen : (ref_counted_value_release h (c.values.getD i 0)).2.cells.length =
          h.cells.length := release_length h _
      have hcases : ∀ x ∈ (c.values.set i (ref_counted_value_create
            (ref_counted_value_release h (c.values.getD i 0)).2 v cl).1).take c.count,
          x = h.cells.length + 1 ∨
          (x ∈ c.values.take c.count ∧ x ≠ c.values.getD i 0) := by
        intro x hx
        rw [List.set_take] at hx
        rcases mem_set_of_nodup _ _ _ _ hO.distinct hx with h1 | ⟨h1, h2⟩
        · left; rw [h1, create_address, hlen]
        · right
          refine ⟨h1, ?_⟩
          intro he
          rw [hqi, he] at h2
          exact h2 rfl
      refine ⟨?_, ?_, ?_⟩
      · intro x hx
        rw [create_length, hlen]
        rcases hcases x hx with h1 | ⟨h1, _⟩
        · omega
        · have := hO.allocated x h1; omega
      · intro x hx
        rcases hcases x hx with h1 | ⟨h1, h2⟩
        · have := load_create (ref_counted_value_release h (c.values.getD i 0)).2 v cl
          rw [create_address, hlen] at this
          rw [h1, this]
        · have hx0 := hI.values_nonnull x h1
          rw [load_create_other _ _ _ _ (by rw [hlen]; exact hO.allocated x h1),
            release_load_other _ _ _ (by omega)]
          exact hO.sole x h1
      · simp only
        rw [List.set_take]
        refine List.Nodup.set hO.distinct ?_
        intro hm
        have := hO.allocated _ hm
        rw [create_address, hlen] at this
        omega
    | none =>
      have hnm := not_mem_live_of_find_none c.keys key c.count hf
      have hc : c.count < EVENTCHAINS_MAX_CONTEXT_ENTRIES := by
        by_contra hcon
        rw [set_eq_capacity h c key v cl hk1 hk2 hf (by omega)] at hs
        cases hs
      obtain ⟨g, hg, g1, g2, g3, g4, g5, g6, g7, g8, g9⟩ := expand_spec c hI hc
      have hle := hI.memory_le
      have hcap := hI.cap_le
      have hk2' := hk2
      have hc' := hc
      simp only [EVENTCHAINS_MAX_CONTEXT_ENTRIES, EVENTCHAINS_MAX_KEY_LENGTH] at hcap hk2' hc' g5
      have hm : c.total_memory_bytes + (key.length + 25) ≤ EVENTCHAINS_MAX_CONTEXT_MEMORY := by
        simp only [EVENTCHAINS_MAX_CONTEXT_MEMORY]; omega
      rw [set_eq_insert h c g key v cl hk1 hk2 hf hc hm hg]
      have lv : (g.values.set g.count (ref_counted_value_create h v cl).1).take (g.count + 1) =
          c.values.take c.count ++ [h.cells.length + 1] := by
        rw [take_succ_set _ _ _ (by omega), g1, g8]; rfl
      refine ⟨?_, ?_, ?_⟩
      · simp only [lv, create_length]
        intro x hx
        rcases List.mem_append.1 hx with h1 | h1
        · have := hO.allocated x h1; omega
        · rw [List.mem_singleton.1 h1]; omega
      · simp only [lv]
        intro x hx
        rcases List.mem_append.1 hx with h1 | h1
        · rw [load_create_other _ _ _ _ (hO.allocated x h1)]
          exact hO.sole x h1
        · rw [List.mem_singleton.1 h1]
          have := load_create h v cl
          rw [create_address] at this
          rw [this]
      · simp only [lv]
        rw [List.nodup_append]
        refine ⟨hO.distinct, List.nodup_singleton _, ?_⟩
        intro x hx hy
        rw [List.mem_singleton.1 hy] at hx
        have := hO.allocated _ hx
        omega

theorem remove_owned (h : Heap) (c : EventContext) (key : Option CStr)
    (hI : CtxInv c) (hO : Owned h c) :
    Owned (event_context_remove h c key).2.1 (event_context_remove h c key).2.2 := by
  by_cases hs : (event_context_remove h c key).1 = EC_SUCCESS
  swap
  · rw [(remove_failure_unchanged h c key hs).1]; exact hO
  cases key with
  | none => cases hs
  | some k =>
    obtain ⟨i, _, hi, _, hold, a1, a2, _, _, a5⟩ := remove_success_spec h c k hI hs
    have hqi : (c.values.take c.count)[i]? = some (c.values.getD i 0) :=
      live_getElem? c.values 0 c.count i hi (by rw [hI.values_len]; exact hI.count_le)
    have hnot := not_mem_eraseIdx_of_nodup _ i _ hO.distinct hqi
    rw [a1]
    refine ⟨?_, ?_, ?_⟩
    · rw [a2, a5]
      intro x hx
      rw [release_length]
      exact hO.allocated x (List.mem_of_mem_eraseIdx hx)
    · rw [a2, a5]
      intro x hx
      have hx1 := List.mem_of_mem_eraseIdx hx
      have hx0 := hI.values_nonnull x hx1
      have hne : x ≠ c.values.getD i 0 := fun he => hnot (he ▸ hx)
      rw [release_load_other _ _ _ (by omega)]
      exact hO.sole x hx1
    · rw [a2, a5]
      exact List.Nodup.sublist (List.eraseIdx_sublist _ _) hO.distinct

theorem clear_owned (h : Heap) (c : EventContext) :
    Owned (event_context_clear h c).1 (event_context_clear h c).2 :=
  ⟨fun p hp => by simp [event_context_clear] at hp,
    fun p hp => by simp [event_context_clear] at hp,
    by simp [event_context_clear]⟩

theorem apply_owned (s : Heap × EventContext) (op : ContextOp) (hI : CtxInv s.2)
    (hO : Owned s.1 s.2) : Owned (op.apply s).1 (op.apply s).2 := by
  cases op with
  | set key value => exact set_owned s.1 s.2 key value 0 hI hO
  | set_with_cleanup key value cleanup => exact set_owned s.1 s.2 key value cleanup hI hO
  | remove key => exact remove_owned s.1 s.2 key hI hO
  | clear => exact clear_owned s.1 s.2

theorem run_ops_owned (ops : List ContextOp) :
    ∀ s : Heap × EventContext, CtxInv s.2 → Owned s.1 s.2 →
      Owned (run_ops ops s).1 (run_ops ops s).2 := by
  induction ops with
  | nil => intro s _ hO; exact hO
  | cons op ops ih =>
    intro s hI hO
    exact ih (op.apply s) (apply_inv s op hI) (apply_owned s op hI hO)

/-- Every state reached from `event_context_create` by the mutating calls, on
any heap, has the context as sole owner of the wrappers of its entries. -/
theorem reachable_owned (h0 : Heap) (c0 : EventContext)
    (hc : event_context_create = some c0) (ops : List ContextOp) :
    Owned (run_ops ops (h0, c0)).1 (run_ops ops (h0, c0)).2 := by
  refine run_ops_owned ops (h0, c0) (create_inv c0 hc) ?_
  rw [create_eq] at hc
  have := Option.some.inj hc
  subst this
  exact ⟨fun p hp => by simp [fresh_context] at hp, fun p hp => by simp [fresh_context] at hp,
    by simp [fresh_context]⟩

/-! ## Lemmas: lookups after a removal -/

theorem get_eq_found (h : Heap) (c : EventContext) (q : CStr) (j : Nat)
    (hf : find_key c.keys q 0 c.count = some j) :
    event_context_get h c (some q) =
      (EC_SUCCESS, ref_counted_value_get_data h (c.values.getD j 0)) := by
  unfold event_context_get
  simp only [hf]

theorem get_eq_not_found (h : Heap) (c : EventContext) (q : CStr)
    (hf : find_key c.keys q 0 c.count = none) :
    event_context_get h c (some q) = (EC_ERROR_NOT_FOUND, 0) := by
  unfold event_context_get
  simp only [hf]

theorem has_fast_eq (c : EventContext) (q : CStr) :
    event_context_has c (some q) false = (find_key c.keys q 0 c.count).isSome := by
  unfold event_context_has
  simp only [Bool.false_eq_true, if_false]
  cases find_key c.keys q 0 c.count <;> rfl

/-- The entry at `j` of a list is the entry at `j` or at `j - 1` of the list
with entry `i` erased. -/
theorem eraseIdx_getElem?_shift {α : Type} (l : List α) (i j : Nat) (hij : j ≠ i) :
    (l.eraseIdx i)[if j < i then j else j - 1]? = l[j]? := by
  rw [List.getElem?_eraseIdx]
  by_cases h : j < i
  · simp only [h, if_true]
  · simp only [h, if_false]
    have h1 : ¬ j - 1 < i := by omega
    rw [if_neg h1, show j - 1 + 1 = j by omega]

/-- A successful `remove` on a context that owns its wrappers leaves the
lookup of every other key as it was. -/
theorem remove_get_other (h : Heap) (c : EventContext) (k : CStr) (hI : CtxInv c)
    (hO : Owned h c) (hs : (event_context_remove h c (some k)).1 = EC_SUCCESS)
    (q : Option CStr) (hq : q ≠ some k) :
    event_context_get (event_context_remove h c (some k)).2.1
        (event_context_remove h c (some k)).2.2 q =
      event_context_get h c q := by
  cases q with
  | none => rfl
  | some q =>
    have hqk : q ≠ k := fun he => hq (by rw [he])
    obtain ⟨i, _, hi, hki, hold, a1, a2, _, a4, a5⟩ := remove_success_spec h c k hI hs
    have hJ := remove_inv h c (some k) hI
    have hkl := hI.keys_len
    have hvl := hI.values_len
    have hcnt := hI.count_le
    cases hf : find_key c.keys q 0 c.count with
    | none =>
      have hnm := not_mem_live_of_find_none c.keys q c.count hf
      have hnm' : some q ∉ (event_context_remove h c (some k)).2.2.keys.take
          (event_context_remove h c (some k)).2.2.count := by
        rw [a2, a4]
        exact fun hm => hnm (List.mem_of_mem_eraseIdx hm)
      rw [get_eq_not_found h c q hf,
        get_eq_not_found _ _ q (find_none_of_not_mem _ q _
          (by rw [hJ.keys_len]; exact hJ.count_le) hnm')]
    | some j =>
      obtain ⟨_, hj, hkj, _⟩ := (find_key_eq_some c.keys q c.count 0 j).1 hf
      have hj' : j < c.count := by omega
      have hji : j ≠ i := by
        intro he
        rw [he, hki] at hkj
        exact hqk (Option.some.inj hkj).symm
      have hjn : (if j < i then j else j - 1) < c.count - 1 := by
        split_ifs <;> omega
      have ek : (event_context_remove h c (some k)).2.2.keys.getD (if j < i then j else j - 1)
          none = some q := by
        apply getD_of_live _ none (c.count - 1)
        rw [a4, eraseIdx_getElem?_shift _ i j hji,
          live_getElem? c.keys none c.count j hj' (by omega), hkj]
      have ev : (event_context_remove h c (some k)).2.2.values.getD (if j < i then j else j - 1)
          0 = c.values.getD j 0 := by
        apply getD_of_live _ 0 (c.count - 1)
        rw [a5, eraseIdx_getElem?_shift _ i j hji,
          live_getElem? c.values 0 c.count j hj' (by omega)]
      have hfind := find_of_getD _ hJ q (if j < i then j else j - 1) (by rw [a2]; exact hjn) ek
      rw [get_eq_found h c q j hf, get_eq_found _ _ q _ hfind, ev, a1]
      have hpj : c.values.getD j 0 ≠ 0 :=
        hI.values_nonnull _ (mem_live_getD c.values 0 c.count j hj' (by omega))
      have hne : c.values.getD j 0 ≠ c.values.getD i 0 := by
        rcases Nat.lt_or_gt_of_ne hji with hlt | hgt
        · exact nodup_take_getD c.values 0 c.count j i hO.distinct (by omega) hlt hi
        · exact fun he =>
            nodup_take_getD c.values 0 c.count i j hO.distinct (by omega) hgt hj' he.symm
      unfold ref_counted_value_get_data
      rw [if_neg hpj, if_neg hpj, release_load_other _ _ _ (by omega)]

/-! ## Properties of the specification: removal -/

/-- C30: remove compacts without disturbing the rest.  On a state reached from
`event_context_create` by the mutating calls, a `remove (k)` that returns
`EC_SUCCESS` finds `k` at some entry `i`; afterwards the count is one less, the
lists of the keys and of the wrappers of the entries are the lists before with
position `i` erased (every other entry keeps its key and its wrapper, those
after `i` one place to the left, in the same order), `k` is no longer present,
every remaining wrapper is as it was, and `get` on every key other than `k`
returns what it returned before. -/
theorem C30_remove_compacts (h0 : Heap) (ops : List ContextOp) (c0 : EventContext)
    (hc0 : event_context_create = some c0) (k : CStr)
    (hs : (event_context_remove (run_ops ops (h0, c0)).1 (run_ops ops (h0, c0)).2
      (some k)).1 = EC_SUCCESS) :
    ∃ i, i < (run_ops ops (h0, c0)).2.count ∧
      (run_ops ops (h0, c0)).2.keys.getD i none = some k ∧
      (event_context_remove (run_ops ops (h0, c0)).1 (run_ops ops (h0, c0)).2
          (some k)).2.2.count = (run_ops ops (h0, c0)).2.count - 1 ∧
      (event_context_remove (run_ops ops (h0, c0)).1 (run_ops ops (h0, c0)).2
          (some k)).2.2.keys.take ((run_ops ops (h0, c0)).2.count - 1) =
        ((run_ops ops (h0, c0)).2.keys.take (run_ops ops (h0, c0)).2.count).eraseIdx i ∧
      (event_context_remove (run_ops ops (h0, c0)).1 (run_ops ops (h0, c0)).2
          (some k)).2.2.values.take ((run_ops ops (h0, c0)).2.count - 1) =
        ((run_ops ops (h0, c0)).2.values.take (run_ops ops (h0, c0)).2.count).eraseIdx i ∧
      event_context_has
        (event_context_remove (run_ops ops (h0, c0)).1 (run_ops ops (h0, c0)).2
          (some k)).2.2 (some k) false = false ∧
      (∀ p ∈ ((run_ops ops (h0, c0)).2.values.take (run_ops ops (h0, c0)).2.count).eraseIdx i,
        (event_context_remove (run_ops ops (h0, c0)).1 (run_ops ops (h0, c0)).2
            (some k)).2.1.load p = (run_ops ops (h0, c0)).1.load p) ∧
      (∀ q : Option CStr, q ≠ some k →
        event_context_get
            (event_context_remove (run_ops ops (h0, c0)).1 (run_ops ops (h0, c0)).2
              (some k)).2.1
            (event_context_remove (run_ops ops (h0, c0)).1 (run_ops ops (h0, c0)).2
              (some k)).2.2 q =
          event_context_get (run_ops ops (h0, c0)).1 (run_ops ops (h0, c0)).2 q) := by
  have hI := reachable_inv h0 c0 hc0 ops
  have hO := reachable_owned h0 c0 hc0 ops
  generalize run_ops ops (h0, c0) = s at hI hO hs ⊢
  obtain ⟨i, _, hi, hki, hold, a1, a2, _, a4, a5⟩ := remove_success_spec s.1 s.2 k hI hs
  have hJ := remove_inv s.1 s.2 (some k) hI
  have hkget : (s.2.keys.take s.2.count)[i]? = some (some k) := by
    rw [live_getElem? s.2.keys none s.2.count i hi (by rw [hI.keys_len]; exact hI.count_le),
      hki]
  have hvget : (s.2.values.take s.2.count)[i]? = some (s.2.values.getD i 0) :=
    live_getElem? s.2.values 0 s.2.count i hi (by rw [hI.values_len]; exact hI.count_le)
  refine ⟨i, hi, hki, a2, a4, a5, ?_, ?_, remove_get_other s.1 s.2 k hI hO hs⟩
  · rw [has_fast_eq]
    have hnm : some k ∉ (event_context_remove s.1 s.2 (some k)).2.2.keys.take
        (event_context_remove s.1 s.2 (some k)).2.2.count := by
      rw [a2, a4]
      exact not_mem_eraseIdx_of_nodup _ i _ hI.keys_nodup hkget
    rw [find_none_of_not_mem _ k _ (by rw [hJ.keys_len]; exact hJ.count_le) hnm]
    rfl
  · intro p hp
    have hp1 := List.mem_of_mem_eraseIdx hp
    have hp0 := hI.values_nonnull p hp1
    have hne : p ≠ s.2.values.getD i 0 := fun he =>
      not_mem_eraseIdx_of_nodup _ i _ hO.distinct hvget (he ▸ hp)
    rw [a1, release_load_other _ _ _ (by omega)]

/-- C30 instantiated on the context holding "a", "b", "c" with the data 1, 2,
3: after the removal of "b" the entries are "a" and "c", and `get` still
returns 1 for "a" and 3 for "c". -/
theorem C30_witness :
    event_context_create = some fresh_context ∧
    (event_context_remove
        (run_ops [ContextOp.set (some [97]) 1, ContextOp.set (some [98]) 2,
          ContextOp.set (some [99]) 3] (⟨[], []⟩, fresh_context)).1
        (run_ops [ContextOp.set (some [97]) 1, ContextOp.set (some [98]) 2,
          ContextOp.set (some [99]) 3] (⟨[], []⟩, fresh_context)).2 (some [98])).1 =
      EC_SUCCESS ∧
    (event_context_remove
        (run_ops [ContextOp.set (some [97]) 1, ContextOp.set (some [98]) 2,
          ContextOp.set (some [99]) 3] (⟨[], []⟩, fresh_context)).1
        (run_ops [ContextOp.set (some [97]) 1, ContextOp.set (some [98]) 2,
          ContextOp.set (some [99]) 3] (⟨[], []⟩, fresh_context)).2
        (some [98])).2.2.keys.take 2 = [some [97], some [99]] ∧
    event_context_get
        (event_context_remove
          (run_ops [ContextOp.set (some [97]) 1, ContextOp.set (some [98]) 2,
            ContextOp.set (some [99]) 3] (⟨[], []⟩, fresh_context)).1
          (run_ops [ContextOp.set (some [97]) 1, ContextOp.set (some [98]) 2,
            ContextOp.set (some [99]) 3] (⟨[], []⟩, fresh_context)).2 (some [98])).2.1
        (event_context_remove
          (run_ops [ContextOp.set (some [97]) 1, ContextOp.set (some [98]) 2,
            ContextOp.set (some [99]) 3] (⟨[], []⟩, fresh_context)).1
          (run_ops [ContextOp.set (some [97]) 1, ContextOp.set (some [98]) 2,
            ContextOp.set (some [99]) 3] (⟨[], []⟩, fresh_context)).2 (some [98])).2.2
        (some [99]) =
      event_context_get
        (run_ops [ContextOp.set (some [97]) 1, ContextOp.set (some [98]) 2,
          ContextOp.set (some [99]) 3] (⟨[], []⟩, fresh_context)).1
        (run_ops [ContextOp.set (some [97]) 1, ContextOp.set (some [98]) 2,
          ContextOp.set (some [99]) 3] (⟨[], []⟩, fresh_context)).2 (some [99]) ∧
    event_context_get
        (run_ops [ContextOp.set (some [97]) 1, ContextOp.set (some [98]) 2,
          ContextOp.set (some [99]) 3] (⟨[], []⟩, fresh_context)).1
        (run_ops [ContextOp.set (some [97]) 1, ContextOp.set (some [98]) 2,
          ContextOp.set (some [99]) 3] (⟨[], []⟩, fresh_context)).2 (some [99]) =
      (EC_SUCCESS, 3) := by
  obtain ⟨i, _, _, _, _, _, _, _, h8⟩ := C30_remove_compacts ⟨[], []⟩
    [ContextOp.set (some [97]) 1, ContextOp.set (some [98]) 2, ContextOp.set (some [99]) 3]
    fresh_context (by decide) [98] (by decide)
  exact ⟨by decide, by decide, by decide, h8 (some [99]) (by decide), by decide⟩

/-! ## Lemmas: borrowed and retained lookups -/

theorem get_ref_eq_found (h : Heap) (c : EventContext) (q : CStr) (j : Nat)
    (hf : find_key c.keys q 0 c.count = some j) :
    event_context_get_ref h c (some q) =
      (EC_SUCCESS, c.values.getD j 0,
        if c.values.getD j 0 ≠ 0 then (ref_counted_value_retain h (c.values.getD j 0)).2
        else h) := by
  unfold event_context_get_ref
  simp only [hf]

theorem get_ref_eq_not_found (h : Heap) (c : EventContext) (q : CStr)
    (hf : find_key c.keys q 0 c.count = none) :
    event_context_get_ref h c (some q) = (EC_ERROR_NOT_FOUND, 0, h) := by
  unfold event_context_get_ref
  simp only [hf]

/-! ## Properties of the specification: borrow and retain -/

/-- C26, as amended: borrow versus retain.  On a context reached from
`event_context_create` by the mutating calls, whatever the heap, for a key found
at entry `i` whose wrapper is allocated: `event_context_get` returns
`EC_SUCCESS` and the data of that wrapper (it takes the context as `const` and
writes nothing, so it has no heap or context to return);
`event_context_get_ref` returns `EC_SUCCESS` and the address of that wrapper,
whose count is one more than before if it was below `SIZE_MAX` and as before if
it was `SIZE_MAX`, its data and callback being as before, as are the wrappers
at all other addresses, the number of wrappers and the log of callback calls.
For a key that is not found both return `EC_ERROR_NOT_FOUND` and a null
output, and `get_ref` leaves the heap as it was. -/
theorem C26_borrow_versus_retain (h0 : Heap) (ops : List ContextOp) (c0 : EventContext)
    (hc0 : event_context_create = some c0) (h : Heap) (k : CStr) :
    (∀ i, find_key (run_ops ops (h0, c0)).2.keys k 0 (run_ops ops (h0, c0)).2.count = some i →
      (run_ops ops (h0, c0)).2.values.getD i 0 - 1 < h.cells.length →
      event_context_get h (run_ops ops (h0, c0)).2 (some k) =
        (EC_SUCCESS, (h.load ((run_ops ops (h0, c0)).2.values.getD i 0)).data) ∧
      (event_context_get_ref h (run_ops ops (h0, c0)).2 (some k)).1 = EC_SUCCESS ∧
      (event_context_get_ref h (run_ops ops (h0, c0)).2 (some k)).2.1 =
        (run_ops ops (h0, c0)).2.values.getD i 0 ∧
      (event_context_get_ref h (run_ops ops (h0, c0)).2 (some k)).2.2.load
          ((run_ops ops (h0, c0)).2.values.getD i 0) =
        { h.load ((run_ops ops (h0, c0)).2.values.getD i 0) with
          ref_count :=
            if (h.load ((run_ops ops (h0, c0)).2.values.getD i 0)).ref_count < SIZE_MAX then
              (h.load ((run_ops ops (h0, c0)).2.values.getD i 0)).ref_count + 1
            else (h.load ((run_ops ops (h0, c0)).2.values.getD i 0)).ref_count } ∧
      (∀ q, q - 1 ≠ (run_ops ops (h0, c0)).2.values.getD i 0 - 1 →
        (event_context_get_ref h (run_ops ops (h0, c0)).2 (some k)).2.2.load q = h.load q) ∧
      (event_context_get_ref h (run_ops ops (h0, c0)).2 (some k)).2.2.cells.length =
        h.cells.length ∧
      (event_context_get_ref h (run_ops ops (h0, c0)).2 (some k)).2.2.cleanup_calls =
        h.cleanup_calls) ∧
    (find_key (run_ops ops (h0, c0)).2.keys k 0 (run_ops ops (h0, c0)).2.count = none →
      event_context_get h (run_ops ops (h0, c0)).2 (some k) = (EC_ERROR_NOT_FOUND, 0) ∧
      event_context_get_ref h (run_ops ops (h0, c0)).2 (some k) =
        (EC_ERROR_NOT_FOUND, 0, h)) := by
  have hI := reachable_inv h0 c0 hc0 ops
  generalize (run_ops ops (h0, c0)).2 = c at hI ⊢
  refine ⟨?_, fun hf => ⟨get_eq_not_found h c k hf, get_ref_eq_not_found h c k hf⟩⟩
  intro i hf hal
  obtain ⟨_, hi, _, _⟩ := (find_key_eq_some c.keys k c.count 0 i).1 hf
  have hp : c.values.getD i 0 ≠ 0 :=
    hI.values_nonnull _ (mem_live_getD c.values 0 c.count i (by omega)
      (by rw [hI.values_len]; exact hI.count_le))
  rw [get_eq_found h c k i hf, get_ref_eq_found h c k i hf]
  simp only [if_pos hp]
  refine ⟨by simp only [ref_counted_value_get_data, if_neg hp], trivial, trivial, ?_,
    fun q hq => retain_load_other h _ q hq, retain_length h _, retain_calls h _⟩
  rw [retain_load h _ hp hal]
  split_ifs with h1 h2 h2
  · omega
  · cases hl : h.load (c.values.getD i 0); rfl
  · rfl
  · omega

/-- C26 as stated fails: the context holds the key "k", and the wrapper of that
entry, at address 1, has a count of `SIZE_MAX`.  `event_context_get_ref`
returns `EC_SUCCESS` and the wrapper, and the count is still `SIZE_MAX`, not
one more. -/
theorem C26_counterexample :
    event_context_create = some fresh_context ∧
    find_key (run_ops [ContextOp.set (some [107]) 7] (⟨[], []⟩, fresh_context)).2.keys [107] 0
        (run_ops [ContextOp.set (some [107]) 7] (⟨[], []⟩, fresh_context)).2.count = some 0 ∧
    event_context_get_ref ⟨[⟨7, SIZE_MAX, 0⟩], []⟩
        (run_ops [ContextOp.set (some [107]) 7] (⟨[], []⟩, fresh_context)).2 (some [107]) =
      (EC_SUCCESS, 1, ⟨[⟨7, SIZE_MAX, 0⟩], []⟩) ∧
    ((event_context_get_ref ⟨[⟨7, SIZE_MAX, 0⟩], []⟩
        (run_ops [ContextOp.set (some [107]) 7] (⟨[], []⟩, fresh_context)).2
        (some [107])).2.2.load 1).ref_count ≠ SIZE_MAX + 1 := by
  decide

/-- C26 instantiated on the context holding the key "k" with the data 7, on the
heap the insertion left: `get` returns 7, `get_ref` returns the wrapper at
address 1 with a count of 2; and the key "z" is not found. -/
theorem C26_witness :
    event_context_create = some fresh_context ∧
    event_context_get ⟨[⟨7, 1, 0⟩], []⟩
        (run_ops [ContextOp.set (some [107]) 7] (⟨[], []⟩, fresh_context)).2 (some [107]) =
      (EC_SUCCESS, 7) ∧
    event_context_get_ref ⟨[⟨7, 1, 0⟩], []⟩
        (run_ops [ContextOp.set (some [107]) 7] (⟨[], []⟩, fresh_context)).2 (some [107]) =
      (EC_SUCCESS, 1, ⟨[⟨7, 2, 0⟩], []⟩) ∧
    event_context_get_ref ⟨[⟨7, 1, 0⟩], []⟩
        (run_ops [ContextOp.set (some [107]) 7] (⟨[], []⟩, fresh_context)).2 (some [122]) =
      (EC_ERROR_NOT_FOUND, 0, ⟨[⟨7, 1, 0⟩], []⟩) := by
  have h1 := C26_borrow_versus_retain ⟨[], []⟩ [ContextOp.set (some [107]) 7] fresh_context
    (by decide) ⟨[⟨7, 1, 0⟩], []⟩ [107]
  have h2 := C26_borrow_versus_retain ⟨[], []⟩ [ContextOp.set (some [107]) 7] fresh_context
    (by decide) ⟨[⟨7, 1, 0⟩], []⟩ [122]
  exact ⟨by decide, (h1.1 0 (by decide) (by decide)).1, by decide, (h2.2 (by decide)).2⟩

/-! ## Lemmas: releasing the wrappers of a context -/

theorem release_call_eq (h : Heap) (p : Nat) (hp : p ≠ 0) :
    (ref_counted_value_release h p).2.cleanup_calls = h.cleanup_calls ++ release_call h p := by
  rw [release_calls]
  unfold release_call
  by_cases hc : (h.load p).ref_count = 1 ∧ (h.load p).cleanup ≠ 0 ∧ (h.load p).data ≠ 0
  · rw [if_pos ⟨hp, hc⟩, if_pos hc]
  · rw [if_neg (fun hx => hc hx.2), if_neg hc, List.append_nil]

theorem release_call_congr (g h : Heap) (p : Nat) (he : g.load p = h.load p) :
    release_call g p = release_call h p := by
  unfold release_call
  rw [he]

theorem release_all_cons (h : Heap) (p : Nat) (ps : List Nat) :
    release_all h (p :: ps) = release_all (ref_counted_value_release h p).2 ps := rfl

/-- Releasing wrappers at pairwise different addresses: the calls made are
those each release makes on the heap as it was at the start, in order; each
wrapper released is as one release leaves it; all others are as they were. -/
theorem release_all_spec (ps : List Nat) :
    ∀ h : Heap, ps.Nodup → (∀ p ∈ ps, p ≠ 0) →
      (release_all h ps).cleanup_calls = h.cleanup_calls ++ ps.flatMap (release_call h) ∧
      (release_all h ps).cells.length = h.cells.length ∧
      (∀ q, (∀ p ∈ ps, q - 1 ≠ p - 1) → (release_all h ps).load q = h.load q) ∧
      (∀ p ∈ ps, p - 1 < h.cells.length →
        (release_all h ps).load p = (ref_counted_value_release h p).2.load p) := by
  induction ps with
  | nil => intro h _ _; exact ⟨by simp [release_all], rfl, fun q _ => rfl, by simp⟩
  | cons p ps ih =>
    intro h hn h0
    have hp0 : p ≠ 0 := h0 p (List.mem_cons_self p ps)
    have hpn : p ∉ ps := (List.nodup_cons.1 hn).1
    have hne : ∀ x ∈ ps, x - 1 ≠ p - 1 := by
      intro x hx he
      have hx0 := h0 x (List.mem_cons_of_mem p hx)
      have : x = p := by omega
      exact hpn (this ▸ hx)
    obtain ⟨b1, b2, b3, b4⟩ := ih (ref_counted_value_release h p).2 (List.nodup_cons.1 hn).2
      (fun x hx => h0 x (List.mem_cons_of_mem p hx))
    rw [release_all_cons]
    refine ⟨?_, ?_, ?_, ?_⟩
    · rw [b1, release_call_eq h p hp0, List.flatMap_cons, List.append_assoc]
      congr 2
      exact List.flatMap_congr
        (fun x hx => release_call_congr _ _ _ (release_load_other h p x (hne x hx)))
    · rw [b2, release_length]
    · intro q hq
      rw [b3 q (fun x hx => hq x (List.mem_cons_of_mem p hx)),
        release_load_other h p q (hq p (List.mem_cons_self p ps))]
    · intro x hx hal
      rcases List.mem_cons.1 hx with he | hx'
      · rw [he, b3 p (fun y hy => Ne.symm (hne y hy))]
      · have hx0 := h0 x (List.mem_cons_of_mem p hx')
        have hsame := release_load_other h p x (hne x hx')
        rw [b4 x hx' (by rw [release_length]; exact hal),
          release_load _ x hx0 (by rw [release_length]; exact hal),
          release_load h x hx0 hal, hsame]

/-- The heap the release loop of `event_context_clear` leaves is that of the
releases of the values it passes, in order. -/
theorem clear_loop_heap (n : Nat) :
    ∀ (h : Heap) (keys : List (Option CStr)) (values : List Nat) (i : Nat),
      i + n ≤ values.length →
      (clear_loop h keys values i n).1 = release_all h ((values.drop i).take n) := by
  induction n with
  | zero => intro h keys values i _; rfl
  | succ n ih =>
    intro h keys values i hl
    rw [clear_loop, List.drop_eq_getElem_cons (by omega), List.take_succ_cons,
      release_all_cons]
    have hg : values.getD i 0 = values[i] := by
      rw [List.getD_eq_getElem?_getD, List.getElem?_eq_getElem (by omega)]; rfl
    rw [hg]
    by_cases h0 : values[i] = 0
    · rw [h0]
      simp only [ne_eq, not_true_eq_false, if_false]
      rw [ih _ _ _ _ (by omega)]
      rfl
    · simp only [ne_eq, h0, not_false_eq_true, if_true]
      rw [ih _ _ _ _ (by rw [List.length_set]; omega), List.drop_set_of_lt _ _ (by omega)]

theorem clear_heap (h : Heap) (c : EventContext) (hI : CtxInv c) :
    (event_context_clear h c).1 = release_all h (c.values.take c.count) := by
  unfold event_context_clear
  simp only
  rw [clear_loop_heap c.count h c.keys c.values 0
    (by rw [hI.values_len, Nat.zero_add]; exact hI.count_le), List.drop_zero]

/-! ## Lemmas: a reference held by a caller -/

theorem held_of_load (g : Heap) (p d cl : Nat) (hp : p ≠ 0) (hal : p - 1 < g.cells.length)
    (hl : g.load p = ⟨d, 1, cl⟩) : HeldByCaller g p d cl := by
  refine ⟨hl, ?_, ?_, ?_⟩
  · unfold ref_counted_value_release
    rw [if_neg hp, hl]
    simp
  · rw [release_call_eq g p hp]
    unfold release_call
    rw [hl]
    simp only [true_and]
  · rw [release_load g p hp hal, hl]
    simp

/-- The release of one of two references: the wrapper keeps its data and its
callback, its count is 1, and no callback is called. -/
theorem release_second (h : Heap) (p d cl : Nat) (hp : p ≠ 0) (hal : p - 1 < h.cells.length)
    (hl : h.load p = ⟨d, 2, cl⟩) :
    (ref_counted_value_release h p).2.load p = ⟨d, 1, cl⟩ ∧
    (ref_counted_value_release h p).2.cleanup_calls = h.cleanup_calls ∧
    release_call h p = [] := by
  refine ⟨?_, ?_, ?_⟩
  · rw [release_load h p hp hal, hl]
    simp
  · rw [release_calls, hl]
    simp
  · unfold release_call
    rw [hl]
    simp

theorem retain_first (h : Heap) (p d cl : Nat) (hp : p ≠ 0) (hal : p - 1 < h.cells.length)
    (hl : h.load p = ⟨d, 1, cl⟩) :
    (ref_counted_value_retain h p).2.load p = ⟨d, 2, cl⟩ := by
  rw [retain_load h p hp hal, hl]
  simp [SIZE_MAX]

/-! ## Properties of the specification: retained references -/

/-- C27, as amended: a retained reference outlives the slot.  On a state reached
from `event_context_create` by the mutating calls, let the key `k` sit at entry
`i`, with a wrapper that has data `d`, callback `cl` and a count of 1.
`event_context_get_ref (k)` returns that wrapper.  On the heap it leaves, each
of a `set_with_cleanup` on `k`, a `remove (k)` and a `clear` leaves the wrapper
with its data, its callback and a count of 1; the first two (which succeed)
call no callback at all, and the calls `clear` makes are those of the releases
of the entries whose count was 1, of which the wrapper, at count 2, is none.
After each of the three the release of the caller's reference succeeds, zeroes
the wrapper, and calls the callback on the data once if both are non-null; if
the callback or the data is null it makes no call. -/
theorem C27_retained_reference_outlives_slot (h0 : Heap) (ops : List ContextOp)
    (c0 : EventContext) (hc0 : event_context_create = some c0) (k : CStr) (i d cl : Nat)
    (hi : i < (run_ops ops (h0, c0)).2.count)
    (hk : (run_ops ops (h0, c0)).2.keys.getD i none = some k)
    (hw : (run_ops ops (h0, c0)).1.load ((run_ops ops (h0, c0)).2.values.getD i 0) =
      ⟨d, 1, cl⟩) :
    (event_context_get_ref (run_ops ops (h0, c0)).1 (run_ops ops (h0, c0)).2 (some k)).1 =
      EC_SUCCESS ∧
    (event_context_get_ref (run_ops ops (h0, c0)).1 (run_ops ops (h0, c0)).2 (some k)).2.1 =
      (run_ops ops (h0, c0)).2.values.getD i 0 ∧
    (∀ v1 cl1,
      (event_context_set_with_cleanup
          (event_context_get_ref (run_ops ops (h0, c0)).1 (run_ops ops (h0, c0)).2
            (some k)).2.2
          (run_ops ops (h0, c0)).2 (some k) v1 cl1).1 = EC_SUCCESS ∧
      (event_context_set_with_cleanup
          (event_context_get_ref (run_ops ops (h0, c0)).1 (run_ops ops (h0, c0)).2
            (some k)).2.2
          (run_ops ops (h0, c0)).2 (some k) v1 cl1).2.1.cleanup_calls =
        (run_ops ops (h0, c0)).1.cleanup_calls ∧
      HeldByCaller
        (event_context_set_with_cleanup
          (event_context_get_ref (run_ops ops (h0, c0)).1 (run_ops ops (h0, c0)).2
            (some k)).2.2
          (run_ops ops (h0, c0)).2 (some k) v1 cl1).2.1
        ((run_ops ops (h0, c0)).2.values.getD i 0) d cl) ∧
    ((event_context_remove
          (event_context_get_ref (run_ops ops (h0, c0)).1 (run_ops ops (h0, c0)).2
            (some k)).2.2
          (run_ops ops (h0, c0)).2 (some k)).1 = EC_SUCCESS ∧
      (event_context_remove
          (event_context_get_ref (run_ops ops (h0, c0)).1 (run_ops ops (h0, c0)).2
            (some k)).2.2
          (run_ops ops (h0, c0)).2 (some k)).2.1.cleanup_calls =
        (run_ops ops (h0, c0)).1.cleanup_calls ∧
      HeldByCaller
        (event_context_remove
          (event_context_get_ref (run_ops ops (h0, c0)).1 (run_ops ops (h0, c0)).2
            (some k)).2.2
          (run_ops ops (h0, c0)).2 (some k)).2.1
        ((run_ops ops (h0, c0)).2.values.getD i 0) d cl) ∧
    ((event_context_clear
          (event_context_get_ref (run_ops ops (h0, c0)).1 (run_ops ops (h0, c0)).2
            (some k)).2.2
          (run_ops ops (h0, c0)).2).1.cleanup_calls =
        (run_ops ops (h0, c0)).1.cleanup_calls ++
          ((run_ops ops (h0, c0)).2.values.take (run_ops ops (h0, c0)).2.count).flatMap
            (release_call
              (event_context_get_ref (run_ops ops (h0, c0)).1 (run_ops ops (h0, c0)).2
                (some k)).2.2) ∧
      release_call
          (event_context_get_ref (run_ops ops (h0, c0)).1 (run_ops ops (h0, c0)).2
            (some k)).2.2
          ((run_ops ops (h0, c0)).2.values.getD i 0) = [] ∧
      HeldByCaller
        (event_context_clear
          (event_context_get_ref (run_ops ops (h0, c0)).1 (run_ops ops (h0, c0)).2
            (some k)).2.2
          (run_ops ops (h0, c0)).2).1
        ((run_ops ops (h0, c0)).2.values.getD i 0) d cl) := by
  have hI := reachable_inv h0 c0 hc0 ops
  have hO := reachable_owned h0 c0 hc0 ops
  generalize run_ops ops (h0, c0) = s at hI hO hi hk hw ⊢
  have hf := find_of_getD s.2 hI k i hi hk
  have hvl := hI.values_len
  have hcnt := hI.count_le
  have hmem : s.2.values.getD i 0 ∈ s.2.values.take s.2.count :=
    mem_live_getD s.2.values 0 s.2.count i hi (by omega)
  have hp : s.2.values.getD i 0 ≠ 0 := hI.values_nonnull _ hmem
  have hal := hO.allocated _ hmem
  rw [get_ref_eq_found s.1 s.2 k i hf]
  simp only [if_pos hp]
  have hl2 := retain_first s.1 _ d cl hp hal hw
  have hal2 : s.2.values.getD i 0 - 1 < (ref_counted_value_retain s.1
      (s.2.values.getD i 0)).2.cells.length := by rw [retain_length]; exact hal
  have hcalls := retain_calls s.1 (s.2.values.getD i 0)
  obtain ⟨r1, r2, r3⟩ := release_second _ _ d cl hp hal2 hl2
  have hkm : some k ∈ s.2.keys.take s.2.count := by
    rw [← hk]
    exact mem_live_getD s.2.keys none s.2.count i hi (by rw [hI.keys_len]; exact hI.count_le)
  obtain ⟨k', hk', hk1, hk2⟩ := hI.keys_valid (some k) hkm
  cases hk'
  refine ⟨trivial, trivial, ?_, ?_, ?_⟩
  · intro v1 cl1
    rw [set_eq_replace _ s.2 k v1 cl1 i hk1 hk2 hf]
    simp only [if_pos hp]
    refine ⟨trivial, by rw [create_calls, r2, hcalls], ?_⟩
    refine held_of_load _ _ d cl hp (by rw [create_length, release_length]; omega) ?_
    rw [load_create_other _ _ _ _ (by rw [release_length]; exact hal2)]
    exact r1
  · rw [remove_eq_found _ s.2 k i hf]
    simp only [if_pos hp]
    exact ⟨trivial, by rw [r2, hcalls],
      held_of_load _ _ d cl hp (by rw [release_length]; exact hal2) r1⟩
  · rw [clear_heap _ s.2 hI]
    obtain ⟨b1, b2, _, b4⟩ := release_all_spec (s.2.values.take s.2.count)
      (ref_counted_value_retain s.1 (s.2.values.getD i 0)).2 hO.distinct hI.values_nonnull
    refine ⟨by rw [b1, hcalls], r3, ?_⟩
    refine held_of_load _ _ d cl hp (by rw [b2]; exact hal2) ?_
    rw [b4 _ hmem hal2]
    exact r1

/-- C27 as stated fails: the entry "k" is stored with a `NULL` value and the
callback 9.  A caller takes a reference with `get_ref`, the entry is removed,
and the caller releases its reference: the count goes to 0 and the wrapper is
freed, but the log of callback calls is empty; the callback has not run at the
caller's release, nor at any other time. -/
theorem C27_counterexample :
    (event_context_get_ref
        (run_ops [ContextOp.set_with_cleanup (some [107]) 0 9] (⟨[], []⟩, fresh_context)).1
        (run_ops [ContextOp.set_with_cleanup (some [107]) 0 9] (⟨[], []⟩, fresh_context)).2
        (some [107])) = (EC_SUCCESS, 1, ⟨[⟨0, 2, 9⟩], []⟩) ∧
    (event_context_remove ⟨[⟨0, 2, 9⟩], []⟩
        (run_ops [ContextOp.set_with_cleanup (some [107]) 0 9] (⟨[], []⟩, fresh_context)).2
        (some [107])).1 = EC_SUCCESS ∧
    (event_context_remove ⟨[⟨0, 2, 9⟩], []⟩
        (run_ops [ContextOp.set_with_cleanup (some [107]) 0 9] (⟨[], []⟩, fresh_context)).2
        (some [107])).2.1 = ⟨[⟨0, 1, 9⟩], []⟩ ∧
    ref_counted_value_release ⟨[⟨0, 1, 9⟩], []⟩ 1 = (EC_SUCCESS, ⟨[⟨0, 0, 0⟩], []⟩) := by
  decide

/-- C27 instantiated with the entry "k" stored with the data 7 and the callback
9: after `get_ref` and the removal of "k" the wrapper is held by the caller
alone, and the release of that reference makes the one call of the callback. -/
theorem C27_witness :
    event_context_create = some fresh_context ∧
    (run_ops [ContextOp.set_with_cleanup (some [107]) 7 9] (⟨[], []⟩, fresh_context)).1.load
        ((run_ops [ContextOp.set_with_cleanup (some [107]) 7 9]
          (⟨[], []⟩, fresh_context)).2.values.getD 0 0) = ⟨7, 1, 9⟩ ∧
    HeldByCaller
      (event_context_remove
        (event_context_get_ref
          (run_ops [ContextOp.set_with_cleanup (some [107]) 7 9] (⟨[], []⟩, fresh_context)).1
          (run_ops [ContextOp.set_with_cleanup (some [107]) 7 9] (⟨[], []⟩, fresh_context)).2
          (some [107])).2.2
        (run_ops [ContextOp.set_with_cleanup (some [107]) 7 9] (⟨[], []⟩, fresh_context)).2
        (some [107])).2.1
      ((run_ops [ContextOp.set_with_cleanup (some [107]) 7 9]
        (⟨[], []⟩, fresh_context)).2.values.getD 0 0) 7 9 ∧
    (ref_counted_value_release
        (event_context_remove
          (event_context_get_ref
            (run_ops [ContextOp.set_with_cleanup (some [107]) 7 9] (⟨[], []⟩, fresh_context)).1
            (run_ops [ContextOp.set_with_cleanup (some [107]) 7 9] (⟨[], []⟩, fresh_context)).2
            (some [107])).2.2
          (run_ops [ContextOp.set_with_cleanup (some [107]) 7 9] (⟨[], []⟩, fresh_context)).2
          (some [107])).2.1 1).2.cleanup_calls = [(9, 7)] :=
  ⟨by decide, by decide,
    (C27_retained_reference_outlives_slot ⟨[], []⟩
      [ContextOp.set_with_cleanup (some [107]) 7 9] fresh_context (by decide) [107] 0 7 9
      (by decide) (by decide) (by decide)).2.2.2.1.2.2,
    by decide⟩

/-! ## Lemmas: the counter of a wrapper and the memory ceiling -/

theorem retain_eq_success (h : Heap) (p : Nat) (hp : p ≠ 0)
    (hc : (h.load p).ref_count < SIZE_MAX) :
    ref_counted_value_retain h p =
      (EC_SUCCESS, h.store p { h.load p with ref_count := (h.load p).ref_count + 1 }) := by
  unfold ref_counted_value_retain
  rw [if_neg hp, if_neg (by omega)]

theorem retain_eq_overflow (h : Heap) (p : Nat) (hp : p ≠ 0)
    (hc : SIZE_MAX ≤ (h.load p).ref_count) :
    ref_counted_value_retain h p = (EC_ERROR_OVERFLOW, h) := by
  unfold ref_counted_value_retain
  rw [if_neg hp, if_pos hc]

theorem has_of_count_zero (c : EventContext) (hc : c.count = 0) (key : Option CStr)
    (ct : Bool) : event_context_has c key ct = false := by
  cases key with
  | none => rfl
  | some k =>
    unfold event_context_has
    rw [hc]
    cases ct <;> simp [has_constant_time_loop, find_key]

/-! ## Properties of the specification: clear, retain, the memory ceiling -/

/-- C31: clear resets but keeps capacity.  On a context reached from
`event_context_create` by any sequence of mutating calls, and whatever the heap,
after `event_context_clear` the count is 0 and `event_context_has` is false for
every key in both modes; the heap is the one obtained by one
`ref_counted_value_release` on the wrapper of each entry, in slot order, these
wrappers being non-null and pairwise different, so that each allocated one is
left as a single release leaves it, no other wrapper is touched, and the
callback calls are those of these releases; the capacity is unchanged; and
`event_context_memory_usage` is the structure plus the two arrays, which is the
value of every empty context of that capacity, and the value right after create
when the capacity is still the initial one. -/
theorem C31_clear_resets_keeps_capacity (h0 : Heap) (ops : List ContextOp)
    (c0 : EventContext) (hc0 : event_context_create = some c0) (h : Heap) :
    event_context_count (event_context_clear h (run_ops ops (h0, c0)).2).2 = 0 ∧
    (∀ key ct, event_context_has (event_context_clear h (run_ops ops (h0, c0)).2).2 key ct =
      false) ∧
    (event_context_clear h (run_ops ops (h0, c0)).2).1 =
      release_all h
        ((run_ops ops (h0, c0)).2.values.take (event_context_count (run_ops ops (h0, c0)).2)) ∧
    ((run_ops ops (h0, c0)).2.values.take
      (event_context_count (run_ops ops (h0, c0)).2)).Nodup ∧
    (∀ p ∈ (run_ops ops (h0, c0)).2.values.take (event_context_count (run_ops ops (h0, c0)).2),
      p ≠ 0 ∧
      (p - 1 < h.cells.length →
        (event_context_clear h (run_ops ops (h0, c0)).2).1.load p =
          (ref_counted_value_release h p).2.load p)) ∧
    (∀ q,
      (∀ p ∈ (run_ops ops (h0, c0)).2.values.take
          (event_context_count (run_ops ops (h0, c0)).2), q - 1 ≠ p - 1) →
      (event_context_clear h (run_ops ops (h0, c0)).2).1.load q = h.load q) ∧
    (event_context_clear h (run_ops ops (h0, c0)).2).1.cleanup_calls =
      h.cleanup_calls ++
        ((run_ops ops (h0, c0)).2.values.take
          (event_context_count (run_ops ops (h0, c0)).2)).flatMap (release_call h) ∧
    (event_context_clear h (run_ops ops (h0, c0)).2).2.capacity =
      (run_ops ops (h0, c0)).2.capacity ∧
    event_context_memory_usage (event_context_clear h (run_ops ops (h0, c0)).2).2 =
      sizeof_EventContext + (run_ops ops (h0, c0)).2.capacity * (sizeof_ptr + sizeof_ptr) ∧
    (∀ e : EventContext, CtxInv e → event_context_count e = 0 →
      e.capacity = (run_ops ops (h0, c0)).2.capacity →
      event_context_memory_usage e =
        event_context_memory_usage (event_context_clear h (run_ops ops (h0, c0)).2).2) ∧
    ((run_ops ops (h0, c0)).2.capacity = INITIAL_CAPACITY →
      event_context_memory_usage (event_context_clear h (run_ops ops (h0, c0)).2).2 =
        event_context_memory_usage c0) := by
  have hI := reachable_inv h0 c0 hc0 ops
  have hO := reachable_owned h0 c0 hc0 ops
  have hd := hO.distinct
  have hc1 : c0 = fresh_context := by
    have := create_eq
    rw [hc0] at this
    exact Option.some.inj this
  subst hc1
  generalize (run_ops ops (h0, fresh_context)).2 = c at hI hd ⊢
  have hnz := hI.values_nonnull
  have hs := release_all_spec (c.values.take c.count) h hd hnz
  have hmem : event_context_memory_usage (event_context_clear h c).2 =
      sizeof_EventContext + c.capacity * (sizeof_ptr + sizeof_ptr) := by
    have h1 := hI.cap_le
    simp only [event_context_memory_usage, event_context_clear, size_add, sizeof_EventContext,
      sizeof_ptr, EVENTCHAINS_MAX_CONTEXT_ENTRIES] at *
    omega
  refine ⟨rfl, fun key ct => has_of_count_zero _ rfl key ct, clear_heap h c hI, hd, ?_, ?_, ?_,
    rfl, hmem, ?_, ?_⟩
  · intro p hp
    refine ⟨hnz p hp, fun hl => ?_⟩
    rw [clear_heap h c hI]
    exact hs.2.2.2 p hp hl
  · intro q hq
    rw [clear_heap h c hI]
    exact hs.2.2.1 q hq
  · rw [clear_heap h c hI]
    exact hs.1
  · intro e he h0 hcap
    rw [hmem]
    have hm := he.memory
    simp only [event_context_count] at h0
    rw [h0] at hm
    simp only [List.take_zero, List.map_nil, List.sum_nil, Nat.add_zero] at hm
    simp only [event_context_memory_usage]
    rw [hm, hcap]
  · intro hcap
    rw [hmem, hcap]
    rfl

/-- C31 instantiated with the context holding "a" (data 5, callback 7) and
"b" (data 6, no callback), on the heap of that run: after the clear nothing is
stored, the callback 7 has been called once on 5, both cells are freed, and
the accounted memory is the 168 bytes of a new context. -/
theorem C31_witness :
    event_context_create = some fresh_context ∧
    event_context_count
      (event_context_clear
        (run_ops [ContextOp.set_with_cleanup (some [97]) 5 7, ContextOp.set (some [98]) 6]
          (⟨[], []⟩, fresh_context)).1
        (run_ops [ContextOp.set_with_cleanup (some [97]) 5 7, ContextOp.set (some [98]) 6]
          (⟨[], []⟩, fresh_context)).2).2 = 0 ∧
    (event_context_clear
        (run_ops [ContextOp.set_with_cleanup (some [97]) 5 7, ContextOp.set (some [98]) 6]
          (⟨[], []⟩, fresh_context)).1
        (run_ops [ContextOp.set_with_cleanup (some [97]) 5 7, ContextOp.set (some [98]) 6]
          (⟨[], []⟩, fresh_context)).2).1 = ⟨[⟨0, 0, 0⟩, ⟨0, 0, 0⟩], [(7, 5)]⟩ ∧
    event_context_memory_usage
      (event_context_clear
        (run_ops [ContextOp.set_with_cleanup (some [97]) 5 7, ContextOp.set (some [98]) 6]
          (⟨[], []⟩, fresh_context)).1
        (run_ops [ContextOp.set_with_cleanup (some [97]) 5 7, ContextOp.set (some [98]) 6]
          (⟨[], []⟩, fresh_context)).2).2 = 168 := by
  have a := C31_clear_resets_keeps_capacity ⟨[], []⟩
    [ContextOp.set_with_cleanup (some [97]) 5 7, ContextOp.set (some [98]) 6] fresh_context
    (by decide)
    (run_ops [ContextOp.set_with_cleanup (some [97]) 5 7, ContextOp.set (some [98]) 6]
      (⟨[], []⟩, fresh_context)).1
  exact ⟨by decide, a.1, by rw [a.2.2.1]; decide, by rw [a.2.2.2.2.2.2.2.2.1]; decide⟩

/-- C32: retain is overflow-safe.  On an allocated wrapper whose count is below
`SIZE_MAX`, `ref_counted_value_retain` returns `EC_SUCCESS`, the count read
afterwards is the previous count plus 1 (data and callback as before, no
callback called); on a wrapper whose count is `SIZE_MAX` it returns
`EC_ERROR_OVERFLOW` and leaves the heap as it was, so the count read afterwards
is still `SIZE_MAX` and not 0. -/
theorem C32_retain_overflow_safe (h : Heap) (p : Nat) (hp : p ≠ 0)
    (hl : p - 1 < h.cells.length) :
    (ref_counted_value_get_count h p < SIZE_MAX →
      (ref_counted_value_retain h p).1 = EC_SUCCESS ∧
      ref_counted_value_get_count (ref_counted_value_retain h p).2 p =
        ref_counted_value_get_count h p + 1 ∧
      (ref_counted_value_retain h p).2.load p =
        { h.load p with ref_count := (h.load p).ref_count + 1 } ∧
      (ref_counted_value_retain h p).2.cleanup_calls = h.cleanup_calls) ∧
    (ref_counted_value_get_count h p = SIZE_MAX →
      (ref_counted_value_retain h p).1 = EC_ERROR_OVERFLOW ∧
      (ref_counted_value_retain h p).2 = h ∧
      ref_counted_value_get_count (ref_counted_value_retain h p).2 p = SIZE_MAX ∧
      ref_counted_value_get_count (ref_counted_value_retain h p).2 p ≠ 0) := by
  simp only [ref_counted_value_get_count, if_neg hp]
  constructor
  · intro hc
    have hr := retain_load h p hp hl
    rw [if_neg (by omega)] at hr
    refine ⟨by rw [retain_eq_success h p hp hc], ?_, hr, retain_calls h p⟩
    rw [hr]
  · intro hc
    rw [retain_eq_overflow h p hp (by omega)]
    refine ⟨rfl, rfl, hc, ?_⟩
    rw [hc]
    decide

/-- C32 instantiated: a wrapper with count 1 is brought to count 2; a wrapper
with count `SIZE_MAX` is refused and keeps its count. -/
theorem C32_witness :
    ref_counted_value_retain ⟨[⟨7, 1, 0⟩], []⟩ 1 = (EC_SUCCESS, ⟨[⟨7, 2, 0⟩], []⟩) ∧
    (ref_counted_value_retain ⟨[⟨7, SIZE_MAX, 0⟩], []⟩ 1).1 = EC_ERROR_OVERFLOW ∧
    ref_counted_value_get_count (ref_counted_value_retain ⟨[⟨7, SIZE_MAX, 0⟩], []⟩ 1).2 1 =
      SIZE_MAX := by
  have a := C32_retain_overflow_safe ⟨[⟨7, SIZE_MAX, 0⟩], []⟩ 1 (by decide) (by decide)
  exact ⟨by decide, (a.2 (by decide)).1, (a.2 (by decide)).2.2.1⟩

/-- Every exit of the loop clears `is_executing`, whatever the program does. -/
theorem execute_loop_idle_after {σ : Type} (prog : Program σ) :
    ∀ (fuel i : Nat) (result : ChainResult) (cap : Nat) (calls : List (Nat × World σ))
      (w : World σ) (r : ChainResult) (w1 : World σ) (calls1 : List (Nat × World σ)),
      execute_loop prog fuel i result cap calls w = some (r, w1, calls1) →
      w1.chain.is_executing = 0 := by
  intro fuel
  induction fuel with
  | zero => intro i result cap calls w r w1 calls1 h; simp [execute_loop] at h
  | succ fuel ih =>
    intro i result cap calls w r w1 calls1 h
    unfold execute_loop at h
    by_cases hi : i < w.chain.event_count
    · rw [if_pos hi] at h
      by_cases hs : w.chain.signal_interrupted ≠ 0
      · rw [if_pos hs] at h
        cases h; rfl
      · rw [if_neg hs] at h
        cases hev : w.chain.events.getD i none with
        | none => rw [hev] at h; cases h; rfl
        | some event =>
          rw [hev] at h
          simp only at h
          by_cases hinv : event.execute = 0 ∨ ¬ is_valid_function_pointer event.execute
          · rw [if_pos hinv] at h; cases h; rfl
          · rw [if_neg hinv] at h
            generalize execute_event_with_middleware_iterative prog w (some event) = p at h
            by_cases hok : p.1.success = true
            · rw [if_neg (by simp [hok])] at h
              exact ih _ _ _ _ _ _ _ _ h
            · rw [if_pos (by simpa using hok)] at h
              by_cases hcont : (decide_continue prog p.2.1 event p.1).1 = true
              · rw [if_neg (by simp [hcont])] at h
                exact ih _ _ _ _ _ _ _ _ h
              · rw [if_pos (by simpa using hcont)] at h
                cases h; rfl
    · rw [if_neg hi] at h
      cases h; rfl

/-- The log of calls only grows. -/
theorem execute_loop_calls_prefix {σ : Type} (prog : Program σ) :
    ∀ (fuel i : Nat) (result : ChainResult) (cap : Nat) (calls : List (Nat × World σ))
      (w : World σ) (r : ChainResult) (w1 : World σ) (calls1 : List (Nat × World σ)),
      execute_loop prog fuel i result cap calls w = some (r, w1, calls1) →
      ∃ more, calls1 = calls ++ more := by
  intro fuel
  induction fuel with
  | zero => intro i result cap calls w r w1 calls1 h; simp [execute_loop] at h
  | succ fuel ih =>
    intro i result cap calls w r w1 calls1 h
    unfold execute_loop at h
    by_cases hi : i < w.chain.event_count
    · rw [if_pos hi] at h
      by_cases hs : w.chain.signal_interrupted ≠ 0
      · rw [if_pos hs] at h
        cases h; exact ⟨[], by simp⟩
      · rw [if_neg hs] at h
        cases hev : w.chain.events.getD i none with
        | none => rw [hev] at h; cases h; exact ⟨[], by simp⟩
        | some event =>
          rw [hev] at h
          simp only at h
          by_cases hinv : event.execute = 0 ∨ ¬ is_valid_function_pointer event.execute
          · rw [if_pos hinv] at h; cases h; exact ⟨[], by simp⟩
          · rw [if_neg hinv] at h
            generalize execute_event_with_middleware_iterative prog w (some event) = p at h
            have hp : ∃ m, (if p.2.2 = true then calls ++ [(i, w)] else calls) = calls ++ m := by
              split_ifs
              · exact ⟨_, rfl⟩
              · exact ⟨[], by simp⟩
            obtain ⟨m, hm⟩ := hp
            rw [hm] at h
            by_cases hok : p.1.success = true
            · rw [if_neg (by simp [hok])] at h
              obtain ⟨more, e⟩ := ih _ _ _ _ _ _ _ _ h
              exact ⟨m ++ more, by rw [e, List.append_assoc]⟩
            · rw [if_pos (by simpa using hok)] at h
              by_cases hcont : (decide_continue prog p.2.1 event p.1).1 = true
              · rw [if_neg (by simp [hcont])] at h
                obtain ⟨more, e⟩ := ih _ _ _ _ _ _ _ _ h
                exact ⟨m ++ more, by rw [e, List.append_assoc]⟩
              · rw [if_pos (by simpa using hcont)] at h
                cases h; exact ⟨m, rfl⟩
    · rw [if_neg hi] at h
      cases h; exact ⟨[], by simp⟩

/-- A property `I` of the log of calls and the world that holds when the loop
is entered, that every call of an event function (made at an index below the
number of events, on a world whose interrupt flag is clear) and every call of
the failure predicate preserve, and that fixes the number of events, holds when
the loop is left; and the loop is left within `n - i + 1` evaluations of its
condition. -/
theorem execute_loop_invariant {σ : Type} (prog : Program σ) (n : Nat)
    (I : List (Nat × World σ) → World σ → Prop)
    (hn : ∀ calls w, I calls w → w.chain.event_count = n)
    (hev : ∀ calls w i ev, I calls w → i < n → w.chain.signal_interrupted = 0 →
      w.chain.events.getD i none = some ev →
      I (calls ++ [(i, w)]) (prog.event_fn ev.execute ev.user_data w).2)
    (hh : ∀ calls w a ev msg d, I calls w → I calls (prog.handler_fn a ev msg d w).2) :
    ∀ (fuel i : Nat) (result : ChainResult) (cap : Nat) (calls : List (Nat × World σ))
      (w : World σ), I calls w → n - i < fuel →
      ∃ r w1 calls1,
        execute_loop prog fuel i result cap calls w = some (r, clear_executing w1, calls1) ∧
        I calls1 w1 := by
  intro fuel
  induction fuel with
  | zero => intro i result cap calls w _ hf; omega
  | succ fuel ih =>
    intro i result cap calls w hI hf
    have hcount := hn calls w hI
    unfold execute_loop
    by_cases hi : i < w.chain.event_count
    · rw [if_pos hi]
      by_cases hs : w.chain.signal_interrupted ≠ 0
      · rw [if_pos hs]; exact ⟨_, _, _, rfl, hI⟩
      · rw [if_neg hs]
        cases hevt : w.chain.events.getD i none with
        | none => exact ⟨_, _, _, rfl, hI⟩
        | some event =>
          simp only
          by_cases hinv : event.execute = 0 ∨ ¬ is_valid_function_pointer event.execute
          · rw [if_pos hinv]; exact ⟨_, _, _, rfl, hI⟩
          · rw [if_neg hinv]
            have hw : I (if (execute_event_with_middleware_iterative prog w (some event)).2.2
                  = true then calls ++ [(i, w)] else calls)
                (execute_event_with_middleware_iterative prog w (some event)).2.1 := by
              rcases pipeline_cases prog w event with ⟨r, h⟩ | h
              · rw [h]; simpa using hI
              · rw [h]
                simp only [if_true]
                exact hev calls w i event hI (by omega) (by simpa using hs) hevt
            generalize execute_event_with_middleware_iterative prog w (some event) = p at hw
            by_cases hok : p.1.success = true
            · rw [if_neg (by simp [hok])]
              exact ih _ _ _ _ _ hw (by omega)
            · rw [if_pos (by simpa using hok)]
              have hd : I (if p.2.2 = true then calls ++ [(i, w)] else calls)
                  (decide_continue prog p.2.1 event p.1).2 := by
                rcases decide_continue_cases prog p.2.1 event p.1 with h | h
                · rw [h]; exact hw
                · rw [h]; exact hh _ _ _ _ _ _ hw
              by_cases hcont : (decide_continue prog p.2.1 event p.1).1 = true
              · rw [if_neg (by simp [hcont])]
                exact ih _ _ _ _ _ hd (by omega)
              · rw [if_pos (by simpa using hcont)]
                exact ⟨_, _, _, rfl, hd⟩
    · rw [if_neg hi]; exact ⟨_, _, _, rfl, hI⟩

/-- With a valid first event and valid middleware slots, the first call of the
loop entered at index 0 with a clear flag is the call of that event. -/
theorem execute_loop_first_call {σ : Type} (prog : Program σ) (fuel : Nat)
    (result : ChainResult) (cap : Nat) (w : World σ) (ev : ChainableEvent)
    (hc : 0 < w.chain.event_count) (hflag : w.chain.signal_interrupted = 0)
    (hev : w.chain.events.getD 0 none = some ev)
    (hv : is_valid_function_pointer ev.execute = true)
    (hmw : ∀ j, j < w.chain.middleware_count →
      ∃ mw, w.chain.middlewares.getD j none = some mw ∧ mw.execute ≠ 0)
    (r : ChainResult) (w1 : World σ) (calls1 : List (Nat × World σ))
    (h : execute_loop prog fuel 0 result cap [] w = some (r, w1, calls1)) :
    calls1.head? = some (0, w) := by
  cases fuel with
  | zero => simp [execute_loop] at h
  | succ fuel =>
    unfold execute_loop at h
    rw [if_pos hc, if_neg (by simp [hflag]), hev] at h
    simp only at h
    rw [if_neg (by simp [hv, valid_pointer_ne_zero _ hv]), pipeline_runs prog w ev hflag hmw] at h
    simp only [if_true, List.nil_append] at h
    by_cases hok : (prog.event_fn ev.execute ev.user_data w).1.success = true
    · rw [if_neg (by simp [hok])] at h
      obtain ⟨more, e⟩ := execute_loop_calls_prefix prog _ _ _ _ _ _ _ _ _ h
      rw [e]; rfl
    · rw [if_pos (by simpa using hok)] at h
      by_cases hcont : (decide_continue prog (prog.event_fn ev.execute ev.user_data w).2 ev
          (prog.event_fn ev.execute ev.user_data w).1).1 = true
      · rw [if_neg (by simp [hcont])] at h
        obtain ⟨more, e⟩ := execute_loop_calls_prefix prog _ _ _ _ _ _ _ _ _ h
        rw [e]; rfl
      · rw [if_pos (by simpa using hcont)] at h
        cases h; rfl

theorem interrupting_program_events (a d : Nat) (v : World Int) :
    (interrupting_program.event_fn a d v).2.chain.is_executing = v.chain.is_executing ∧
    (interrupting_program.event_fn a d v).2.chain.event_count = v.chain.event_count := by
  unfold interrupting_program
  simp only
  split_ifs
  · exact ⟨rfl, rfl⟩
  · exact ⟨rfl, rfl⟩

/-! ## Properties of the specification: the run and the interrupt flag -/

/-- C33: the chain always returns to Idle.  On a chain that is idle when
`event_chain_execute` is called, whatever the program and the bound on the
loop, a run that returns leaves `is_executing` clear, on every exit path.  And
with event functions and failure predicates that do not write `is_executing`
or `event_count` of an executing chain themselves, the run returns within
`event_count + 1` evaluations of its loop condition, every event function has
been called with `is_executing` set to 1, and `is_executing` is 0 when it
returns. -/
theorem C33_chain_returns_to_idle {σ : Type} (prog : Program σ) (fuel : Nat) (w : World σ)
    (hidle : w.chain.is_executing = 0) :
    (∀ r w1 calls, event_chain_execute prog fuel w = some (r, w1, calls) →
      w1.chain.is_executing = 0) ∧
    ((∀ a d (v : World σ), v.chain.is_executing ≠ 0 →
        (prog.event_fn a d v).2.chain.is_executing = v.chain.is_executing ∧
        (prog.event_fn a d v).2.chain.event_count = v.chain.event_count) →
      (∀ a ev msg d (v : World σ), v.chain.is_executing ≠ 0 →
        (prog.handler_fn a ev msg d v).2.chain.is_executing = v.chain.is_executing ∧
        (prog.handler_fn a ev msg d v).2.chain.event_count = v.chain.event_count) →
      w.chain.event_count < fuel →
      ∃ r w1 calls, event_chain_execute prog fuel w = some (r, w1, calls) ∧
        (∀ call ∈ calls, call.2.chain.is_executing = 1) ∧
        w1.chain.is_executing = 0) := by
  constructor
  · intro r w1 calls h
    unfold event_chain_execute at h
    rw [if_neg (by simp [hidle])] at h
    exact execute_loop_idle_after prog _ _ _ _ _ _ _ _ _ h
  · intro hevents hhandlers hfuel
    unfold event_chain_execute
    rw [if_neg (by simp [hidle])]
    obtain ⟨r, w1, calls, h1, h2⟩ := execute_loop_invariant prog w.chain.event_count
      (fun calls v => v.chain.event_count = w.chain.event_count ∧ v.chain.is_executing = 1 ∧
        ∀ call ∈ calls, call.2.chain.is_executing = 1)
      (fun calls v h => h.1)
      (fun calls v i ev h _ _ _ => by
        obtain ⟨a1, a2⟩ := hevents ev.execute ev.user_data v (by rw [h.2.1]; decide)
        refine ⟨by rw [a2]; exact h.1, by rw [a1]; exact h.2.1, ?_⟩
        intro call hcall
        rcases List.mem_append.1 hcall with hc | hc
        · exact h.2.2 call hc
        · rw [List.mem_singleton.1 hc]; exact h.2.1)
      (fun calls v a ev msg d h => by
        obtain ⟨a1, a2⟩ := hhandlers a ev msg d v (by rw [h.2.1]; decide)
        exact ⟨by rw [a2]; exact h.1, by rw [a1]; exact h.2.1, h.2.2⟩)
      fuel 0 { success := true, failures := List.replicate 8 zero_failure, failure_count := 0 }
      8 [] { w with chain := { w.chain with is_executing := 1, signal_interrupted := 0 } }
      ⟨rfl, rfl, by simp⟩ (by simpa using hfuel)
    exact ⟨r, _, calls, h1, h2.2.2, rfl⟩

/-- C33 instantiated with the four exits: a run stopped by the interrupt flag
(the one the theorem is applied to), a run of all events, a STRICT run stopped
by a failure, and a run that meets an empty slot below `event_count`; each
returns with `is_executing = 0`. -/
theorem C33_witness :
    (sample_chain FAULT_TOLERANCE_STRICT [5005, 5001]).is_executing = 0 ∧
    (∃ r w1 calls,
      event_chain_execute interrupting_program 3
          (sample_world (sample_chain FAULT_TOLERANCE_STRICT [5005, 5001]) 42) =
        some (r, w1, calls) ∧
      (∀ call ∈ calls, call.2.chain.is_executing = 1) ∧ w1.chain.is_executing = 0) ∧
    (event_chain_execute interrupting_program 3
        (sample_world (sample_chain FAULT_TOLERANCE_STRICT [5005, 5001]) 42)).map
      (fun x => ((x.1.failures.getD 0 zero_failure).error_code, x.2.1.chain.is_executing,
        x.2.2.map Prod.fst)) = some (EC_ERROR_SIGNAL_INTERRUPTED, 0, [0]) ∧
    (event_chain_execute interrupting_program 3
        (sample_world (sample_chain FAULT_TOLERANCE_STRICT [5001, 5002]) 42)).map
      (fun x => (x.1.success, x.2.1.chain.is_executing, x.2.2.map Prod.fst)) =
      some (true, 0, [0, 1]) ∧
    (event_chain_execute interrupting_program 3
        (sample_world (sample_chain FAULT_TOLERANCE_STRICT [5004, 5001]) 42)).map
      (fun x => (x.1.success, x.2.1.chain.is_executing, x.2.2.map Prod.fst)) =
      some (false, 0, [0]) ∧
    (event_chain_execute interrupting_program 3
        (sample_world
          { sample_chain FAULT_TOLERANCE_STRICT [5001] with event_count := 2 } 42)).map
      (fun x => ((x.1.failures.getD 0 zero_failure).error_code, x.2.1.chain.is_executing,
        x.2.2.map Prod.fst)) = some (EC_ERROR_INVALID_PARAMETER, 0, [0]) :=
  ⟨by decide,
    (C33_chain_returns_to_idle interrupting_program 3
      (sample_world (sample_chain FAULT_TOLERANCE_STRICT [5005, 5001]) 42) (by decide)).2
      (fun a d v _ => interrupting_program_events a d v) (fun _ _ _ _ _ _ => ⟨rfl, rfl⟩)
      (by decide),
    by decide, by decide, by decide, by decide⟩

/-- C35: execute starts with a cleared interrupt flag.  On an idle chain, with
event functions and failure predicates that leave `event_count` alone and
failure predicates that do not write the interrupt flag, `event_chain_execute`
returns within `event_count + 1` evaluations of its loop condition, and its
outcome is that of the same call on the chain with the flag clear, whatever the
flag was before the call; every event function is called on a world whose flag
is clear; when the first slot holds a valid event (and the middleware slots in
use are valid) the first call is that of this event, on the chain as it was
with `is_executing` set and the flag cleared; and
`event_chain_was_interrupted` is true afterwards exactly when some event
function called in this run left the flag set. -/
theorem C35_execute_clears_interrupt_flag {σ : Type} (prog : Program σ) (fuel : Nat)
    (w : World σ)
    (hevents : ∀ a d (v : World σ),
      (prog.event_fn a d v).2.chain.event_count = v.chain.event_count)
    (hhandlers : ∀ a ev msg d (v : World σ),
      (prog.handler_fn a ev msg d v).2.chain.event_count = v.chain.event_count ∧
      (prog.handler_fn a ev msg d v).2.chain.signal_interrupted = v.chain.signal_interrupted)
    (hidle : w.chain.is_executing = 0) (hfuel : w.chain.event_count < fuel) :
    ∃ r w1 calls,
      event_chain_execute prog fuel w = some (r, w1, calls) ∧
      event_chain_execute prog fuel
          { w with chain := { w.chain with signal_interrupted := 0 } } =
        some (r, w1, calls) ∧
      (∀ call ∈ calls, call.2.chain.signal_interrupted = 0) ∧
      (∀ ev, 0 < w.chain.event_count → w.chain.events.getD 0 none = some ev →
        is_valid_function_pointer ev.execute = true →
        (∀ j, j < w.chain.middleware_count →
          ∃ mw, w.chain.middlewares.getD j none = some mw ∧ mw.execute ≠ 0) →
        calls.head? =
          some (0, { w with chain := { w.chain with is_executing := 1, signal_interrupted := 0 } })) ∧
      (event_chain_was_interrupted w1.chain = true ↔
        ∃ call ∈ calls, flag_after_call prog call ≠ 0) := by
  have hsame : event_chain_execute prog fuel
      { w with chain := { w.chain with signal_interrupted := 0 } } =
      event_chain_execute prog fuel w := by
    unfold event_chain_execute
    rw [if_neg (by simp [hidle]), if_neg (by simp [hidle])]
  rw [hsame]
  unfold event_chain_execute
  rw [if_neg (by simp [hidle])]
  obtain ⟨r, w1, calls, h1, h2, h3, h4⟩ := execute_loop_invariant prog w.chain.event_count
    (fun calls v => v.chain.event_count = w.chain.event_count ∧
      (∀ call ∈ calls, call.2.chain.signal_interrupted = 0) ∧
      (v.chain.signal_interrupted ≠ 0 ↔ ∃ call ∈ calls, flag_after_call prog call ≠ 0))
    (fun calls v h => h.1)
    (fun calls v i ev h _ hflag hevt => by
      have hfl : flag_after_call prog (i, v) =
          (prog.event_fn ev.execute ev.user_data v).2.chain.signal_interrupted := by
        simp only [flag_after_call, hevt]
      refine ⟨by rw [hevents]; exact h.1, ?_, ?_⟩
      · intro call hcall
        rcases List.mem_append.1 hcall with hc | hc
        · exact h.2.1 call hc
        · rw [List.mem_singleton.1 hc]; exact hflag
      · constructor
        · intro hne
          exact ⟨(i, v), by simp, by rw [hfl]; exact hne⟩
        · rintro ⟨call, hcall, hne⟩
          rcases List.mem_append.1 hcall with hc | hc
          · exact absurd hflag (h.2.2.2 ⟨call, hc, hne⟩)
          · rw [List.mem_singleton.1 hc, hfl] at hne; exact hne)
    (fun calls v a ev msg d h => by
      obtain ⟨a1, a2⟩ := hhandlers a ev msg d v
      exact ⟨by rw [a1]; exact h.1, h.2.1, by rw [a2]; exact h.2.2⟩)
    fuel 0 { success := true, failures := List.replicate 8 zero_failure, failure_count := 0 }
    8 [] { w with chain := { w.chain with is_executing := 1, signal_interrupted := 0 } }
    ⟨rfl, by simp, by simp⟩ (by simpa using hfuel)
  refine ⟨r, _, calls, h1, h1, h3, ?_, ?_⟩
  · intro ev hc hev hv hmw
    exact execute_loop_first_call prog fuel _ 8
      { w with chain := { w.chain with is_executing := 1, signal_interrupted := 0 } } ev hc rfl
      hev hv hmw _ _ _ h1
  · rw [← h4]
    simp [event_chain_was_interrupted, clear_executing]

/-- C35 instantiated: a chain of the events `+10`, `*2` whose flag is set before
the call runs both events from 42 and is not reported interrupted afterwards; a
chain whose first event sets the flag during the run stops before the second
event and is reported interrupted. -/
theorem C35_witness :
    ({ sample_chain FAULT_TOLERANCE_STRICT [5001, 5002] with
        signal_interrupted := 1 }).is_executing = 0 ∧
    event_chain_was_interrupted
      { sample_chain FAULT_TOLERANCE_STRICT [5001, 5002] with signal_interrupted := 1 } =
      true ∧
    (∃ r w1 calls,
      event_chain_execute interrupting_program 3
          (sample_world
            { sample_chain FAULT_TOLERANCE_STRICT [5001, 5002] with signal_interrupted := 1 }
            42) = some (r, w1, calls) ∧
      event_chain_execute interrupting_program 3
          (sample_world (sample_chain FAULT_TOLERANCE_STRICT [5001, 5002]) 42) =
        some (r, w1, calls) ∧
      (event_chain_was_interrupted w1.chain = true ↔
        ∃ call ∈ calls, flag_after_call interrupting_program call ≠ 0)) ∧
    (event_chain_execute interrupting_program 3
        (sample_world
          { sample_chain FAULT_TOLERANCE_STRICT [5001, 5002] with signal_interrupted := 1 }
          42)).map
      (fun x => (x.1.success, x.2.1.user, event_chain_was_interrupted x.2.1.chain,
        x.2.2.map Prod.fst)) = some (true, 104, false, [0, 1]) ∧
    (event_chain_execute interrupting_program 3
        (sample_world (sample_chain FAULT_TOLERANCE_STRICT [5005, 5001]) 42)).map
      (fun x => (x.1.success, x.2.1.user, event_chain_was_interrupted x.2.1.chain,
        x.2.2.map Prod.fst)) = some (false, 42, true, [0]) := by
  obtain ⟨r, w1, calls, h1, h2, _, _, h5⟩ := C35_execute_clears_interrupt_flag
    interrupting_program 3
    (sample_world
      { sample_chain FAULT_TOLERANCE_STRICT [5001, 5002] with signal_interrupted := 1 } 42)
    (fun a d v => (interrupting_program_events a d v).2) (fun _ _ _ _ _ => ⟨rfl, rfl⟩)
    (by decide) (by decide)
  exact ⟨by decide, by decide, ⟨r, w1, calls, h1, h2, h5⟩, by decide, by decide⟩

/-- C37, the code at the failing inputs: a chain of two events whose first
event leaves the interrupt flag set.  The loop finds the flag set at the second
event, sets `success = false`, records the `EC_ERROR_SIGNAL_INTERRUPTED`
failure and leaves the loop without running the second event; the code after
the loop then finds `failure_count > 0` and overwrites `success` with
`fault_tolerance != FAULT_TOLERANCE_STRICT`.  The interrupted run is reported
with `success = true` in the modes LENIENT, BEST_EFFORT and CUSTOM, and with
`success = false` in the mode STRICT. -/
theorem C37_interrupted_run_reported_successful :
    (event_chain_execute interrupting_program 3
        (sample_world (sample_chain FAULT_TOLERANCE_LENIENT [5005, 5001]) 42)).map
      (fun x => (x.1.success, x.1.failure_count,
        (x.1.failures.getD 0 zero_failure).error_code,
        event_chain_was_interrupted x.2.1.chain, x.2.2.map Prod.fst)) =
      some (true, 1, EC_ERROR_SIGNAL_INTERRUPTED, true, [0]) ∧
    (event_chain_execute interrupting_program 3
        (sample_world (sample_chain FAULT_TOLERANCE_BEST_EFFORT [5005, 5001]) 42)).map
      (fun x => (x.1.success, x.1.failure_count,
        (x.1.failures.getD 0 zero_failure).error_code,
        event_chain_was_interrupted x.2.1.chain, x.2.2.map Prod.fst)) =
      some (true, 1, EC_ERROR_SIGNAL_INTERRUPTED, true, [0]) ∧
    (event_chain_execute interrupting_program 3
        (sample_world (sample_chain FAULT_TOLERANCE_CUSTOM [5005, 5001]) 42)).map
      (fun x => (x.1.success, x.1.failure_count,
        (x.1.failures.getD 0 zero_failure).error_code,
        event_chain_was_interrupted x.2.1.chain, x.2.2.map Prod.fst)) =
      some (true, 1, EC_ERROR_SIGNAL_INTERRUPTED, true, [0]) ∧
    (event_chain_execute interrupting_program 3
        (sample_world (sample_chain FAULT_TOLERANCE_STRICT [5005, 5001]) 42)).map
      (fun x => (x.1.success, x.1.failure_count,
        (x.1.failures.getD 0 zero_failure).error_code,
        event_chain_was_interrupted x.2.1.chain, x.2.2.map Prod.fst)) =
      some (false, 1, EC_ERROR_SIGNAL_INTERRUPTED, true, [0]) :=
  ⟨by decide, by decide, by decide, by decide⟩

/-! ## Lemmas: capacities -/

theorem expand_capacity_mem (c g : EventContext) (hI : CtxInv c)
    (hc : c.count < EVENTCHAINS_MAX_CONTEXT_ENTRIES)
    (hL : c.capacity ∈ [8, 16, 32, 64, 128, 256, 512]) (hg : expand_if_needed c = some g) :
    g.capacity ∈ [8, 16, 32, 64, 128, 256, 512] := by
  have h3 := hI.count_le
  have h4 := hI.cap_pos
  have h5 := hI.cap_le
  simp only [EVENTCHAINS_MAX_CONTEXT_ENTRIES] at hc h5
  unfold expand_if_needed at hg
  by_cases hfull : c.count ≥ c.capacity
  · have m1 : safe_multiply c.capacity 2 = some (c.capacity * 2) := by
      unfold safe_multiply SIZE_MAX
      rw [if_neg (by omega), if_neg (by omega)]
    rw [if_pos hfull] at hg
    simp only [m1, EVENTCHAINS_MAX_CONTEXT_ENTRIES] at hg
    have hg := Option.some.inj hg
    subst hg
    simp only [List.mem_cons, List.mem_singleton, List.not_mem_nil, or_false] at hL ⊢
    split_ifs <;> omega
  · rw [if_neg hfull] at hg
    have hg := Option.some.inj hg
    subst hg
    exact hL

theorem set_capacity_mem (h : Heap) (c : EventContext) (hI : CtxInv c)
    (hL : c.capacity ∈ [8, 16, 32, 64, 128, 256, 512]) (key : Option CStr) (v cl : Nat) :
    (event_context_set_with_cleanup h c key v cl).2.2.capacity ∈
      [8, 16, 32, 64, 128, 256, 512] := by
  cases key with
  | none => exact hL
  | some key =>
    by_cases hk2 : EVENTCHAINS_MAX_KEY_LENGTH < key.length
    · rw [set_eq_too_long h c key v cl hk2]; exact hL
    · by_cases hk1 : key.length = 0
      · rw [set_eq_empty h c key v cl hk1]; exact hL
      · have hk2 : key.length ≤ EVENTCHAINS_MAX_KEY_LENGTH := by omega
        have hk1 : 0 < key.length := by omega
        cases hf : find_key c.keys key 0 c.count with
        | some i => rw [set_eq_replace h c key v cl i hk1 hk2 hf]; exact hL
        | none =>
          by_cases hc : c.count < EVENTCHAINS_MAX_CONTEXT_ENTRIES
          · obtain ⟨g, hg, -⟩ := expand_spec c hI hc
            have hm := hI.memory_le
            have h1 := hI.cap_le
            have h2 := hI.count_le
            have hm2 : c.total_memory_bytes + (key.length + 25) ≤
                EVENTCHAINS_MAX_CONTEXT_MEMORY := by
              simp only [EVENTCHAINS_MAX_CONTEXT_ENTRIES, EVENTCHAINS_MAX_KEY_LENGTH,
                EVENTCHAINS_MAX_CONTEXT_MEMORY] at *
              omega
            rw [set_eq_insert h c g key v cl hk1 hk2 hf hc hm2 hg]
            exact expand_capacity_mem c g hI hc hL hg
          · rw [set_eq_capacity h c key v cl hk1 hk2 hf (by omega)]; exact hL

theorem remove_capacity (h : Heap) (c : EventContext) (key : Option CStr) :
    (event_context_remove h c key).2.2.capacity = c.capacity := by
  cases key with
  | none => rfl
  | some key =>
    cases hf : find_key c.keys key 0 c.count with
    | some i => rw [remove_eq_found h c key i hf]
    | none => rw [remove_eq_not_found h c key hf]

theorem apply_capacity_mem (s : Heap × EventContext) (op : ContextOp) (hI : CtxInv s.2)
    (hL : s.2.capacity ∈ [8, 16, 32, 64, 128, 256, 512]) :
    (op.apply s).2.capacity ∈ [8, 16, 32, 64, 128, 256, 512] := by
  cases op with
  | set key value => exact set_capacity_mem s.1 s.2 hI hL key value 0
  | set_with_cleanup key value cleanup => exact set_capacity_mem s.1 s.2 hI hL key value cleanup
  | remove key =>
    show (event_context_remove s.1 s.2 key).2.2.capacity ∈ _
    rw [remove_capacity]; exact hL
  | clear => exact hL

theorem run_ops_capacity_mem (ops : List ContextOp) :
    ∀ s : Heap × EventContext, CtxInv s.2 → s.2.capacity ∈ [8, 16, 32, 64, 128, 256, 512] →
      (run_ops ops s).2.capacity ∈ [8, 16, 32, 64, 128, 256, 512] := by
  induction ops with
  | nil => intro s _ hs; exact hs
  | cons op ops ih =>
    intro s hI hs
    exact ih _ (apply_inv s op hI) (apply_capacity_mem s op hI hs)

/-! ## Lemmas: registration calls with any argument -/

theorem add_event_eq_invalid (c : EventChain) (ev : ChainableEvent)
    (hv : ¬ is_valid_function_pointer ev.execute = true) :
    event_chain_add_event c (some ev) = (EC_ERROR_INVALID_PARAMETER, c) := by
  unfold event_chain_add_event
  simp only
  by_cases h0 : ev.execute = 0
  · rw [if_pos h0]
  · rw [if_neg h0, if_pos hv]

theorem use_middleware_eq_invalid (c : EventChain) (mw : EventMiddleware)
    (hv : ¬ is_valid_function_pointer mw.execute = true) :
    event_chain_use_middleware c (some mw) = (EC_ERROR_INVALID_PARAMETER, c) := by
  unfold event_chain_use_middleware
  simp only
  by_cases h0 : mw.execute = 0
  · rw [if_pos h0]
  · rw [if_neg h0, if_pos hv]

theorem add_event_inv (c : EventChain) (ev : Option ChainableEvent) (hI : ChainInv c) :
    ChainInv (event_chain_add_event c ev).2 := by
  cases ev with
  | none => exact hI
  | some e =>
    by_cases hv : is_valid_function_pointer e.execute = true
    · by_cases hx : c.is_executing = 0
      · by_cases hroom : c.event_count < EVENTCHAINS_MAX_EVENTS
        · exact (add_event_spec c e hI hv hx hroom).2.1
        · rw [add_event_eq_full c e hv hx (by omega)]; exact hI
      · rw [add_event_eq_executing c e hv hx]; exact hI
    · rw [add_event_eq_invalid c e hv]; exact hI

theorem use_middleware_inv (c : EventChain) (mw : Option EventMiddleware) (hI : MwInv c) :
    MwInv (event_chain_use_middleware c mw).2 := by
  cases mw with
  | none => exact hI
  | some m =>
    by_cases hv : is_valid_function_pointer m.execute = true
    · by_cases hx : c.is_executing = 0
      · by_cases hroom : c.middleware_count < EVENTCHAINS_MAX_MIDDLEWARE
        · exact (use_middleware_spec c m hI hv hx hroom).2.1
        · rw [use_middleware_eq_full c m hv hx (by omega)]; exact hI
      · rw [use_middleware_eq_executing c m hv hx]; exact hI
    · rw [use_middleware_eq_invalid c m hv]; exact hI

theorem add_event_mw_inv (c : EventChain) (ev : Option ChainableEvent) (hI : MwInv c) :
    MwInv (event_chain_add_event c ev).2 := by
  rw [add_event_frame]
  exact ⟨hI.middlewares_len, hI.count_le, hI.cap_pos, hI.cap_le⟩

theorem use_middleware_chain_inv (c : EventChain) (mw : Option EventMiddleware)
    (hI : ChainInv c) : ChainInv (event_chain_use_middleware c mw).2 := by
  rw [use_middleware_frame]
  exact ⟨hI.events_len, hI.count_le, hI.cap_pos, hI.cap_le⟩

theorem run_chain_ops_inv (ops : List ChainOp) :
    ∀ c : EventChain, ChainInv c → MwInv c →
      ChainInv (run_chain_ops ops c) ∧ MwInv (run_chain_ops ops c) := by
  induction ops with
  | nil => intro c h1 h2; exact ⟨h1, h2⟩
  | cons op ops ih =>
    intro c h1 h2
    cases op with
    | add_event ev => exact ih _ (add_event_inv c ev h1) (add_event_mw_inv c ev h2)
    | use_middleware mw =>
      exact ih _ (use_middleware_chain_inv c mw h1) (use_middleware_inv c mw h2)

/-! ## Lemmas: the failure log stays inside its array -/

theorem expand_failures_room (result : ChainResult) (cap : Nat)
    (h1 : result.failure_count ≤ cap) (h2 : result.failures.length = cap) :
    (expand_failures result cap).1.failure_count ≤ (expand_failures result cap).2 ∧
    (expand_failures result cap).1.failures.length = (expand_failures result cap).2 := by
  unfold expand_failures
  by_cases hfull : result.failure_count ≥ cap
  · rw [if_pos hfull]
    cases hm : safe_multiply cap 2 with
    | none => exact ⟨h1, h2⟩
    | some nc =>
      have hnc : nc = cap * 2 := by
        unfold safe_multiply at hm
        by_cases hc0 : cap = 0
        · rw [if_pos (Or.inl hc0)] at hm
          have := Option.some.inj hm
          omega
        · rw [if_neg (by omega)] at hm
          by_cases hb : cap > SIZE_MAX / 2
          · rw [if_pos hb] at hm; cases hm
          · rw [if_neg hb] at hm; exact (Option.some.inj hm).symm
      simp only [realloc_zeroed, List.length_append, List.length_take, List.length_replicate]
      omega
  · rw [if_neg hfull]; exact ⟨h1, h2⟩

theorem record_if_room_room (result : ChainResult) (cap : Nat) (f : EventFailure)
    (h1 : result.failure_count ≤ cap) (h2 : result.failures.length = cap) :
    (record_if_room result cap f).failure_count ≤ cap ∧
    (record_if_room result cap f).failures.length = cap := by
  unfold record_if_room record_failure
  split_ifs
  · simp only [List.length_set]
    omega
  · exact ⟨h1, h2⟩

theorem execute_finish_log {σ : Type} (result : ChainResult) (w : World σ) :
    (execute_finish result w).1.failure_count = result.failure_count ∧
    (execute_finish result w).1.failures = result.failures := by
  unfold execute_finish
  simp only
  split_ifs <;> exact ⟨rfl, rfl⟩

/-- Whatever the program does, the result the loop returns has its failure
count within its array. -/
theorem execute_loop_log_bound {σ : Type} (prog : Program σ) :
    ∀ (fuel i : Nat) (result : ChainResult) (cap : Nat) (calls : List (Nat × World σ))
      (w : World σ) (r : ChainResult) (w1 : World σ) (calls1 : List (Nat × World σ)),
      result.failure_count ≤ cap → result.failures.length = cap →
      execute_loop prog fuel i result cap calls w = some (r, w1, calls1) →
      r.failure_count ≤ r.failures.length := by
  intro fuel
  induction fuel with
  | zero => intro i result cap calls w r w1 calls1 _ _ h; simp [execute_loop] at h
  | succ fuel ih =>
    intro i result cap calls w r w1 calls1 h1 h2 h
    unfold execute_loop at h
    by_cases hi : i < w.chain.event_count
    · rw [if_pos hi] at h
      by_cases hs : w.chain.signal_interrupted ≠ 0
      · rw [if_pos hs] at h
        cases h
        obtain ⟨a1, a2⟩ := execute_finish_log
          (record_if_room { result with success := false } cap
            (chain_failure (c_str "Chain") (c_str "Execution interrupted by signal")
              EC_ERROR_SIGNAL_INTERRUPTED w.chain.error_detail_level w.now)) w
        obtain ⟨b1, b2⟩ := record_if_room_room { result with success := false } cap
          (chain_failure (c_str "Chain") (c_str "Execution interrupted by signal")
            EC_ERROR_SIGNAL_INTERRUPTED w.chain.error_detail_level w.now) h1 h2
        rw [a1, a2, b2]; exact b1
      · rw [if_neg hs] at h
        have hinvalid : (execute_invalid result cap w).1.failure_count ≤
            (execute_invalid result cap w).1.failures.length := by
          obtain ⟨b1, b2⟩ := record_if_room_room result cap
            (chain_failure (c_str "InvalidEvent") (c_str "Event validation failed")
              EC_ERROR_INVALID_PARAMETER w.chain.error_detail_level w.now) h1 h2
          simp only [execute_invalid]
          rw [b2]; exact b1
        cases hev : w.chain.events.getD i none with
        | none => rw [hev] at h; cases h; exact hinvalid
        | some event =>
          rw [hev] at h
          simp only at h
          by_cases hinv : event.execute = 0 ∨ ¬ is_valid_function_pointer event.execute
          · rw [if_pos hinv] at h; cases h; exact hinvalid
          · rw [if_neg hinv] at h
            generalize execute_event_with_middleware_iterative prog w (some event) = p at h
            by_cases hok : p.1.success = true
            · rw [if_neg (by simp [hok])] at h
              exact ih _ _ _ _ _ _ _ _ h1 h2 h
            · rw [if_pos (by simpa using hok)] at h
              obtain ⟨g1, g2⟩ := expand_failures_room result cap h1 h2
              obtain ⟨b1, b2⟩ := record_if_room_room (expand_failures result cap).1
                (expand_failures result cap).2 (event_failure event p.1 p.2.1.now) g1 g2
              by_cases hcont : (decide_continue prog p.2.1 event p.1).1 = true
              · rw [if_neg (by simp [hcont])] at h
                exact ih _ _ _ _ _ _ _ _ b1 b2 h
              · rw [if_pos (by simpa using hcont)] at h
                cases h
                simp only
                rw [b2]; exact b1
    · rw [if_neg hi] at h
      cases h
      obtain ⟨a1, a2⟩ := execute_finish_log result w
      rw [a1, a2, h2]; exact h1

/-! ## Properties of the specification: indexes and capacities -/

/-- C38: indexes stay inside the backing arrays.  Every context reached from
`event_context_create` by set / set_with_cleanup / remove / clear has
`count ≤ capacity ≤ 512`, a capacity among 8, 16, 32, 64, 128, 256, 512, and
both arrays of `capacity` slots, so that a set that adds an entry writes it at
an index below the capacity.  Every chain reached from
`event_chain_create_with_detail` by `event_chain_add_event` and
`event_chain_use_middleware` calls with any arguments has
`event_count ≤ event_capacity ≤ 1024` and
`middleware_count ≤ middleware_capacity ≤ 16`, both arrays having their
capacity as length, so that a registration that adds an element writes it at an
index below the capacity.  And in `event_chain_execute`, whatever the program:
the result returned has `failure_count` at most the length of its failure
array; the growth step and the guarded append of the loop keep
`failure_count ≤ failure_capacity` with an array of `failure_capacity` slots;
and an append that happens writes at an index below that length. -/
theorem C38_indexes_inside_arrays {σ : Type} (h0 : Heap) (ops : List ContextOp)
    (c0 : EventContext) (hc0 : event_context_create = some c0)
    (mode : FaultToleranceMode) (detail : ErrorDetailLevel) (ch0 : EventChain)
    (hch0 : event_chain_create_with_detail mode detail = some ch0) (cops : List ChainOp)
    (prog : Program σ) (fuel : Nat) (w : World σ) :
    ((run_ops ops (h0, c0)).2.count ≤ (run_ops ops (h0, c0)).2.capacity ∧
      (run_ops ops (h0, c0)).2.capacity ≤ EVENTCHAINS_MAX_CONTEXT_ENTRIES ∧
      (run_ops ops (h0, c0)).2.capacity ∈ [8, 16, 32, 64, 128, 256, 512] ∧
      (run_ops ops (h0, c0)).2.keys.length = (run_ops ops (h0, c0)).2.capacity ∧
      (run_ops ops (h0, c0)).2.values.length = (run_ops ops (h0, c0)).2.capacity) ∧
    (∀ (h : Heap) (key : Option CStr) (v cl : Nat),
      (event_context_set_with_cleanup h (run_ops ops (h0, c0)).2 key v cl).2.2.count =
        (run_ops ops (h0, c0)).2.count + 1 →
      (run_ops ops (h0, c0)).2.count <
        (event_context_set_with_cleanup h (run_ops ops (h0, c0)).2 key v cl).2.2.capacity ∧
      (run_ops ops (h0, c0)).2.count <
        (event_context_set_with_cleanup h (run_ops ops (h0, c0)).2 key v cl).2.2.keys.length ∧
      (run_ops ops (h0, c0)).2.count <
        (event_context_set_with_cleanup h (run_ops ops (h0, c0)).2 key v cl).2.2.values.length) ∧
    ((run_chain_ops cops ch0).event_count ≤ (run_chain_ops cops ch0).event_capacity ∧
      (run_chain_ops cops ch0).event_capacity ≤ EVENTCHAINS_MAX_EVENTS ∧
      (run_chain_ops cops ch0).events.length = (run_chain_ops cops ch0).event_capacity ∧
      (run_chain_ops cops ch0).middleware_count ≤ (run_chain_ops cops ch0).middleware_capacity ∧
      (run_chain_ops cops ch0).middleware_capacity ≤ EVENTCHAINS_MAX_MIDDLEWARE ∧
      (run_chain_ops cops ch0).middlewares.length =
        (run_chain_ops cops ch0).middleware_capacity) ∧
    (∀ ev : Option ChainableEvent,
      (event_chain_add_event (run_chain_ops cops ch0) ev).2.event_count =
        (run_chain_ops cops ch0).event_count + 1 →
      (run_chain_ops cops ch0).event_count <
        (event_chain_add_event (run_chain_ops cops ch0) ev).2.event_capacity ∧
      (run_chain_ops cops ch0).event_count <
        (event_chain_add_event (run_chain_ops cops ch0) ev).2.events.length) ∧
    (∀ mw : Option EventMiddleware,
      (event_chain_use_middleware (run_chain_ops cops ch0) mw).2.middleware_count =
        (run_chain_ops cops ch0).middleware_count + 1 →
      (run_chain_ops cops ch0).middleware_count <
        (event_chain_use_middleware (run_chain_ops cops ch0) mw).2.middleware_capacity ∧
      (run_chain_ops cops ch0).middleware_count <
        (event_chain_use_middleware (run_chain_ops cops ch0) mw).2.middlewares.length) ∧
    (∀ r w1 calls, event_chain_execute prog fuel w = some (r, w1, calls) →
      r.failure_count ≤ r.failures.length) ∧
    (∀ (result : ChainResult) (cap : Nat) (f : EventFailure),
      result.failure_count ≤ cap → result.failures.length = cap →
      (expand_failures result cap).1.failure_count ≤ (expand_failures result cap).2 ∧
      (expand_failures result cap).1.failures.length = (expand_failures result cap).2 ∧
      (record_if_room result cap f).failure_count ≤ cap ∧
      (record_if_room result cap f).failures.length = cap ∧
      (record_if_room result cap f = result ∨
        (result.failure_count < result.failures.length ∧
          record_if_room result cap f = record_failure result f))) := by
  have hI := reachable_inv h0 c0 hc0 ops
  have hc1 : c0 = fresh_context := by
    have := create_eq
    rw [hc0] at this
    exact Option.some.inj this
  have hL := run_ops_capacity_mem ops (h0, c0) (create_inv c0 hc0)
    (by rw [hc1]; show fresh_context.capacity ∈ [8, 16, 32, 64, 128, 256, 512]; decide)
  have hch1 : ch0 = fresh_chain mode detail := by
    have := chain_create_eq mode detail
    rw [hch0] at this
    exact Option.some.inj this
  obtain ⟨hC, hM⟩ := run_chain_ops_inv cops ch0 (by rw [hch1]; exact fresh_chain_inv mode detail)
    (by rw [hch1]; exact fresh_chain_mw_inv mode detail)
  generalize (run_ops ops (h0, c0)).2 = c at hI hL ⊢
  generalize run_chain_ops cops ch0 = ch at hC hM ⊢
  refine ⟨⟨hI.count_le, hI.cap_le, hL, hI.keys_len, hI.values_len⟩, ?_,
    ⟨hC.count_le, hC.cap_le, hC.events_len, hM.count_le, hM.cap_le, hM.middlewares_len⟩,
    ?_, ?_, ?_, ?_⟩
  · intro h key v cl hcount
    have hS := set_inv h c key v cl hI
    have a1 := hS.count_le
    have a2 := hS.keys_len
    have a3 := hS.values_len
    omega
  · intro ev hcount
    have hS := add_event_inv ch ev hC
    have a1 := hS.count_le
    have a2 := hS.events_len
    omega
  · intro mw hcount
    have hS := use_middleware_inv ch mw hM
    have a1 := hS.count_le
    have a2 := hS.middlewares_len
    omega
  · intro r w1 calls h
    unfold event_chain_execute at h
    by_cases hx : w.chain.is_executing ≠ 0
    · rw [if_pos hx] at h
      cases h
      exact Nat.le_refl 1
    · rw [if_neg hx] at h
      exact execute_loop_log_bound prog _ _ _ _ _ _ _ _ _ (Nat.zero_le 8)
        (List.length_replicate 8 zero_failure) h
  · intro result cap f h1 h2
    obtain ⟨g1, g2⟩ := expand_failures_room result cap h1 h2
    obtain ⟨b1, b2⟩ := record_if_room_room result cap f h1 h2
    refine ⟨g1, g2, b1, b2, ?_⟩
    unfold record_if_room
    by_cases hroom : result.failure_count < cap
    · rw [if_pos hroom]
      exact Or.inr ⟨by omega, rfl⟩
    · rw [if_neg hroom]
      exact Or.inl rfl

/-- C38 instantiated: nine sets grow the context to capacity 16 with 9 entries;
a chain with two events and one middleware registered (and a `NULL` event
refused) has counts 2 and 1 under capacities 8; and a LENIENT run of nine
failing events has grown its log to 16 slots, of which 9 are used. -/
theorem C38_witness :
    event_context_create = some fresh_context ∧
    event_chain_create_with_detail FAULT_TOLERANCE_STRICT ERROR_DETAIL_FULL =
      some (fresh_chain FAULT_TOLERANCE_STRICT ERROR_DETAIL_FULL) ∧
    ((run_ops ((List.range 9).map (fun i => ContextOp.set (some [97 + i]) i))
        (⟨[], []⟩, fresh_context)).2.count ≤
      (run_ops ((List.range 9).map (fun i => ContextOp.set (some [97 + i]) i))
        (⟨[], []⟩, fresh_context)).2.capacity) ∧
    (run_ops ((List.range 9).map (fun i => ContextOp.set (some [97 + i]) i))
      (⟨[], []⟩, fresh_context)).2.count = 9 ∧
    (run_ops ((List.range 9).map (fun i => ContextOp.set (some [97 + i]) i))
      (⟨[], []⟩, fresh_context)).2.capacity = 16 ∧
    ((run_chain_ops
        [ChainOp.add_event (some ⟨5001, 0, [69]⟩), ChainOp.add_event none,
          ChainOp.use_middleware (some ⟨8192, 0, [77]⟩), ChainOp.add_event (some ⟨5002, 0, [69]⟩)]
        (fresh_chain FAULT_TOLERANCE_STRICT ERROR_DETAIL_FULL)).event_count,
      (run_chain_ops
        [ChainOp.add_event (some ⟨5001, 0, [69]⟩), ChainOp.add_event none,
          ChainOp.use_middleware (some ⟨8192, 0, [77]⟩), ChainOp.add_event (some ⟨5002, 0, [69]⟩)]
        (fresh_chain FAULT_TOLERANCE_STRICT ERROR_DETAIL_FULL)).middleware_count) = (2, 1) ∧
    (event_chain_execute interrupting_program 10
        (sample_world (sample_chain FAULT_TOLERANCE_LENIENT (List.replicate 9 5004)) 42)).map
      (fun x => (x.1.failure_count, x.1.failures.length)) = some (9, 16) := by
  have a := C38_indexes_inside_arrays (⟨[], []⟩ : Heap)
    ((List.range 9).map (fun i => ContextOp.set (some [97 + i]) i)) fresh_context (by decide)
    FAULT_TOLERANCE_STRICT ERROR_DETAIL_FULL
    (fresh_chain FAULT_TOLERANCE_STRICT ERROR_DETAIL_FULL) (by decide)
    [ChainOp.add_event (some ⟨5001, 0, [69]⟩), ChainOp.add_event none,
      ChainOp.use_middleware (some ⟨8192, 0, [77]⟩), ChainOp.add_event (some ⟨5002, 0, [69]⟩)]
    interrupting_program 10
    (sample_world (sample_chain FAULT_TOLERANCE_LENIENT (List.replicate 9 5004)) 42)
  exact ⟨by decide, by decide, a.1.1, by decide, by decide, by decide, by decide⟩

/-! ## Lemmas: middleware registered with any argument -/

theorem getD_of_take_append {α : Type} (xs ys : List (Option α)) (n : Nat) (y : α)
    (h : xs.take (n + 1) = ys.take n ++ [some y]) (hn : n ≤ ys.length) :
    xs.getD n none = some y ∧ ∀ j, j < n → xs.getD j none = ys.getD j none := by
  have hlen : (ys.take n).length = n := by rw [List.length_take]; omega
  constructor
  · have h1 : (xs.take (n + 1))[n]? = some (some y) := by
      rw [h, List.getElem?_append_right (by omega), hlen, Nat.sub_self]
      rfl
    rw [List.getElem?_take_of_lt (by omega)] at h1
    rw [List.getD_eq_getElem?_getD, h1]
    rfl
  · intro j hj
    have h1 : (xs.take (n + 1))[j]? = ys[j]? := by
      rw [h, List.getElem?_append_left (by omega), List.getElem?_take_of_lt hj]
    rw [List.getElem?_take_of_lt (by omega)] at h1
    rw [List.getD_eq_getElem?_getD, List.getD_eq_getElem?_getD, h1]

theorem use_middleware_registered (c : EventChain) (evs : List ChainableEvent)
    (mw : Option EventMiddleware) (h : Registered c evs) (hI : MwInv c) :
    Registered (event_chain_use_middleware c mw).2 evs := by
  cases mw with
  | none => exact h
  | some m =>
    by_cases hv : is_valid_function_pointer m.execute = true
    · by_cases hroom : c.middleware_count < EVENTCHAINS_MAX_MIDDLEWARE
      · obtain ⟨_, _, b3, b4, b5⟩ := use_middleware_spec c m hI hv h.idle hroom
        have hfr := use_middleware_frame c (some m)
        obtain ⟨g1, g2⟩ := getD_of_take_append _ _ _ _ b5
          (by rw [hI.middlewares_len]; exact hI.count_le)
        refine ⟨b3, by rw [hfr]; exact h.count, h.bound, by rw [hfr]; exact h.events,
          h.valid, h.names, ?_⟩
        intro j hj
        rw [b4] at hj
        by_cases hjn : j < c.middleware_count
        · rw [g2 j hjn]; exact h.middleware j hjn
        · have hjn : j = c.middleware_count := by omega
          rw [hjn, g1]
          exact ⟨m, rfl, valid_pointer_ne_zero _ hv⟩
      · rw [use_middleware_eq_full c m hv h.idle (by omega)]; exact h
    · rw [use_middleware_eq_invalid c m hv]; exact h

theorem run_use_middleware_registered (evs : List ChainableEvent)
    (mws : List (Option EventMiddleware)) :
    ∀ c : EventChain, Registered c evs → MwInv c →
      Registered (run_chain_ops (mws.map ChainOp.use_middleware) c) evs := by
  induction mws with
  | nil => intro c h _; exact h
  | cons m ms ih =>
    intro c h hI
    exact ih _ (use_middleware_registered c evs m h hI) (use_middleware_inv c m hI)

/-- `event_chain_use_middleware` leaves every field but the middleware array,
its count and its capacity as it was. -/
theorem use_middleware_fields (c : EventChain) (mw : Option EventMiddleware) :
    (event_chain_use_middleware c mw).2.events = c.events ∧
    (event_chain_use_middleware c mw).2.event_count = c.event_count ∧
    (event_chain_use_middleware c mw).2.event_capacity = c.event_capacity ∧
    (event_chain_use_middleware c mw).2.context = c.context ∧
    (event_chain_use_middleware c mw).2.fault_tolerance = c.fault_tolerance ∧
    (event_chain_use_middleware c mw).2.error_detail_level = c.error_detail_level ∧
    (event_chain_use_middleware c mw).2.should_continue = c.should_continue ∧
    (event_chain_use_middleware c mw).2.failure_handler_data = c.failure_handler_data ∧
    (event_chain_use_middleware c mw).2.is_executing = c.is_executing ∧
    (event_chain_use_middleware c mw).2.signal_interrupted = c.signal_interrupted := by
  have f := use_middleware_frame c mw
  exact ⟨by rw [f], by rw [f], by rw [f], by rw [f], by rw [f], by rw [f], by rw [f],
    by rw [f], by rw [f], by rw [f]⟩

theorem run_use_middleware_fields (mws : List (Option EventMiddleware)) :
    ∀ c : EventChain,
      (run_chain_ops (mws.map ChainOp.use_middleware) c).events = c.events ∧
      (run_chain_ops (mws.map ChainOp.use_middleware) c).event_count = c.event_count ∧
      (run_chain_ops (mws.map ChainOp.use_middleware) c).event_capacity = c.event_capacity ∧
      (run_chain_ops (mws.map ChainOp.use_middleware) c).context = c.context ∧
      (run_chain_ops (mws.map ChainOp.use_middleware) c).fault_tolerance = c.fault_tolerance ∧
      (run_chain_ops (mws.map ChainOp.use_middleware) c).error_detail_level =
        c.error_detail_level ∧
      (run_chain_ops (mws.map ChainOp.use_middleware) c).should_continue = c.should_continue ∧
      (run_chain_ops (mws.map ChainOp.use_middleware) c).failure_handler_data =
        c.failure_handler_data ∧
      (run_chain_ops (mws.map ChainOp.use_middleware) c).is_executing = c.is_executing ∧
      (run_chain_ops (mws.map ChainOp.use_middleware) c).signal_interrupted =
        c.signal_interrupted := by
  induction mws with
  | nil => intro c; exact ⟨rfl, rfl, rfl, rfl, rfl, rfl, rfl, rfl, rfl, rfl⟩
  | cons m ms ih =>
    intro c
    obtain ⟨a1, a2, a3, a4, a5, a6, a7, a8, a9, a10⟩ := ih (event_chain_use_middleware c m).2
    obtain ⟨b1, b2, b3, b4, b5, b6, b7, b8, b9, b10⟩ := use_middleware_fields c m
    exact ⟨a1.trans b1, a2.trans b2, a3.trans b3, a4.trans b4, a5.trans b5, a6.trans b6,
      a7.trans b7, a8.trans b8, a9.trans b9, a10.trans b10⟩

theorem run_use_middleware_frame (mws : List (Option EventMiddleware)) (c : EventChain) :
    run_chain_ops (mws.map ChainOp.use_middleware) c =
      { c with
        middlewares := (run_chain_ops (mws.map ChainOp.use_middleware) c).middlewares
        middleware_count :=
          (run_chain_ops (mws.map ChainOp.use_middleware) c).middleware_count
        middleware_capacity :=
          (run_chain_ops (mws.map ChainOp.use_middleware) c).middleware_capacity } := by
  obtain ⟨a1, a2, a3, a4, a5, a6, a7, a8, a9, a10⟩ := run_use_middleware_fields mws c
  generalize run_chain_ops (mws.map ChainOp.use_middleware) c = d at *
  cases d
  cases c
  simp only at a1 a2 a3 a4 a5 a6 a7 a8 a9 a10
  subst a1 a2 a3 a4 a5 a6 a7 a8 a9 a10
  rfl

/-! ## Properties of the specification: middleware registered but not exercised -/

/-- C34: middleware is registered but never exercised.  Take a registered idle
chain without middleware, whose event functions reach the world through the
context only, and register middleware on it by any sequence of
`event_chain_use_middleware` calls, with any arguments.  `event_chain_execute`
on the chain so obtained returns within `event_count + 1` evaluations of its
loop condition, and so it does on the chain without the middleware (which is
the chain obtained with its middleware list emptied); the two runs return the
same `ChainResult`, leave the same context (and heap, clock and user memory)
and call the same events.  On the chain with the middleware the pipeline, for
any program and any event, returns what the direct call of the function of the
event returns: no call goes through `middleware->execute`, so what the
middleware functions would do does not enter. -/
theorem C34_middleware_never_exercised {σ : Type}
    (gs : Nat → Nat → Env σ → EventResult × Env σ)
    (hs : Nat → ChainableEvent → CStr → Nat → Env σ → Bool) (w : World σ)
    (evs : List ChainableEvent) (fuel : Nat) (mws : List (Option EventMiddleware))
    (hreg : Registered w.chain evs) (hI : MwInv w.chain) (hz : w.chain.middleware_count = 0)
    (hfuel : evs.length < fuel) :
    ∃ r w1 calls w2 calls2,
      event_chain_execute (Program.lift gs hs) fuel
          { w with chain := run_chain_ops (mws.map ChainOp.use_middleware) w.chain } =
        some (r, w1, calls) ∧
      event_chain_execute (Program.lift gs hs) fuel w = some (r, w2, calls2) ∧
      w1.chain.context = w2.chain.context ∧
      w1.env = w2.env ∧
      calls.map Prod.fst = calls2.map Prod.fst ∧
      w.chain =
        { run_chain_ops (mws.map ChainOp.use_middleware) w.chain with
          middlewares := w.chain.middlewares
          middleware_count := 0
          middleware_capacity := w.chain.middleware_capacity } ∧
      (∀ (prog : Program σ) (v : World σ) (ev : ChainableEvent),
        v.chain.middlewares =
          (run_chain_ops (mws.map ChainOp.use_middleware) w.chain).middlewares →
        v.chain.middleware_count =
          (run_chain_ops (mws.map ChainOp.use_middleware) w.chain).middleware_count →
        v.chain.signal_interrupted = 0 →
        execute_event_with_middleware_iterative prog v (some ev) =
          ((prog.event_fn ev.execute ev.user_data v).1,
            (prog.event_fn ev.execute ev.user_data v).2, true)) := by
  have hregm := run_use_middleware_registered evs mws w.chain hreg hI
  obtain ⟨a1, a2, a3, a4, a5, a6, a7, a8, a9, a10⟩ := run_use_middleware_fields mws w.chain
  have hfr := run_use_middleware_frame mws w.chain
  obtain ⟨r, envf, calls, calls2, b1, b2, b3⟩ := execute_lift_congr gs hs
    { w with chain := run_chain_ops (mws.map ChainOp.use_middleware) w.chain } w evs hregm hreg
    fuel hfuel
    (by simp only [World.env]; rw [a4])
    (by
      funext ev msg e
      simp only [continue_policy]
      rw [a5, a7, a8])
    (fun _ => by simp only [execute_finish]; rw [a5])
  refine ⟨r, _, calls, _, calls2, b1, b2, rfl, rfl, b3.symm, ?_, ?_⟩
  · rw [hfr]
    cases hw : w.chain
    rw [hw] at hz
    simp only at hz
    subst hz
    rfl
  · intro prog v ev h1 h2 h3
    refine pipeline_runs prog v ev h3 ?_
    intro j hj
    rw [h1]
    rw [h2] at hj
    exact hregm.middleware j hj

/-- C34 instantiated with the events `+10`, `*2`, `-5` from 42 and three
registration calls, of which the second (a `NULL` middleware) is refused: two
middleware are registered, and the value in the end is 99, with and without
them. -/
theorem C34_witness :
    Registered (sample_world (sample_chain FAULT_TOLERANCE_STRICT [5001, 5002, 5003]) 42).chain
      (sample_steps [5001, 5002, 5003]) ∧
    (run_chain_ops
      ([some ⟨9001, 0, c_str "Count"⟩, none, some ⟨9002, 0, c_str "Block"⟩].map
        ChainOp.use_middleware)
      (sample_chain FAULT_TOLERANCE_STRICT [5001, 5002, 5003])).middleware_count = 2 ∧
    (∃ r w1 calls w2 calls2,
      event_chain_execute (Program.lift sample_event_fns sample_handlers) 4
          { sample_world (sample_chain FAULT_TOLERANCE_STRICT [5001, 5002, 5003]) 42 with
            chain :=
              run_chain_ops
                ([some ⟨9001, 0, c_str "Count"⟩, none, some ⟨9002, 0, c_str "Block"⟩].map
                  ChainOp.use_middleware)
                (sample_chain FAULT_TOLERANCE_STRICT [5001, 5002, 5003]) } =
        some (r, w1, calls) ∧
      event_chain_execute (Program.lift sample_event_fns sample_handlers) 4
          (sample_world (sample_chain FAULT_TOLERANCE_STRICT [5001, 5002, 5003]) 42) =
        some (r, w2, calls2) ∧
      w1.chain.context = w2.chain.context ∧ w1.env = w2.env ∧
      calls.map Prod.fst = calls2.map Prod.fst) ∧
    (event_chain_execute (Program.lift sample_event_fns sample_handlers) 4
        { sample_world (sample_chain FAULT_TOLERANCE_STRICT [5001, 5002, 5003]) 42 with
          chain :=
            run_chain_ops
              ([some ⟨9001, 0, c_str "Count"⟩, none, some ⟨9002, 0, c_str "Block"⟩].map
                ChainOp.use_middleware)
              (sample_chain FAULT_TOLERANCE_STRICT [5001, 5002, 5003]) }).map
      (fun x => (x.1.success, x.1.failure_count, x.2.1.user, x.2.2.map Prod.fst)) =
      some (true, 0, 99, [0, 1, 2]) := by
  have hreg := sample_steps_registered FAULT_TOLERANCE_STRICT [5001, 5002, 5003]
    (by decide) (by decide)
  have hmw : MwInv (sample_chain FAULT_TOLERANCE_STRICT [5001, 5002, 5003]) :=
    ⟨by decide, by decide, by decide, by decide⟩
  refine ⟨hreg, by decide, ?_, by decide⟩
  obtain ⟨r, w1, calls, w2, calls2, h1, h2, h3, h4, h5, _⟩ := C34_middleware_never_exercised
    sample_event_fns sample_handlers
    (sample_world (sample_chain FAULT_TOLERANCE_STRICT [5001, 5002, 5003]) 42)
    (sample_steps [5001, 5002, 5003]) 4
    [some ⟨9001, 0, c_str "Count"⟩, none, some ⟨9002, 0, c_str "Block"⟩] hreg hmw (by decide)
    (by decide)
  exact ⟨r, w1, calls, w2, calls2, h1, h2, h3, h4, h5⟩

/-! ## Lemmas: the accumulator of the constant-time comparison -/

theorem xor_mod_256 (x y : Nat) : (x ^^^ y) % 256 = (x % 256) ^^^ (y % 256) := by
  show (x ^^^ y) % 2 ^ 8 = (x % 2 ^ 8) ^^^ (y % 2 ^ 8)
  apply Nat.eq_of_testBit_eq
  intro i
  simp only [Nat.testBit_mod_two_pow, Nat.testBit_xor]
  by_cases h : i < 8 <;> simp [h]

theorem xor_low_byte_zero (x y : Nat) : (x ^^^ y) % 256 = 0 ↔ x % 256 = y % 256 := by
  rw [xor_mod_256, Nat.xor_eq_zero]

theorem or_eq_zero (a b : Nat) : a ||| b = 0 ↔ a = 0 ∧ b = 0 := by
  constructor
  · intro h
    have h1 : ∀ i, (a ||| b).testBit i = false := by
      intro i; rw [h]; exact Nat.zero_testBit i
    simp only [Nat.testBit_or, Bool.or_eq_false_iff] at h1
    exact ⟨Nat.eq_of_testBit_eq (fun i => by rw [(h1 i).1, Nat.zero_testBit]),
      Nat.eq_of_testBit_eq (fun i => by rw [(h1 i).2, Nat.zero_testBit])⟩
  · rintro ⟨rfl, rfl⟩; rfl

/-- The accumulator is zero after the loop exactly when it was zero before and
the two strings, of equal length and made of bytes, are equal. -/
theorem constant_time_loop_eq_zero (a : CStr) :
    ∀ (b : CStr) (r : Nat), a.length = b.length → (∀ x ∈ a, x < 256) → (∀ x ∈ b, x < 256) →
      (constant_time_loop a b r = 0 ↔ r = 0 ∧ a = b) := by
  induction a with
  | nil =>
    intro b r hl _ _
    cases b with
    | nil => simp [constant_time_loop]
    | cons y ys => simp at hl
  | cons x xs ih =>
    intro b r hl ha hb
    cases b with
    | nil => simp at hl
    | cons y ys =>
      have hx : x < 256 := ha x (by simp)
      have hy : y < 256 := hb y (by simp)
      have step : constant_time_loop (x :: xs) (y :: ys) r =
          constant_time_loop xs ys (r ||| ((x ^^^ y) % 256)) := by
        simp [constant_time_loop]
      rw [step, ih ys _ (by simpa using hl) (fun z hz => ha z (by simp [hz]))
        (fun z hz => hb z (by simp [hz])), or_eq_zero, xor_low_byte_zero,
        Nat.mod_eq_of_lt hx, Nat.mod_eq_of_lt hy]
      constructor
      · rintro ⟨⟨h1, h2⟩, h3⟩; exact ⟨h1, by rw [h2, h3]⟩
      · rintro ⟨h1, h2⟩
        have h3 := List.cons.inj h2
        exact ⟨⟨h1, h3.1⟩, h3.2⟩

/-- A non-zero accumulator stays non-zero. -/
theorem constant_time_loop_zero (a : CStr) :
    ∀ (b : CStr) (r : Nat), constant_time_loop a b r = 0 → r = 0 := by
  induction a with
  | nil => intro b r h; simpa [constant_time_loop] using h
  | cons x xs ih =>
    intro b r h
    cases b with
    | nil => simpa [constant_time_loop] using h
    | cons y ys =>
      have step : constant_time_loop (x :: xs) (y :: ys) r =
          constant_time_loop xs ys (r ||| ((x ^^^ y) % 256)) := by
        simp [constant_time_loop]
      rw [step] at h
      exact ((or_eq_zero _ _).1 (ih ys _ h)).1

/-- On two strings of 1 to 256 bytes `constant_time_strcmp` is equality. -/
theorem constant_time_strcmp_iff (a b : CStr) (ha1 : 0 < a.length)
    (ha2 : a.length ≤ EVENTCHAINS_MAX_KEY_LENGTH) (hb1 : 0 < b.length)
    (hb2 : b.length ≤ EVENTCHAINS_MAX_KEY_LENGTH) (ha : ∀ x ∈ a, x < 256)
    (hb : ∀ x ∈ b, x < 256) :
    constant_time_strcmp a b EVENTCHAINS_MAX_KEY_LENGTH = true ↔ a = b := by
  simp only [EVENTCHAINS_MAX_KEY_LENGTH] at ha2 hb2
  have la : safe_strnlen a EVENTCHAINS_MAX_KEY_LENGTH = a.length := by
    unfold safe_strnlen EVENTCHAINS_MAX_KEY_LENGTH
    split_ifs <;> omega
  have lb : safe_strnlen b EVENTCHAINS_MAX_KEY_LENGTH = b.length := by
    unfold safe_strnlen EVENTCHAINS_MAX_KEY_LENGTH
    split_ifs <;> omega
  unfold constant_time_strcmp
  simp only [la, lb, beq_iff_eq]
  constructor
  · intro h
    have h0 := constant_time_loop_zero _ _ _ h
    rw [xor_low_byte_zero] at h0
    have hl : a.length = b.length := by omega
    rw [hl, if_neg (Nat.lt_irrefl _), ← hl, List.take_length] at h
    rw [hl, List.take_length] at h
    exact ((constant_time_loop_eq_zero a b _ hl ha hb).1 h).2
  · intro h
    subst h
    rw [if_neg (Nat.lt_irrefl _), List.take_length]
    exact (constant_time_loop_eq_zero a a _ rfl ha ha).2
      ⟨by rw [Nat.xor_self], rfl⟩

/-- When every slot the loop visits holds a string of 1 to 256 bytes, the
constant-time loop finds what the fast loop finds. -/
theorem has_constant_time_loop_eq (keys : List (Option CStr)) (key : CStr)
    (hk1 : 0 < key.length) (hk2 : key.length ≤ EVENTCHAINS_MAX_KEY_LENGTH)
    (hkb : ∀ x ∈ key, x < 256) (n : Nat) :
    ∀ (i : Nat) (found : Bool),
      (∀ j, i ≤ j → j < i + n → ∃ k, keys.getD j none = some k ∧ 0 < k.length ∧
        k.length ≤ EVENTCHAINS_MAX_KEY_LENGTH ∧ ∀ x ∈ k, x < 256) →
      has_constant_time_loop keys key found i n =
        (found || (find_key keys key i n).isSome) := by
  induction n with
  | zero => intro i found _; simp [has_constant_time_loop, find_key]
  | succ n ih =>
    intro i found hv
    obtain ⟨k, e, k1, k2, kb⟩ := hv i (Nat.le_refl i) (by omega)
    unfold has_constant_time_loop find_key
    rw [e]
    simp only
    rw [ih (i + 1) _ (fun j h1 h2 => hv j (by omega) (by omega))]
    by_cases hkk : k = key
    · rw [if_pos ((constant_time_strcmp_iff k key k1 k2 hk1 hk2 kb hkb).2 hkk),
        if_pos (by rw [hkk])]
      simp
    · rw [if_neg (fun h => hkk ((constant_time_strcmp_iff k key k1 k2 hk1 hk2 kb hkb).1 h)),
        if_neg (fun h => hkk (Option.some.inj h))]

/-! ## Properties of the specification: the two lookup paths -/

/-- C40: the two lookup paths agree on valid keys.  On a context reached from
`event_context_create` by any sequence of mutating calls, whose stored keys are
made of bytes, and for a query key of 1 to 256 bytes,
`event_context_has (key, true)` equals `event_context_has (key, false)`; and on
any two strings of 1 to 256 bytes `constant_time_strcmp` answers true exactly
when the two are equal, its accumulator (the low 8 bits of the XOR of the two
lengths, OR-ed with the low 8 bits of the XOR of each pair of bytes of the
common prefix) being zero exactly then. -/
theorem C40_lookup_paths_agree (h0 : Heap) (ops : List ContextOp) (c0 : EventContext)
    (hc0 : event_context_create = some c0) (key : CStr) (hk1 : 0 < key.length)
    (hk2 : key.length ≤ EVENTCHAINS_MAX_KEY_LENGTH) (hkb : ∀ x ∈ key, x < 256)
    (hsb : ∀ k ∈ (run_ops ops (h0, c0)).2.keys.take (run_ops ops (h0, c0)).2.count,
      ∀ x ∈ k.getD [], x < 256) :
    event_context_has (run_ops ops (h0, c0)).2 (some key) true =
      event_context_has (run_ops ops (h0, c0)).2 (some key) false ∧
    (∀ a b : CStr, 0 < a.length → a.length ≤ EVENTCHAINS_MAX_KEY_LENGTH → 0 < b.length →
      b.length ≤ EVENTCHAINS_MAX_KEY_LENGTH → (∀ x ∈ a, x < 256) → (∀ x ∈ b, x < 256) →
      ((constant_time_strcmp a b EVENTCHAINS_MAX_KEY_LENGTH = true ↔ a = b) ∧
        (constant_time_loop (a.take (min a.length b.length)) (b.take (min a.length b.length))
            ((a.length ^^^ b.length) % 256) = 0 ↔ a = b))) := by
  have hI := reachable_inv h0 c0 hc0 ops
  generalize (run_ops ops (h0, c0)).2 = c at hI hsb ⊢
  constructor
  · rw [has_fast_eq]
    unfold event_context_has
    simp only [if_true]
    rw [has_constant_time_loop_eq c.keys key hk1 hk2 hkb c.count 0 false]
    · simp
    · intro j _ hj
      have hmem := mem_live_getD c.keys none c.count j (by omega)
        (by rw [hI.keys_len]; exact hI.count_le)
      obtain ⟨k, e, k1, k2⟩ := hI.keys_valid _ hmem
      have hb := hsb _ hmem
      rw [e] at hb
      exact ⟨k, e, k1, k2, hb⟩
  · intro a b ha1 ha2 hb1 hb2 ha hb
    have hiff := constant_time_strcmp_iff a b ha1 ha2 hb1 hb2 ha hb
    refine ⟨hiff, ?_⟩
    rw [← hiff]
    simp only [EVENTCHAINS_MAX_KEY_LENGTH] at ha2 hb2
    have la : safe_strnlen a EVENTCHAINS_MAX_KEY_LENGTH = a.length := by
      unfold safe_strnlen EVENTCHAINS_MAX_KEY_LENGTH
      split_ifs <;> omega
    have lb : safe_strnlen b EVENTCHAINS_MAX_KEY_LENGTH = b.length := by
      unfold safe_strnlen EVENTCHAINS_MAX_KEY_LENGTH
      split_ifs <;> omega
    unfold constant_time_strcmp
    simp only [la, lb, beq_iff_eq]
    have hmin : (if a.length < b.length then a.length else b.length) =
        min a.length b.length := by
      split_ifs <;> omega
    rw [hmin]

/-- C40 instantiated with the context holding "a", "b", "c" and the queries
"b" (stored) and "z" (not stored): both paths answer true for the first and
false for the second. -/
theorem C40_witness :
    event_context_create = some fresh_context ∧
    event_context_has
      (run_ops [ContextOp.set (some [97]) 1, ContextOp.set (some [98]) 2,
        ContextOp.set (some [99]) 3] (⟨[], []⟩, fresh_context)).2 (some [98]) true =
      event_context_has
        (run_ops [ContextOp.set (some [97]) 1, ContextOp.set (some [98]) 2,
          ContextOp.set (some [99]) 3] (⟨[], []⟩, fresh_context)).2 (some [98]) false ∧
    event_context_has
      (run_ops [ContextOp.set (some [97]) 1, ContextOp.set (some [98]) 2,
        ContextOp.set (some [99]) 3] (⟨[], []⟩, fresh_context)).2 (some [98]) true = true ∧
    event_context_has
      (run_ops [ContextOp.set (some [97]) 1, ContextOp.set (some [98]) 2,
        ContextOp.set (some [99]) 3] (⟨[], []⟩, fresh_context)).2 (some [122]) true = false ∧
    event_context_has
      (run_ops [ContextOp.set (some [97]) 1, ContextOp.set (some [98]) 2,
        ContextOp.set (some [99]) 3] (⟨[], []⟩, fresh_context)).2 (some [122]) false = false := by
  have a := C40_lookup_paths_agree ⟨[], []⟩
    [ContextOp.set (some [97]) 1, ContextOp.set (some [98]) 2, ContextOp.set (some [99]) 3]
    fresh_context (by decide) [98] (by decide) (by decide) (by decide) (by decide)
  exact ⟨by decide, a.1, by decide, by decide, by decide⟩

/-! ## Lemmas: the heap of the benchmark -/

theorem heap_heapify_up_loop_size :
    ∀ (fuel : Nat) (heap : MinHeap) (idx : Nat),
      (heap_heapify_up_loop fuel heap idx).size = heap.size := by
  intro fuel
  induction fuel with
  | zero => intro heap idx; rfl
  | succ fuel ih =>
    intro heap idx
    unfold heap_heapify_up_loop
    by_cases h0 : idx > 0
    · rw [if_pos h0]
      simp only
      split_ifs
      · rfl
      · rw [ih]; rfl
    · rw [if_neg h0]

theorem heap_heapify_down_loop_size :
    ∀ (fuel : Nat) (heap : MinHeap) (idx : Nat),
      (heap_heapify_down_loop fuel heap idx).size = heap.size := by
  intro fuel
  induction fuel with
  | zero => intro heap idx; rfl
  | succ fuel ih =>
    intro heap idx
    unfold heap_heapify_down_loop
    split_ifs
    · rfl
    · rw [ih]; rfl

theorem heap_smallest_cases (heap : MinHeap) (idx : Nat) :
    heap_smallest heap idx = idx ∨
      (idx < heap_smallest heap idx ∧ heap_smallest heap idx < heap.size) := by
  unfold heap_smallest
  simp only
  split_ifs <;> omega

/-- More evaluations of the condition than `idx` do not change what
`heap_heapify_up` computes: its loop is never cut short. -/
theorem heap_heapify_up_loop_fuel :
    ∀ (fuel : Nat) (heap : MinHeap) (idx : Nat), idx ≤ fuel →
      heap_heapify_up_loop (fuel + 1) heap idx = heap_heapify_up_loop fuel heap idx := by
  intro fuel
  induction fuel with
  | zero =>
    intro heap idx h
    have : idx = 0 := by omega
    subst this
    rfl
  | succ fuel ih =>
    intro heap idx h
    rw [heap_heapify_up_loop, heap_heapify_up_loop.eq_def (fuel + 1)]
    simp only
    by_cases h0 : idx > 0
    · rw [if_pos h0, if_pos h0]
      split_ifs
      · rfl
      · exact ih _ _ (by omega)
    · rw [if_neg h0, if_neg h0]

/-- More turns than `size - idx` do not change what `heap_heapify_down`
computes: its loop is never cut short. -/
theorem heap_heapify_down_loop_succ (fuel : Nat) (heap : MinHeap) (idx : Nat) :
    heap_heapify_down_loop (fuel + 1) heap idx =
      if heap_smallest heap idx = idx then heap
      else
        heap_heapify_down_loop fuel (heap_swap heap idx (heap_smallest heap idx))
          (heap_smallest heap idx) := by
  rw [heap_heapify_down_loop]

theorem heap_heapify_down_loop_fuel :
    ∀ (fuel : Nat) (heap : MinHeap) (idx : Nat), heap.size ≤ fuel + idx →
      heap_heapify_down_loop (fuel + 1) heap idx = heap_heapify_down_loop fuel heap idx := by
  intro fuel
  induction fuel with
  | zero =>
    intro heap idx h
    unfold heap_heapify_down_loop
    rcases heap_smallest_cases heap idx with h1 | h1
    · rw [if_pos h1]
    · omega
  | succ fuel ih =>
    intro heap idx h
    rw [heap_heapify_down_loop_succ (fuel + 1) heap idx, heap_heapify_down_loop_succ fuel heap idx]
    rcases heap_smallest_cases heap idx with h1 | h1
    · rw [if_pos h1, if_pos h1]
    · rw [if_neg (by omega), if_neg (by omega)]
      apply ih
      show heap.size ≤ _
      omega

theorem heap_insert_size (heap : MinHeap) (v : Nat) (d : Int) :
    (heap_insert heap v d).size ≤ heap.size + 1 := by
  unfold heap_insert
  split_ifs
  · omega
  · simp only [heap_heapify_up, heap_heapify_up_loop_size]
    omega

theorem heap_decrease_key_size (heap : MinHeap) (v : Nat) (d : Int) :
    (heap_decrease_key heap v d).size = heap.size := by
  unfold heap_decrease_key
  simp only
  split_ifs
  · rfl
  · simp only [heap_heapify_up, heap_heapify_up_loop_size]

theorem heap_extract_min_size (heap : MinHeap) :
    (heap_extract_min heap).2.size = heap.size - 1 := by
  unfold heap_extract_min
  simp only
  split_ifs
  · simp only [heap_heapify_down, heap_heapify_down_loop_size]
  · rfl

/-! ## Lemmas: the two main loops -/

theorem process_relax_eq (u : Nat) :
    ∀ (edges : List Edge) (s : MinHeap × List Int × List Int),
      process_relax u edges s = traditional_relax u edges s := by
  intro edges
  induction edges with
  | nil => intro s; rfl
  | cons edge rest ih =>
    intro s
    obtain ⟨heap, distances, predecessors⟩ := s
    unfold process_relax traditional_relax
    simp only
    split_ifs <;> exact ih _

theorem process_loop_eq (g : Graph) :
    ∀ (fuel : Nat) (s : MinHeap × List Int × List Int × Int),
      process_loop g fuel s = traditional_loop g fuel s := by
  intro fuel
  induction fuel with
  | zero => intro s; rfl
  | succ fuel ih =>
    intro s
    obtain ⟨heap, distances, predecessors, vp⟩ := s
    unfold process_loop traditional_loop
    simp only [process_relax_eq]
    split_ifs <;> first | rfl | exact ih _

/-! ## Lemmas: the main loop ends -/

theorem int_add_range (a b : Int) : -2 ^ 31 ≤ int_add a b ∧ int_add a b < 2 ^ 31 := by
  unfold int_add
  have h1 := Int.emod_nonneg (a + b + 2 ^ 31) (show (2 : Int) ^ 32 ≠ 0 by norm_num)
  have h2 := Int.emod_lt_of_pos (a + b + 2 ^ 31) (show (0 : Int) < 2 ^ 32 by norm_num)
  constructor <;> omega

/-- Without overflow `int_add` is the sum. -/
theorem int_add_exact (a b : Int) (h1 : -2 ^ 31 ≤ a + b) (h2 : a + b < 2 ^ 31) :
    int_add a b = a + b := by
  unfold int_add
  omega

theorem sum_set_add (l : List Nat) :
    ∀ (i x : Nat), i < l.length → (l.set i x).sum + l.getD i 0 = l.sum + x := by
  induction l with
  | nil => intro i x h; simp at h
  | cons a l ih =>
    intro i x h
    cases i with
    | zero => simp; omega
    | succ i =>
      have := ih i x (by simpa using h)
      simp only [List.set_cons_succ, List.sum_cons, List.getD_cons_succ]
      omega

/-- Lowering one distance lowers the sum of the measure. -/
theorem measure_set_lt (distances : List Int) (v : Nat) (alt : Int)
    (hv : v < distances.length) (h1 : -2 ^ 31 ≤ alt) (h2 : alt < distances.getD v 0) :
    ((distances.set v alt).map (fun d => (d + 2 ^ 31).toNat)).sum <
      (distances.map (fun d => (d + 2 ^ 31).toNat)).sum := by
  have e := sum_set_add (distances.map (fun d => (d + 2 ^ 31).toNat)) v ((alt + 2 ^ 31).toNat)
    (by simpa using hv)
  rw [List.map_set]
  have hg : (distances.map (fun d => (d + 2 ^ 31).toNat)).getD v 0 =
      (distances.getD v 0 + 2 ^ 31).toNat := by
    rw [List.getD_eq_getElem?_getD, List.getD_eq_getElem?_getD, List.getElem?_map,
      List.getElem?_eq_getElem hv]
    rfl
  rw [hg] at e
  omega

/-- The relaxation of the edges of a vertex does not raise the measure, and
keeps the array of distances in shape. -/
theorem traditional_relax_measure (n u : Nat) :
    ∀ (edges : List Edge) (heap : MinHeap) (distances predecessors : List Int),
      (∀ edge ∈ edges, edge.target < n) → distances.length = n →
      (∀ d ∈ distances, -2 ^ 31 ≤ d) →
      dijkstra_measure (traditional_relax u edges (heap, distances, predecessors)).1
          (traditional_relax u edges (heap, distances, predecessors)).2.1 ≤
        dijkstra_measure heap distances ∧
      (traditional_relax u edges (heap, distances, predecessors)).2.1.length = n ∧
      (∀ d ∈ (traditional_relax u edges (heap, distances, predecessors)).2.1, -2 ^ 31 ≤ d) := by
  intro edges
  induction edges with
  | nil => intro heap distances predecessors _ hl hd; exact ⟨Nat.le_refl _, hl, hd⟩
  | cons edge rest ih =>
    intro heap distances predecessors he hl hd
    have hrest : ∀ e ∈ rest, e.target < n := fun e h => he e (List.mem_cons_of_mem _ h)
    have hv : edge.target < distances.length := by
      rw [hl]; exact he edge (List.mem_cons_self _ _)
    unfold traditional_relax
    simp only
    by_cases hlt : int_add (distances.getD u 0) edge.weight < distances.getD edge.target 0
    · rw [if_pos hlt]
      have hr := int_add_range (distances.getD u 0) edge.weight
      have hm := measure_set_lt distances edge.target _ hv hr.1 hlt
      have hd1 : ∀ d ∈ distances.set edge.target (int_add (distances.getD u 0) edge.weight),
          -2 ^ 31 ≤ d := by
        intro d hmem
        rcases List.mem_or_eq_of_mem_set hmem with h | h
        · exact hd d h
        · rw [h]; exact hr.1
      obtain ⟨a1, a2, a3⟩ := ih
        (if heap.positions.getD edge.target (-1) = -1 then
          heap_insert heap edge.target (int_add (distances.getD u 0) edge.weight)
          else heap_decrease_key heap edge.target (int_add (distances.getD u 0) edge.weight))
        (distances.set edge.target (int_add (distances.getD u 0) edge.weight))
        (predecessors.set edge.target u) hrest (by rw [List.length_set]; exact hl) hd1
      refine ⟨?_, a2, a3⟩
      refine Nat.le_trans a1 ?_
      have hsize : (if heap.positions.getD edge.target (-1) = -1 then
          heap_insert heap edge.target (int_add (distances.getD u 0) edge.weight)
          else heap_decrease_key heap edge.target
            (int_add (distances.getD u 0) edge.weight)).size ≤ heap.size + 1 := by
        split_ifs
        · exact heap_insert_size _ _ _
        · rw [heap_decrease_key_size]; omega
      unfold dijkstra_measure
      omega
    · rw [if_neg hlt]
      exact ih heap distances predecessors hrest hl hd

theorem adj_list_targets (g : Graph) (hg : g.well_formed) (u : Nat) :
    ∀ edge ∈ g.adj_list.getD u [], edge.target < g.num_vertices := by
  intro edge he
  by_cases hu : u < g.adj_list.length
  · rw [List.getD_eq_getElem?_getD, List.getElem?_eq_getElem hu] at he
    exact hg.2 _ (List.getElem_mem hu) edge he
  · rw [List.getD_eq_getElem?_getD, List.getElem?_eq_none (by omega)] at he
    simp at he

/-- The main loop returns as soon as `fuel` exceeds the measure, and returns
arrays of distances in shape. -/
theorem traditional_loop_returns (g : Graph) (hg : g.well_formed) :
    ∀ (fuel : Nat) (heap : MinHeap) (distances predecessors : List Int) (vp : Int),
      distances.length = g.num_vertices → (∀ d ∈ distances, -2 ^ 31 ≤ d) →
      dijkstra_measure heap distances < fuel →
      ∃ s, traditional_loop g fuel (heap, distances, predecessors, vp) = some s ∧
        s.2.1.length = g.num_vertices := by
  intro fuel
  induction fuel with
  | zero => intro heap distances predecessors vp _ _ h; omega
  | succ fuel ih =>
    intro heap distances predecessors vp hl hd hm
    unfold traditional_loop
    simp only
    by_cases hempty : heap_is_empty heap = true
    · rw [if_pos hempty]; exact ⟨_, rfl, hl⟩
    · rw [if_neg hempty]
      have hsize : heap.size ≠ 0 := by
        simpa [heap_is_empty] using hempty
      have hx := heap_extract_min_size heap
      have hm1 : dijkstra_measure (heap_extract_min heap).2 distances < fuel := by
        unfold dijkstra_measure at hm ⊢
        omega
      by_cases hgt : (heap_extract_min heap).1.distance >
          distances.getD (heap_extract_min heap).1.vertex 0
      · rw [if_pos hgt]
        exact ih _ _ _ _ hl hd hm1
      · rw [if_neg hgt]
        obtain ⟨a1, a2, a3⟩ := traditional_relax_measure g.num_vertices
          (heap_extract_min heap).1.vertex
          (g.adj_list.getD (heap_extract_min heap).1.vertex []) (heap_extract_min heap).2
          distances predecessors (adj_list_targets g hg _) hl hd
        exact ih _ _ _ _ a2 a3 (by omega)

theorem initial_measure (n source : Nat) :
    dijkstra_measure (heap_insert (heap_create n) source 0)
        ((List.replicate n INT_MAX).set source 0) ≤ 2 * n * 2 ^ 32 + 1 ∧
    ((List.replicate n INT_MAX).set source 0).length = n ∧
    ∀ d ∈ (List.replicate n INT_MAX).set source 0, -2 ^ 31 ≤ d := by
  have hd : ∀ d ∈ (List.replicate n INT_MAX).set source 0, d = INT_MAX ∨ d = 0 := by
    intro d hmem
    rcases List.mem_or_eq_of_mem_set hmem with h | h
    · exact Or.inl (List.eq_of_mem_replicate h)
    · exact Or.inr h
  refine ⟨?_, by simp, ?_⟩
  · have h1 := heap_insert_size (heap_create n) source 0
    have h2 : (heap_create n).size = 0 := rfl
    have h3 := sum_map_le (fun d : Int => (d + 2 ^ 31).toNat) (2 ^ 32)
      ((List.replicate n INT_MAX).set source 0) (by
        intro d hmem
        rcases hd d hmem with h | h <;> rw [h] <;> decide)
    simp only [List.length_set, List.length_replicate] at h3
    unfold dijkstra_measure
    have h4 : 2 * n * 2 ^ 32 = 2 * (n * 2 ^ 32) := by ring
    omega
  · intro d hmem
    rcases hd d hmem with h | h <;> rw [h] <;> decide

/-- `dijkstra_traditional` returns, with success and one distance for each
vertex, as soon as `fuel` exceeds `2 * num_vertices * 2 ^ 32 + 1`. -/
theorem dijkstra_traditional_returns (g : Graph) (hg : g.well_formed) (source fuel : Nat)
    (hfuel : 2 * g.num_vertices * 2 ^ 32 + 1 < fuel) :
    ∃ s, traditional_loop g fuel
        (heap_insert (heap_create g.num_vertices) source 0,
          (List.replicate g.num_vertices INT_MAX).set source 0,
          List.replicate g.num_vertices (-1), 0) = some s ∧
      dijkstra_traditional fuel g source = some ⟨s.2.1, s.2.2.1, true⟩ ∧
      s.2.1.length = g.num_vertices := by
  obtain ⟨a1, a2, a3⟩ := initial_measure g.num_vertices source
  obtain ⟨s, h1, h2⟩ := traditional_loop_returns g hg fuel
    (heap_insert (heap_create g.num_vertices) source 0)
    ((List.replicate g.num_vertices INT_MAX).set source 0)
    (List.replicate g.num_vertices (-1)) 0 a2 a3 (by omega)
  refine ⟨s, h1, ?_, h2⟩
  unfold dijkstra_traditional
  simp only [h1]

/-! ## Lemmas: the context of the benchmark during the run -/

theorem dijkstra_stage0_lookups :
    event_context_get dijkstra_stage0.1 dijkstra_stage0.2 (some CTX_GRAPH) = (EC_SUCCESS, 1) ∧
    event_context_get dijkstra_stage0.1 dijkstra_stage0.2 (some CTX_SOURCE) = (EC_SUCCESS, 2) := by
  decide

theorem dijkstra_stage1_lookups :
    event_context_get dijkstra_stage1.1 dijkstra_stage1.2 (some CTX_GRAPH) = (EC_SUCCESS, 1) ∧
    event_context_get dijkstra_stage1.1 dijkstra_stage1.2 (some CTX_SOURCE) = (EC_SUCCESS, 2) := by
  decide

theorem dijkstra_stage2_lookups :
    event_context_get dijkstra_stage2.1 dijkstra_stage2.2 (some CTX_GRAPH) = (EC_SUCCESS, 1) ∧
    event_context_get dijkstra_stage2.1 dijkstra_stage2.2 (some CTX_HEAP) = (EC_SUCCESS, 7) ∧
    event_context_get dijkstra_stage2.1 dijkstra_stage2.2 (some CTX_DISTANCES) =
      (EC_SUCCESS, 5) ∧
    event_context_get dijkstra_stage2.1 dijkstra_stage2.2 (some CTX_PREDECESSORS) =
      (EC_SUCCESS, 6) ∧
    event_context_get dijkstra_stage2.1 dijkstra_stage2.2 (some CTX_VERTICES_PROCESSED) =
      (EC_SUCCESS, 8) := by
  decide

/-- `event_initialize` on the state `dijkstra_eventchains` sets up. -/
theorem event_initialize_run (now : Int) (g : Graph) (source : Nat) (verbose : Bool) :
    event_initialize ⟨dijkstra_stage0.2, dijkstra_stage0.1, now,
        dijkstra_memory g source verbose⟩ =
      (event_result_success,
        ⟨dijkstra_stage1.2, dijkstra_stage1.1, now,
          ⟨[Cell.graph g, Cell.int source, Cell.bool verbose, Cell.timing 0 verbose,
              Cell.ints ((List.replicate g.num_vertices INT_MAX).set source 0),
              Cell.ints (List.replicate g.num_vertices (-1))], false⟩⟩) := by
  unfold event_initialize
  simp only [dijkstra_stage0_lookups.1, dijkstra_stage0_lookups.2]
  rw [if_neg (by decide)]
  simp only [dijkstra_memory, Memory.graph_at, Memory.int_at, Memory.alloc, Nat.sub_self,
    List.getD_cons_zero, Nat.add_one_sub_one, List.getD_cons_succ, Int.toNat_ofNat,
    List.length_cons, List.length_nil, List.length_append, List.cons_append, List.nil_append]
  rfl

/-- `event_create_heap` on the state `event_initialize` leaves. -/
theorem event_create_heap_run (now : Int) (g : Graph) (source : Nat) (verbose : Bool)
    (d p : List Int) :
    event_create_heap ⟨dijkstra_stage1.2, dijkstra_stage1.1, now,
        ⟨[Cell.graph g, Cell.int source, Cell.bool verbose, Cell.timing 0 verbose,
            Cell.ints d, Cell.ints p], false⟩⟩ =
      (event_result_success,
        ⟨dijkstra_stage2.2, dijkstra_stage2.1, now,
          ⟨[Cell.graph g, Cell.int source, Cell.bool verbose, Cell.timing 0 verbose,
              Cell.ints d, Cell.ints p,
              Cell.heap (heap_insert (heap_create g.num_vertices) source 0), Cell.int 0],
            false⟩⟩) := by
  unfold event_create_heap
  simp only [dijkstra_stage1_lookups.1, dijkstra_stage1_lookups.2]
  rw [if_neg (by decide)]
  simp only [Memory.graph_at, Memory.int_at, Memory.alloc, Nat.sub_self,
    List.getD_cons_zero, Nat.add_one_sub_one, List.getD_cons_succ, Int.toNat_ofNat,
    List.length_cons, List.length_nil, List.length_append, List.cons_append, List.nil_append]
  rfl

/-- `event_process_vertices` on the state `event_create_heap` leaves, when
its loop returns. -/
theorem event_process_vertices_run (fuel : Nat) (now : Int) (g : Graph) (source : Nat)
    (verbose : Bool) (d p : List Int) (h : MinHeap) (s : MinHeap × List Int × List Int × Int)
    (hs : traditional_loop g fuel (h, d, p, 0) = some s) :
    event_process_vertices fuel ⟨dijkstra_stage2.2, dijkstra_stage2.1, now,
        ⟨[Cell.graph g, Cell.int source, Cell.bool verbose, Cell.timing 0 verbose,
            Cell.ints d, Cell.ints p, Cell.heap h, Cell.int 0], false⟩⟩ =
      (event_result_success,
        ⟨dijkstra_stage2.2, dijkstra_stage2.1, now,
          ⟨[Cell.graph g, Cell.int source, Cell.bool verbose, Cell.timing 0 verbose,
              Cell.ints s.2.1, Cell.ints s.2.2.1, Cell.heap s.1, Cell.int s.2.2.2],
            false⟩⟩) := by
  unfold event_process_vertices
  simp only [dijkstra_stage2_lookups.1, dijkstra_stage2_lookups.2.1,
    dijkstra_stage2_lookups.2.2.1, dijkstra_stage2_lookups.2.2.2.1,
    dijkstra_stage2_lookups.2.2.2.2]
  rw [if_neg (by decide)]
  have e : process_loop
      (Memory.graph_at ⟨[Cell.graph g, Cell.int source, Cell.bool verbose,
        Cell.timing 0 verbose, Cell.ints d, Cell.ints p, Cell.heap h, Cell.int 0], false⟩ 1)
      fuel
      (Memory.heap_at ⟨[Cell.graph g, Cell.int source, Cell.bool verbose,
          Cell.timing 0 verbose, Cell.ints d, Cell.ints p, Cell.heap h, Cell.int 0], false⟩ 7,
        Memory.ints_at ⟨[Cell.graph g, Cell.int source, Cell.bool verbose,
          Cell.timing 0 verbose, Cell.ints d, Cell.ints p, Cell.heap h, Cell.int 0], false⟩ 5,
        Memory.ints_at ⟨[Cell.graph g, Cell.int source, Cell.bool verbose,
          Cell.timing 0 verbose, Cell.ints d, Cell.ints p, Cell.heap h, Cell.int 0], false⟩ 6,
        Memory.int_at ⟨[Cell.graph g, Cell.int source, Cell.bool verbose,
          Cell.timing 0 verbose, Cell.ints d, Cell.ints p, Cell.heap h, Cell.int 0], false⟩ 8) =
      some s := by
    rw [process_loop_eq]
    exact hs
  simp only [e]
  rfl

/-- `event_cleanup` on the state `event_process_vertices` leaves. -/
theorem event_cleanup_run (now : Int) (g : Graph) (source : Nat) (verbose : Bool)
    (d p : List Int) (h : MinHeap) (vp : Int) :
    event_cleanup ⟨dijkstra_stage2.2, dijkstra_stage2.1, now,
        ⟨[Cell.graph g, Cell.int source, Cell.bool verbose, Cell.timing 0 verbose,
            Cell.ints d, Cell.ints p, Cell.heap h, Cell.int vp], false⟩⟩ =
      (event_result_success,
        ⟨dijkstra_stage2.2, dijkstra_stage2.1, now,
          ⟨[Cell.graph g, Cell.int source, Cell.bool verbose, Cell.timing 0 verbose,
              Cell.ints d, Cell.ints p, Cell.freed, Cell.int vp], false⟩⟩) := by
  unfold event_cleanup
  simp only [dijkstra_stage2_lookups.2.1]
  rw [if_pos (by decide)]
  rfl

/-- The four events of the benchmark, one after the other, on the state
`dijkstra_eventchains` sets up: all succeed, and the array stored under
"distances" is in the end the one the main loop returns. -/
theorem dijkstra_steps_run (fuel : Nat) (now : Int) (g : Graph) (source : Nat)
    (verbose : Bool) (s : MinHeap × List Int × List Int × Int)
    (hs : traditional_loop g fuel
        (heap_insert (heap_create g.num_vertices) source 0,
          (List.replicate g.num_vertices INT_MAX).set source 0,
          List.replicate g.num_vertices (-1), 0) = some s) :
    all_succeed (dijkstra_event_fns fuel) dijkstra_steps
        ⟨dijkstra_stage0.2, dijkstra_stage0.1, now, dijkstra_memory g source verbose⟩ = true ∧
    env_after (dijkstra_event_fns fuel) dijkstra_steps
        ⟨dijkstra_stage0.2, dijkstra_stage0.1, now, dijkstra_memory g source verbose⟩ =
      ⟨dijkstra_stage2.2, dijkstra_stage2.1, now,
        ⟨[Cell.graph g, Cell.int source, Cell.bool verbose, Cell.timing 0 verbose,
            Cell.ints s.2.1, Cell.ints s.2.2.1, Cell.freed, Cell.int s.2.2.2], false⟩⟩ := by
  have e1 : ∀ e, event_step (dijkstra_event_fns fuel)
      ⟨event_initialize_addr, 0, c_str "InitializeDistances"⟩ e = event_initialize e :=
    fun e => rfl
  have e2 : ∀ e, event_step (dijkstra_event_fns fuel)
      ⟨event_create_heap_addr, 0, c_str "CreatePriorityQueue"⟩ e = event_create_heap e :=
    fun e => rfl
  have e3 : ∀ e, event_step (dijkstra_event_fns fuel)
      ⟨event_process_vertices_addr, 0, c_str "ProcessVertices"⟩ e =
        event_process_vertices fuel e :=
    fun e => rfl
  have e4 : ∀ e, event_step (dijkstra_event_fns fuel)
      ⟨event_cleanup_addr, 0, c_str "Cleanup"⟩ e = event_cleanup e :=
    fun e => rfl
  have r1 := event_initialize_run now g source verbose
  have r2 := event_create_heap_run now g source verbose
    ((List.replicate g.num_vertices INT_MAX).set source 0) (List.replicate g.num_vertices (-1))
  have r3 := event_process_vertices_run fuel now g source verbose
    ((List.replicate g.num_vertices INT_MAX).set source 0) (List.replicate g.num_vertices (-1))
    (heap_insert (heap_create g.num_vertices) source 0) s hs
  have r4 := event_cleanup_run now g source verbose s.2.1 s.2.2.1 s.1 s.2.2.2
  constructor
  · simp only [all_succeed, dijkstra_steps, e1, e2, e3, e4, r1, r2, r3, r4]
    rfl
  · simp only [env_after, dijkstra_steps, List.foldl, e1, e2, e3, e4, r1, r2, r3, r4]

theorem slots_of_all (ms : List (Option EventMiddleware)) (n : Nat)
    (h : ∀ j, j < n → ((ms.getD j none).map (fun mw => decide (mw.execute ≠ 0))) = some true) :
    ∀ j, j < n → ∃ mw, ms.getD j none = some mw ∧ mw.execute ≠ 0 := by
  intro j hj
  have := h j hj
  cases hm : ms.getD j none with
  | none => rw [hm] at this; cases this
  | some mw =>
    rw [hm] at this
    exact ⟨mw, rfl, by simpa using this⟩

/-- The chain `dijkstra_eventchains` builds, with or without the three
middleware, is registered with the four events of `dijkstra_steps`, and its
context is the one `event_context_create` returns. -/
theorem dijkstra_chain_registered (use_middleware : Bool) :
    ∃ chain, dijkstra_chain use_middleware = some chain ∧ chain.context = fresh_context ∧
      ∀ c, Registered { chain with context := c } dijkstra_steps := by
  cases use_middleware
  · have hreg : Registered ((dijkstra_chain false).get rfl) dijkstra_steps :=
      ⟨by decide, by decide, by decide,
        fun i ev h => getD_of_take_eq_map _ _ 4 (by decide) i ev h, by decide, by decide,
        slots_of_all _ _ (by decide)⟩
    exact ⟨(dijkstra_chain false).get rfl, (Option.some_get _).symm, by decide,
      fun c => registered_congr _ _ dijkstra_steps hreg rfl rfl rfl rfl rfl⟩
  · have hreg : Registered ((dijkstra_chain true).get rfl) dijkstra_steps :=
      ⟨by decide, by decide, by decide,
        fun i ev h => getD_of_take_eq_map _ _ 4 (by decide) i ev h, by decide, by decide,
        slots_of_all _ _ (by decide)⟩
    exact ⟨(dijkstra_chain true).get rfl, (Option.some_get _).symm, by decide,
      fun c => registered_congr _ _ dijkstra_steps hreg rfl rfl rfl rfl rfl⟩

/-! ## Properties of the specification: the Dijkstra benchmark -/

/-- C36: the chain-based Dijkstra equals the hand-written one.  For every graph
whose edges lead to vertices of the graph (whatever the weights, positive ones
included), every source, `verbose` and `use_middleware` false or true, and
every bound on the main loop above `2 * num_vertices * 2 ^ 32 + 1`:
`dijkstra_traditional` returns with success, `dijkstra_eventchains` returns
with success, and the two return the same array of distances, of one entry for
each vertex (and the same array of predecessors). -/
theorem C36_dijkstra_equivalence (g : Graph) (source : Nat) (verbose use_middleware : Bool)
    (now : Int) (fuel : Nat) (hg : g.well_formed)
    (hfuel : 2 * g.num_vertices * 2 ^ 32 + 1 < fuel) :
    ∃ distances predecessors,
      dijkstra_traditional fuel g source = some ⟨distances, predecessors, true⟩ ∧
      dijkstra_eventchains fuel now g source verbose use_middleware =
        some ⟨distances, predecessors, true⟩ ∧
      distances.length = g.num_vertices := by
  obtain ⟨s, h1, h2, h3⟩ := dijkstra_traditional_returns g hg source fuel hfuel
  obtain ⟨a1, a2⟩ := dijkstra_steps_run fuel now g source verbose s h1
  obtain ⟨chain, c1, c2, c3⟩ := dijkstra_chain_registered use_middleware
  refine ⟨s.2.1, s.2.2.1, h2, ?_, h3⟩
  have henv : (⟨(dijkstra_setup chain).1, (dijkstra_setup chain).2, now,
      dijkstra_memory g source verbose⟩ : World Memory).env =
      ⟨dijkstra_stage0.2, dijkstra_stage0.1, now, dijkstra_memory g source verbose⟩ := by
    simp only [World.env, dijkstra_setup, event_chain_get_context, c2]
    rfl
  obtain ⟨b1, b2⟩ := all_succeed_continues (dijkstra_event_fns fuel)
    (continue_policy (dijkstra_setup chain).2 dijkstra_handlers) dijkstra_steps _ a1
  obtain ⟨r, calls, x1, -, -, -, x5⟩ := execute_lift_all (dijkstra_event_fns fuel)
    dijkstra_handlers
    ⟨(dijkstra_setup chain).1, (dijkstra_setup chain).2, now, dijkstra_memory g source verbose⟩
    dijkstra_steps (c3 _) 5 (by decide) (by rw [henv]; exact b1)
  rw [henv, b2] at x5
  rw [henv, a2] at x1
  have hr : r.success = true := by simpa using x5
  unfold dijkstra_eventchains
  rw [c1]
  simp only [x1, hr, if_true]
  have g1 := dijkstra_stage2_lookups.2.2.1
  have g2 := dijkstra_stage2_lookups.2.2.2.1
  simp only [clear_executing, World.put, event_chain_get_context, g1, g2, Memory.ints_at]
  rfl

/-- C36 instantiated with a graph of three vertices and the source 1, with and
without middleware: both implementations return the distances 1, 0, 4. -/
theorem C36_witness :
    sample_graph.well_formed ∧
    (∃ distances predecessors,
      dijkstra_traditional 25769803778 sample_graph 1 = some ⟨distances, predecessors, true⟩ ∧
      dijkstra_eventchains 25769803778 100 sample_graph 1 false true =
        some ⟨distances, predecessors, true⟩ ∧
      distances.length = sample_graph.num_vertices) ∧
    dijkstra_traditional 25769803778 sample_graph 1 = some ⟨[1, 0, 4], [1, -1, 0], true⟩ ∧
    dijkstra_eventchains 25769803778 100 sample_graph 1 false true =
      some ⟨[1, 0, 4], [1, -1, 0], true⟩ ∧
    dijkstra_eventchains 25769803778 100 sample_graph 1 false false =
      some ⟨[1, 0, 4], [1, -1, 0], true⟩ :=
  ⟨⟨by decide, by decide⟩,
    C36_dijkstra_equivalence sample_graph 1 false true 100 25769803778 ⟨by decide, by decide⟩
      (by decide),
    by decide, by decide, by decide⟩

end EventChains
